import Mathlib

/-!
# MPEG-2 TS multiplexer (mp42ts): section engine and PES packetizer

A shallow embedding of `applications/testapps/mp42ts/main.c`.

Conventions of the embedding

* A byte is a `Nat` below 256, a `u32` a `Nat` below `2 ^ 32`; the 32-bit operations of
  the C code are written with an explicit `% 4294967296` (`u32`, `sub32`).
* A linked list (`tables`, `section`) is a `List`; a pointer into it is the index of the
  node, `none` standing for `NULL`.
* `assert` failures and runaway loops make a function return `none`.
* The bit writer `GF_BitStream` is not part of the file; it is modelled as the list of
  the bits written so far, most significant bit first.
-/

namespace Mp42ts

/-! ## 32-bit arithmetic -/

/-- Truncation of a value to `u32`. -/
def u32 (x : Nat) : Nat := x % 4294967296

/-- Subtraction of two `u32` values, wrapping around as in C. -/
def sub32 (a b : Nat) : Nat := (a % 4294967296 + 4294967296 - b % 4294967296) % 4294967296

/-! ## Bit writer -/

/-- Modelled from the spec: the `n` low bits of `value`, most significant first, which is
what the big-endian bit writer `write_bits(value, n)` (`gf_bs_write_int`) emits. The
writer itself (`GF_BitStream`) is library code outside this file. -/
def bitsOf (value : Nat) : Nat → List Bool
  | 0 => []
  | n + 1 => value.testBit n :: bitsOf value n

/-- Modelled from the spec: `gf_bs_write_int(bs, value, nBits)` of the missing bit writer,
appending `nBits` bits to the bits written so far. -/
def gf_bs_write_int (bs : List Bool) (value nBits : Nat) : List Bool :=
  bs ++ bitsOf value nBits

/-- Modelled from the spec: `gf_bs_write_long_int`, the 64-bit variant of the bit write. -/
def gf_bs_write_long_int (bs : List Bool) (value nBits : Nat) : List Bool :=
  bs ++ bitsOf value nBits

/-- Modelled from the spec: `gf_bs_write_u8` of the missing bit writer. -/
def gf_bs_write_u8 (bs : List Bool) (value : Nat) : List Bool :=
  gf_bs_write_int bs value 8

/-- Modelled from the spec: `gf_bs_write_u16` of the missing bit writer (big-endian). -/
def gf_bs_write_u16 (bs : List Bool) (value : Nat) : List Bool :=
  gf_bs_write_int bs value 16

/-- Modelled from the spec: `gf_bs_write_u32` of the missing bit writer (big-endian). -/
def gf_bs_write_u32 (bs : List Bool) (value : Nat) : List Bool :=
  gf_bs_write_int bs value 32

/-- The bits of a run of bytes, eight per byte. -/
def bitsOfBytes : List Nat → List Bool
  | [] => []
  | b :: rest => bitsOf b 8 ++ bitsOfBytes rest

/-- Modelled from the spec: `gf_bs_write_data` of the missing bit writer, writing each
byte of `data` as eight bits. -/
def gf_bs_write_data (bs : List Bool) (data : List Nat) : List Bool :=
  bs ++ bitsOfBytes data

/-- The value of a group of at most eight bits, read as the top bits of a byte. -/
def byteOfBits (b7 b6 b5 b4 b3 b2 b1 b0 : Bool) : Nat :=
  128 * b7.toNat + 64 * b6.toNat + 32 * b5.toNat + 16 * b4.toNat
    + 8 * b3.toNat + 4 * b2.toNat + 2 * b1.toNat + b0.toNat

/-- Modelled from the spec: the bytes held by the bit writer (`gf_bs_get_content`); a
trailing group of fewer than eight bits is completed with zero bits. -/
def bytesOfBits : List Bool → List Nat
  | b7 :: b6 :: b5 :: b4 :: b3 :: b2 :: b1 :: b0 :: rest =>
      byteOfBits b7 b6 b5 b4 b3 b2 b1 b0 :: bytesOfBits rest
  | [b7, b6, b5, b4, b3, b2, b1] => [byteOfBits b7 b6 b5 b4 b3 b2 b1 false]
  | [b7, b6, b5, b4, b3, b2] => [byteOfBits b7 b6 b5 b4 b3 b2 false false]
  | [b7, b6, b5, b4, b3] => [byteOfBits b7 b6 b5 b4 b3 false false false]
  | [b7, b6, b5, b4] => [byteOfBits b7 b6 b5 b4 false false false false]
  | [b7, b6, b5] => [byteOfBits b7 b6 b5 false false false false false]
  | [b7, b6] => [byteOfBits b7 b6 false false false false false false]
  | [b7] => [byteOfBits b7 false false false false false false false]
  | [] => []

/-- Modelled from the spec: `gf_bs_get_content`. -/
def gf_bs_get_content (bs : List Bool) : List Nat := bytesOfBits bs

/-- The bit writer opened on a fixed buffer (`gf_bs_new(packet, 188, GF_BITSTREAM_WRITE)`)
stores its bytes at the start of the buffer and never writes past its end. -/
def bs_store (buffer : List Nat) (bs : List Bool) : List Nat :=
  ((bytesOfBits bs) ++ buffer.drop (bytesOfBits bs).length).take buffer.length

/-- C `memcpy(dst + pos, src, src.length)` on a buffer held as a list. -/
def memcpy (dst : List Nat) (pos : Nat) (src : List Nat) : List Nat :=
  dst.take pos ++ src ++ dst.drop (pos + src.length)

/-! ## Time -/

/-- Mux time `M2TS_Time`: seconds and nanoseconds, both `u32`. -/
structure M2TS_Time where
  sec : Nat := 0
  nanosec : Nat := 0
  deriving DecidableEq, Repr

/-- The carry loop of `m2ts_time_inc`:
`while (time->nanosec >= 0x3B9ACA00) { time->nanosec -= 0x3B9ACA00; time->sec++; }`.
A `u32` holds less than five times `10 ^ 9`, so five rounds always suffice. -/
def m2ts_time_carry : Nat → M2TS_Time → M2TS_Time
  | 0, t => t
  | fuel + 1, t =>
    if t.nanosec ≥ 1000000000 then
      m2ts_time_carry fuel { sec := u32 (t.sec + 1), nanosec := t.nanosec - 1000000000 }
    else t

/-- `m2ts_time_inc(time, delta_inc_num, delta_inc_den)`. -/
def m2ts_time_inc (time : M2TS_Time) (delta_inc_num delta_inc_den : Nat) : M2TS_Time :=
  if delta_inc_den = 0 then time
  else
    let sec := delta_inc_num / delta_inc_den
    let time1 : M2TS_Time :=
      if sec ≠ 0 then { time with sec := u32 (time.sec + sec) } else time
    let num1 := if sec ≠ 0 then delta_inc_num % u32 (sec * delta_inc_den) else delta_inc_num
    let n_sec := (num1 * 1000000000 % 18446744073709551616) / delta_inc_den
    m2ts_time_carry 5 { time1 with nanosec := u32 (time1.nanosec + u32 n_sec) }

/-! ## Streams, tables and sections -/

/-- `M2TS_Mux_Section`: one section, its bytes and its declared length. -/
structure M2TS_Mux_Section where
  data : List Nat := []
  length : Nat := 0
  deriving DecidableEq, Repr

/-- `M2TS_Mux_Table`: a table and the list of its sections (`section`, linked by `next`). -/
structure M2TS_Mux_Table where
  table_id : Nat := 0
  version_number : Nat := 0
  sections : List M2TS_Mux_Section := []
  deriving DecidableEq, Repr

/-- `GF_ESIPacket`: the access unit a stream is draining. The word `flags` is held as
the tests the code makes on it, `flags & GF_ESI_DATA_AU_START` and so on; the masks
themselves are declared in a header outside this file. -/
structure GF_ESIPacket where
  data : List Nat := []
  data_len : Nat := 0
  GF_ESI_DATA_AU_START : Bool := false
  GF_ESI_DATA_AU_RAP : Bool := false
  GF_ESI_DATA_HAS_CTS : Bool := false
  GF_ESI_DATA_HAS_DTS : Bool := false
  GF_ESI_DATA_AU_END : Bool := false
  cts : Nat := 0
  dts : Nat := 0
  deriving DecidableEq, Repr

/-- `M2TS_Packet`, an access unit waiting in the queue of a stream fed in push mode: the
fields `data`, `data_len`, `flags`, `cts` and `dts` of `GF_ESIPacket`; the link `next` is
the order of the list that holds the queue. -/
abbrev M2TS_Packet := GF_ESIPacket

/-- `GF_SLHeader`: the fields of the sync-layer header that the muxer sets; the other
fields of the header are carried along unchanged. -/
structure GF_SLHeader where
  accessUnitStartFlag : Bool := false
  accessUnitEndFlag : Bool := false
  accessUnitLength : Nat := 0
  randomAccessPointFlag : Bool := false
  compositionTimeStampFlag : Bool := false
  compositionTimeStamp : Nat := 0
  decodingTimeStampFlag : Bool := false
  decodingTimeStamp : Nat := 0
  deriving DecidableEq, Repr

/-- `M2TS_Mux_Stream`, the fields the packetizers use. `ifce_stream_id` is
`ifce->stream_id`. `is_pcr` stands for the test
`stream == stream->program->pcr`. The two bits of `ifce->caps` the muxer tests are held
as `GF_ESI_AU_PULL_CAP` and `GF_ESI_STREAM_IS_OVER`; `ifce_repeat_rate` is
`ifce->repeat_rate`, and `ifce_decoder_config` holds the bits `gf_m4a_write_config_bs`
writes for `ifce->decoder_config` (`none` for a `NULL` configuration), the AAC
configuration writer being library code outside this file. `pck_first` is the queue from
`pck_first` to `pck_last`. -/
structure M2TS_Mux_Stream where
  pid : Nat := 0
  continuity_counter : Nat := 0
  time : M2TS_Time := {}
  tables : List M2TS_Mux_Table := []
  current_table : Option Nat := none
  current_section : Option Nat := none
  current_section_offset : Nat := 0
  refresh_rate_ms : Nat := 0
  table_needs_update : Bool := false
  mpeg2_stream_type : Nat := 0
  mpeg2_stream_id : Nat := 0
  pck : GF_ESIPacket := {}
  pck_offset : Nat := 0
  is_pcr : Bool := false
  sl_header : GF_SLHeader := {}
  ifce_stream_id : Nat := 0
  table_id : Nat := 0
  bit_rate : Nat := 0
  initial_ts : Nat := 0
  last_aac_time : Nat := 0
  last_br_time : Nat := 0
  bytes_since_last_time : Nat := 0
  GF_ESI_AU_PULL_CAP : Bool := false
  GF_ESI_STREAM_IS_OVER : Bool := false
  ifce_decoder_config : Option (List Bool) := none
  ifce_repeat_rate : Nat := 0
  pck_first : List M2TS_Packet := []
  cur_pck : Option M2TS_Packet := none
  force_new : Bool := false
  deriving DecidableEq, Repr

/-- `M2TS_Mux_Program`. `pcr_pid` is `pcr->pid`; `iod` holds the
bytes `gf_odf_write_descriptor` serializes for the program's IOD (`none` for a `NULL`
descriptor), the serializer being library code outside this file. -/
structure M2TS_Mux_Program where
  number : Nat := 0
  pmt : M2TS_Mux_Stream := {}
  pcr_pid : Nat := 0
  iod : Option (List Nat) := none
  streams : List M2TS_Mux_Stream := []
  last_pcr : Nat := 0
  last_sys_clock : Nat := 0
  pcr_init_time : Nat := 0
  num_pck_at_pcr_init : Nat := 0
  ts_time_at_pcr_init : M2TS_Time := {}
  deriving DecidableEq, Repr

/-- `M2TS_Mux`. `null_pck` and `dst_pck` are the two packet buffers of 188 bytes. -/
structure M2TS_Mux where
  ts_id : Nat := 0
  programs : List M2TS_Mux_Program := []
  tot_pck_sent : Nat := 0
  bit_rate : Nat := 0
  pat : M2TS_Mux_Stream := {}
  time : M2TS_Time := {}
  init_ts_time : M2TS_Time := {}
  init_sys_time : Nat := 0
  real_time : Bool := false
  fixed_rate : Bool := false
  needs_reconfig : Bool := false
  mpeg4_signaling : Bool := false
  tot_pad_sent : Nat := 0
  null_pck : List Nat := []
  dst_pck : List Nat := []
  pck_sent_over_br_window : Nat := 0
  last_br_time : Nat := 0
  avg_br : Nat := 0
  deriving DecidableEq, Repr

/-- Modelled from the spec: `M2TS_ADAPTATION_NONE` of the missing header `mp42ts.h`, the
adaptation field control of a packet with payload only (`01`). -/
def M2TS_ADAPTATION_NONE : Nat := 1

/-- Modelled from the spec: `M2TS_ADAPTATION_AND_PAYLOAD` of the missing header
`mp42ts.h`, the control of a packet with an adaptation field and a payload (`11`). -/
def M2TS_ADAPTATION_AND_PAYLOAD : Nat := 3

def ADAPTATION_LENGTH_LENGTH : Nat := 1

def ADAPTATION_FLAGS_LENGTH : Nat := 1

def PCR_LENGTH : Nat := 6

/-- `m2ts_add_adaptation`: the bits appended to `bs`; the C function also returns
`adaptation_length + ADAPTATION_LENGTH_LENGTH`, which no caller uses. -/
def m2ts_add_adaptation (bs : List Bool) (has_pcr : Bool) (pcr_time : Nat) (is_rap : Bool)
    (padding_length : Nat) : List Bool :=
  let adaptation_length :=
    ADAPTATION_FLAGS_LENGTH + (if has_pcr then PCR_LENGTH else 0) + padding_length
  let bs := gf_bs_write_int bs adaptation_length 8
  let bs := gf_bs_write_int bs 0 1
  let bs := gf_bs_write_int bs is_rap.toNat 1
  let bs := gf_bs_write_int bs 0 1
  let bs := gf_bs_write_int bs has_pcr.toNat 1
  let bs := gf_bs_write_int bs 0 1
  let bs := gf_bs_write_int bs 0 1
  let bs := gf_bs_write_int bs 0 1
  let bs := gf_bs_write_int bs 0 1
  let bs :=
    if has_pcr then
      let PCR_base := pcr_time / 300
      let bs := gf_bs_write_long_int bs PCR_base 33
      let bs := gf_bs_write_int bs 0 6
      let PCR_ext := (pcr_time + 18446744073709551616 - PCR_base * 300 % 18446744073709551616)
        % 18446744073709551616
      gf_bs_write_long_int bs PCR_ext 9
    else bs
  gf_bs_write_data bs (List.replicate padding_length 0xff)

/-- The next node of a linked list held as a `List`: index `i + 1`, or `NULL`. -/
def list_next {α : Type} (l : List α) (i : Nat) : Option Nat :=
  if i + 1 < l.length then some (i + 1) else none

/-- The head pointer of a linked list held as a `List`. -/
def list_head {α : Type} (l : List α) : Option Nat :=
  if l.isEmpty then none else some 0

/-- The end of `m2ts_mux_table_get_next_packet`, entered when the offset has reached the
length of the section: the cursor moves to the next section, at the end of the table to
the next table, and at the end of the list back to the first table when the stream is a
carousel (`refresh_rate_ms` non-zero), whose `time` is then pushed by the period. -/
def table_cursor_next (stream : M2TS_Mux_Stream) (table : M2TS_Mux_Table) (ti si : Nat) :
    M2TS_Mux_Stream :=
  let stream := { stream with current_section_offset := 0,
                              current_section := list_next table.sections si }
  if stream.current_section.isNone then
    let stream := { stream with current_table := list_next stream.tables ti }
    let stream :=
      if stream.current_table.isNone ∧ stream.refresh_rate_ms ≠ 0 then
        { stream with current_table := list_head stream.tables,
                      time := m2ts_time_inc stream.time stream.refresh_rate_ms 1000 }
      else stream
    match stream.current_table with
    | some tj =>
      { stream with current_section :=
          match stream.tables.get? tj with
          | some t => list_head t.sections
          | none => none }
    | none => stream
  else stream

/-- `m2ts_mux_table_get_next_packet(stream, packet)`: the stream after the call and the
packet buffer after the call; `none` when an `assert` fails or the cursor dangles. -/
def m2ts_mux_table_get_next_packet (stream : M2TS_Mux_Stream) (packet : List Nat) :
    Option (M2TS_Mux_Stream × List Nat) :=
  match stream.current_table with
  | none => none
  | some ti =>
  match stream.tables.get? ti with
  | none => none
  | some table =>
  match stream.current_section with
  | none => none
  | some si =>
  match table.sections.get? si with
  | none => none
  | some sec =>
    let offset := stream.current_section_offset
    let bs := gf_bs_write_int [] 0x47 8
    let bs := gf_bs_write_int bs 0 1
    let bs := if offset = 0 then gf_bs_write_int bs 1 1 else gf_bs_write_int bs 0 1
    let payload_length0 := if offset = 0 then 183 else 184
    let remain := sub32 sec.length offset
    let adaptation_field_control :=
      if remain ≥ payload_length0 then M2TS_ADAPTATION_NONE else M2TS_ADAPTATION_AND_PAYLOAD
    let payload_length1 :=
      if remain ≥ payload_length0 then payload_length0 else payload_length0 - 2
    let padding_length :=
      if remain ≥ payload_length0 then 0
      else if remain ≥ payload_length1 then 0
      else u32 (sub32 payload_length1 sec.length + offset)
    let payload_length := sub32 payload_length1 padding_length
    if ¬ (u32 (payload_length + offset) ≤ sec.length) then none
    else
      let bs := gf_bs_write_int bs 0 1
      let bs := gf_bs_write_int bs stream.pid 13
      let bs := gf_bs_write_int bs 0 2
      let bs := gf_bs_write_int bs adaptation_field_control 2
      let bs := gf_bs_write_int bs stream.continuity_counter 4
      let continuity_counter :=
        if stream.continuity_counter < 15 then stream.continuity_counter + 1 else 0
      let bs :=
        if adaptation_field_control ≠ M2TS_ADAPTATION_NONE then
          m2ts_add_adaptation bs false 0 false padding_length
        else bs
      let bs := if offset = 0 then gf_bs_write_u8 bs 0 else bs
      let packet := bs_store packet bs
      let packet :=
        memcpy packet (188 - payload_length) ((sec.data.drop offset).take payload_length)
      let offset := u32 (offset + payload_length)
      let stream := { stream with continuity_counter := continuity_counter,
                                  current_section_offset := offset }
      if offset = sec.length then some (table_cursor_next stream table ti si, packet)
      else some (stream, packet)

/-! ## Section engine: building the sections of a table -/

/-- Modelled from the spec: table id of the PAT (`GF_M2TS_TABLE_ID_PAT`, missing header). -/
def GF_M2TS_TABLE_ID_PAT : Nat := 0x00

/-- Modelled from the spec: table id of the PMT (`GF_M2TS_TABLE_ID_PMT`, missing header). -/
def GF_M2TS_TABLE_ID_PMT : Nat := 0x02

/-- Modelled from the spec: the allocated table id of MPEG-4 BIFS sections
(`GF_M2TS_TABLE_ID_MPEG4_BIFS`, missing header). -/
def GF_M2TS_TABLE_ID_MPEG4_BIFS : Nat := 0x04

/-- Modelled from the spec: the allocated table id of MPEG-4 OD sections
(`GF_M2TS_TABLE_ID_MPEG4_OD`, missing header). -/
def GF_M2TS_TABLE_ID_MPEG4_OD : Nat := 0x05

/-- Modelled from the spec: table id of the SDT of the actual transport stream
(`GF_M2TS_TABLE_ID_SDT_ACTUAL`, missing header). -/
def GF_M2TS_TABLE_ID_SDT_ACTUAL : Nat := 0x42

/-- Modelled from the spec: table id of the SDT of another transport stream
(`GF_M2TS_TABLE_ID_SDT_OTHER`, missing header). -/
def GF_M2TS_TABLE_ID_SDT_OTHER : Nat := 0x46

/-- Modelled from the spec: table id of the BAT (`GF_M2TS_TABLE_ID_BAT`, missing header). -/
def GF_M2TS_TABLE_ID_BAT : Nat := 0x4A

/-- Modelled from the spec: `SECTION_HEADER_LENGTH` of the missing header `mp42ts.h`. -/
def SECTION_HEADER_LENGTH : Nat := 3

/-- Modelled from the spec: `SECTION_ADDITIONAL_HEADER_LENGTH` of the missing header. -/
def SECTION_ADDITIONAL_HEADER_LENGTH : Nat := 5

/-- Modelled from the spec: `CRC_LENGTH` of the missing header `mp42ts.h`. -/
def CRC_LENGTH : Nat := 4

/-- One step of the MPEG-2 CRC: shift the register left by one bit, and combine it with
the polynomial `0x04C11DB7` when the bit shifted out differs from the message bit. -/
def crc32_bit (crc : Nat) (bit : Bool) : Nat :=
  let shifted := crc * 2 % 4294967296
  if crc.testBit 31 != bit then shifted ^^^ 0x04C11DB7 else shifted

/-- Modelled from the spec: `gf_crc_32(data, len)` of the missing library, the MPEG-2
CRC32: polynomial `0x04C11DB7`, initial value `0xFFFFFFFF`, no final XOR, most
significant bit first. `data` is the run of `len` bytes. -/
def gf_crc_32 (data : List Nat) : Nat :=
  (bitsOfBytes data).foldl crc32_bit 0xFFFFFFFF

/-- The value of a `List` node changed in place. -/
def list_modify {α : Type} (l : List α) (i : Nat) (f : α → α) : List α :=
  match l.get? i with
  | some x => l.set i (f x)
  | none => l

/-- The search loop at the head of both table updates: the index of the first table
whose `table_id` is the one asked for. -/
def find_table : List M2TS_Mux_Table → Nat → Option Nat
  | [], _ => none
  | t :: rest, table_id =>
    if t.table_id = table_id then some 0 else (find_table rest table_id).map (· + 1)

/-- The first part of `m2ts_mux_table_update` and of `m2ts_mux_table_update_mpeg4`: a
table with this id is flushed and its version number increased, otherwise a new table is
linked at the end of the list. The result is the stream and the index of `table`. The
flushed section list is held as the empty list (the C code frees the nodes and leaves
`table->section` as it was until the sections are rebuilt). -/
def table_lookup (stream : M2TS_Mux_Stream) (table_id : Nat) : M2TS_Mux_Stream × Nat :=
  match find_table stream.tables table_id with
  | some i =>
    ({ stream with tables := list_modify stream.tables i fun table =>
        { table with sections := [],
                     version_number := (table.version_number + 1) % 0x1F } }, i)
  | none =>
    ({ stream with tables := stream.tables ++ [{ table_id := table_id }] },
      stream.tables.length)

/-- The `switch (table_id)` that selects `maxSectionLength`; `none` is the `default`
branch. -/
def maxSectionLength_of (table_id : Nat) : Option Nat :=
  if table_id = GF_M2TS_TABLE_ID_PMT ∨ table_id = GF_M2TS_TABLE_ID_PAT
      ∨ table_id = GF_M2TS_TABLE_ID_SDT_ACTUAL ∨ table_id = GF_M2TS_TABLE_ID_SDT_OTHER
      ∨ table_id = GF_M2TS_TABLE_ID_BAT then some 1024
  else if table_id = GF_M2TS_TABLE_ID_MPEG4_BIFS ∨ table_id = GF_M2TS_TABLE_ID_MPEG4_OD then
    some 4096
  else none

/-- The loop `while (nb_sections*(maxSectionLength - overhead_size)<table_payload_length)
nb_sections++;` on 32-bit values, `capacity` being `maxSectionLength - overhead_size`.
`none` when the fuel runs out. -/
def nb_sections_loop : Nat → Nat → Nat → Nat → Option Nat
  | 0, _, _, _ => none
  | fuel + 1, capacity, table_payload_length, nb_sections =>
    if u32 (nb_sections * capacity) < table_payload_length then
      nb_sections_loop fuel capacity table_payload_length (u32 (nb_sections + 1))
    else some nb_sections

/-- The CRC written over the four placeholder bytes at the end of a section. -/
def section_set_crc (data : List Nat) : List Nat :=
  let length := data.length
  let CRC := gf_crc_32 (data.take (length - CRC_LENGTH))
  let data := data.set (length - 4) ((CRC >>> 24) &&& 0xFF)
  let data := data.set (length - 3) ((CRC >>> 16) &&& 0xFF)
  let data := data.set (length - 2) ((CRC >>> 8) &&& 0xFF)
  data.set (length - 1) (CRC &&& 0xFF)

/-- The body of the section loop from `gf_bs_new` to the CRC, which is the same text in
`m2ts_mux_table_update` and `m2ts_mux_table_update_mpeg4`: `length` is the value of
`section->length` computed before, `slhdr` the SL header (empty for a plain table) and
`slice` the bytes of the payload this section takes. -/
def write_section (table_id table_id_extension version_number : Nat)
    (use_syntax_indicator private_indicator : Bool) (section_number nb_sections length : Nat)
    (slhdr slice : List Nat) : M2TS_Mux_Section :=
  let bs := gf_bs_write_int [] table_id 8
  let bs := gf_bs_write_int bs use_syntax_indicator.toNat 1
  let bs := gf_bs_write_int bs private_indicator.toNat 1
  let bs := gf_bs_write_int bs 3 2
  let bs := gf_bs_write_int bs (sub32 length SECTION_HEADER_LENGTH) 12
  let bs :=
    if use_syntax_indicator then
      let bs := gf_bs_write_int bs table_id_extension 16
      let bs := gf_bs_write_int bs 3 2
      let bs := gf_bs_write_int bs version_number 5
      let bs := gf_bs_write_int bs 1 1
      let bs := gf_bs_write_int bs section_number 8
      gf_bs_write_int bs (sub32 nb_sections 1) 8
    else bs
  let bs := gf_bs_write_data bs slhdr
  let bs := gf_bs_write_data bs slice
  let bs := if use_syntax_indicator then gf_bs_write_u32 bs 0 else bs
  let data := gf_bs_get_content bs
  let data := if use_syntax_indicator then section_set_crc data else data
  { data := data, length := data.length }

/-- The section loop of `m2ts_mux_table_update`, `while (offset < table_payload_length)`.
Every round takes at least one byte, so `table_payload_length` rounds of fuel are enough;
`none` when the fuel runs out before the end of the payload. -/
def build_sections (table_id table_id_extension version_number : Nat)
    (use_syntax_indicator private_indicator : Bool) (table_payload : List Nat)
    (table_payload_length maxSectionLength overhead_size nb_sections : Nat) :
    Nat → Nat → Nat → Option (List M2TS_Mux_Section)
  | fuel, offset, section_number =>
    if offset < table_payload_length then
      match fuel with
      | 0 => none
      | fuel + 1 =>
        let remain := sub32 table_payload_length offset
        let length :=
          if remain > sub32 maxSectionLength overhead_size then maxSectionLength
          else u32 (remain + overhead_size)
        let slice := (table_payload.drop offset).take (sub32 length overhead_size)
        let sec := write_section table_id table_id_extension version_number
          use_syntax_indicator private_indicator section_number nb_sections length [] slice
        let section_number :=
          if use_syntax_indicator then u32 (section_number + 1) else section_number
        (build_sections table_id table_id_extension version_number use_syntax_indicator
          private_indicator table_payload table_payload_length maxSectionLength overhead_size
          nb_sections fuel (u32 (offset + sub32 length overhead_size)) section_number).map
            (sec :: ·)
    else some []

/-- The last three assignments of both table updates: the cursor goes to the first
section of the first table of the stream. -/
def table_cursor_reset (stream : M2TS_Mux_Stream) : M2TS_Mux_Stream :=
  { stream with current_table := list_head stream.tables,
                current_section :=
                  match stream.tables.head? with
                  | some t => list_head t.sections
                  | none => none,
                current_section_offset := 0 }

/-- `m2ts_mux_table_update(stream, table_id, table_id_extension, table_payload,
table_payload_length, use_syntax_indicator, private_indicator, use_checksum)`: the stream
after the call; `none` when the loop that counts the sections never ends. -/
def m2ts_mux_table_update (stream : M2TS_Mux_Stream) (table_id table_id_extension : Nat)
    (table_payload : List Nat) (table_payload_length : Nat)
    (use_syntax_indicator private_indicator _use_checksum : Bool) : Option M2TS_Mux_Stream :=
  let (stream, ti) := table_lookup stream table_id
  if table_payload_length = 0 then some stream
  else
    match maxSectionLength_of table_id with
    | none => some stream
    | some maxSectionLength =>
      let overhead_size := SECTION_HEADER_LENGTH
      let overhead_size :=
        if use_syntax_indicator then
          overhead_size + (SECTION_ADDITIONAL_HEADER_LENGTH + CRC_LENGTH)
        else overhead_size
      match nb_sections_loop 4294967296 (maxSectionLength - overhead_size)
          table_payload_length 1 with
      | none => none
      | some nb_sections =>
        let version_number :=
          match stream.tables.get? ti with
          | some table => table.version_number
          | none => 0
        match build_sections table_id table_id_extension version_number use_syntax_indicator
            private_indicator table_payload table_payload_length maxSectionLength
            overhead_size nb_sections table_payload_length 0 0 with
        | none => none
        | some sections =>
          some (table_cursor_reset
            { stream with tables := list_modify stream.tables ti fun table =>
                { table with sections := sections } })

/-- The loop of `m2ts_mux_table_update_mpeg4` that counts the sections of a payload which
does not fit in one; `sl_get_header_size` is `gf_sl_get_header_size` for the SL
configuration of the stream (library code outside this file). After the first round the
header no longer changes, so the offsets repeat after at most `2 ^ 32` rounds. -/
def nb_sections_loop_mpeg4 (sl_get_header_size : GF_SLHeader → Nat)
    (table_payload_length capacity : Nat) : Nat → GF_SLHeader → Nat → Nat → Option Nat
  | fuel, hdr, offset, nb_sections =>
    if offset < table_payload_length then
      match fuel with
      | 0 => none
      | fuel + 1 =>
        let sl_size := u32 (sl_get_header_size hdr)
        let hdr := { hdr with accessUnitStartFlag := false }
        nb_sections_loop_mpeg4 sl_get_header_size table_payload_length capacity fuel hdr
          (u32 (offset + sub32 capacity sl_size)) (u32 (nb_sections + 1))
    else some nb_sections

/-- The section loop of `m2ts_mux_table_update_mpeg4`; `sl_packetize hdr` is the SL header
`gf_sl_packetize` produces for `hdr` and an empty payload (library code outside this
file), `au_end` is `stream->sl_header.accessUnitEndFlag`. `none` when the fuel runs out
before the end of the payload. -/
def build_sections_mpeg4 (sl_packetize : GF_SLHeader → List Nat) (au_end : Bool)
    (table_id table_id_extension version_number : Nat)
    (use_syntax_indicator private_indicator : Bool) (table_payload : List Nat)
    (table_payload_length maxSectionLength overhead_size nb_sections : Nat) :
    Nat → GF_SLHeader → Nat → Nat → Option (List M2TS_Mux_Section)
  | fuel, hdr, offset, section_number =>
    if offset < table_payload_length then
      match fuel with
      | 0 => none
      | fuel + 1 =>
        let accessUnitEndFlag :=
          if u32 (section_number + 1) = nb_sections then au_end else false
        let hdr := { hdr with accessUnitEndFlag := accessUnitEndFlag }
        let slhdr := sl_packetize hdr
        let slhdr_size := u32 slhdr.length
        let hdr := { hdr with accessUnitStartFlag := false }
        let remain := sub32 table_payload_length offset
        let length :=
          if remain > sub32 (sub32 maxSectionLength overhead_size) slhdr_size then
            maxSectionLength
          else u32 (remain + overhead_size + slhdr_size)
        let sl_size := sub32 (sub32 length overhead_size) slhdr_size
        let slice := (table_payload.drop offset).take sl_size
        let sec := write_section table_id table_id_extension version_number
          use_syntax_indicator private_indicator section_number nb_sections length slhdr slice
        let section_number :=
          if use_syntax_indicator then u32 (section_number + 1) else section_number
        (build_sections_mpeg4 sl_packetize au_end table_id table_id_extension version_number
          use_syntax_indicator private_indicator table_payload table_payload_length
          maxSectionLength overhead_size nb_sections fuel hdr (u32 (offset + sl_size))
          section_number).map (sec :: ·)
    else some []

/-- `m2ts_mux_table_update_mpeg4(stream, table_id, table_id_extension, table_payload,
table_payload_length, use_syntax_indicator, private_indicator, use_checksum)`, from its
first line to the reset of the cursor; the closing refresh of the bit rate of the stream
(`m2ts_mux_table_update_bitrate`) is not part of the model. `none` when one of the two
loops never ends. A round of the section loop that takes no byte can only be the first
one or the one that carries the end flag, so `table_payload_length + 3` rounds of fuel
are enough whenever the loop ends. -/
def m2ts_mux_table_update_mpeg4 (sl_get_header_size : GF_SLHeader → Nat)
    (sl_packetize : GF_SLHeader → List Nat) (stream : M2TS_Mux_Stream)
    (table_id table_id_extension : Nat) (table_payload : List Nat)
    (table_payload_length : Nat) (use_syntax_indicator private_indicator _use_checksum : Bool) :
    Option M2TS_Mux_Stream :=
  let maxSectionLength := 4096
  let sl_header := stream.sl_header
  let (stream, ti) := table_lookup stream table_id
  if table_payload_length = 0 then some stream
  else
    let overhead_size := SECTION_HEADER_LENGTH
    let overhead_size :=
      if use_syntax_indicator then
        overhead_size + (SECTION_ADDITIONAL_HEADER_LENGTH + CRC_LENGTH)
      else overhead_size
    let sl_size := u32 (sl_get_header_size sl_header)
    let counted :=
      if u32 (sl_size + table_payload_length) > maxSectionLength - overhead_size then
        nb_sections_loop_mpeg4 sl_get_header_size table_payload_length
          (maxSectionLength - overhead_size) 4294967297
          { sl_header with accessUnitEndFlag := false } 0 0
      else some 1
    match counted with
    | none => none
    | some nb_sections =>
      let version_number :=
        match stream.tables.get? ti with
        | some table => table.version_number
        | none => 0
      match build_sections_mpeg4 sl_packetize sl_header.accessUnitEndFlag table_id
          table_id_extension version_number use_syntax_indicator private_indicator
          table_payload table_payload_length maxSectionLength overhead_size nb_sections
          (table_payload_length + 3) sl_header 0 0 with
      | none => none
      | some sections =>
        some (table_cursor_reset
          { stream with tables := list_modify stream.tables ti fun table =>
              { table with sections := sections } })

/-! ## PAT and PMT -/

/-- Modelled from the spec: tag of the MPEG-4 IOD descriptor
(`GF_M2TS_MPEG4_IOD_DESCRIPTOR`, missing header). -/
def GF_M2TS_MPEG4_IOD_DESCRIPTOR : Nat := 0x1D

/-- Modelled from the spec: tag of the MPEG-4 SL descriptor
(`GF_M2TS_MPEG4_SL_DESCRIPTOR`, missing header). -/
def GF_M2TS_MPEG4_SL_DESCRIPTOR : Nat := 0x1F

/-- The loop of `m2ts_stream_process_pat` over the programs of the mux. -/
def pat_write_programs (bs : List Bool) : List M2TS_Mux_Program → List Bool
  | [] => bs
  | prog :: rest =>
    let bs := gf_bs_write_u16 bs prog.number
    let bs := gf_bs_write_int bs 0x7 3
    let bs := gf_bs_write_int bs prog.pmt.pid 13
    pat_write_programs bs rest

/-- The payload `m2ts_stream_process_pat` hands to the section engine. -/
def pat_payload (muxer : M2TS_Mux) : List Nat :=
  gf_bs_get_content (pat_write_programs [] muxer.programs)

/-- `m2ts_stream_process_pat(muxer, stream)`: the stream after the call and the value
returned; `none` when the table update does not return. -/
def m2ts_stream_process_pat (muxer : M2TS_Mux) (stream : M2TS_Mux_Stream) :
    Option (M2TS_Mux_Stream × Bool) :=
  if stream.table_needs_update then
    let payload := pat_payload muxer
    let size := u32 payload.length
    match m2ts_mux_table_update stream GF_M2TS_TABLE_ID_PAT muxer.ts_id payload size
        true false false with
    | none => none
    | some stream => some ({ stream with table_needs_update := false }, true)
  else some (stream, true)

/-- The loop of `m2ts_stream_process_pmt` over the elementary streams of the program. -/
def pmt_write_streams (has_iod : Bool) (bs : List Bool) : List M2TS_Mux_Stream → List Bool
  | [] => bs
  | es :: rest =>
    let bs := gf_bs_write_int bs es.mpeg2_stream_type 8
    let bs := gf_bs_write_int bs 0x7 3
    let bs := gf_bs_write_int bs es.pid 13
    let bs := gf_bs_write_int bs 0xF 4
    let bs :=
      if has_iod then
        let bs := gf_bs_write_int bs 4 12
        let bs := gf_bs_write_int bs GF_M2TS_MPEG4_SL_DESCRIPTOR 8
        let bs := gf_bs_write_int bs 2 8
        gf_bs_write_int bs es.ifce_stream_id 16
      else gf_bs_write_int bs 0 12
    pmt_write_streams has_iod bs rest

/-- The payload `m2ts_stream_process_pmt` hands to the section engine, `program` being
`stream->program`. -/
def pmt_payload (program : M2TS_Mux_Program) : List Nat :=
  let bs := gf_bs_write_int [] 0x7 3
  let bs := gf_bs_write_int bs program.pcr_pid 13
  let bs := gf_bs_write_int bs 0xF 4
  let bs :=
    match program.iod with
    | none => gf_bs_write_int bs 0 12
    | some iod_data =>
      let iod_data_len := u32 iod_data.length
      let len := u32 (iod_data_len + 4)
      let bs := gf_bs_write_int bs len 12
      let bs := gf_bs_write_int bs GF_M2TS_MPEG4_IOD_DESCRIPTOR 8
      let len := u32 (iod_data_len + 2)
      let bs := gf_bs_write_int bs len 8
      let bs := gf_bs_write_int bs 2 8
      let bs := gf_bs_write_int bs 2 8
      gf_bs_write_data bs iod_data
  gf_bs_get_content (pmt_write_streams program.iod.isSome bs program.streams)

/-- `m2ts_stream_process_pmt(muxer, stream)`, `program` being `stream->program`: the
stream after the call and the value returned; `none` when the table update does not
return. -/
def m2ts_stream_process_pmt (program : M2TS_Mux_Program) (stream : M2TS_Mux_Stream) :
    Option (M2TS_Mux_Stream × Bool) :=
  if stream.table_needs_update then
    let payload := pmt_payload program
    let length := u32 payload.length
    match m2ts_mux_table_update stream GF_M2TS_TABLE_ID_PMT program.number payload length
        true false false with
    | none => none
    | some stream => some ({ stream with table_needs_update := false }, true)
  else some (stream, true)

/-! ## PES packetizer -/

def PCR_UPDATE_MS : Nat := 200

/-- `m2ts_stream_get_pes_header_length(stream)`. -/
def m2ts_stream_get_pes_header_length (stream : M2TS_Mux_Stream) : Nat :=
  if stream.pck_offset ≠ 0 ∨ ¬ stream.pck.GF_ESI_DATA_AU_START then 0
  else
    let hdr_len := 9
    let hdr_len := if stream.pck.GF_ESI_DATA_HAS_CTS then hdr_len + 5 else hdr_len
    let hdr_len := if stream.pck.GF_ESI_DATA_HAS_DTS then hdr_len + 5 else hdr_len
    hdr_len

/-- `m2ts_get_pcr(program)`: `none` when the division by `mux->bit_rate` is a division by
zero. The product `nb_pck*1504` is a product of 32-bit values. -/
def m2ts_get_pcr (mux : M2TS_Mux) (program : M2TS_Mux_Program) : Option Nat :=
  let nb_pck := sub32 mux.tot_pck_sent program.num_pck_at_pcr_init
  let pcr := 27000000
  let pcr := pcr * u32 (nb_pck * 1504) % 18446744073709551616
  if mux.bit_rate = 0 then none
  else
    let pcr := pcr / mux.bit_rate
    some ((pcr + program.pcr_init_time) % 18446744073709551616)

/-- The five bytes of a PTS or DTS, as `m2ts_stream_add_pes_header` writes them: a 4-bit
prefix, then the 33 bits of the time stamp in groups of 3, 15 and 15 bits, each group
followed by a marker bit. -/
def write_timestamp (bs : List Bool) (prefix4 ts : Nat) : List Bool :=
  let bs := gf_bs_write_int bs prefix4 4
  let t := (ts >>> 30) &&& 0x7
  let bs := gf_bs_write_long_int bs t 3
  let bs := gf_bs_write_int bs 1 1
  let t := (ts >>> 15) &&& 0x7fff
  let bs := gf_bs_write_long_int bs t 15
  let bs := gf_bs_write_int bs 1 1
  let t := ts &&& 0x7fff
  let bs := gf_bs_write_long_int bs t 15
  gf_bs_write_int bs 1 1

/-- `m2ts_stream_add_pes_header(bs, stream)`: the bits appended to `bs`; the C function
also returns `pes_len + 4`, which its caller drops. -/
def m2ts_stream_add_pes_header (bs : List Bool) (stream : M2TS_Mux_Stream) : List Bool :=
  let bs := gf_bs_write_int bs 0x1 24
  let bs := gf_bs_write_u8 bs stream.mpeg2_stream_id
  let use_pts := stream.pck.GF_ESI_DATA_HAS_CTS
  let use_dts := stream.pck.GF_ESI_DATA_HAS_DTS
  let pes_len := u32 (stream.pck.data_len + 3)
  let pes_len := if use_pts then u32 (pes_len + 5) else pes_len
  let pes_len := if use_dts then u32 (pes_len + 5) else pes_len
  let bs := gf_bs_write_int bs pes_len 16
  let bs := gf_bs_write_int bs 0x2 2
  let bs := gf_bs_write_int bs 0x0 2
  let bs := gf_bs_write_int bs 0x0 1
  let bs := gf_bs_write_int bs 0x1 1
  let bs := gf_bs_write_int bs 0x0 1
  let bs := gf_bs_write_int bs 0x0 1
  let bs := gf_bs_write_int bs use_pts.toNat 1
  let bs := gf_bs_write_int bs use_dts.toNat 1
  let bs := gf_bs_write_int bs 0x0 6
  let bs := gf_bs_write_int bs (use_dts.toNat * 5 + use_pts.toNat * 5) 8
  let bs := if use_pts then write_timestamp bs (if use_dts then 0x3 else 0x2) stream.pck.cts
            else bs
  let bs := if use_dts then write_timestamp bs 0x1 stream.pck.dts else bs
  bs

/-- `m2ts_mux_pes_get_next_packet(stream, packet)`. `now` and `now2` are the two readings
of `gf_sys_clock()`, the second taken only when a PCR is written. The result is the
program, the stream and the packet buffer after the call; `none` when `assert(stream->pid)`
fails or the PCR computation divides by zero. -/
def m2ts_mux_pes_get_next_packet (mux : M2TS_Mux) (program : M2TS_Mux_Program)
    (stream : M2TS_Mux_Stream) (packet : List Nat) (now now2 : Nat) :
    Option (M2TS_Mux_Program × M2TS_Mux_Stream × List Nat) :=
  if stream.pid = 0 then none
  else
    let hdr_len := m2ts_stream_get_pes_header_length stream
    let remain := sub32 stream.pck.data_len stream.pck_offset
    let needs_pcr : Bool :=
      hdr_len ≠ 0 ∧ stream.is_pcr ∧ now > u32 (program.last_sys_clock + PCR_UPDATE_MS)
    let payload_length := 184 - hdr_len
    let payload_length :=
      if needs_pcr then sub32 payload_length 8
      else if remain < 184 then sub32 payload_length 2
      else payload_length
    let adaptation_field_control :=
      if needs_pcr then M2TS_ADAPTATION_AND_PAYLOAD
      else if remain < 184 then M2TS_ADAPTATION_AND_PAYLOAD
      else M2TS_ADAPTATION_NONE
    let padding_length := if remain ≥ payload_length then 0 else sub32 payload_length remain
    let payload_length := sub32 payload_length padding_length
    let bs := gf_bs_write_int [] 0x47 8
    let bs := gf_bs_write_int bs 0 1
    let bs := gf_bs_write_int bs (if hdr_len ≠ 0 then 1 else 0) 1
    let bs := gf_bs_write_int bs 0 1
    let bs := gf_bs_write_int bs stream.pid 13
    let bs := gf_bs_write_int bs 0 2
    let bs := gf_bs_write_int bs adaptation_field_control 2
    let bs := gf_bs_write_int bs stream.continuity_counter 4
    let continuity_counter :=
      if stream.continuity_counter < 15 then stream.continuity_counter + 1 else 0
    let is_rap : Bool := hdr_len ≠ 0 ∧ stream.pck.GF_ESI_DATA_AU_RAP
    let af : Option (M2TS_Mux_Program × List Bool) :=
      if adaptation_field_control ≠ M2TS_ADAPTATION_NONE then
        if needs_pcr then
          match m2ts_get_pcr mux program with
          | none => none
          | some pcr =>
            some ({ program with last_pcr := pcr, last_sys_clock := now2 },
              m2ts_add_adaptation bs needs_pcr pcr is_rap padding_length)
        else some (program, m2ts_add_adaptation bs needs_pcr 0 is_rap padding_length)
      else some (program, bs)
    match af with
    | none => none
    | some (program, bs) =>
      let bs := if hdr_len ≠ 0 then m2ts_stream_add_pes_header bs stream else bs
      let packet := bs_store packet bs
      let packet := memcpy packet (188 - payload_length)
        ((stream.pck.data.drop stream.pck_offset).take payload_length)
      some (program,
        { stream with continuity_counter := continuity_counter,
                      pck_offset := u32 (stream.pck_offset + payload_length) },
        packet)

/-! ## Mux time in fixed-rate mode -/

/-- The value of a mux time in nanoseconds. -/
def time_ns (t : M2TS_Time) : Nat := t.sec * 1000000000 + t.nanosec

/-- The mux time of a fixed-rate mux after `N` packets have been returned by
`m2ts_mux_process`, from the time 0: every call that returns a packet runs
`m2ts_time_inc(&muxer->time, 1504, muxer->bit_rate)` once, and nothing else writes
`muxer->time`. -/
def mux_time_after_packets (bit_rate : Nat) : Nat → M2TS_Time
  | 0 => { sec := 0, nanosec := 0 }
  | N + 1 => m2ts_time_inc (mux_time_after_packets bit_rate N) 1504 bit_rate

/-! ## Packet layout, as bytes -/

/-- The four bytes of a TS packet header with the given fields: sync byte, transport
error indicator, payload unit start indicator, priority, 13-bit PID, scrambling control,
adaptation field control and 4-bit continuity counter. -/
def ts_header (error pusi priority pid scrambling afc cc : Nat) : List Nat :=
  [0x47, 128 * error + 64 * pusi + 32 * priority + pid / 256 % 32, pid % 256,
    64 * scrambling + 16 * afc + cc % 16]

/-- The six bytes of a PCR: 33 bits of base (`pcr_time / 300`), six zero bits, nine bits
of extension (`pcr_time % 300`). -/
def pcr_field (pcr_time : Nat) : List Nat :=
  let base := pcr_time / 300
  let ext := pcr_time % 300
  [base / 33554432 % 256, base / 131072 % 256, base / 512 % 256, base / 2 % 256,
    128 * (base % 2) + ext / 256 % 2, ext % 256]

/-- The bytes of an adaptation field: its length byte, the flags byte (random access
indicator and PCR flag, the other flags 0), the PCR when there is one, and
`padding_length` stuffing bytes `0xFF`. -/
def adaptation_field (has_pcr : Bool) (pcr_time : Nat) (is_rap : Bool)
    (padding_length : Nat) : List Nat :=
  [(1 + (if has_pcr then 6 else 0) + padding_length) % 256,
    64 * is_rap.toNat + 16 * has_pcr.toNat]
  ++ (if has_pcr then pcr_field pcr_time else [])
  ++ List.replicate padding_length 0xff

/-- The number of section bytes a packet takes when `sec_length - offset` bytes remain:
the payload capacity (183 with a pointer field, 184 without) when that many remain, else
what remains, at most the capacity less the two bytes of the adaptation field. -/
def table_payload_length (sec_length offset : Nat) : Nat :=
  let capacity := if offset = 0 then 183 else 184
  if sec_length - offset ≥ capacity then capacity
  else min (sec_length - offset) (capacity - 2)

/-- The layout of a section packet as the specification words it: the header; an
adaptation field with all flags 0 and stuffing only when fewer bytes remain than the
payload capacity; the pointer field 0 at the start of a section; the section bytes. -/
def table_packet_spec (pid cc : Nat) (sec : M2TS_Mux_Section) (offset : Nat) : List Nat :=
  let capacity := if offset = 0 then 183 else 184
  let remain := sec.length - offset
  let n := table_payload_length sec.length offset
  ts_header 0 (if offset = 0 then 1 else 0) 0 pid 0 (if remain ≥ capacity then 1 else 3) cc
    ++ (if remain ≥ capacity then [] else adaptation_field false 0 false (capacity - 2 - n))
    ++ (if offset = 0 then [0] else [])
    ++ (sec.data.drop offset).take n

/-! ## Concrete inputs -/

/-- A section of 190 bytes. -/
def demo_section : M2TS_Mux_Section := { data := List.replicate 190 7, length := 190 }

/-- A table made of `demo_section` alone. -/
def demo_table : M2TS_Mux_Table := { sections := [demo_section] }

/-- A section stream on PID 17 with the cursor at offset 183 of `demo_section`. -/
def demo_stream : M2TS_Mux_Stream :=
  { pid := 17, continuity_counter := 3, tables := [demo_table], current_table := some 0,
    current_section := some 0, current_section_offset := 183 }

/-! ## PES packet layout, as bytes -/

/-- The bytes of the PES header of the access unit of `stream`: what
`m2ts_stream_add_pes_header` writes into an empty writer. -/
def pes_header_bytes (stream : M2TS_Mux_Stream) : List Nat :=
  gf_bs_get_content (m2ts_stream_add_pes_header [] stream)

/-- Whether a PES packet carries a PCR: it starts an access unit of the PCR stream of the
program, and the clock is more than `PCR_UPDATE_MS` past `last_sys_clock` (as the code
computes it, on 32 bits). -/
def pes_needs_pcr (program : M2TS_Mux_Program) (stream : M2TS_Mux_Stream) (now : Nat) : Bool :=
  m2ts_stream_get_pes_header_length stream ≠ 0 ∧ stream.is_pcr
    ∧ now > u32 (program.last_sys_clock + PCR_UPDATE_MS)

/-- The number of bytes of the access unit a PES packet takes: what remains, at most the
184 bytes after the TS header less the PES header and less the adaptation field head
(8 bytes with a PCR, else 2 bytes when fewer than 184 bytes remain). -/
def pes_payload_length (stream : M2TS_Mux_Stream) (needs_pcr : Bool) : Nat :=
  let remain := stream.pck.data_len - stream.pck_offset
  min remain (184 - m2ts_stream_get_pes_header_length stream
    - (if needs_pcr then 8 else if remain < 184 then 2 else 0))

/-- The layout of a PES packet as the specification words it: the TS header; an
adaptation field of 8 bytes with the PCR plus stuffing when a PCR is needed, else of 2
bytes plus stuffing when fewer than 184 bytes of the access unit remain, else none; the
PES header when the packet starts an access unit; the bytes of the access unit. -/
def pes_packet_spec (pcr : Nat) (needs_pcr : Bool) (stream : M2TS_Mux_Stream) : List Nat :=
  let hdr_len := m2ts_stream_get_pes_header_length stream
  let remain := stream.pck.data_len - stream.pck_offset
  let n := pes_payload_length stream needs_pcr
  let with_af : Bool := needs_pcr ∨ remain < 184
  let is_rap : Bool := hdr_len ≠ 0 ∧ stream.pck.GF_ESI_DATA_AU_RAP
  ts_header 0 (if hdr_len ≠ 0 then 1 else 0) 0 stream.pid 0 (if with_af then 3 else 1)
      stream.continuity_counter
    ++ (if with_af then
          adaptation_field needs_pcr pcr is_rap
            (184 - hdr_len - (if needs_pcr then 8 else 2) - n)
        else [])
    ++ (if hdr_len ≠ 0 then pes_header_bytes stream else [])
    ++ (stream.pck.data.drop stream.pck_offset).take n

/-- A PES stream on PID 101, the PCR stream of its program, about to start an access unit
of 1000 bytes with a PTS. -/
def demo_pes_stream : M2TS_Mux_Stream :=
  { pid := 101, continuity_counter := 15, is_pcr := true, mpeg2_stream_id := 0xE0,
    pck := { data := List.replicate 1000 9, data_len := 1000, GF_ESI_DATA_AU_START := true,
             GF_ESI_DATA_HAS_CTS := true, cts := 900000 } }

/-! ## Reading packets back -/

/-- The payload unit start indicator of a TS packet: bit 6 of byte 1. -/
def ts_packet_pusi (packet : List Nat) : Nat := packet.getD 1 0 / 64 % 2

/-- The number of bytes of the adaptation field of a TS packet, its length byte included:
none when the adaptation field control (bits 5 and 4 of byte 3) announces no field. -/
def ts_packet_af_size (packet : List Nat) : Nat :=
  if packet.getD 3 0 / 16 % 4 / 2 = 1 then packet.getD 4 0 + 1 else 0

/-- The pointer field of a TS packet that starts a section: the byte after the header and
the adaptation field. -/
def ts_packet_pointer_field (packet : List Nat) : Nat :=
  packet.getD (4 + ts_packet_af_size packet) 0

/-- The section bytes a TS packet carries: what follows the header, the adaptation field
and, when PUSI is set, the pointer field and the bytes it points over. -/
def ts_packet_section_payload (packet : List Nat) : List Nat :=
  packet.drop (4 + ts_packet_af_size packet
    + (if ts_packet_pusi packet = 1 then 1 + ts_packet_pointer_field packet else 0))

/-- The bytes of the PES packet a TS packet carries: what follows the header and the
adaptation field. -/
def ts_packet_pes_payload (packet : List Nat) : List Nat :=
  packet.drop (4 + ts_packet_af_size packet)

/-- Calls of `m2ts_mux_table_get_next_packet` on one buffer, repeated until a call brings
the offset back to 0, that is, until the end of the section is reached: the packets in
the order of emission and the stream after the last call. `none` when a call fails or the
fuel runs out first. -/
def table_send_section : Nat → M2TS_Mux_Stream → List Nat →
    Option (List (List Nat) × M2TS_Mux_Stream)
  | 0, _, _ => none
  | fuel + 1, stream, packet =>
    match m2ts_mux_table_get_next_packet stream packet with
    | none => none
    | some (stream', packet') =>
      if stream'.current_section_offset = 0 then some ([packet'], stream')
      else
        match table_send_section fuel stream' packet' with
        | none => none
        | some (packets, stream'') => some (packet' :: packets, stream'')

/-! ## PES header, as bytes -/

/-- The five bytes of a PTS or DTS field: the 4-bit prefix, then the 33 bits of the time
stamp in groups of 3, 15 and 15 bits, each group followed by a marker bit 1. -/
def timestamp_field (prefix4 ts : Nat) : List Nat :=
  [16 * (prefix4 % 16) + 2 * (ts / 1073741824 % 8) + 1,
    ts / 4194304 % 256,
    2 * (ts / 32768 % 128) + 1,
    ts / 128 % 256,
    2 * (ts % 128) + 1]

/-- The 4-bit prefix of a PTS or DTS field. -/
def timestamp_lead (field : List Nat) : Nat := field.getD 0 0 / 16

/-- The three marker bits of a PTS or DTS field: the lowest bits of bytes 0, 2 and 4. -/
def timestamp_markers (field : List Nat) : List Nat :=
  [field.getD 0 0 % 2, field.getD 2 0 % 2, field.getD 4 0 % 2]

/-- The 33-bit time stamp read back from a PTS or DTS field: 3 bits of byte 0, the 15
bits of bytes 1 and 2 above the marker, the 15 bits of bytes 3 and 4 above the marker. -/
def timestamp_decode (field : List Nat) : Nat :=
  (field.getD 0 0 / 2 % 8) * 1073741824
    + ((field.getD 1 0 * 256 + field.getD 2 0) / 2) * 32768
    + (field.getD 3 0 * 256 + field.getD 4 0) / 2

/-- The PES header of the access unit of `stream`, byte by byte: start code `00 00 01`,
stream id, 16-bit PES packet length, the flag bytes `0x84` and PTS/DTS flags, the PES
header data length, then the PTS and the DTS when present. -/
def pes_header_spec (stream : M2TS_Mux_Stream) : List Nat :=
  let pts := stream.pck.GF_ESI_DATA_HAS_CTS.toNat
  let dts := stream.pck.GF_ESI_DATA_HAS_DTS.toNat
  let pes_len := stream.pck.data_len + 3 + 5 * pts + 5 * dts
  [0, 0, 1, stream.mpeg2_stream_id % 256, pes_len / 256 % 256, pes_len % 256, 0x84,
    128 * pts + 64 * dts, 5 * pts + 5 * dts]
  ++ (if stream.pck.GF_ESI_DATA_HAS_CTS then
        timestamp_field (if stream.pck.GF_ESI_DATA_HAS_DTS then 3 else 2) stream.pck.cts
      else [])
  ++ (if stream.pck.GF_ESI_DATA_HAS_DTS then timestamp_field 1 stream.pck.dts else [])

/-- A PES stream about to start an access unit of 70000 bytes without time stamps. -/
def demo_long_au : M2TS_Mux_Stream :=
  { pid := 101, mpeg2_stream_id := 0xE0,
    pck := { data := List.replicate 70000 0, data_len := 70000,
             GF_ESI_DATA_AU_START := true } }

/-- A PES stream about to start an access unit with a PTS above `2 ^ 33` and a DTS. -/
def demo_pts_dts : M2TS_Mux_Stream :=
  { pid := 102, mpeg2_stream_id := 0xC0,
    pck := { data := [1, 2, 3], data_len := 3, GF_ESI_DATA_AU_START := true,
             GF_ESI_DATA_HAS_CTS := true, GF_ESI_DATA_HAS_DTS := true,
             cts := 8589934597, dts := 12345 } }

/-- The bytes of the access unit a TS packet of a PES stream carries: the PES bytes, less
the PES header (nine bytes and the PES header data length given in the ninth) when PUSI
is set. -/
def ts_packet_au_payload (packet : List Nat) : List Nat :=
  if ts_packet_pusi packet = 1 then
    (ts_packet_pes_payload packet).drop (9 + (ts_packet_pes_payload packet).getD 8 0)
  else ts_packet_pes_payload packet

/-- Calls of `m2ts_mux_pes_get_next_packet` on one buffer, repeated until `pck_offset`
reaches `pck.data_len`: the packets in the order of emission, the program and the stream
after the last call. `env i` gives the mux and the two clock readings at the call number
`i`. `none` when a call fails or the fuel runs out first. -/
def pes_send_au (env : Nat → M2TS_Mux × Nat × Nat) :
    Nat → Nat → M2TS_Mux_Program → M2TS_Mux_Stream → List Nat →
    Option (List (List Nat) × M2TS_Mux_Program × M2TS_Mux_Stream)
  | 0, _, _, _, _ => none
  | fuel + 1, i, program, stream, packet =>
    match m2ts_mux_pes_get_next_packet (env i).1 program stream packet (env i).2.1
        (env i).2.2 with
    | none => none
    | some (program', stream', packet') =>
      if stream'.pck_offset = stream'.pck.data_len then some ([packet'], program', stream')
      else
        match pes_send_au env fuel (i + 1) program' stream' packet' with
        | none => none
        | some (packets, program'', stream'') => some (packet' :: packets, program'', stream'')

/-! ## PCR insertions -/

/-- The PCR flag of a TS packet: bit 4 of the flags byte of its adaptation field, when it
has one. -/
def ts_packet_pcr_flag (packet : List Nat) : Bool :=
  2 ≤ ts_packet_af_size packet ∧ packet.getD 5 0 / 16 % 2 = 1

/-- One call of `m2ts_mux_pes_get_next_packet` on a stream of a program: the state of the
mux and of the stream, the buffer, and the two clock readings of the call. -/
structure PES_Call where
  mux : M2TS_Mux
  stream : M2TS_Mux_Stream
  packet : List Nat
  now : Nat
  now2 : Nat

/-- A sequence of calls of `m2ts_mux_pes_get_next_packet` on streams of one program: the
program after the last call, and the values of `last_sys_clock` recorded by the calls
that wrote a PCR, in order. `none` when a call fails. -/
def pes_calls : M2TS_Mux_Program → List PES_Call → Option (M2TS_Mux_Program × List Nat)
  | program, [] => some (program, [])
  | program, c :: rest =>
    match m2ts_mux_pes_get_next_packet c.mux program c.stream c.packet c.now c.now2 with
    | none => none
    | some (program', _, packet') =>
      match pes_calls program' rest with
      | none => none
      | some (program'', recorded) =>
        some (program'',
          if ts_packet_pcr_flag packet' then program'.last_sys_clock :: recorded
          else recorded)

/-- The preconditions of a call of `m2ts_mux_pes_get_next_packet`: the PID is not 0 (its
assertion), the mux has a bit rate, the offset is inside the access unit, and the lengths
are what the C types say. -/
def PES_Call.ok (c : PES_Call) : Prop :=
  c.stream.pid ≠ 0 ∧ c.mux.bit_rate ≠ 0 ∧ c.stream.pck_offset ≤ c.stream.pck.data_len ∧
  c.stream.pck.data.length = c.stream.pck.data_len ∧ c.stream.pck.data_len < 4294967296 ∧
  c.packet.length = 188

/-- The first packet of `demo_pes_stream`, called at the clock 500 (second reading 501). -/
def demo_call : PES_Call :=
  { mux := { tot_pck_sent := 10, bit_rate := 1000000 }, stream := demo_pes_stream,
    packet := List.replicate 188 0, now := 500, now2 := 501 }

/-- The same call at the clock 4294967200. -/
def demo_call_late : PES_Call :=
  { mux := { tot_pck_sent := 10, bit_rate := 1000000 }, stream := demo_pes_stream,
    packet := List.replicate 188 0, now := 4294967200, now2 := 4294967200 }

/-! ## Sections, as bytes -/

/-- The four bytes of a 32-bit value, most significant first. -/
def crc_bytes (crc : Nat) : List Nat :=
  [crc / 16777216 % 256, crc / 65536 % 256, crc / 256 % 256, crc % 256]

/-- The bytes of a section before its CRC: table id; syntax indicator, private
indicator, `11` and the 12-bit section length (the declared length less 3); with the
syntax indicator the extension, `11`, the 5-bit version, the current/next indicator 1,
the section number and the last section number; then the SL header and the payload
slice. -/
def section_body (table_id table_id_extension version_number : Nat)
    (use_syntax_indicator private_indicator : Bool)
    (section_number last_section_number length : Nat) (slhdr slice : List Nat) : List Nat :=
  [table_id % 256,
    128 * use_syntax_indicator.toNat + 64 * private_indicator.toNat + 48
      + (length - 3) / 256 % 16,
    (length - 3) % 256]
  ++ (if use_syntax_indicator then
        [table_id_extension / 256 % 256, table_id_extension % 256,
          192 + 2 * (version_number % 32) + 1, section_number % 256,
          last_section_number % 256]
      else [])
  ++ slhdr ++ slice

/-- The bytes of a section: its body, followed with the syntax indicator by the MPEG-2
CRC32 of the body, most significant byte first. -/
def section_spec (table_id table_id_extension version_number : Nat)
    (use_syntax_indicator private_indicator : Bool)
    (section_number last_section_number length : Nat) (slhdr slice : List Nat) : List Nat :=
  let body := section_body table_id table_id_extension version_number use_syntax_indicator
    private_indicator section_number last_section_number length slhdr slice
  if use_syntax_indicator then body ++ crc_bytes (gf_crc_32 body) else body

/-- The 12-bit section length field of a section: the low four bits of byte 1 followed by
byte 2. -/
def section_length_field (data : List Nat) : Nat :=
  data.getD 1 0 % 16 * 256 + data.getD 2 0

/-- The payload slice of a section: the bytes between its header (eight bytes with the
syntax indicator, three without) and its CRC. -/
def section_payload (use_syntax_indicator : Bool) (data : List Nat) : List Nat :=
  if use_syntax_indicator then (data.drop 8).take (data.length - 12) else data.drop 3

/-- The table with the given id in the table list of a stream. -/
def stream_table (stream : M2TS_Mux_Stream) (table_id : Nat) : Option M2TS_Mux_Table :=
  match find_table stream.tables table_id with
  | some i => stream.tables.get? i
  | none => none

/-- The sections of a table as the specification words them: the payload is cut in
slices of `capacity` bytes, the last one holding what remains, and the section number
`k` carries the slice number `k` in a section of the length of the slice plus the
overhead. `sections_spec` is given the payload that is left and the number of the next
section. -/
def sections_spec (table_id table_id_extension version_number : Nat)
    (use_syntax_indicator private_indicator : Bool) (nb_sections overhead_size capacity : Nat) :
    Nat → Nat → List Nat → List M2TS_Mux_Section
  | 0, _, _ => []
  | fuel + 1, section_number, rest =>
    if rest = [] then []
    else
      write_section table_id table_id_extension version_number use_syntax_indicator
          private_indicator section_number nb_sections
          ((rest.take capacity).length + overhead_size) [] (rest.take capacity)
        :: sections_spec table_id table_id_extension version_number use_syntax_indicator
            private_indicator nb_sections overhead_size capacity fuel (section_number + 1)
            (rest.drop capacity)

/-! ## Creating the mux -/

/-- Modelled from the spec: the PID of the PAT (`GF_M2TS_PID_PAT`, missing header). -/
def GF_M2TS_PID_PAT : Nat := 0x0000

def M2TS_PSI_REFRESH_RATE : Nat := 200

/-- `m2ts_stream_new(pid)`; the callback `process` of a stream is not a field of the
model: the PAT, the PMTs and the elementary streams are told apart by where they are
held. -/
def m2ts_stream_new (pid : Nat) : M2TS_Mux_Stream := { pid := pid }

/-- `m2ts_mux_new(mux_rate, real_time)`. -/
def m2ts_mux_new (mux_rate : Nat) (real_time : Bool) : M2TS_Mux :=
  let pat := { m2ts_stream_new GF_M2TS_PID_PAT with refresh_rate_ms := M2TS_PSI_REFRESH_RATE }
  let bs := gf_bs_write_int [] 0x47 8
  let bs := gf_bs_write_int bs 0 1
  let bs := gf_bs_write_int bs 0 1
  let bs := gf_bs_write_int bs 0 1
  let bs := gf_bs_write_int bs 0x1FFF 13
  let bs := gf_bs_write_int bs 0 2
  let bs := gf_bs_write_int bs 1 2
  let bs := gf_bs_write_int bs 0 4
  { pat := pat, real_time := real_time, bit_rate := mux_rate,
    fixed_rate := decide (mux_rate ≠ 0),
    null_pck := bs_store (List.replicate 188 0) bs,
    dst_pck := List.replicate 188 0 }

/-- The statement `mux_rate = 1024*atoi(arg+6)*8;` of `main` for the option `-rate=R`,
`R` being the value `atoi` returns, stored in the `u32` `mux_rate`. -/
def main_mux_rate (R : Nat) : Nat := u32 (1024 * R * 8)

/-- The loop `while (cur_pid % 10) cur_pid ++;` of `main`; ten rounds always suffice. -/
def main_round_pid : Nat → Nat → Nat
  | 0, cur_pid => cur_pid
  | fuel + 1, cur_pid =>
    if cur_pid % 10 ≠ 0 then main_round_pid fuel (u32 (cur_pid + 1)) else cur_pid

/-- The PIDs `main` hands out, program by program, given the number of streams of each
program (`progs[i].nb_streams`): the PID passed to `m2ts_mux_program_add` for the PMT and
the PIDs `cur_pid+j+1` passed to `m2ts_program_stream_add`, which both functions store
unchanged in `pid`. -/
def main_assign_pids : Nat → List Nat → List (Nat × List Nat)
  | _, [] => []
  | cur_pid, nb_streams :: rest =>
    (cur_pid, (List.range nb_streams).map fun j => u32 (u32 (cur_pid + j) + 1))
      :: main_assign_pids (main_round_pid 10 (u32 (cur_pid + nb_streams))) rest

/-- The program `main` adds for the description `progs[i]` of a source:
`if (muxer->mpeg4_signaling) program->iod = progs[i].iod;`. -/
def main_program_iod (muxer : M2TS_Mux) (program : M2TS_Mux_Program)
    (progs_iod : Option (List Nat)) : M2TS_Mux_Program :=
  if muxer.mpeg4_signaling then { program with iod := progs_iod } else program

/-- The RTP time stamp `main` computes from the mux time,
`ts = muxer->time.sec*90000 + muxer->time.nanosec*9/100000;`, all operands being
`u32`. -/
def main_rtp_timestamp (time : M2TS_Time) : Nat :=
  u32 (u32 (time.sec * 90000) + u32 (time.nanosec * 9) / 100000)

/-- The marker bit of the RTP header, `hdr.Marker = (ts < hdr.TimeStamp) ? 1 : 0;`. -/
def main_rtp_marker (ts TimeStamp : Nat) : Nat := if ts < TimeStamp then 1 else 0

/-! ## Input of access units in push mode: `m2ts_output_ctrl` -/

/-- `m2ts_output_ctrl(_self, GF_ESI_OUTPUT_DATA_DISPATCH, esi_pck)`, `stream` being
`_self->output_udta`: the stream after the call. -/
def m2ts_output_ctrl (stream : M2TS_Mux_Stream) (esi_pck : GF_ESIPacket) : M2TS_Mux_Stream :=
  let stream :=
    if stream.force_new ∨ esi_pck.GF_ESI_DATA_AU_START then
      match stream.cur_pck with
      | some cur => { stream with pck_first := stream.pck_first ++ [cur], cur_pck := none }
      | none => stream
    else stream
  let cur : M2TS_Packet :=
    match stream.cur_pck with
    | some cur => cur
    | none => { cts := esi_pck.cts, dts := esi_pck.dts }
  let cur : M2TS_Packet :=
    { cur with
      data := cur.data ++ esi_pck.data.take esi_pck.data_len,
      data_len := u32 (cur.data_len + esi_pck.data_len),
      GF_ESI_DATA_AU_START := cur.GF_ESI_DATA_AU_START || esi_pck.GF_ESI_DATA_AU_START,
      GF_ESI_DATA_AU_RAP := cur.GF_ESI_DATA_AU_RAP || esi_pck.GF_ESI_DATA_AU_RAP,
      GF_ESI_DATA_HAS_CTS := cur.GF_ESI_DATA_HAS_CTS || esi_pck.GF_ESI_DATA_HAS_CTS,
      GF_ESI_DATA_HAS_DTS := cur.GF_ESI_DATA_HAS_DTS || esi_pck.GF_ESI_DATA_HAS_DTS,
      GF_ESI_DATA_AU_END := cur.GF_ESI_DATA_AU_END || esi_pck.GF_ESI_DATA_AU_END }
  { stream with force_new := esi_pck.GF_ESI_DATA_AU_END, cur_pck := some cur }

/-! ## Elementary streams: `m2ts_stream_process_stream` -/

/-- Modelled from the spec: stream type of AAC in LATM (`GF_M2TS_AUDIO_LATM_AAC`, missing
header). -/
def GF_M2TS_AUDIO_LATM_AAC : Nat := 0x11

/-- Modelled from the spec: stream type of MPEG-4 SL packets in PES
(`GF_M2TS_SYSTEMS_MPEG4_PES`, missing header). -/
def GF_M2TS_SYSTEMS_MPEG4_PES : Nat := 0x12

/-- Modelled from the spec: stream type of MPEG-4 SL packets in sections
(`GF_M2TS_SYSTEMS_MPEG4_SECTIONS`, missing header). -/
def GF_M2TS_SYSTEMS_MPEG4_SECTIONS : Nat := 0x13

/-- What surrounds one call of `m2ts_stream_process_stream`: the input callback of the
stream, the system clock and the sync-layer library. `input_ctrl_pull pck` is the packet
`input_ctrl(ifce, GF_ESI_INPUT_DATA_PULL, &stream->pck)` leaves in `stream->pck`;
`input_ctrl_flush stream` is the stream after `input_ctrl(ifce, GF_ESI_INPUT_DATA_FLUSH,
NULL)`, during which the producer may dispatch access units to the queue;
`gf_sys_clock` is the reading of the clock in the LATM branch; `ts_scale` is `none`
when `stream->ts_scale` is zero and otherwise the map `ts ↦ (u64) (ts_scale * (s64) ts)`,
a floating-point product; `gf_sl_get_header_size` and `gf_sl_packetize` are the size and
the bytes of the SL header for the SL configuration of the stream. -/
structure ES_Environment where
  input_ctrl_pull : GF_ESIPacket → GF_ESIPacket
  input_ctrl_flush : M2TS_Mux_Stream → M2TS_Mux_Stream
  gf_sys_clock : Nat
  ts_scale : Option (Nat → Nat)
  gf_sl_get_header_size : GF_SLHeader → Nat
  gf_sl_packetize : GF_SLHeader → List Nat

/-- The test at the head of `m2ts_stream_process_stream`: the section or the access unit
in hand is not completely sent yet, and the function returns 1 at once. -/
def process_stream_pending (stream : M2TS_Mux_Stream) : Bool :=
  if stream.mpeg2_stream_type = GF_M2TS_SYSTEMS_MPEG4_SECTIONS then
    stream.current_section.isSome
  else decide (stream.pck_offset < stream.pck.data_len)

/-- The input part of `m2ts_stream_process_stream`, in pull mode and in push mode: the
stream with the next access unit in `pck`, and `false` when the function returns 0
there (end of stream, or empty queue); `none` when `assert(stream->pck_first)` fails. -/
def process_stream_fetch (env : ES_Environment) (stream : M2TS_Mux_Stream) :
    Option (M2TS_Mux_Stream × Bool) :=
  if stream.GF_ESI_AU_PULL_CAP then
    let stream := { stream with pck_offset := 0, pck := { stream.pck with data_len := 0 } }
    if stream.GF_ESI_STREAM_IS_OVER then some (stream, false)
    else some ({ stream with pck := env.input_ctrl_pull stream.pck }, true)
  else
    let stream := env.input_ctrl_flush stream
    let discarded : Option M2TS_Mux_Stream :=
      if stream.pck_offset ≠ 0 then
        match stream.pck_first with
        | [] => none
        | _ :: rest => some { stream with pck_first := rest }
      else some stream
    match discarded with
    | none => none
    | some stream =>
      let stream := { stream with pck_offset := 0, pck := { stream.pck with data_len := 0 } }
      match stream.pck_first with
      | [] => some (stream, false)
      | pck :: _ =>
        some ({ stream with pck := pck }, true)

/-- The time stamps of the access unit after the input:
`if (!(flags & GF_ESI_DATA_HAS_DTS)) dts = cts;` and the rescaling to 90 kHz. -/
def process_stream_timestamps (env : ES_Environment) (stream : M2TS_Mux_Stream) :
    M2TS_Mux_Stream :=
  let pck := stream.pck
  let pck := if ¬ pck.GF_ESI_DATA_HAS_DTS then { pck with dts := pck.cts } else pck
  let pck :=
    match env.ts_scale with
    | some scale => { pck with cts := scale pck.cts, dts := scale pck.dts }
    | none => pck
  { stream with pck := pck }

/-- The block `/*initializing the PCR*/` of `m2ts_stream_process_stream`: the program
after it, and `false` when the function returns 0 there. The loop on `gf_rand()` only
feeds a value that the next statement replaces by 1. -/
def process_stream_pcr_init (muxer : M2TS_Mux) (program : M2TS_Mux_Program)
    (stream : M2TS_Mux_Stream) : M2TS_Mux_Program × Bool :=
  if program.pcr_init_time = 0 then
    if stream.is_pcr then
      ({ program with pcr_init_time := 1,
                      ts_time_at_pcr_init := muxer.time,
                      num_pck_at_pcr_init := muxer.tot_pck_sent }, true)
    else (program, false)
  else (program, true)

/-- The block `if (!stream->initial_ts)` of `m2ts_stream_process_stream`; `none` when
`muxer->bit_rate` is zero (a division by zero). -/
def process_stream_initial_ts (muxer : M2TS_Mux) (program : M2TS_Mux_Program)
    (stream : M2TS_Mux_Stream) : Option M2TS_Mux_Stream :=
  if stream.initial_ts = 0 then
    if muxer.bit_rate = 0 then none
    else
      let nb_bits := u32 (sub32 muxer.tot_pck_sent program.num_pck_at_pcr_init * 1504)
      let nb_ticks := u32 (90000 * nb_bits) / muxer.bit_rate
      let initial_ts := stream.pck.dts
      some { stream with initial_ts :=
        if initial_ts > nb_ticks then initial_ts - nb_ticks else 0 }
  else some stream

/-- The SL header fields `m2ts_stream_process_stream` refreshes from the access unit
before an SL encapsulation. -/
def process_stream_sl_header (stream : M2TS_Mux_Stream) : GF_SLHeader :=
  { stream.sl_header with
    accessUnitStartFlag := stream.pck.GF_ESI_DATA_AU_START,
    accessUnitEndFlag := stream.pck.GF_ESI_DATA_AU_END,
    accessUnitLength := u32 (stream.sl_header.accessUnitLength + stream.pck.data_len),
    randomAccessPointFlag := stream.pck.GF_ESI_DATA_AU_RAP,
    compositionTimeStampFlag := stream.pck.GF_ESI_DATA_HAS_CTS,
    compositionTimeStamp := stream.pck.cts,
    decodingTimeStampFlag := stream.pck.GF_ESI_DATA_HAS_DTS,
    decodingTimeStamp := stream.pck.dts }

/-- The loop that writes the LATM PayloadLengthInfo:
`while (1) { if (size>=255) { write 255; size -= 255; } else { write size; break; } }`.
`none` when the fuel runs out. -/
def latm_payload_length_info : Nat → List Bool → Nat → Option (List Bool)
  | 0, _, _ => none
  | fuel + 1, bs, size =>
    if size ≥ 255 then latm_payload_length_info fuel (gf_bs_write_int bs 255 8) (size - 255)
    else some (gf_bs_write_int bs size 8)

/-- Modelled from the spec: `gf_bs_align` of the missing bit writer, which completes the
last byte with zero bits. -/
def gf_bs_align (bs : List Bool) : List Bool :=
  bs ++ List.replicate ((8 - bs.length % 8) % 8) false

/-- The branch `case GF_M2TS_AUDIO_LATM_AAC` of `m2ts_stream_process_stream`: the stream
with the LATM frame in `pck` and `last_aac_time` refreshed when the configuration is
written; `none` when the loop of the length bytes never ends. -/
def process_stream_latm (env : ES_Environment) (stream : M2TS_Mux_Stream) :
    Option M2TS_Mux_Stream :=
  let bs := gf_bs_write_int [] 0x2B7 11
  let bs := gf_bs_write_int bs 0 13
  let next_time := env.gf_sys_clock
  let refresh : Option (List Bool) :=
    match stream.ifce_decoder_config with
    | some cfg =>
      if u32 (stream.last_aac_time + stream.ifce_repeat_rate) < next_time then some cfg
      else none
    | none => none
  let last_aac_time :=
    match refresh with
    | some _ => next_time
    | none => stream.last_aac_time
  let bs :=
    match refresh with
    | some cfg =>
      let bs := gf_bs_write_int bs 0 1
      let bs := gf_bs_write_int bs 0 1
      let bs := gf_bs_write_int bs 1 1
      let bs := gf_bs_write_int bs 0 6
      let bs := gf_bs_write_int bs 0 4
      let bs := gf_bs_write_int bs 0 3
      let bs := bs ++ cfg
      let bs := gf_bs_write_int bs 0 3
      let bs := gf_bs_write_int bs 0 8
      let bs := gf_bs_write_int bs 0 1
      gf_bs_write_int bs 0 1
    | none => gf_bs_write_int bs 1 1
  match latm_payload_length_info (stream.pck.data_len / 255 + 1) bs stream.pck.data_len with
  | none => none
  | some bs =>
    let bs := gf_bs_write_data bs (stream.pck.data.take stream.pck.data_len)
    let bs := gf_bs_align bs
    let data := gf_bs_get_content bs
    let data_len := u32 data.length
    let size := sub32 data_len 2
    let data := data.set 1 (data.getD 1 0 ||| ((size >>> 8) &&& 0x1F))
    let data := data.set 2 (size &&& 0xFF)
    some { stream with last_aac_time := last_aac_time,
                       pck := { stream.pck with data := data, data_len := data_len } }

/-- The `switch (stream->mpeg2_stream_type)` of `m2ts_stream_process_stream`, the SL and
LATM encapsulations. The bytes `gf_sl_packetize` makes of an access unit are taken to be
the SL header followed by the access unit. In the branch of the sections, the refresh of
the bit rate that closes `m2ts_mux_table_update_mpeg4` when `ifce->repeat_rate` is set is
modelled by the new `refresh_rate_ms` alone. `none` when a loop never ends. -/
def process_stream_encapsulate (env : ES_Environment) (muxer : M2TS_Mux)
    (stream : M2TS_Mux_Stream) : Option M2TS_Mux_Stream :=
  if stream.mpeg2_stream_type = GF_M2TS_SYSTEMS_MPEG4_SECTIONS then
    let stream := { stream with sl_header := process_stream_sl_header stream }
    match m2ts_mux_table_update_mpeg4 env.gf_sl_get_header_size env.gf_sl_packetize stream
        stream.table_id muxer.ts_id stream.pck.data stream.pck.data_len true false false with
    | none => none
    | some stream =>
      if stream.ifce_repeat_rate ≠ 0 then
        some { stream with refresh_rate_ms := stream.ifce_repeat_rate }
      else some stream
  else if stream.mpeg2_stream_type = GF_M2TS_SYSTEMS_MPEG4_PES then
    let stream : M2TS_Mux_Stream :=
      { stream with sl_header := process_stream_sl_header stream }
    let data := env.gf_sl_packetize stream.sl_header ++ stream.pck.data.take stream.pck.data_len
    let pck : GF_ESIPacket := { stream.pck with data := data, data_len := u32 data.length }
    let stream : M2TS_Mux_Stream := { stream with pck := pck }
    if ¬ stream.GF_ESI_AU_PULL_CAP then
      match stream.pck_first with
      | first :: rest =>
        some { stream with pck_first :=
          { first with data := pck.data, data_len := pck.data_len } :: rest }
      | [] => none
    else some stream
  else if stream.mpeg2_stream_type = GF_M2TS_AUDIO_LATM_AAC then
    process_stream_latm env stream
  else some stream

/-- The loop `while (bytes<stream->pck.data_len) { bytes+=184; nb_pck++; }` on 32-bit
values; `none` when the fuel runs out. -/
def nb_pck_loop : Nat → Nat → Nat → Nat → Option Nat
  | 0, _, _, _ => none
  | fuel + 1, bytes, data_len, nb_pck =>
    if bytes < data_len then nb_pck_loop fuel (u32 (bytes + 184)) data_len (u32 (nb_pck + 1))
    else some nb_pck

/-- The value of `next_time` after the block that accounts for the transmission time of
the access unit; `none` when the loop never ends or `muxer->bit_rate` is zero. -/
def process_stream_next_time (muxer : M2TS_Mux) (stream : M2TS_Mux_Stream) : Option Nat :=
  let next_time := sub32 stream.pck.dts stream.initial_ts
  if next_time ≠ 0 then
    let bytes := 184 - ADAPTATION_LENGTH_LENGTH - ADAPTATION_FLAGS_LENGTH - PCR_LENGTH
    let bytes := sub32 bytes (m2ts_stream_get_pes_header_length stream)
    match nb_pck_loop 4294967296 bytes stream.pck.data_len 1 with
    | none => none
    | some nb_pck =>
      let nb_bits := u32 (nb_pck * 1504)
      if muxer.bit_rate = 0 then none
      else
        let nb_ticks := u32 (90000 * nb_bits) / muxer.bit_rate
        if next_time > nb_ticks then some (next_time - nb_ticks) else some 0
  else some next_time

/-- The scheduling part of `m2ts_stream_process_stream`: the time of the stream and the
time stamps of the access unit moved to the PCR time line. -/
def process_stream_schedule (muxer : M2TS_Mux) (program : M2TS_Mux_Program)
    (stream : M2TS_Mux_Stream) : Option M2TS_Mux_Stream :=
  match process_stream_next_time muxer stream with
  | none => none
  | some next_time =>
    let time := m2ts_time_inc program.ts_time_at_pcr_init next_time 90000
    let pcr_offset := program.pcr_init_time / 300
    let cts := (stream.pck.cts + 18446744073709551616 - stream.initial_ts % 18446744073709551616
      + pcr_offset) % 18446744073709551616
    let dts := (stream.pck.dts + 18446744073709551616 - stream.initial_ts % 18446744073709551616
      + pcr_offset) % 18446744073709551616
    some { stream with time := time, pck := { stream.pck with cts := cts, dts := dts } }

/-- The block `/*compute bitrate if needed*/` that closes `m2ts_stream_process_stream`:
the stream, and whether `needs_reconfig` is set on the mux. -/
def process_stream_bitrate (stream : M2TS_Mux_Stream) : M2TS_Mux_Stream × Bool :=
  if stream.bit_rate = 0 then
    if stream.last_br_time = 0 then
      ({ stream with last_br_time := (stream.pck.dts + 1) % 18446744073709551616,
                     bytes_since_last_time := stream.pck.data_len }, false)
    else
      let elapsed := (stream.pck.dts + 2 * 18446744073709551616 - stream.last_br_time - 1)
        % 18446744073709551616
      if elapsed ≥ 90000 then
        let r := (8 * stream.bytes_since_last_time) % 18446744073709551616
        let r := (r * 90000) % 18446744073709551616
        ({ stream with bit_rate := u32 (r / elapsed) }, true)
      else
        ({ stream with
           bytes_since_last_time := u32 (stream.bytes_since_last_time + stream.pck.data_len) },
         false)
  else (stream, false)

/-- What a call of the `process` callback of an elementary stream leaves: the program of
the stream, the stream, whether it has set `needs_reconfig` on the mux, and the value
returned. -/
structure Process_Result where
  program : M2TS_Mux_Program
  stream : M2TS_Mux_Stream
  needs_reconfig : Bool := false
  res : Bool

/-- `m2ts_stream_process_stream(muxer, stream)`, `program` being `stream->program`;
`none` when an `assert` fails, a loop never ends or a division by zero occurs. -/
def m2ts_stream_process_stream (env : ES_Environment) (muxer : M2TS_Mux)
    (program : M2TS_Mux_Program) (stream : M2TS_Mux_Stream) : Option Process_Result :=
  if process_stream_pending stream then
    some { program := program, stream := stream, res := true }
  else
    match process_stream_fetch env stream with
    | none => none
    | some (stream, false) => some { program := program, stream := stream, res := false }
    | some (stream, true) =>
      let stream := process_stream_timestamps env stream
      match process_stream_pcr_init muxer program stream with
      | (program, false) => some { program := program, stream := stream, res := false }
      | (program, true) =>
        match process_stream_initial_ts muxer program stream with
        | none => none
        | some stream =>
          match process_stream_encapsulate env muxer stream with
          | none => none
          | some stream =>
            match process_stream_schedule muxer program stream with
            | none => none
            | some stream =>
              let (stream, needs_reconfig) := process_stream_bitrate stream
              some { program := program, stream := stream,
                     needs_reconfig := needs_reconfig, res := true }

/-! ## Scheduling: `m2ts_mux_process` -/

/-- The values `m2ts_mux_process` stores in `status` (an enumeration of the missing
header). -/
inductive M2TS_State where
  | GF_M2TS_STATE_IDLE
  | GF_M2TS_STATE_DATA
  | GF_M2TS_STATE_PADDING
  | GF_M2TS_STATE_EOS
  deriving DecidableEq, Repr

/-- `m2ts_time_less(a, b)`. -/
def m2ts_time_less (a b : M2TS_Time) : Bool :=
  if a.sec > b.sec then false
  else if a.sec = b.sec then (if a.nanosec < b.nanosec then true else false)
  else true

/-- `m2ts_time_less_or_equal(a, b)`. -/
def m2ts_time_less_or_equal (a b : M2TS_Time) : Bool :=
  if a.sec > b.sec then false
  else if a.sec = b.sec then (if a.nanosec > b.nanosec then false else true)
  else true

/-- `m2ts_mux_table_update_bitrate(mux, stream)`, `process` being the callback of the
stream (the PAT or PMT builder); `none` when the callback does not return. -/
def m2ts_mux_table_update_bitrate
    (process : M2TS_Mux_Stream → Option (M2TS_Mux_Stream × Bool)) (stream : M2TS_Mux_Stream) :
    Option M2TS_Mux_Stream :=
  let updated :=
    if stream.table_needs_update then (process stream).map Prod.fst else some stream
  match updated with
  | none => none
  | some stream =>
    let bit_rate := stream.tables.foldl
      (fun bit_rate table => table.sections.foldl
        (fun bit_rate sec => u32 (bit_rate + sec.length)) bit_rate) 0
    let bit_rate := u32 (bit_rate * 8)
    let refresh_rate_ms := if stream.refresh_rate_ms = 0 then 500 else stream.refresh_rate_ms
    let bit_rate := u32 (bit_rate * 1000)
    some { stream with bit_rate := bit_rate / refresh_rate_ms,
                       refresh_rate_ms := refresh_rate_ms }

/-- The loop of `m2ts_mux_update_config` over the streams of a program: the streams and
the bit rate of the mux so far. -/
def update_config_streams (fixed_rate reset_time : Bool) :
    List M2TS_Mux_Stream → Nat → List M2TS_Mux_Stream × Nat
  | [], bit_rate => ([], bit_rate)
  | stream :: rest, bit_rate =>
    let bit_rate :=
      if ¬ fixed_rate then
        let bit_rate := u32 (bit_rate + stream.bit_rate)
        if stream.is_pcr then u32 (bit_rate + 8 * 8 * 10) else bit_rate
      else bit_rate
    let stream :=
      if reset_time then { stream with time := { sec := 0, nanosec := 0 } } else stream
    let (rest, bit_rate) := update_config_streams fixed_rate reset_time rest bit_rate
    (stream :: rest, bit_rate)

/-- The loop of `m2ts_mux_update_config` over the programs. -/
def update_config_programs (fixed_rate reset_time : Bool) :
    List M2TS_Mux_Program → Nat → Option (List M2TS_Mux_Program × Nat)
  | [], bit_rate => some ([], bit_rate)
  | prog :: rest, bit_rate =>
    let (streams, bit_rate) := update_config_streams fixed_rate reset_time prog.streams bit_rate
    let prog := { prog with streams := streams }
    let pmt_done : Option (M2TS_Mux_Program × Nat) :=
      if ¬ fixed_rate then
        match m2ts_mux_table_update_bitrate (m2ts_stream_process_pmt prog) prog.pmt with
        | none => none
        | some pmt => some ({ prog with pmt := pmt }, u32 (bit_rate + pmt.bit_rate))
      else some (prog, bit_rate)
    match pmt_done with
    | none => none
    | some (prog, bit_rate) =>
      match update_config_programs fixed_rate reset_time rest bit_rate with
      | none => none
      | some (rest, bit_rate) => some (prog :: rest, bit_rate)

/-- `m2ts_mux_update_config(mux, reset_time)`; `none` when a table update does not
return. -/
def m2ts_mux_update_config (mux : M2TS_Mux) (reset_time : Bool) : Option M2TS_Mux :=
  let pat_done : Option M2TS_Mux :=
    if ¬ mux.fixed_rate then
      match m2ts_mux_table_update_bitrate (m2ts_stream_process_pat mux) mux.pat with
      | none => none
      | some pat => some { mux with bit_rate := u32 (0 + pat.bit_rate), pat := pat }
    else some mux
  match pat_done with
  | none => none
  | some mux =>
    match update_config_programs mux.fixed_rate reset_time mux.programs mux.bit_rate with
    | none => none
    | some (programs, bit_rate) =>
      let mux := { mux with programs := programs, bit_rate := bit_rate }
      if reset_time then
        some { mux with time := { sec := 0, nanosec := 0 }, init_sys_time := 0 }
      else some mux

/-- The stream `stream_to_process` points to: the PAT, the PMT of the program of index
`pi`, or the stream of index `si` of the program of index `pi`. -/
inductive Stream_Ref where
  | pat
  | pmt (pi : Nat)
  | es (pi si : Nat)
  deriving DecidableEq, Repr

/-- The local variables of `m2ts_mux_process` that the search for a stream updates. -/
structure Selection where
  time : M2TS_Time
  stream_to_process : Option Stream_Ref := none
  nb_streams : Nat := 0
  nb_streams_done : Nat := 0
  deriving DecidableEq, Repr

/-- A call of a `process` callback made during the search of `m2ts_mux_process`: the
stream it was made on, the time of the stream after the call, the value returned and,
for an elementary stream, the bit `GF_ESI_STREAM_IS_OVER` after the call. The list of the
calls is not a variable of the C code; the model keeps it next to the result so that
the search can be described. -/
structure Visit where
  ref : Stream_Ref
  time : M2TS_Time
  res : Bool
  over : Bool := false
  deriving DecidableEq, Repr

/-- The inner loop of `m2ts_mux_process` over the streams of the program of index `pi`.
`process` is the callback `stream->process` of the elementary streams
(`m2ts_stream_process_stream` for the streams `m2ts_program_stream_add` makes). The last
component of the result lists the calls made. -/
def process_streams
    (process : M2TS_Mux → M2TS_Mux_Program → M2TS_Mux_Stream → Option Process_Result)
    (pi : Nat) : M2TS_Mux → M2TS_Mux_Program → List M2TS_Mux_Stream → Nat → Selection →
      Option (M2TS_Mux × M2TS_Mux_Program × List M2TS_Mux_Stream × Selection × List Visit)
  | muxer, program, [], _, sel => some (muxer, program, [], sel, [])
  | muxer, program, stream :: rest, si, sel =>
    let sel := { sel with nb_streams := u32 (sel.nb_streams + 1) }
    match process muxer program stream with
    | none => none
    | some r =>
      let muxer := { muxer with needs_reconfig := muxer.needs_reconfig || r.needs_reconfig }
      let program := r.program
      let stream := r.stream
      let sel :=
        if r.res then
          if m2ts_time_less stream.time sel.time then
            { sel with time := stream.time, stream_to_process := some (Stream_Ref.es pi si) }
          else sel
        else if stream.GF_ESI_STREAM_IS_OVER then
          { sel with nb_streams_done := u32 (sel.nb_streams_done + 1) }
        else sel
      let visit : Visit :=
        { ref := Stream_Ref.es pi si, time := stream.time, res := r.res,
          over := stream.GF_ESI_STREAM_IS_OVER }
      match process_streams process pi muxer program rest (si + 1) sel with
      | none => none
      | some (muxer, program, rest, sel, visits) =>
        some (muxer, program, stream :: rest, sel, visit :: visits)

/-- The outer loop of `m2ts_mux_process` over the programs, from the program of index
`pi` on; the loop stops at the first PMT that is due (`goto send_pck`). The last
component of the result lists the calls made. -/
def process_programs
    (process : M2TS_Mux → M2TS_Mux_Program → M2TS_Mux_Stream → Option Process_Result) :
    M2TS_Mux → List M2TS_Mux_Program → Nat → Selection →
      Option (M2TS_Mux × List M2TS_Mux_Program × Selection × List Visit)
  | muxer, [], _, sel => some (muxer, [], sel, [])
  | muxer, program :: rest, pi, sel =>
    match m2ts_stream_process_pmt program program.pmt with
    | none => none
    | some (pmt, res) =>
      let program := { program with pmt := pmt }
      let visit : Visit := { ref := Stream_Ref.pmt pi, time := pmt.time, res := res }
      if res && m2ts_time_less pmt.time sel.time then
        some (muxer, program :: rest,
          { sel with time := pmt.time, stream_to_process := some (Stream_Ref.pmt pi) },
          [visit])
      else
        match process_streams process pi muxer program program.streams 0 sel with
        | none => none
        | some (muxer, program, streams, sel, visits) =>
          let program := { program with streams := streams }
          match process_programs process muxer rest (pi + 1) sel with
          | none => none
          | some (muxer, rest, sel, visits2) =>
            some (muxer, program :: rest, sel, visit :: (visits ++ visits2))

/-- The packet of the stream selected, written to `dst_pck`: a section packet when the
stream has tables, a PES packet otherwise. `now_pes` and `now_pes2` are the readings of
the clock inside `m2ts_mux_pes_get_next_packet`. `none` when the packetizer fails, or
when the stream has no program (the PAT without tables). -/
def send_stream (muxer : M2TS_Mux) (ref : Stream_Ref) (now_pes now_pes2 : Nat) :
    Option M2TS_Mux :=
  match ref with
  | Stream_Ref.pat =>
    if muxer.pat.tables ≠ [] then
      match m2ts_mux_table_get_next_packet muxer.pat muxer.dst_pck with
      | none => none
      | some (pat, packet) => some { muxer with pat := pat, dst_pck := packet }
    else none
  | Stream_Ref.pmt pi =>
    match muxer.programs.get? pi with
    | none => none
    | some program =>
      if program.pmt.tables ≠ [] then
        match m2ts_mux_table_get_next_packet program.pmt muxer.dst_pck with
        | none => none
        | some (pmt, packet) =>
          some { muxer with programs := muxer.programs.set pi { program with pmt := pmt },
                            dst_pck := packet }
      else
        match m2ts_mux_pes_get_next_packet muxer program program.pmt muxer.dst_pck now_pes
            now_pes2 with
        | none => none
        | some (program, pmt, packet) =>
          some { muxer with programs := muxer.programs.set pi { program with pmt := pmt },
                            dst_pck := packet }
  | Stream_Ref.es pi si =>
    match muxer.programs.get? pi with
    | none => none
    | some program =>
      match program.streams.get? si with
      | none => none
      | some stream =>
        if stream.tables ≠ [] then
          match m2ts_mux_table_get_next_packet stream muxer.dst_pck with
          | none => none
          | some (stream, packet) =>
            some { muxer with
                   programs := muxer.programs.set pi
                     { program with streams := program.streams.set si stream },
                   dst_pck := packet }
        else
          match m2ts_mux_pes_get_next_packet muxer program stream muxer.dst_pck now_pes
              now_pes2 with
          | none => none
          | some (program, stream, packet) =>
            some { muxer with
                   programs := muxer.programs.set pi
                     { program with streams := program.streams.set si stream },
                   dst_pck := packet }

/-- The part of `m2ts_mux_process` after the label `send_pck`: the mux, the packet
returned (`none` for `NULL`) and the status. -/
def m2ts_mux_send_pck (muxer : M2TS_Mux) (sel : Selection) (now now_pes now_pes2 : Nat) :
    Option (M2TS_Mux × Option (List Nat) × M2TS_State) :=
  let sent : Option (M2TS_Mux × Option (List Nat) × M2TS_State) :=
    match sel.stream_to_process with
    | none =>
      let status :=
        if sel.nb_streams ≠ 0 ∧ sel.nb_streams = sel.nb_streams_done then
          M2TS_State.GF_M2TS_STATE_EOS
        else M2TS_State.GF_M2TS_STATE_PADDING
      if muxer.fixed_rate then
        some ({ muxer with tot_pad_sent := (muxer.tot_pad_sent + 1) % 18446744073709551616 },
          some muxer.null_pck, status)
      else
        some ({ muxer with time := m2ts_time_inc muxer.time 1504 muxer.bit_rate }, none, status)
    | some ref =>
      match send_stream muxer ref now_pes now_pes2 with
      | none => none
      | some muxer => some (muxer, some muxer.dst_pck, M2TS_State.GF_M2TS_STATE_DATA)
  match sent with
  | none => none
  | some (muxer, none, status) => some (muxer, none, status)
  | some (muxer, some ret, status) =>
    let muxer :=
      { muxer with tot_pck_sent := (muxer.tot_pck_sent + 1) % 18446744073709551616,
                   time := m2ts_time_inc muxer.time 1504 muxer.bit_rate }
    let muxer :=
      if muxer.real_time then
        let window := u32 (muxer.pck_sent_over_br_window + 1)
        if sub32 now muxer.last_br_time > 500 then
          let size := u32 (8 * 188 * window * 1000)
          { muxer with avg_br := u32 (size / sub32 now muxer.last_br_time),
                       last_br_time := now, pck_sent_over_br_window := 0 }
        else { muxer with pck_sent_over_br_window := window }
      else muxer
    some (muxer, some ret, status)

/-- The real-time pacing at the head of `m2ts_mux_process`, `now` being the reading of
`gf_sys_clock()`: the mux after it, or `none` when the function returns `NULL` there. -/
def m2ts_mux_pacing (muxer : M2TS_Mux) (now : Nat) : Option M2TS_Mux :=
  if muxer.real_time then
    if muxer.init_sys_time = 0 then
      some { muxer with init_sys_time := now, init_ts_time := muxer.time }
    else
      let diff := sub32 now muxer.init_sys_time
      let now_ts := m2ts_time_inc muxer.init_ts_time diff 1000
      if m2ts_time_less now_ts muxer.time then none else some muxer
  else some muxer

/-- The block `if (muxer->needs_reconfig)` of `m2ts_mux_process`. -/
def m2ts_mux_reconfig (muxer : M2TS_Mux) : Option M2TS_Mux :=
  if muxer.needs_reconfig then
    match m2ts_mux_update_config muxer false with
    | none => none
    | some muxer => some { muxer with needs_reconfig := false }
  else some muxer

/-- The search of `m2ts_mux_process` for the stream to send, from the copy of the mux
time to the label `send_pck`: the mux, the variables of the search and the calls of the
callbacks of the PMTs and of the elementary streams that were made. -/
def m2ts_mux_select
    (process : M2TS_Mux → M2TS_Mux_Program → M2TS_Mux_Stream → Option Process_Result)
    (muxer : M2TS_Mux) : Option (M2TS_Mux × Selection × List Visit) :=
  let time := muxer.time
  match m2ts_mux_reconfig muxer with
  | none => none
  | some muxer =>
    match m2ts_stream_process_pat muxer muxer.pat with
    | none => none
    | some (pat, res) =>
      let muxer := { muxer with pat := pat }
      if res && m2ts_time_less_or_equal pat.time time then
        some (muxer, { time := pat.time, stream_to_process := some Stream_Ref.pat }, [])
      else
        match process_programs process muxer muxer.programs 0 { time := time } with
        | none => none
        | some (muxer, programs, sel, visits) =>
          some ({ muxer with programs := programs }, sel, visits)

/-- `m2ts_mux_process(muxer, status)`: the mux after the call, the packet returned
(`none` for `NULL`) and `*status`. `now` is the reading of `gf_sys_clock()` at the head
of the function. The result is `none` when a callee does not return or fails an
`assert`. -/
def m2ts_mux_process
    (process : M2TS_Mux → M2TS_Mux_Program → M2TS_Mux_Stream → Option Process_Result)
    (muxer : M2TS_Mux) (now now_pes now_pes2 : Nat) :
    Option (M2TS_Mux × Option (List Nat) × M2TS_State) :=
  match m2ts_mux_pacing muxer now with
  | none => some (muxer, none, M2TS_State.GF_M2TS_STATE_IDLE)
  | some muxer =>
    match m2ts_mux_select process muxer with
    | none => none
    | some (muxer, sel, _) => m2ts_mux_send_pck muxer sel now now_pes now_pes2

/-! ## PAT and PMT payloads, as bytes -/

/-- The four bytes of the PAT for one program: the 16-bit program_number, then the three
bits `111` and the 13-bit PID of the PMT. -/
def pat_record (prog : M2TS_Mux_Program) : List Nat :=
  [prog.number / 256 % 256, prog.number % 256,
    224 + prog.pmt.pid / 256 % 32, prog.pmt.pid % 256]

/-- The PAT payload of the specification: one record per program, in list order. -/
def pat_records (programs : List M2TS_Mux_Program) : List Nat :=
  programs.flatMap pat_record

/-- The head of the PMT payload: `111` and the 13-bit PCR PID, `1111` and the 12-bit
program_info_length, and for a program with an IOD the IOD descriptor (tag, 8-bit
length, scope, label and the bytes of the IOD). -/
def pmt_program_info (program : M2TS_Mux_Program) : List Nat :=
  [224 + program.pcr_pid / 256 % 32, program.pcr_pid % 256]
  ++ match program.iod with
     | none => [240, 0]
     | some iod_data =>
       [240 + u32 (u32 iod_data.length + 4) / 256 % 16, u32 (u32 iod_data.length + 4) % 256,
         GF_M2TS_MPEG4_IOD_DESCRIPTOR, u32 (u32 iod_data.length + 2) % 256, 2, 2] ++ iod_data

/-- The entry of the PMT for one elementary stream: the 8-bit stream_type, `111` and the
13-bit PID, `1111` and the 12-bit ES_info_length, which is 4 and followed by the SL
descriptor (tag, length 2, the 16-bit ES_ID) when `has_iod` is set, and 0 otherwise. -/
def pmt_es_record (has_iod : Bool) (es : M2TS_Mux_Stream) : List Nat :=
  [es.mpeg2_stream_type % 256, 224 + es.pid / 256 % 32, es.pid % 256]
  ++ (if has_iod then
        [240, 4, GF_M2TS_MPEG4_SL_DESCRIPTOR, 2, es.ifce_stream_id / 256 % 256,
          es.ifce_stream_id % 256]
      else [240, 0])

/-- The 12-bit ES_info_length of a PMT entry: the low 4 bits of byte 3, then byte 4. -/
def pmt_es_info_length (entry : List Nat) : Nat :=
  entry.getD 3 0 % 16 * 256 + entry.getD 4 0

/-- The 12-bit program_info_length of a PMT payload: the low 4 bits of byte 2, then
byte 3. -/
def pmt_program_info_length (payload : List Nat) : Nat :=
  payload.getD 2 0 % 16 * 256 + payload.getD 3 0

/-- The 13-bit PCR PID of a PMT payload: the low 5 bits of byte 0, then byte 1. -/
def pmt_pcr_pid (payload : List Nat) : Nat :=
  payload.getD 0 0 % 32 * 256 + payload.getD 1 0

/-- A mux with MPEG-4 signaling and one program whose source has no IOD, as `main` sets
it up. -/
def demo_mpeg4_program : M2TS_Mux_Program :=
  main_program_iod { mpeg4_signaling := true }
    { number := 1, pcr_pid := 101,
      streams := [{ pid := 101, mpeg2_stream_type := 0x12, ifce_stream_id := 5 }] } none

/-- A program with an IOD of 254 bytes. -/
def demo_long_iod : M2TS_Mux_Program :=
  { number := 1, pcr_pid := 101, iod := some (List.replicate 254 1) }

/-- A program with an IOD of three bytes and one stream. -/
def demo_iod_program : M2TS_Mux_Program :=
  { number := 1, pcr_pid := 101, iod := some [1, 2, 3],
    streams := [{ pid := 101, mpeg2_stream_type := 0x12, ifce_stream_id := 5 }] }

/-- A program without IOD, with two streams. -/
def demo_plain_program : M2TS_Mux_Program :=
  { number := 1, pcr_pid := 101,
    streams := [{ pid := 101, mpeg2_stream_type := 0x1B },
      { pid := 102, mpeg2_stream_type := 0x03 }] }

/-! ## Elementary streams: inputs of the examples and the LATM frame, as bits -/

/-- An input in pull mode that hands over an access unit of 100 bytes with the given
DTS, under a clock that reads `clock`; the time stamps are in 90 kHz units and the SL
header is empty. -/
def demo_env (dts clock : Nat) : ES_Environment :=
  { input_ctrl_pull := fun _ =>
      { data := List.replicate 100 1, data_len := 100, GF_ESI_DATA_AU_START := true,
        GF_ESI_DATA_HAS_CTS := true, GF_ESI_DATA_HAS_DTS := true, cts := dts, dts := dts },
    input_ctrl_flush := fun stream => stream,
    gf_sys_clock := clock,
    ts_scale := none,
    gf_sl_get_header_size := fun _ => 0,
    gf_sl_packetize := fun _ => [] }

/-- A video stream in pull mode that is not the PCR stream of its program. -/
def demo_video_stream : M2TS_Mux_Stream :=
  { pid := 102, mpeg2_stream_type := 0x1B, mpeg2_stream_id := 0xE0,
    GF_ESI_AU_PULL_CAP := true }

/-- A video stream in pull mode that is the PCR stream of its program. -/
def demo_pcr_stream : M2TS_Mux_Stream :=
  { pid := 101, mpeg2_stream_type := 0x1B, mpeg2_stream_id := 0xE0, is_pcr := true,
    GF_ESI_AU_PULL_CAP := true }

/-- An AAC stream with a decoder configuration of 16 bits, about to wrap its first access
unit of three bytes. -/
def demo_aac_stream : M2TS_Mux_Stream :=
  { pid := 103, mpeg2_stream_type := GF_M2TS_AUDIO_LATM_AAC, mpeg2_stream_id := 0xC0,
    ifce_decoder_config := some (bitsOf 0x1210 16), ifce_repeat_rate := 500,
    pck := { data := [1, 2, 3], data_len := 3 } }

/-- An AAC stream without decoder configuration whose access unit has 8190 bytes. -/
def demo_aac_long : M2TS_Mux_Stream :=
  { pid := 103, mpeg2_stream_type := GF_M2TS_AUDIO_LATM_AAC, mpeg2_stream_id := 0xC0,
    pck := { data := List.replicate 8190 1, data_len := 8190 } }

/-- A stream whose access unit of 180 bytes, not the start of a PES packet, is due 10000
ticks after the first one. -/
def demo_schedule_stream : M2TS_Mux_Stream :=
  { pid := 102, initial_ts := 5000,
    pck := { data := List.replicate 180 1, data_len := 180, dts := 15000, cts := 15000 } }

/-- The configuration the LATM branch writes: the bits of the decoder configuration when
there is one and the repeat time has passed on the clock, `none` otherwise. -/
def latm_refresh (env : ES_Environment) (stream : M2TS_Mux_Stream) : Option (List Bool) :=
  match stream.ifce_decoder_config with
  | some cfg =>
    if u32 (stream.last_aac_time + stream.ifce_repeat_rate) < env.gf_sys_clock then some cfg
    else none
  | none => none

/-- The bits between the LATM header and the PayloadLengthInfo: `useSameStreamMux` 0 and
the mux configuration around the decoder configuration, or `useSameStreamMux` 1 alone. -/
def latm_mux_bits (refresh : Option (List Bool)) : List Bool :=
  match refresh with
  | some cfg =>
    bitsOf 0 1 ++ (bitsOf 0 1 ++ (bitsOf 1 1 ++ (bitsOf 0 6 ++ (bitsOf 0 4 ++ (bitsOf 0 3
      ++ (cfg ++ (bitsOf 0 3 ++ (bitsOf 0 8 ++ (bitsOf 0 1 ++ bitsOf 0 1)))))))))
  | none => bitsOf 1 1

/-- The bytes of the PayloadLengthInfo of an access unit of `n` bytes: `n / 255` bytes
0xFF, then one byte `n % 255`. -/
def latm_length_bytes (n : Nat) : List Nat := List.replicate (n / 255) 255 ++ [n % 255]

/-- The bits of a LATM frame after the 24 bits of its header: the mux bits, the
PayloadLengthInfo and the payload, completed with zero bits to a byte boundary. -/
def latm_body_bits (refresh : Option (List Bool)) (data : List Nat) : List Bool :=
  gf_bs_align (latm_mux_bits refresh ++ (bitsOfBytes (latm_length_bytes data.length)
    ++ bitsOfBytes data))

/-- The LATM frame of the specification: the sync word 0x2B7 on 11 bits, the 13-bit
length field holding the total size less 2 (modulo `2 ^ 13`), and the body. -/
def latm_frame (refresh : Option (List Bool)) (data : List Nat) : List Nat :=
  let body := bytesOfBits (latm_body_bits refresh data)
  [0x56, 224 + (body.length + 1) / 256 % 32, (body.length + 1) % 256] ++ body

/-- The 11-bit sync word of a LATM frame: byte 0 and the top 3 bits of byte 1. -/
def latm_sync_word (frame : List Nat) : Nat := frame.getD 0 0 * 8 + frame.getD 1 0 / 32

/-- The 13-bit length field of a LATM frame: the low 5 bits of byte 1, then byte 2. -/
def latm_length_field (frame : List Nat) : Nat :=
  frame.getD 1 0 % 32 * 256 + frame.getD 2 0

/-- The number of TS packets `m2ts_stream_process_stream` counts for an access unit of
`au_len` bytes with a PES header of `pes_hdr` bytes: the first packet is taken to hold
`184 - 8 - pes_hdr` bytes of it, room being kept for an adaptation field with a PCR, and
each further packet 184 bytes. -/
def nb_pck_spec (au_len pes_hdr : Nat) : Nat := 1 + (au_len + pes_hdr - 176 + 183) / 184

/-! ## Scheduling: inputs of the examples -/

/-- A callback of an elementary stream that leaves the stream as it is and returns
true. -/
def demo_process (_muxer : M2TS_Mux) (program : M2TS_Mux_Program) (stream : M2TS_Mux_Stream) :
    Option Process_Result :=
  some { program := program, stream := stream, res := true }

/-- A callback of an elementary stream that leaves the stream as it is and returns
false. -/
def demo_process_idle (_muxer : M2TS_Mux) (program : M2TS_Mux_Program)
    (stream : M2TS_Mux_Stream) : Option Process_Result :=
  some { program := program, stream := stream, res := false }

/-- A mux in real time whose clock origin 1000 ms stands for the mux time 0, now at mux
time 5 s. -/
def demo_mux_real_time : M2TS_Mux :=
  { bit_rate := 1000000, fixed_rate := true, real_time := true, init_sys_time := 1000,
    time := { sec := 5 } }

/-- A mux made by `m2ts_mux_new` at the given rate, at time 10 s, whose PAT is due at
20 s, with one program whose PMT is due at 30 s and whose only elementary stream is over
or not. -/
def demo_mux_idle (mux_rate : Nat) (over : Bool) : M2TS_Mux :=
  { m2ts_mux_new mux_rate false with
    time := { sec := 10 },
    pat := { time := { sec := 20 } },
    programs := [{ number := 1,
                   pmt := { pid := 100, time := { sec := 30 } },
                   streams := [{ pid := 101, GF_ESI_STREAM_IS_OVER := over }] }] }

/-! ## Scheduling: what the search guarantees -/

/-- What the search of `m2ts_mux_process` guarantees when it goes from the selection `sel`
to the selection `sel'` through the calls `vs`: no stream that returned true is
strictly earlier than the time selected; the time selected is not later than the one
the search started from; and either the selection is the one the search started from,
or it is a stream among the calls that returned true, whose time is the time selected
and is strictly earlier than the time the search started from. -/
def Search_Ok (sel sel' : Selection) (vs : List Visit) : Prop :=
  (∀ v ∈ vs, v.res = true → m2ts_time_less v.time sel'.time = false) ∧
  m2ts_time_less sel.time sel'.time = false ∧
  ((sel'.stream_to_process = sel.stream_to_process ∧ sel'.time = sel.time) ∨
    (∃ v ∈ vs, v.res = true ∧ sel'.stream_to_process = some v.ref ∧ sel'.time = v.time ∧
      m2ts_time_less v.time sel.time = true))

/-- The calls made on elementary streams that returned false with the stream over. -/
def visits_done (vs : List Visit) : List Visit := vs.filter fun v => !v.res && v.over

/-- The calls made on elementary streams. -/
def visits_es (vs : List Visit) : List Visit :=
  vs.filter fun v =>
    match v.ref with
    | Stream_Ref.es _ _ => true
    | _ => false

/-- The number of elementary streams of a list of programs. -/
def nb_es (programs : List M2TS_Mux_Program) : Nat :=
  (programs.map fun p => p.streams.length).sum

/-- The fields of the mux that the search of `m2ts_mux_process` leaves as they were. -/
def Mux_Kept (m m1 : M2TS_Mux) : Prop :=
  m1.time = m.time ∧ m1.null_pck = m.null_pck ∧ m1.dst_pck = m.dst_pck ∧
  m1.tot_pck_sent = m.tot_pck_sent ∧ m1.tot_pad_sent = m.tot_pad_sent ∧
  m1.fixed_rate = m.fixed_rate ∧ m1.real_time = m.real_time ∧
  m1.last_br_time = m.last_br_time ∧ m1.pck_sent_over_br_window = m.pck_sent_over_br_window

/-! ## Specifications of the push queue, of the MPEG-4 sections and of the CRC -/

/-- Specification of an access unit of the push queue: the access unit made of the
fragments `g`, in order. Its data is the concatenation of the data of the fragments, its
length the 32-bit sum of their lengths, each flag is set when a fragment has it, and
`cts` and `dts` are those of the first fragment. -/
def au_merge (g : List GF_ESIPacket) : M2TS_Packet :=
  { data := (g.map fun f => f.data.take f.data_len).flatten,
    data_len := g.foldl (fun n f => u32 (n + f.data_len)) 0,
    GF_ESI_DATA_AU_START := g.any fun f => f.GF_ESI_DATA_AU_START,
    GF_ESI_DATA_AU_RAP := g.any fun f => f.GF_ESI_DATA_AU_RAP,
    GF_ESI_DATA_HAS_CTS := g.any fun f => f.GF_ESI_DATA_HAS_CTS,
    GF_ESI_DATA_HAS_DTS := g.any fun f => f.GF_ESI_DATA_HAS_DTS,
    GF_ESI_DATA_AU_END := g.any fun f => f.GF_ESI_DATA_AU_END,
    cts := (g.head?.map fun f => f.cts).getD 0,
    dts := (g.head?.map fun f => f.dts).getD 0 }

/-- Specification of the grouping of fragments into access units, `cur` being the
fragments of the access unit in progress: a fragment starts a new access unit when it is
flagged `GF_ESI_DATA_AU_START` or when the fragment before it is flagged
`GF_ESI_DATA_AU_END` (and when there is no access unit in progress); otherwise it joins
the access unit in progress. -/
def au_groups_from : List GF_ESIPacket → List GF_ESIPacket → List (List GF_ESIPacket)
  | cur, [] =>
    match cur with
    | [] => []
    | _ :: _ => [cur]
  | cur, f :: rest =>
    match cur.getLast? with
    | none => au_groups_from [f] rest
    | some prev =>
      if prev.GF_ESI_DATA_AU_END || f.GF_ESI_DATA_AU_START then
        cur :: au_groups_from [f] rest
      else au_groups_from (cur ++ [f]) rest

/-- Specification: the access units of a sequence of fragments, as groups of
fragments. -/
def au_groups (fragments : List GF_ESIPacket) : List (List GF_ESIPacket) :=
  au_groups_from [] fragments

/-- The access units a stream holds: the queue from `pck_first` to `pck_last`, then the
access unit in progress `cur_pck`. -/
def stream_access_units (stream : M2TS_Mux_Stream) : List M2TS_Packet :=
  stream.pck_first ++ stream.cur_pck.toList

/-- Three fragments: the two halves of an access unit, and the start of the next. -/
def demo_fragments : List GF_ESIPacket :=
  [{ data := [1, 2], data_len := 2, GF_ESI_DATA_AU_START := true, cts := 10, dts := 5 },
   { data := [3], data_len := 1, GF_ESI_DATA_AU_END := true, cts := 77, dts := 66 },
   { data := [4, 5, 6], data_len := 3, GF_ESI_DATA_AU_RAP := true, cts := 20, dts := 15 }]

/-- Specification of the SL header of the section number `j` of an access unit spread
over `k` sections: the first section keeps the start flag of the stream, the last one
its end flag, and every other flag of these two is cleared. -/
def mpeg4_section_header (sl_header : GF_SLHeader) (k j : Nat) : GF_SLHeader :=
  { sl_header with
    accessUnitStartFlag := if j = 0 then sl_header.accessUnitStartFlag else false,
    accessUnitEndFlag := if j + 1 = k then sl_header.accessUnitEndFlag else false }

/-- Specification of the number of sections of an access unit of `n` bytes that does not
fit in one section: the first section takes 4084 bytes less the SL header of the stream,
every later one 4084 bytes less the SL header without the start flag. -/
def mpeg4_nb_sections (sl_get_header_size : GF_SLHeader → Nat) (sl_header : GF_SLHeader)
    (n : Nat) : Nat :=
  let first := 4084 - sl_get_header_size sl_header
  let next := 4084 - sl_get_header_size { sl_header with accessUnitStartFlag := false }
  1 + (n - first + next - 1) / next

/-- Specification of the section number `j` of an access unit spread over `k` sections,
`slice` being the part of the access unit it takes: after its header of eight bytes the
section holds the SL header of its number and the slice, then the CRC, and it declares
its own length. -/
def mpeg4_section (sl_packetize : GF_SLHeader → List Nat)
    (table_id table_id_extension version_number : Nat) (private_indicator : Bool) (k : Nat)
    (sl_header : GF_SLHeader) (j : Nat) (slice : List Nat) : M2TS_Mux_Section :=
  let slhdr := sl_packetize (mpeg4_section_header sl_header k j)
  let data := section_spec table_id table_id_extension version_number true
    private_indicator j (sub32 k 1) (slice.length + 12 + slhdr.length) slhdr slice
  { data := data, length := data.length }

/-- Specification of the sections of an access unit spread over `k` sections, from the
section number `j` on, one section for each slice. -/
def mpeg4_sections_of (sl_packetize : GF_SLHeader → List Nat)
    (table_id table_id_extension version_number : Nat) (private_indicator : Bool) (k : Nat)
    (sl_header : GF_SLHeader) : Nat → List (List Nat) → List M2TS_Mux_Section
  | _, [] => []
  | j, slice :: rest =>
    mpeg4_section sl_packetize table_id table_id_extension version_number private_indicator
        k sl_header j slice
      :: mpeg4_sections_of sl_packetize table_id table_id_extension version_number
          private_indicator k sl_header (j + 1) rest

/-- An SL header writer for the examples: one byte that carries the start flag and the
end flag. -/
def demo_sl_packetize (hdr : GF_SLHeader) : List Nat :=
  [128 * hdr.accessUnitStartFlag.toNat + 64 * hdr.accessUnitEndFlag.toNat]

/-- A stream whose SL header has both flags set, as `m2ts_stream_process_stream` leaves
it for a complete access unit. -/
def demo_sl_stream : M2TS_Mux_Stream :=
  { pid := 101, sl_header := { accessUnitStartFlag := true, accessUnitEndFlag := true } }

/-- The size of the headers of `demo_sl_packetize`. -/
def demo_sl_size (_hdr : GF_SLHeader) : Nat := 1

/-- Specification of the CRC of a section: the last four bytes are the MPEG-2 CRC32 of
the bytes before them, most significant byte first. -/
def section_crc_ok (data : List Nat) : Prop :=
  4 ≤ data.length ∧
  data.drop (data.length - 4) = crc_bytes (gf_crc_32 (data.take (data.length - 4)))

theorem bitsOf_length (v n : Nat) : (bitsOf v n).length = n := by
  induction n with
  | zero => rfl
  | succ n ih => simp [bitsOf, ih]

theorem bitsOf_mod (v n : Nat) : bitsOf (v % 2 ^ n) n = bitsOf v n := by
  have h : ∀ k, k ≤ n → bitsOf (v % 2 ^ n) k = bitsOf v k := by
    intro k
    induction k with
    | zero => intro _; rfl
    | succ k ih =>
      intro hk
      simp only [bitsOf]
      rw [ih (by omega), Nat.testBit_mod_two_pow]
      simp [show k < n by omega]
  exact h n (le_refl n)

theorem bitsOf_split (v m n : Nat) :
    bitsOf v (m + n) = bitsOf (v / 2 ^ n) m ++ bitsOf v n := by
  induction m with
  | zero => simp [bitsOf]
  | succ m ih =>
    have e : m + 1 + n = (m + n) + 1 := by omega
    rw [e]
    simp only [bitsOf, List.cons_append]
    rw [ih, ← Nat.shiftRight_eq_div_pow, Nat.testBit_shiftRight, Nat.add_comm n m]

theorem bitsOf_merge (a b m n : Nat) :
    bitsOf a m ++ bitsOf b n = bitsOf (a * 2 ^ n + b % 2 ^ n) (m + n) := by
  rw [bitsOf_split]
  have h1 : (a * 2 ^ n + b % 2 ^ n) / 2 ^ n = a := by
    rw [Nat.add_comm, Nat.add_mul_div_right _ _ (Nat.two_pow_pos n),
      Nat.div_eq_of_lt (Nat.mod_lt _ (Nat.two_pow_pos n))]
    simp
  have h2 : bitsOf (a * 2 ^ n + b % 2 ^ n) n = bitsOf b n := by
    rw [← bitsOf_mod (a * 2 ^ n + b % 2 ^ n), Nat.add_comm,
      Nat.add_mul_mod_self_right, Nat.mod_mod, bitsOf_mod]
  rw [h1, h2]

theorem byteOfBits_bitsOf (v : Nat) :
    byteOfBits (v.testBit 7) (v.testBit 6) (v.testBit 5) (v.testBit 4)
      (v.testBit 3) (v.testBit 2) (v.testBit 1) (v.testBit 0) = v % 256 := by
  simp only [byteOfBits, Nat.toNat_testBit]
  norm_num
  omega

theorem byteOfBits_testBit (v k : Nat) :
    byteOfBits (v.testBit (k + 7)) (v.testBit (k + 6)) (v.testBit (k + 5)) (v.testBit (k + 4))
      (v.testBit (k + 3)) (v.testBit (k + 2)) (v.testBit (k + 1)) (v.testBit k)
      = v / 2 ^ k % 256 := by
  have h := byteOfBits_bitsOf (v >>> k)
  simp only [Nat.testBit_shiftRight, Nat.add_zero] at h
  rw [Nat.shiftRight_eq_div_pow] at h
  exact h

theorem bytesOfBits_bitsOf8 (v : Nat) (rest : List Bool) :
    bytesOfBits (bitsOf v 8 ++ rest) = v % 256 :: bytesOfBits rest := by
  simp only [bitsOf, List.cons_append, List.nil_append, bytesOfBits, byteOfBits_bitsOf]
  rfl

theorem bytesOfBits_bitsOfBytes (l : List Nat) (rest : List Bool) :
    bytesOfBits (bitsOfBytes l ++ rest) = l.map (· % 256) ++ bytesOfBits rest := by
  induction l with
  | nil => simp [bitsOfBytes]
  | cons b l ih => simp [bitsOfBytes, List.append_assoc, bytesOfBits_bitsOf8, ih]

theorem map_mod_replicate (n : Nat) :
    (List.replicate n 255).map (· % 256) = List.replicate n 255 := by
  simp

theorem bytesOfBits_ts_header (pusi pid afc cc : Nat) (rest : List Bool) :
    bytesOfBits (bitsOf 0x47 8 ++ (bitsOf 0 1 ++ (bitsOf pusi 1 ++ (bitsOf 0 1 ++
      (bitsOf pid 13 ++ (bitsOf 0 2 ++ (bitsOf afc 2 ++ (bitsOf cc 4 ++ rest))))))))
    = ts_header 0 (pusi % 2) 0 pid 0 (afc % 4) cc ++ bytesOfBits rest := by
  simp only [bitsOf, List.cons_append, List.nil_append, bytesOfBits, ts_header]
  have h2 := byteOfBits_bitsOf pid
  rw [h2]
  simp only [byteOfBits, Nat.toNat_testBit, List.cons.injEq, and_true, List.singleton_append,
    List.cons_append, List.nil_append, true_and]
  norm_num
  refine ⟨?_, ?_⟩ <;> omega

theorem bytesOfBits_pcr (base ext : Nat) (rest : List Bool) :
    bytesOfBits (bitsOf base 33 ++ (bitsOf 0 6 ++ (bitsOf ext 9 ++ rest)))
      = [base / 33554432 % 256, base / 131072 % 256, base / 512 % 256, base / 2 % 256,
          128 * (base % 2) + ext / 256 % 2, ext % 256] ++ bytesOfBits rest := by
  simp only [bitsOf, List.cons_append, List.nil_append, bytesOfBits]
  have h1 := byteOfBits_testBit base 25
  have h2 := byteOfBits_testBit base 17
  have h3 := byteOfBits_testBit base 9
  have h4 := byteOfBits_testBit base 1
  have h5 := byteOfBits_bitsOf ext
  norm_num at h1 h2 h3 h4
  rw [h1, h2, h3, h4, h5]
  simp only [byteOfBits, Nat.toNat_testBit, List.cons.injEq, and_true, List.singleton_append,
    List.cons_append, List.nil_append, true_and]
  norm_num

theorem bytesOfBits_af_flags (r p : Nat) (rest : List Bool) :
    bytesOfBits (bitsOf 0 1 ++ (bitsOf r 1 ++ (bitsOf 0 1 ++ (bitsOf p 1 ++ (bitsOf 0 1 ++
      (bitsOf 0 1 ++ (bitsOf 0 1 ++ (bitsOf 0 1 ++ rest))))))))
      = (64 * (r % 2) + 16 * (p % 2)) :: bytesOfBits rest := by
  simp only [bitsOf, List.cons_append, List.nil_append, bytesOfBits, byteOfBits,
    Nat.toNat_testBit, List.cons.injEq, and_true]
  norm_num

theorem m2ts_add_adaptation_eq (bs : List Bool) (has_pcr : Bool) (pcr_time : Nat)
    (is_rap : Bool) (padding_length : Nat) (hpcr : pcr_time < 18446744073709551616) :
    m2ts_add_adaptation bs has_pcr pcr_time is_rap padding_length
      = bs ++ (bitsOf (1 + (if has_pcr then 6 else 0) + padding_length) 8 ++ (bitsOf 0 1
          ++ (bitsOf is_rap.toNat 1 ++ (bitsOf 0 1 ++ (bitsOf has_pcr.toNat 1 ++ (bitsOf 0 1
          ++ (bitsOf 0 1 ++ (bitsOf 0 1 ++ (bitsOf 0 1 ++
          ((if has_pcr then bitsOf (pcr_time / 300) 33 ++ (bitsOf 0 6
              ++ bitsOf (pcr_time % 300) 9) else [])
          ++ bitsOfBytes (List.replicate padding_length 255))))))))))) := by
  have hext : (pcr_time + 18446744073709551616 - pcr_time / 300 * 300 % 18446744073709551616)
      % 18446744073709551616 = pcr_time % 300 := by omega
  cases has_pcr <;>
    simp [m2ts_add_adaptation, gf_bs_write_int, gf_bs_write_data, ADAPTATION_FLAGS_LENGTH,
      gf_bs_write_long_int, PCR_LENGTH, hext, List.append_assoc]

theorem bytesOfBits_adaptation (has_pcr : Bool) (pcr_time : Nat)
    (is_rap : Bool) (padding_length : Nat) (rest : List Bool) :
    bytesOfBits (bitsOf (1 + (if has_pcr then 6 else 0) + padding_length) 8 ++ (bitsOf 0 1
          ++ (bitsOf is_rap.toNat 1 ++ (bitsOf 0 1 ++ (bitsOf has_pcr.toNat 1 ++ (bitsOf 0 1
          ++ (bitsOf 0 1 ++ (bitsOf 0 1 ++ (bitsOf 0 1 ++
          ((if has_pcr then bitsOf (pcr_time / 300) 33 ++ (bitsOf 0 6
              ++ bitsOf (pcr_time % 300) 9) else [])
          ++ (bitsOfBytes (List.replicate padding_length 255) ++ rest)))))))))))
      = adaptation_field has_pcr pcr_time is_rap padding_length ++ bytesOfBits rest := by
  rw [bytesOfBits_bitsOf8, bytesOfBits_af_flags]
  cases has_pcr
  · cases is_rap <;>
      simp [adaptation_field, bytesOfBits_bitsOfBytes]
  · simp only [if_true, List.append_assoc]
    rw [bytesOfBits_pcr, bytesOfBits_bitsOfBytes, map_mod_replicate]
    cases is_rap <;> simp [adaptation_field, pcr_field]

theorem bytesOfBits_length (l : List Bool) : (bytesOfBits l).length = (l.length + 7) / 8 := by
  induction l using bytesOfBits.induct with
  | case1 b7 b6 b5 b4 b3 b2 b1 b0 rest ih =>
    simp only [bytesOfBits, List.length_cons, ih]
    omega
  | case2 => simp [bytesOfBits]
  | case3 => simp [bytesOfBits]
  | case4 => simp [bytesOfBits]
  | case5 => simp [bytesOfBits]
  | case6 => simp [bytesOfBits]
  | case7 => simp [bytesOfBits]
  | case8 => simp [bytesOfBits]
  | case9 => rfl

theorem bytesOfBits_append (a b : List Bool) (h : a.length % 8 = 0) :
    bytesOfBits (a ++ b) = bytesOfBits a ++ bytesOfBits b := by
  induction a using bytesOfBits.induct with
  | case1 b7 b6 b5 b4 b3 b2 b1 b0 rest ih =>
    simp only [List.length_cons] at h
    have e := ih (by omega)
    simp only [bytesOfBits, List.cons_append, List.cons.injEq, true_and]
    exact e
  | case2 => simp at h
  | case3 => simp at h
  | case4 => simp at h
  | case5 => simp at h
  | case6 => simp at h
  | case7 => simp at h
  | case8 => simp at h
  | case9 => simp [bytesOfBits]

theorem sub32_eq (a b : Nat) (ha : a < 4294967296) (hb : b ≤ a) : sub32 a b = a - b := by
  unfold sub32; omega

theorem u32_eq (a : Nat) (ha : a < 4294967296) : u32 a = a := by
  unfold u32; omega

theorem packet_assemble (packet head tail : List Nat) (hp : packet.length = 188)
    (h : head.length + tail.length = 188) :
    memcpy ((head ++ packet.drop head.length).take packet.length) (188 - tail.length) tail
      = head ++ tail := by
  have h1 : (head ++ packet.drop head.length).length = packet.length := by
    simp only [List.length_append, List.length_drop]; omega
  rw [← h1, List.take_length]
  unfold memcpy
  have h2 : 188 - tail.length = head.length := by omega
  rw [h2, List.take_left']
  · rw [List.drop_eq_nil_of_le]
    · simp
    · simp only [List.length_append, List.length_drop]; omega
  · rfl

theorem adaptation_field_length (has_pcr : Bool) (pcr_time : Nat) (is_rap : Bool)
    (padding_length : Nat) :
    (adaptation_field has_pcr pcr_time is_rap padding_length).length
      = 2 + (if has_pcr then 6 else 0) + padding_length := by
  cases has_pcr <;> simp [adaptation_field, pcr_field] <;> omega

theorem bytesOfBits_byte (v : Nat) : bytesOfBits (bitsOf v 8) = [v % 256] := by
  have := bytesOfBits_bitsOf8 v []
  simpa [bytesOfBits] using this

/-- The eight writes that open a TS packet give a whole number of bytes, the header. -/
theorem ts_header_writes (pusi pid afc cc : Nat) :
    (gf_bs_write_int (gf_bs_write_int (gf_bs_write_int (gf_bs_write_int (gf_bs_write_int
      (gf_bs_write_int (gf_bs_write_int (gf_bs_write_int [] 0x47 8) 0 1) pusi 1) 0 1) pid 13)
      0 2) afc 2) cc 4).length % 8 = 0 ∧
    bytesOfBits (gf_bs_write_int (gf_bs_write_int (gf_bs_write_int (gf_bs_write_int
      (gf_bs_write_int (gf_bs_write_int (gf_bs_write_int (gf_bs_write_int [] 0x47 8) 0 1)
      pusi 1) 0 1) pid 13) 0 2) afc 2) cc 4) = ts_header 0 (pusi % 2) 0 pid 0 (afc % 4) cc := by
  constructor
  · simp [gf_bs_write_int, bitsOf_length]
  · simp only [gf_bs_write_int, List.nil_append, List.append_assoc]
    rw [← List.append_nil (bitsOf cc 4), bytesOfBits_ts_header]
    simp [bytesOfBits]

/-- The bytes an adaptation field adds to a byte-aligned writer. -/
theorem bytesOfBits_add_adaptation (bs rest : List Bool) (has_pcr : Bool) (pcr_time : Nat)
    (is_rap : Bool) (padding_length : Nat) (hal : bs.length % 8 = 0)
    (hpcr : pcr_time < 18446744073709551616) :
    bytesOfBits (m2ts_add_adaptation bs has_pcr pcr_time is_rap padding_length ++ rest)
      = bytesOfBits bs ++ (adaptation_field has_pcr pcr_time is_rap padding_length
          ++ bytesOfBits rest) := by
  rw [m2ts_add_adaptation_eq _ _ _ _ _ hpcr, List.append_assoc, bytesOfBits_append _ _ hal]
  congr 1
  simp only [List.append_assoc]
  rw [bytesOfBits_adaptation]

theorem m2ts_add_adaptation_length (bs : List Bool) (has_pcr : Bool) (pcr_time : Nat)
    (is_rap : Bool) (padding_length : Nat) (hpcr : pcr_time < 18446744073709551616) :
    (m2ts_add_adaptation bs has_pcr pcr_time is_rap padding_length).length
      = bs.length + 8 * (2 + (if has_pcr then 6 else 0) + padding_length) := by
  have hb : ∀ l : List Nat, (bitsOfBytes l).length = 8 * l.length := by
    intro l
    induction l with
    | nil => rfl
    | cons b l ih => simp only [bitsOfBytes, List.length_append, bitsOf_length, ih,
        List.length_cons]; omega
  rw [m2ts_add_adaptation_eq _ _ _ _ _ hpcr]
  cases has_pcr <;> simp [bitsOf_length, hb] <;> omega

/-- A section packet, from the bits of its head and the bytes of its tail. -/
theorem table_packet_assemble (packet : List Nat) (pusi pid afc cc padding_length : Nat)
    (with_af with_ptr : Bool) (tail : List Nat) (hp : packet.length = 188)
    (h : 4 + (if with_af then 2 + padding_length else 0) + (if with_ptr then 1 else 0)
      + tail.length = 188) :
    memcpy (bs_store packet
      (let bs := gf_bs_write_int (gf_bs_write_int (gf_bs_write_int (gf_bs_write_int
          (gf_bs_write_int (gf_bs_write_int (gf_bs_write_int (gf_bs_write_int [] 0x47 8) 0 1)
          pusi 1) 0 1) pid 13) 0 2) afc 2) cc 4
       let bs := if with_af then m2ts_add_adaptation bs false 0 false padding_length else bs
       if with_ptr then gf_bs_write_u8 bs 0 else bs)) (188 - tail.length) tail
    = ts_header 0 (pusi % 2) 0 pid 0 (afc % 4) cc
        ++ (if with_af then adaptation_field false 0 false padding_length else [])
        ++ (if with_ptr then [0] else []) ++ tail := by
  obtain ⟨hal, hby⟩ := ts_header_writes pusi pid afc cc
  have hts : (ts_header 0 (pusi % 2) 0 pid 0 (afc % 4) cc).length = 4 := rfl
  have key : bytesOfBits
      (let bs := gf_bs_write_int (gf_bs_write_int (gf_bs_write_int (gf_bs_write_int
          (gf_bs_write_int (gf_bs_write_int (gf_bs_write_int (gf_bs_write_int [] 0x47 8) 0 1)
          pusi 1) 0 1) pid 13) 0 2) afc 2) cc 4
       let bs := if with_af then m2ts_add_adaptation bs false 0 false padding_length else bs
       if with_ptr then gf_bs_write_u8 bs 0 else bs)
      = ts_header 0 (pusi % 2) 0 pid 0 (afc % 4) cc
        ++ (if with_af then adaptation_field false 0 false padding_length else [])
        ++ (if with_ptr then [0] else []) := by
    simp only []
    generalize gf_bs_write_int (gf_bs_write_int (gf_bs_write_int (gf_bs_write_int
          (gf_bs_write_int (gf_bs_write_int (gf_bs_write_int (gf_bs_write_int [] 0x47 8) 0 1)
          pusi 1) 0 1) pid 13) 0 2) afc 2) cc 4 = H at hal hby
    cases with_af <;> cases with_ptr <;>
      simp only [if_true, if_false, Bool.false_eq_true, List.append_nil, gf_bs_write_u8,
        gf_bs_write_int]
    · exact hby
    · rw [bytesOfBits_append _ _ hal, hby, bytesOfBits_byte]
    · have := bytesOfBits_add_adaptation H [] false 0 false padding_length hal (by decide)
      simp only [List.append_nil, bytesOfBits] at this
      rw [this, hby]
    · rw [bytesOfBits_add_adaptation H _ false 0 false padding_length hal (by decide), hby,
        bytesOfBits_byte, List.append_assoc]
  unfold bs_store
  rw [key]
  apply packet_assemble _ _ _ hp
  cases with_af <;> cases with_ptr <;>
    simp only [if_true, if_false, Bool.false_eq_true, List.length_append, hts,
      adaptation_field_length, List.length_nil, List.length_singleton] at h ⊢ <;> omega

theorem write_timestamp_eq (bs : List Bool) (prefix4 ts : Nat) :
    write_timestamp bs prefix4 ts = bs ++ write_timestamp [] prefix4 ts := by
  simp [write_timestamp, gf_bs_write_int, gf_bs_write_long_int, List.append_assoc]

theorem write_timestamp_length (prefix4 ts : Nat) :
    (write_timestamp [] prefix4 ts).length = 40 := by
  simp [write_timestamp, gf_bs_write_int, gf_bs_write_long_int, bitsOf_length]

theorem m2ts_stream_add_pes_header_eq (bs : List Bool) (stream : M2TS_Mux_Stream) :
    m2ts_stream_add_pes_header bs stream = bs ++ m2ts_stream_add_pes_header [] stream := by
  unfold m2ts_stream_add_pes_header
  cases stream.pck.GF_ESI_DATA_HAS_CTS <;> cases stream.pck.GF_ESI_DATA_HAS_DTS <;>
    simp only [gf_bs_write_int, gf_bs_write_u8, if_true, if_false, Bool.false_eq_true,
      List.nil_append, List.append_assoc, write_timestamp_eq (_ ++ _)]

theorem m2ts_stream_add_pes_header_length (stream : M2TS_Mux_Stream) :
    (m2ts_stream_add_pes_header [] stream).length
      = 8 * (9 + (if stream.pck.GF_ESI_DATA_HAS_CTS then 5 else 0)
          + (if stream.pck.GF_ESI_DATA_HAS_DTS then 5 else 0)) := by
  unfold m2ts_stream_add_pes_header
  cases stream.pck.GF_ESI_DATA_HAS_CTS <;> cases stream.pck.GF_ESI_DATA_HAS_DTS <;>
    simp only [gf_bs_write_int, gf_bs_write_u8, if_true, if_false, Bool.false_eq_true,
      List.nil_append, List.length_append, bitsOf_length, write_timestamp_eq (_ ++ _),
      write_timestamp_length]

theorem pes_header_bytes_length (stream : M2TS_Mux_Stream) :
    (pes_header_bytes stream).length
      = 9 + (if stream.pck.GF_ESI_DATA_HAS_CTS then 5 else 0)
          + (if stream.pck.GF_ESI_DATA_HAS_DTS then 5 else 0) := by
  unfold pes_header_bytes gf_bs_get_content
  rw [bytesOfBits_length, m2ts_stream_add_pes_header_length]
  omega

/-- A PES packet, from the bits of its head and the bytes of its tail. -/
theorem pes_packet_assemble (packet : List Nat) (pusi pid afc cc padding_length pcr : Nat)
    (with_af has_pcr is_rap with_hdr : Bool) (stream : M2TS_Mux_Stream) (tail : List Nat)
    (hp : packet.length = 188) (hpcr : pcr < 18446744073709551616)
    (h : 4 + (if with_af then 2 + (if has_pcr then 6 else 0) + padding_length else 0)
      + (if with_hdr then (pes_header_bytes stream).length else 0) + tail.length = 188) :
    memcpy (bs_store packet
      (let bs := gf_bs_write_int (gf_bs_write_int (gf_bs_write_int (gf_bs_write_int
          (gf_bs_write_int (gf_bs_write_int (gf_bs_write_int (gf_bs_write_int [] 0x47 8) 0 1)
          pusi 1) 0 1) pid 13) 0 2) afc 2) cc 4
       let bs :=
         if with_af then m2ts_add_adaptation bs has_pcr pcr is_rap padding_length else bs
       if with_hdr then m2ts_stream_add_pes_header bs stream else bs)) (188 - tail.length) tail
    = ts_header 0 (pusi % 2) 0 pid 0 (afc % 4) cc
        ++ (if with_af then adaptation_field has_pcr pcr is_rap padding_length else [])
        ++ (if with_hdr then pes_header_bytes stream else []) ++ tail := by
  obtain ⟨hal, hby⟩ := ts_header_writes pusi pid afc cc
  have hts : (ts_header 0 (pusi % 2) 0 pid 0 (afc % 4) cc).length = 4 := rfl
  have key : bytesOfBits
      (let bs := gf_bs_write_int (gf_bs_write_int (gf_bs_write_int (gf_bs_write_int
          (gf_bs_write_int (gf_bs_write_int (gf_bs_write_int (gf_bs_write_int [] 0x47 8) 0 1)
          pusi 1) 0 1) pid 13) 0 2) afc 2) cc 4
       let bs :=
         if with_af then m2ts_add_adaptation bs has_pcr pcr is_rap padding_length else bs
       if with_hdr then m2ts_stream_add_pes_header bs stream else bs)
      = ts_header 0 (pusi % 2) 0 pid 0 (afc % 4) cc
        ++ (if with_af then adaptation_field has_pcr pcr is_rap padding_length else [])
        ++ (if with_hdr then pes_header_bytes stream else []) := by
    simp only []
    generalize gf_bs_write_int (gf_bs_write_int (gf_bs_write_int (gf_bs_write_int
          (gf_bs_write_int (gf_bs_write_int (gf_bs_write_int (gf_bs_write_int [] 0x47 8) 0 1)
          pusi 1) 0 1) pid 13) 0 2) afc 2) cc 4 = H at hal hby
    cases with_af <;> cases with_hdr <;>
      simp only [if_true, if_false, Bool.false_eq_true, List.append_nil]
    · exact hby
    · rw [m2ts_stream_add_pes_header_eq, bytesOfBits_append _ _ hal, hby]
      rfl
    · have := bytesOfBits_add_adaptation H [] has_pcr pcr is_rap padding_length hal hpcr
      simp only [List.append_nil, bytesOfBits] at this
      rw [this, hby]
    · rw [m2ts_stream_add_pes_header_eq,
        bytesOfBits_add_adaptation H _ has_pcr pcr is_rap padding_length hal hpcr, hby,
        List.append_assoc]
      rfl
  unfold bs_store
  rw [key]
  apply packet_assemble _ _ _ hp
  cases with_af <;> cases with_hdr <;>
    simp only [if_true, if_false, Bool.false_eq_true, List.length_append, hts,
      adaptation_field_length, List.length_nil] at h ⊢ <;> omega

theorem bytesOfBits_bitsOf16 (v : Nat) (rest : List Bool) :
    bytesOfBits (bitsOf v 16 ++ rest) = v / 256 % 256 :: v % 256 :: bytesOfBits rest := by
  rw [show (16 : Nat) = 8 + 8 from rfl, bitsOf_split, List.append_assoc, bytesOfBits_bitsOf8,
    bytesOfBits_bitsOf8]
  rfl

theorem bytesOfBits_bitsOf24 (v : Nat) (rest : List Bool) :
    bytesOfBits (bitsOf v 24 ++ rest)
      = v / 65536 % 256 :: v / 256 % 256 :: v % 256 :: bytesOfBits rest := by
  rw [show (24 : Nat) = 8 + 16 from rfl, bitsOf_split, List.append_assoc, bytesOfBits_bitsOf8,
    bytesOfBits_bitsOf16]
  rfl

theorem bytesOfBits_bitsOf32 (v : Nat) (rest : List Bool) :
    bytesOfBits (bitsOf v 32 ++ rest)
      = v / 16777216 % 256 :: v / 65536 % 256 :: v / 256 % 256 :: v % 256
        :: bytesOfBits rest := by
  rw [show (32 : Nat) = 8 + 24 from rfl, bitsOf_split, List.append_assoc, bytesOfBits_bitsOf8,
    bytesOfBits_bitsOf24]
  rfl

/-- Two bit fields that fill one byte. -/
theorem bytesOfBits_merge2 (a b m n : Nat) (rest : List Bool) (h : m + n = 8) :
    bytesOfBits (bitsOf a m ++ (bitsOf b n ++ rest))
      = (a * 2 ^ n + b % 2 ^ n) % 256 :: bytesOfBits rest := by
  rw [← List.append_assoc, bitsOf_merge, h, bytesOfBits_bitsOf8]

/-- Two bit fields that fill two bytes. -/
theorem bytesOfBits_merge2_16 (a b m n : Nat) (rest : List Bool) (h : m + n = 16) :
    bytesOfBits (bitsOf a m ++ (bitsOf b n ++ rest))
      = (a * 2 ^ n + b % 2 ^ n) / 256 % 256 :: (a * 2 ^ n + b % 2 ^ n) % 256
        :: bytesOfBits rest := by
  rw [← List.append_assoc, bitsOf_merge, h, bytesOfBits_bitsOf16]

/-- Three bit fields that fill one byte. -/
theorem bytesOfBits_merge3 (a b c m n k : Nat) (rest : List Bool) (h : m + n + k = 8) :
    bytesOfBits (bitsOf a m ++ (bitsOf b n ++ (bitsOf c k ++ rest)))
      = ((a * 2 ^ n + b % 2 ^ n) * 2 ^ k + c % 2 ^ k) % 256 :: bytesOfBits rest := by
  rw [← List.append_assoc, bitsOf_merge, bytesOfBits_merge2 _ _ _ _ _ h]

theorem and_7 (x : Nat) : x &&& 0x7 = x % 8 := Nat.and_pow_two_sub_one_eq_mod x 3

theorem and_7fff (x : Nat) : x &&& 0x7fff = x % 32768 := Nat.and_pow_two_sub_one_eq_mod x 15

/-- The bytes of a PTS or DTS field written by `write_timestamp`. -/
theorem bytesOfBits_write_timestamp (prefix4 ts : Nat) (rest : List Bool) :
    bytesOfBits (write_timestamp [] prefix4 ts ++ rest)
      = timestamp_field prefix4 ts ++ bytesOfBits rest := by
  simp only [write_timestamp, gf_bs_write_int, gf_bs_write_long_int, List.nil_append,
    List.append_assoc, and_7, and_7fff, Nat.shiftRight_eq_div_pow]
  rw [bytesOfBits_merge3 _ _ _ 4 3 1 _ rfl, bytesOfBits_merge2_16 _ _ 15 1 _ rfl,
    bytesOfBits_merge2_16 _ _ 15 1 _ rfl]
  simp only [timestamp_field, List.cons_append, List.nil_append, List.cons.injEq, and_true]
  norm_num
  refine ⟨?_, ?_, ?_, ?_, ?_⟩ <;> omega

theorem bytesOfBits_write_timestamp_nil (prefix4 ts : Nat) :
    bytesOfBits (write_timestamp [] prefix4 ts) = timestamp_field prefix4 ts := by
  have h := bytesOfBits_write_timestamp prefix4 ts []
  rw [List.append_nil] at h
  rw [h]
  exact List.append_nil _

theorem bytesOfBits_pes_flags (p d : Nat) (rest : List Bool) :
    bytesOfBits (bitsOf 2 2 ++ (bitsOf 0 2 ++ (bitsOf 0 1 ++ (bitsOf 1 1 ++ (bitsOf 0 1 ++
      (bitsOf 0 1 ++ (bitsOf p 1 ++ (bitsOf d 1 ++ (bitsOf 0 6 ++ rest)))))))))
      = 0x84 :: (128 * (p % 2) + 64 * (d % 2)) :: bytesOfBits rest := by
  simp only [bitsOf, List.cons_append, List.nil_append, bytesOfBits, byteOfBits,
    Nat.toNat_testBit, List.cons.injEq, and_true]
  norm_num

/-- The PES header, byte by byte. -/
theorem pes_header_bytes_eq (stream : M2TS_Mux_Stream) :
    pes_header_bytes stream = pes_header_spec stream := by
  have hlen : ∀ x : Nat, x % 4294967296 / 256 % 256 = x / 256 % 256 ∧
      x % 4294967296 % 256 = x % 256 := fun x => by omega
  unfold pes_header_bytes pes_header_spec gf_bs_get_content m2ts_stream_add_pes_header
  cases stream.pck.GF_ESI_DATA_HAS_CTS <;> cases stream.pck.GF_ESI_DATA_HAS_DTS <;>
    simp only [gf_bs_write_int, gf_bs_write_u8, if_true, if_false, Bool.false_eq_true,
      List.nil_append, List.append_assoc, write_timestamp_eq (_ ++ _), Bool.toNat_false,
      Bool.toNat_true, u32] <;>
    rw [bytesOfBits_bitsOf24, bytesOfBits_bitsOf8, bytesOfBits_bitsOf16,
      bytesOfBits_pes_flags]
  · rw [bytesOfBits_byte]
    simp only [List.cons_append, List.nil_append, List.append_nil, List.cons.injEq, and_true]
    norm_num
    omega
  · rw [bytesOfBits_bitsOf8, bytesOfBits_write_timestamp_nil]
    simp only [List.cons_append, List.nil_append, List.append_nil, List.cons.injEq, and_true]
    norm_num
    omega
  · rw [bytesOfBits_bitsOf8, bytesOfBits_write_timestamp_nil]
    simp only [List.cons_append, List.nil_append, List.append_nil, List.cons.injEq, and_true]
    norm_num
    omega
  · rw [bytesOfBits_bitsOf8, bytesOfBits_write_timestamp, bytesOfBits_write_timestamp_nil]
    simp only [List.cons_append, List.nil_append, List.append_nil, List.cons.injEq, and_true]
    norm_num
    omega

/-! ## Time -/

theorem m2ts_time_carry_once (t : M2TS_Time) (h : t.nanosec < 2000000000) :
    m2ts_time_carry 5 t =
      if t.nanosec ≥ 1000000000 then
        { sec := u32 (t.sec + 1), nanosec := t.nanosec - 1000000000 }
      else t := by
  by_cases h1 : t.nanosec ≥ 1000000000
  · have h2 : ¬ (t.nanosec - 1000000000 ≥ 1000000000) := by omega
    simp [m2ts_time_carry, h1, h2]
  · simp [m2ts_time_carry, h1]

theorem time_split (num den c : Nat) (hden : 0 < den) :
    num * c / den = num / den * c + num % den * c / den := by
  have h := Nat.div_add_mod num den
  have h2 : num * c = num % den * c + den * (num / den * c) := by
    conv_lhs => rw [← h]
    ring
  rw [h2, Nat.add_mul_div_left _ _ hden]
  omega

theorem time_rem (num den : Nat) (hden : 0 < den) (hq : num / den ≠ 0) (hnum : num < 4294967296) :
    num % u32 (num / den * den) = num % den := by
  have h := Nat.div_add_mod num den
  have hr := Nat.mod_lt num hden
  have hle : num / den * den ≤ num := Nat.div_mul_le_self num den
  have hpos : den ≤ num / den * den := Nat.le_mul_of_pos_left den (Nat.pos_of_ne_zero hq)
  have hu : u32 (num / den * den) = num / den * den := by
    unfold u32; exact Nat.mod_eq_of_lt (by omega)
  rw [hu, Nat.mod_eq_sub_mod hle]
  have h3 : num - num / den * den = num % den := by
    rw [Nat.mul_comm] ; omega
  rw [h3]
  exact Nat.mod_eq_of_lt (by omega)

theorem time_frac_lt (r den c : Nat) (hr : r < den) : r * c / den < c ∨ c = 0 := by
  rcases Nat.eq_zero_or_pos c with hc | hc
  · right; exact hc
  · left
    rw [Nat.div_lt_iff_lt_mul (by omega)]
    exact Nat.mul_lt_mul_of_pos_right hr hc |>.trans_le (by rw [Nat.mul_comm])

theorem m2ts_time_inc_eq (t : M2TS_Time) (num den : Nat) (hsec : t.sec < 4294967296)
    (hns : t.nanosec < 1000000000) (hnum : num < 4294967296) (hden : 0 < den) :
    m2ts_time_inc t num den =
      if t.nanosec + num % den * 1000000000 / den ≥ 1000000000 then
        { sec := u32 (u32 (t.sec + num / den) + 1),
          nanosec := t.nanosec + num % den * 1000000000 / den - 1000000000 }
      else { sec := u32 (t.sec + num / den),
             nanosec := t.nanosec + num % den * 1000000000 / den } := by
  have hr := Nat.mod_lt num hden
  have hf : num % den * 1000000000 / den < 1000000000 := by
    rcases time_frac_lt (num % den) den 1000000000 hr with h | h
    · exact h
    · omega
  have hrle : num % den ≤ num := Nat.mod_le num den
  have hw : num % den * 1000000000 % 18446744073709551616 = num % den * 1000000000 := by
    apply Nat.mod_eq_of_lt
    omega
  have hu : u32 (num % den * 1000000000 / den) = num % den * 1000000000 / den := by
    unfold u32; exact Nat.mod_eq_of_lt (by omega)
  have hu2 : u32 (t.nanosec + num % den * 1000000000 / den)
      = t.nanosec + num % den * 1000000000 / den := by
    unfold u32; exact Nat.mod_eq_of_lt (by omega)
  unfold m2ts_time_inc
  rw [if_neg (by omega)]
  by_cases hq : num / den = 0
  · have hlt : num % den = num := by
      have := Nat.div_add_mod num den
      rw [hq] at this
      omega
    have hs : u32 t.sec = t.sec := by unfold u32; exact Nat.mod_eq_of_lt (by omega)
    simp only [hq, ne_eq, not_true_eq_false, if_false, Nat.add_zero, hs]
    rw [hlt] at hw hu hu2 hf ⊢
    rw [hw, hu, hu2, m2ts_time_carry_once _ (by simp only; omega)]
  · simp only [ne_eq, hq, not_false_eq_true, if_true]
    rw [time_rem num den hden hq hnum, hw, hu, hu2, m2ts_time_carry_once _ (by simp only; omega)]

/-- The value of the time after `m2ts_time_inc`, in nanoseconds, when the seconds do not
overflow. -/
theorem m2ts_time_inc_value (t : M2TS_Time) (num den : Nat) (hsec : t.sec < 4294967296)
    (hns : t.nanosec < 1000000000) (hnum : num < 4294967296) (hden : 0 < den)
    (hov : t.sec * 1000000000 + t.nanosec + num * 1000000000 / den
      < 4294967296 * 1000000000) :
    (m2ts_time_inc t num den).sec < 4294967296 ∧
    (m2ts_time_inc t num den).nanosec < 1000000000 ∧
    (m2ts_time_inc t num den).sec * 1000000000 + (m2ts_time_inc t num den).nanosec
      = t.sec * 1000000000 + t.nanosec + num * 1000000000 / den := by
  have hr := Nat.mod_lt num hden
  have hf : num % den * 1000000000 / den < 1000000000 := by
    rcases time_frac_lt (num % den) den 1000000000 hr with h | h
    · exact h
    · omega
  rw [m2ts_time_inc_eq t num den hsec hns hnum hden]
  rw [time_split num den 1000000000 hden] at hov ⊢
  generalize num % den * 1000000000 / den = f at hf hov ⊢
  generalize num / den = q at hov ⊢
  have h1 : u32 (t.sec + q) = t.sec + q := by
    unfold u32; exact Nat.mod_eq_of_lt (by omega)
  by_cases hc : t.nanosec + f ≥ 1000000000
  · rw [if_pos hc]
    have h2 : u32 (t.sec + q + 1) = t.sec + q + 1 := by
      unfold u32; exact Nat.mod_eq_of_lt (by omega)
    simp only [h1, h2]
    omega
  · rw [if_neg hc]
    simp only [h1]
    omega

/-- C13: for a time `t` with `t.nanosec < 10^9` and a denominator `den > 0`,
`m2ts_time_inc t num den` is normalized (`nanosec < 10^9`) and, as long as the seconds do
not overflow 32 bits, its value in nanoseconds is that of `t` plus
`floor (num * 10^9 / den)`; with `den = 0` the time is left unchanged. -/
theorem m2ts_time_inc_exact (t : M2TS_Time) (num den : Nat) (hsec : t.sec < 4294967296)
    (hns : t.nanosec < 1000000000) (hnum : num < 4294967296) :
    (den = 0 → m2ts_time_inc t num den = t) ∧
    (0 < den →
      t.sec * 1000000000 + t.nanosec + num * 1000000000 / den < 4294967296 * 1000000000 →
      (m2ts_time_inc t num den).nanosec < 1000000000 ∧
      (m2ts_time_inc t num den).sec * 1000000000 + (m2ts_time_inc t num den).nanosec
        = t.sec * 1000000000 + t.nanosec + num * 1000000000 / den) := by
  constructor
  · intro h
    simp [m2ts_time_inc, h]
  · intro hden hov
    exact (m2ts_time_inc_value t num den hsec hns hnum hden hov).2

/-- Witness of C13: one packet of 1504 bits at 1 Mbit/s from the time 0.999 s. -/
theorem m2ts_time_inc_exact_witness :
    (m2ts_time_inc { sec := 0, nanosec := 999000000 } 1504 1000000).nanosec < 1000000000 ∧
    (m2ts_time_inc { sec := 0, nanosec := 999000000 } 1504 1000000).sec * 1000000000
      + (m2ts_time_inc { sec := 0, nanosec := 999000000 } 1504 1000000).nanosec
      = 0 * 1000000000 + 999000000 + 1504 * 1000000000 / 1000000 :=
  (m2ts_time_inc_exact { sec := 0, nanosec := 999000000 } 1504 1000000 (by decide) (by decide)
    (by decide)).2 (by decide) (by decide)

theorem mux_time_after_packets_value (R N : Nat) (hR : 0 < R)
    (hov : N * (1504 * 1000000000 / R) < 4294967296 * 1000000000) :
    (mux_time_after_packets R N).sec < 4294967296 ∧
    (mux_time_after_packets R N).nanosec < 1000000000 ∧
    time_ns (mux_time_after_packets R N) = N * (1504 * 1000000000 / R) := by
  induction N with
  | zero => simp [mux_time_after_packets, time_ns]
  | succ N ih =>
    have hov2 : N * (1504 * 1000000000 / R) < 4294967296 * 1000000000 := by
      have : N * (1504 * 1000000000 / R) ≤ (N + 1) * (1504 * 1000000000 / R) :=
        Nat.mul_le_mul_right _ (Nat.le_succ N)
      omega
    obtain ⟨h1, h2, h3⟩ := ih hov2
    have hov3 : (mux_time_after_packets R N).sec * 1000000000
        + (mux_time_after_packets R N).nanosec + 1504 * 1000000000 / R
        < 4294967296 * 1000000000 := by
      unfold time_ns at h3
      rw [h3]
      rw [Nat.add_mul] at hov
      omega
    obtain ⟨k1, k2, k3⟩ := m2ts_time_inc_value (mux_time_after_packets R N) 1504 R h1 h2
      (by decide) hR hov3
    refine ⟨k1, k2, ?_⟩
    unfold time_ns at h3 ⊢
    show (m2ts_time_inc (mux_time_after_packets R N) 1504 R).sec * 1000000000
      + (m2ts_time_inc (mux_time_after_packets R N) 1504 R).nanosec = _
    rw [k3, h3, Nat.add_mul]
    omega

/-- C14 (as amended): for a fixed mux rate `R > 0` and `N` packets returned from mux time
0, as long as the seconds have not overflowed 32 bits, the mux time in nanoseconds is at
most `N * 1504 * 10^9 / R` (as a fraction) and, for `N ≥ 1`, falls short of it by less
than `N` nanoseconds. -/
theorem mux_time_fixed_rate (R N : Nat) (hR : 0 < R)
    (hov : N * (1504 * 1000000000 / R) < 4294967296 * 1000000000) :
    time_ns (mux_time_after_packets R N) * R ≤ N * 1504 * 1000000000 ∧
    (0 < N → N * 1504 * 1000000000 < (time_ns (mux_time_after_packets R N) + N) * R) := by
  obtain ⟨_, _, h⟩ := mux_time_after_packets_value R N hR hov
  rw [h]
  have hdm := Nat.div_add_mod (1504 * 1000000000) R
  have hlt := Nat.mod_lt (1504 * 1000000000) hR
  generalize 1504 * 1000000000 / R = f at *
  generalize 1504 * 1000000000 % R = r at *
  have e1 : N * 1504 * 1000000000 = N * (R * f + r) := by rw [hdm]; ring
  constructor
  · rw [e1]
    have : N * f * R ≤ N * (R * f) + N * r := by
      have : N * f * R = N * (R * f) := by ring
      omega
    rw [Nat.mul_add]
    exact this
  · intro hN
    rw [e1]
    have h2 : N * r < N * R := Nat.mul_lt_mul_of_pos_left hlt hN
    have h3 : (N * f + N) * R = N * (R * f) + N * R := by ring
    rw [h3, Nat.mul_add]
    omega

/-- Witness of C14: three packets at 7 bit/s. -/
theorem mux_time_fixed_rate_witness :
    time_ns (mux_time_after_packets 7 3) * 7 ≤ 3 * 1504 * 1000000000 ∧
    (0 < 3 → 3 * 1504 * 1000000000 < (time_ns (mux_time_after_packets 7 3) + 3) * 7) :=
  mux_time_fixed_rate 7 3 (by decide) (by decide)

theorem mux_time_after_packets_one (N : Nat) :
    mux_time_after_packets 1 N = { sec := u32 (1504 * N), nanosec := 0 } := by
  induction N with
  | zero => rfl
  | succ N ih =>
    have hs : u32 (1504 * N) < 4294967296 := Nat.mod_lt _ (by decide)
    have he : u32 (u32 (1504 * N) + 1504) = u32 (1504 * (N + 1)) := by
      unfold u32; omega
    show m2ts_time_inc (mux_time_after_packets 1 N) 1504 1 = _
    rw [ih, m2ts_time_inc_eq ⟨u32 (1504 * N), 0⟩ 1504 1 hs (Nat.zero_lt_succ _) (by decide)
      Nat.one_pos]
    simp only [Nat.mod_one, Nat.zero_mul, Nat.zero_div, Nat.add_zero, Nat.div_one]
    rw [if_neg (by decide), he]

/-- C14, counterexample: at 1 bit/s the seconds field overflows after 2855697 packets, and
the mux time (992 s) is then more than `N` nanoseconds short of `N * 1504` s. -/
theorem mux_time_fixed_rate_overflow :
    ¬ (2855697 * 1504 * 1000000000
        < (time_ns (mux_time_after_packets 1 2855697) + 2855697) * 1) := by
  rw [mux_time_after_packets_one]
  decide

/-- C15, the code at the failing input: at 1504000 bit/s with the PCR initialised at
packet 0 and time 0, the PCR computed after 2855697 packets is 17808, below the PCR
computed after 2855696 packets (77103792000) and not the value
`27000000 * 2855697 * 1504 / 1504000` of the claim: `nb_pck*1504` is a 32-bit product. -/
theorem m2ts_get_pcr_product_wraps :
    m2ts_get_pcr { tot_pck_sent := 2855696, bit_rate := 1504000 } {} = some 77103792000 ∧
    m2ts_get_pcr { tot_pck_sent := 2855697, bit_rate := 1504000 } {} = some 17808 ∧
    27000000 * (2855697 - 0) * 1504 / 1504000 + 0 = 77103819000 := by
  decide

/-! ## Section packets -/

/-- The stream after `m2ts_mux_table_get_next_packet`, before the cursor is moved. -/
theorem table_get_next_packet_eval (stream : M2TS_Mux_Stream) (packet : List Nat)
    (table : M2TS_Mux_Table) (sec : M2TS_Mux_Section) (ti si : Nat)
    (hti : stream.current_table = some ti) (htab : stream.tables.get? ti = some table)
    (hsi : stream.current_section = some si) (hsec : table.sections.get? si = some sec)
    (hpk : packet.length = 188) (hdata : sec.data.length = sec.length)
    (hlen : sec.length < 4294967296) (hoff : stream.current_section_offset < sec.length) :
    m2ts_mux_table_get_next_packet stream packet =
      some (
        (if stream.current_section_offset
              + table_payload_length sec.length stream.current_section_offset = sec.length then
          table_cursor_next
            { stream with
                continuity_counter :=
                  if stream.continuity_counter < 15 then stream.continuity_counter + 1 else 0,
                current_section_offset := stream.current_section_offset
                  + table_payload_length sec.length stream.current_section_offset }
            table ti si
        else
          { stream with
              continuity_counter :=
                if stream.continuity_counter < 15 then stream.continuity_counter + 1 else 0,
              current_section_offset := stream.current_section_offset
                + table_payload_length sec.length stream.current_section_offset }),
        table_packet_spec stream.pid stream.continuity_counter sec
          stream.current_section_offset) := by
  unfold m2ts_mux_table_get_next_packet
  simp only [hti, htab, hsi, hsec]
  generalize stream.current_section_offset = offset at hoff ⊢
  have hrem : sub32 sec.length offset = sec.length - offset := sub32_eq _ _ hlen (by omega)
  rw [hrem]
  by_cases h0 : offset = 0
  · subst h0
    by_cases h1 : sec.length - 0 ≥ 183
    · have e1 : sub32 183 0 = 183 := by decide
      have e2 : u32 (183 + 0) = 183 := by decide
      have e3 : u32 (0 + 183) = 183 := by decide
      have e4 : table_payload_length sec.length 0 = 183 := by
        simp only [table_payload_length, if_true, if_pos h1]
      have hl : (List.take 183 (List.drop 0 sec.data)).length = 183 := by
        simp only [List.drop_zero, List.length_take]; omega
      have hp := table_packet_assemble packet 1 stream.pid 1 stream.continuity_counter 0
        false true (List.take 183 (List.drop 0 sec.data)) hpk (by rw [hl]; rfl)
      simp only [hl, if_true, if_false, Bool.false_eq_true] at hp
      simp only [if_true, if_pos h1, e1, e2, e3, e4, M2TS_ADAPTATION_NONE, ne_eq,
        not_true_eq_false, if_false, Nat.zero_add, hp, table_packet_spec]
      rw [if_neg (by omega)]
      split <;> rfl
    · have h1' : ¬ (sec.length - 0 ≥ 183) := h1
      by_cases h2 : sec.length - 0 ≥ 183 - 2
      · have e1 : sub32 (183 - 2) 0 = 181 := by decide
        have e2 : u32 (181 + 0) = 181 := by decide
        have e3 : u32 (0 + 181) = 181 := by decide
        have e4 : table_payload_length sec.length 0 = 181 := by
          simp only [table_payload_length, if_true, if_neg h1]; omega
        have hl : (List.take 181 (List.drop 0 sec.data)).length = 181 := by
          simp only [List.drop_zero, List.length_take]; omega
        have hp := table_packet_assemble packet 1 stream.pid 3 stream.continuity_counter 0
          true true (List.take 181 (List.drop 0 sec.data)) hpk (by rw [hl]; rfl)
        simp only [hl, if_true, if_false, Bool.false_eq_true] at hp
        simp only [if_true, if_neg h1', if_pos h2, e1, e2, e3, e4, M2TS_ADAPTATION_NONE,
          M2TS_ADAPTATION_AND_PAYLOAD, ne_eq, if_false, Nat.zero_add, hp, table_packet_spec,
          OfNat.ofNat_ne_one, not_false_eq_true]
        rw [if_neg (by omega)]
        split <;> rfl
      · have e0 : u32 (sub32 (183 - 2) sec.length + 0) = 181 - sec.length := by
          unfold u32 sub32; omega
        have e1 : sub32 (183 - 2) (181 - sec.length) = sec.length := by
          unfold sub32; omega
        have e2 : u32 (sec.length + 0) = sec.length := by unfold u32; omega
        have e3 : u32 sec.length = sec.length := by unfold u32; omega
        have e4 : table_payload_length sec.length 0 = sec.length := by
          simp only [table_payload_length, if_true, if_neg h1]; omega
        have e5 : 183 - 2 - sec.length = 181 - sec.length := by omega
        have hl : (List.take sec.length (List.drop 0 sec.data)).length = sec.length := by
          simp only [List.drop_zero, List.length_take]; omega
        have hp := table_packet_assemble packet 1 stream.pid 3 stream.continuity_counter
          (181 - sec.length) true true (List.take sec.length (List.drop 0 sec.data)) hpk
          (by rw [hl]; simp only [if_true]; omega)
        simp only [hl, if_true, if_false, Bool.false_eq_true] at hp
        simp only [if_true, if_neg h1', if_neg h2, e0, e1, e2, e3, e4, e5,
          M2TS_ADAPTATION_NONE, M2TS_ADAPTATION_AND_PAYLOAD, ne_eq, if_false, Nat.zero_add, hp,
          table_packet_spec, OfNat.ofNat_ne_one, not_false_eq_true]
        rw [if_neg (by omega)]
  · by_cases h1 : sec.length - offset ≥ 184
    · have e1 : sub32 184 0 = 184 := by decide
      have e2 : u32 (184 + offset) = offset + 184 := by unfold u32; omega
      have e3 : u32 (offset + 184) = offset + 184 := by unfold u32; omega
      have e4 : table_payload_length sec.length offset = 184 := by
        simp only [table_payload_length, if_neg h0, if_pos h1]
      have hl : (List.take 184 (List.drop offset sec.data)).length = 184 := by
        simp only [List.length_take, List.length_drop]; omega
      have hp := table_packet_assemble packet 0 stream.pid 1 stream.continuity_counter 0
        false false (List.take 184 (List.drop offset sec.data)) hpk (by rw [hl]; rfl)
      simp only [hl, if_true, if_false, Bool.false_eq_true] at hp
      simp only [if_neg h0, if_pos h1, e1, e2, e3, e4, M2TS_ADAPTATION_NONE, ne_eq,
        not_true_eq_false, if_false, hp, table_packet_spec]
      rw [if_neg (by omega)]
      split <;> rfl
    · by_cases h2 : sec.length - offset ≥ 184 - 2
      · have e1 : sub32 (184 - 2) 0 = 182 := by decide
        have e2 : u32 (182 + offset) = offset + 182 := by unfold u32; omega
        have e3 : u32 (offset + 182) = offset + 182 := by unfold u32; omega
        have e4 : table_payload_length sec.length offset = 182 := by
          simp only [table_payload_length, if_neg h0, if_neg h1]; omega
        have hl : (List.take 182 (List.drop offset sec.data)).length = 182 := by
          simp only [List.length_take, List.length_drop]; omega
        have hp := table_packet_assemble packet 0 stream.pid 3 stream.continuity_counter 0
          true false (List.take 182 (List.drop offset sec.data)) hpk (by rw [hl]; rfl)
        simp only [hl, if_true, if_false, Bool.false_eq_true] at hp
        simp only [if_neg h0, if_neg h1, if_pos h2, e1, e2, e3, e4, M2TS_ADAPTATION_NONE,
          M2TS_ADAPTATION_AND_PAYLOAD, ne_eq, if_false, hp, table_packet_spec,
          OfNat.ofNat_ne_one, not_false_eq_true, if_true]
        rw [if_neg (by omega)]
        split <;> rfl
      · have e0 : u32 (sub32 (184 - 2) sec.length + offset) = 182 - (sec.length - offset) := by
          unfold u32 sub32; omega
        have e1 : sub32 (184 - 2) (182 - (sec.length - offset)) = sec.length - offset := by
          unfold sub32; omega
        have e2 : u32 (sec.length - offset + offset) = sec.length := by unfold u32; omega
        have e3 : u32 (offset + (sec.length - offset)) = sec.length := by unfold u32; omega
        have e4 : table_payload_length sec.length offset = sec.length - offset := by
          simp only [table_payload_length, if_neg h0, if_neg h1]; omega
        have e5 : 184 - 2 - (sec.length - offset) = 182 - (sec.length - offset) := by omega
        have e6 : offset + (sec.length - offset) = sec.length := by omega
        have e7 : u32 sec.length = sec.length := by unfold u32; omega
        have hl : (List.take (sec.length - offset) (List.drop offset sec.data)).length
            = sec.length - offset := by
          simp only [List.length_take, List.length_drop]; omega
        have hp := table_packet_assemble packet 0 stream.pid 3 stream.continuity_counter
          (182 - (sec.length - offset)) true false
          (List.take (sec.length - offset) (List.drop offset sec.data)) hpk
          (by rw [hl]; simp only [if_true, if_false, Bool.false_eq_true]; omega)
        simp only [hl, if_true, if_false, Bool.false_eq_true] at hp
        simp only [if_neg h0, if_neg h1, if_neg h2, e0, e1, e2, e3, e4, e5, e6, e7,
          M2TS_ADAPTATION_NONE, M2TS_ADAPTATION_AND_PAYLOAD, ne_eq, if_false, hp,
          table_packet_spec, OfNat.ofNat_ne_one, not_false_eq_true, if_true]
        rw [if_neg (by omega)]

theorem table_payload_length_le (len offset : Nat) (h : offset < len) :
    1 ≤ table_payload_length len offset ∧ offset + table_payload_length len offset ≤ len := by
  unfold table_payload_length
  by_cases h0 : offset = 0 <;> simp only [h0, if_true, if_false] <;> split <;> omega

theorem table_packet_spec_length (pid cc : Nat) (sec : M2TS_Mux_Section) (offset : Nat)
    (hdata : sec.data.length = sec.length) (hoff : offset < sec.length) :
    (table_packet_spec pid cc sec offset).length = 188 := by
  have hn := table_payload_length_le sec.length offset hoff
  have hts : ∀ a b, (ts_header 0 a 0 pid 0 b cc).length = 4 := fun _ _ => rfl
  have hl : ((sec.data.drop offset).take (table_payload_length sec.length offset)).length
      = table_payload_length sec.length offset := by
    simp only [List.length_take, List.length_drop]; omega
  unfold table_packet_spec
  simp only [List.length_append, hts, hl]
  unfold table_payload_length at hn ⊢
  by_cases h0 : offset = 0
  · simp only [h0, if_true] at hn ⊢
    split <;> (simp only [adaptation_field_length, List.length_nil, List.length_singleton,
      if_false, Bool.false_eq_true]; try omega)
  · simp only [h0, if_false] at hn ⊢
    split <;> (simp only [adaptation_field_length, List.length_nil, List.length_singleton,
      if_false, Bool.false_eq_true]; try omega)

/-- C1: with the cursor on a section and `current_section_offset < section.length`,
`m2ts_mux_table_get_next_packet` returns, and the 188 bytes of the packet are, in this
order and with nothing else: the 4-byte header (sync 0x47, error 0, PUSI set exactly at
offset 0, priority 0, 13-bit PID, scrambling 0, adaptation control, continuity counter);
only when fewer section bytes remain than the capacity (183 with PUSI, 184 without) an
adaptation field of two bytes with all flags 0 and `0xFF` stuffing; the pointer field 0
when PUSI; the section bytes from the offset on. -/
theorem m2ts_mux_table_get_next_packet_layout (stream : M2TS_Mux_Stream) (packet : List Nat)
    (table : M2TS_Mux_Table) (sec : M2TS_Mux_Section) (ti si : Nat)
    (hti : stream.current_table = some ti) (htab : stream.tables.get? ti = some table)
    (hsi : stream.current_section = some si) (hsec : table.sections.get? si = some sec)
    (hpk : packet.length = 188) (hdata : sec.data.length = sec.length)
    (hlen : sec.length < 4294967296) (hoff : stream.current_section_offset < sec.length) :
    (∃ stream', m2ts_mux_table_get_next_packet stream packet
        = some (stream', table_packet_spec stream.pid stream.continuity_counter sec
            stream.current_section_offset)) ∧
    (table_packet_spec stream.pid stream.continuity_counter sec
      stream.current_section_offset).length = 188 := by
  refine ⟨⟨_, table_get_next_packet_eval stream packet table sec ti si hti htab hsi hsec hpk
    hdata hlen hoff⟩, ?_⟩
  exact table_packet_spec_length _ _ _ _ hdata hoff

/-- Witness of C1: the second packet of a 190-byte section on PID 17. -/
theorem m2ts_mux_table_get_next_packet_layout_witness :
    (∃ stream', m2ts_mux_table_get_next_packet
        { pid := 17, continuity_counter := 3,
          tables := [{ sections := [{ data := List.replicate 190 7, length := 190 }] }],
          current_table := some 0, current_section := some 0, current_section_offset := 183 }
        (List.replicate 188 0)
        = some (stream', table_packet_spec 17 3
            { data := List.replicate 190 7, length := 190 } 183)) ∧
    (table_packet_spec 17 3 { data := List.replicate 190 7, length := 190 } 183).length
      = 188 :=
  m2ts_mux_table_get_next_packet_layout
    { pid := 17, continuity_counter := 3,
      tables := [{ sections := [{ data := List.replicate 190 7, length := 190 }] }],
      current_table := some 0, current_section := some 0, current_section_offset := 183 }
    (List.replicate 188 0) { sections := [{ data := List.replicate 190 7, length := 190 }] }
    { data := List.replicate 190 7, length := 190 } 0 0 rfl rfl rfl rfl
    (List.length_replicate 188 0) (List.length_replicate 190 7) (by decide) (by decide)

/-- C12: with `current_section_offset < section.length` before the call, the assertion of
`m2ts_mux_table_get_next_packet` holds (the call returns), and afterwards either the
cursor is still in the same section at a larger offset below its length, or the offset is
0 and the cursor is on the next section, or past the last section on the next table, or
past the last table back on the first table with `stream.time` advanced by
`refresh_rate_ms` milliseconds when `refresh_rate_ms` is not 0, and on no table with the
time unchanged when it is 0. -/
theorem m2ts_mux_table_get_next_packet_cursor (stream : M2TS_Mux_Stream) (packet : List Nat)
    (table : M2TS_Mux_Table) (sec : M2TS_Mux_Section) (ti si : Nat)
    (hti : stream.current_table = some ti) (htab : stream.tables.get? ti = some table)
    (hsi : stream.current_section = some si) (hsec : table.sections.get? si = some sec)
    (hpk : packet.length = 188) (hdata : sec.data.length = sec.length)
    (hlen : sec.length < 4294967296) (hoff : stream.current_section_offset < sec.length) :
    ∃ stream' packet', m2ts_mux_table_get_next_packet stream packet = some (stream', packet') ∧
      stream'.tables = stream.tables ∧
      ((stream'.current_table = some ti ∧ stream'.current_section = some si ∧
          stream.current_section_offset < stream'.current_section_offset ∧
          stream'.current_section_offset < sec.length ∧ stream'.time = stream.time) ∨
       (stream'.current_section_offset = 0 ∧
         ((si + 1 < table.sections.length ∧ stream'.current_table = some ti ∧
            stream'.current_section = some (si + 1) ∧ stream'.time = stream.time) ∨
          (table.sections.length ≤ si + 1 ∧ ti + 1 < stream.tables.length ∧
            stream'.current_table = some (ti + 1) ∧
            stream'.current_section
              = (stream.tables.get? (ti + 1)).bind (fun t => list_head t.sections) ∧
            stream'.time = stream.time) ∨
          (table.sections.length ≤ si + 1 ∧ stream.tables.length ≤ ti + 1 ∧
            stream.refresh_rate_ms ≠ 0 ∧ stream'.current_table = some 0 ∧
            stream'.current_section
              = (stream.tables.get? 0).bind (fun t => list_head t.sections) ∧
            stream'.time = m2ts_time_inc stream.time stream.refresh_rate_ms 1000) ∨
          (table.sections.length ≤ si + 1 ∧ stream.tables.length ≤ ti + 1 ∧
            stream.refresh_rate_ms = 0 ∧ stream'.current_table = none ∧
            stream'.current_section = none ∧ stream'.time = stream.time)))) := by
  have hn := table_payload_length_le sec.length stream.current_section_offset hoff
  have htl : stream.tables ≠ [] := by
    intro h; rw [h] at htab; simp at htab
  refine ⟨_, _, table_get_next_packet_eval stream packet table sec ti si hti htab hsi hsec hpk
    hdata hlen hoff, ?_⟩
  split
  · -- the section is finished
    refine ⟨?_, Or.inr ?_⟩
    · unfold table_cursor_next
      simp only []
      split <;> [skip; rfl]
      split <;> split <;> rfl
    · unfold table_cursor_next list_next list_head
      by_cases hs : si + 1 < table.sections.length
      · simp [hs, hti]
      · by_cases ht : ti + 1 < stream.tables.length
        · simp [hs, ht]
          omega
        · by_cases hr : stream.refresh_rate_ms = 0
          · simp [hs, ht, hr]
            omega
          · simp [hs, ht, hr, htl]
            refine ⟨by omega, by omega, ?_⟩
            cases stream.tables[0]? <;> rfl
  · refine ⟨rfl, Or.inl ⟨hti, hsi, ?_, ?_, rfl⟩⟩
    · show _ < _ + _
      omega
    · show _ + _ < _
      omega

/-- Witness of C12: the last packet of the only section of the only table of a stream
that is not repeated. -/
theorem m2ts_mux_table_get_next_packet_cursor_witness :
    ∃ stream' packet',
      m2ts_mux_table_get_next_packet demo_stream (List.replicate 188 0)
        = some (stream', packet') ∧
      stream'.tables = demo_stream.tables ∧
      ((stream'.current_table = some 0 ∧ stream'.current_section = some 0 ∧
          demo_stream.current_section_offset < stream'.current_section_offset ∧
          stream'.current_section_offset < demo_section.length ∧
          stream'.time = demo_stream.time) ∨
       (stream'.current_section_offset = 0 ∧
         ((0 + 1 < demo_table.sections.length ∧ stream'.current_table = some 0 ∧
            stream'.current_section = some (0 + 1) ∧ stream'.time = demo_stream.time) ∨
          (demo_table.sections.length ≤ 0 + 1 ∧ 0 + 1 < demo_stream.tables.length ∧
            stream'.current_table = some (0 + 1) ∧
            stream'.current_section
              = (demo_stream.tables.get? (0 + 1)).bind (fun t => list_head t.sections) ∧
            stream'.time = demo_stream.time) ∨
          (demo_table.sections.length ≤ 0 + 1 ∧ demo_stream.tables.length ≤ 0 + 1 ∧
            demo_stream.refresh_rate_ms ≠ 0 ∧ stream'.current_table = some 0 ∧
            stream'.current_section
              = (demo_stream.tables.get? 0).bind (fun t => list_head t.sections) ∧
            stream'.time = m2ts_time_inc demo_stream.time demo_stream.refresh_rate_ms 1000) ∨
          (demo_table.sections.length ≤ 0 + 1 ∧ demo_stream.tables.length ≤ 0 + 1 ∧
            demo_stream.refresh_rate_ms = 0 ∧ stream'.current_table = none ∧
            stream'.current_section = none ∧ stream'.time = demo_stream.time)))) :=
  m2ts_mux_table_get_next_packet_cursor demo_stream (List.replicate 188 0) demo_table
    demo_section 0 0 rfl rfl rfl rfl (List.length_replicate 188 0)
    (List.length_replicate 190 7) (by decide) (by decide)

/-! ## PES packets -/

theorem m2ts_stream_get_pes_header_length_eq (stream : M2TS_Mux_Stream) :
    m2ts_stream_get_pes_header_length stream = 0 ∨
    m2ts_stream_get_pes_header_length stream = (pes_header_bytes stream).length := by
  rw [pes_header_bytes_length]
  unfold m2ts_stream_get_pes_header_length
  by_cases h : stream.pck_offset ≠ 0 ∨ ¬ stream.pck.GF_ESI_DATA_AU_START
  · left; rw [if_pos h]
  · right; rw [if_neg h]
    cases stream.pck.GF_ESI_DATA_HAS_CTS <;> cases stream.pck.GF_ESI_DATA_HAS_DTS <;> rfl

theorem m2ts_get_pcr_some (mux : M2TS_Mux) (program : M2TS_Mux_Program)
    (hbr : mux.bit_rate ≠ 0) :
    ∃ pcr, m2ts_get_pcr mux program = some pcr ∧ pcr < 18446744073709551616 := by
  unfold m2ts_get_pcr
  simp only [if_neg hbr]
  exact ⟨_, rfl, Nat.mod_lt _ (by decide)⟩

/-- The result of `m2ts_mux_pes_get_next_packet`. -/
theorem pes_get_next_packet_eval (mux : M2TS_Mux) (program : M2TS_Mux_Program)
    (stream : M2TS_Mux_Stream) (packet : List Nat) (now now2 pcr : Nat)
    (hpid : stream.pid ≠ 0) (hoff : stream.pck_offset ≤ stream.pck.data_len)
    (hdata : stream.pck.data.length = stream.pck.data_len)
    (hlen : stream.pck.data_len < 4294967296) (hpk : packet.length = 188)
    (hpcr : m2ts_get_pcr mux program = some pcr) (hpcr64 : pcr < 18446744073709551616) :
    m2ts_mux_pes_get_next_packet mux program stream packet now now2 =
      some (
        (if pes_needs_pcr program stream now then
          { program with last_pcr := pcr, last_sys_clock := now2 }
        else program),
        { stream with
            continuity_counter :=
              if stream.continuity_counter < 15 then stream.continuity_counter + 1 else 0,
            pck_offset := stream.pck_offset
              + pes_payload_length stream (pes_needs_pcr program stream now) },
        pes_packet_spec pcr (pes_needs_pcr program stream now) stream) := by
  have hh : m2ts_stream_get_pes_header_length stream ≤ 19 := by
    rcases m2ts_stream_get_pes_header_length_eq stream with h | h
    · omega
    · rw [h, pes_header_bytes_length]
      split <;> split <;> omega
  have hhl := m2ts_stream_get_pes_header_length_eq stream
  unfold m2ts_mux_pes_get_next_packet pes_packet_spec pes_payload_length
  rw [if_neg hpid]
  have hneeds : (decide (m2ts_stream_get_pes_header_length stream ≠ 0 ∧ stream.is_pcr = true
      ∧ now > u32 (program.last_sys_clock + PCR_UPDATE_MS))) = pes_needs_pcr program stream now :=
    rfl
  simp only [hneeds, hpcr]
  generalize pes_needs_pcr program stream now = needs
  generalize m2ts_stream_get_pes_header_length stream = h at hh hhl ⊢
  have hrem : sub32 stream.pck.data_len stream.pck_offset
      = stream.pck.data_len - stream.pck_offset := sub32_eq _ _ hlen hoff
  rw [hrem]
  generalize hr : stream.pck.data_len - stream.pck_offset = r
  have hpusi : (if h ≠ 0 then 1 else 0) % 2 = if h ≠ 0 then 1 else 0 := by split <;> rfl
  cases needs
  · -- no PCR
    by_cases h184 : r < 184
    · have e1 : sub32 (184 - h) 2 = 182 - h := by unfold sub32; omega
      by_cases hc : r ≥ 182 - h
      · have e2 : sub32 (182 - h) 0 = 182 - h := by unfold sub32; omega
        have e3 : u32 (stream.pck_offset + (182 - h)) = stream.pck_offset + (182 - h) := by
          unfold u32; omega
        have e4 : min r (184 - h - 2) = 182 - h := by omega
        have e5 : 184 - h - 2 - (182 - h) = 0 := by omega
        have hl : (List.take (182 - h) (List.drop stream.pck_offset stream.pck.data)).length
            = 182 - h := by
          simp only [List.length_take, List.length_drop]; omega
        have hp := pes_packet_assemble packet (if h ≠ 0 then 1 else 0) stream.pid 3
          stream.continuity_counter 0 0 true false
          (decide (h ≠ 0 ∧ stream.pck.GF_ESI_DATA_AU_RAP = true)) (decide (h ≠ 0)) stream
          (List.take (182 - h) (List.drop stream.pck_offset stream.pck.data)) hpk (by decide)
          (by rw [hl]; simp only [if_true, if_false, Bool.false_eq_true, decide_eq_true_eq]
              split <;> omega)
        simp only [hl, hpusi, if_true, decide_eq_true_eq] at hp
        simp only [if_true, if_false, Bool.false_eq_true, e1, e2, e3, e4, e5, if_pos hc,
          if_pos h184, M2TS_ADAPTATION_AND_PAYLOAD, M2TS_ADAPTATION_NONE, ne_eq,
          OfNat.ofNat_ne_one, not_false_eq_true, hp, false_or, decide_True, Nat.reduceMod,
          decide_eq_true_eq]
        rfl
      · have e2 : sub32 (182 - h) r = 182 - h - r := by unfold sub32; omega
        have e2' : sub32 (182 - h) (182 - h - r) = r := by unfold sub32; omega
        have e3 : u32 (stream.pck_offset + r) = stream.pck_offset + r := by
          unfold u32; omega
        have e4 : min r (184 - h - 2) = r := by omega
        have e5 : 184 - h - 2 - r = 182 - h - r := by omega
        have hl : (List.take r (List.drop stream.pck_offset stream.pck.data)).length = r := by
          simp only [List.length_take, List.length_drop]; omega
        have hp := pes_packet_assemble packet (if h ≠ 0 then 1 else 0) stream.pid 3
          stream.continuity_counter (182 - h - r) 0 true false
          (decide (h ≠ 0 ∧ stream.pck.GF_ESI_DATA_AU_RAP = true)) (decide (h ≠ 0)) stream
          (List.take r (List.drop stream.pck_offset stream.pck.data)) hpk (by decide)
          (by rw [hl]; simp only [if_true, if_false, Bool.false_eq_true, decide_eq_true_eq]
              split <;> omega)
        simp only [hl, hpusi, if_true, decide_eq_true_eq] at hp
        simp only [if_true, if_false, Bool.false_eq_true, e1, e2, e2', e3, e4, e5, if_neg hc,
          if_pos h184, M2TS_ADAPTATION_AND_PAYLOAD, M2TS_ADAPTATION_NONE, ne_eq,
          OfNat.ofNat_ne_one, not_false_eq_true, hp, false_or, decide_True, Nat.reduceMod,
          decide_eq_true_eq]
        rfl
    · have hc : r ≥ 184 - h := by omega
      have e2 : sub32 (184 - h) 0 = 184 - h := by unfold sub32; omega
      have e3 : u32 (stream.pck_offset + (184 - h)) = stream.pck_offset + (184 - h) := by
        unfold u32; omega
      have e4 : min r (184 - h - 0) = 184 - h := by omega
      have hl : (List.take (184 - h) (List.drop stream.pck_offset stream.pck.data)).length
          = 184 - h := by
        simp only [List.length_take, List.length_drop]; omega
      have hp := pes_packet_assemble packet (if h ≠ 0 then 1 else 0) stream.pid 1
        stream.continuity_counter 0 0 false false false (decide (h ≠ 0)) stream
        (List.take (184 - h) (List.drop stream.pck_offset stream.pck.data)) hpk (by decide)
        (by rw [hl]; simp only [if_true, if_false, Bool.false_eq_true, decide_eq_true_eq]
            split <;> omega)
      simp only [hl, hpusi, if_true, if_false, Bool.false_eq_true, decide_eq_true_eq] at hp
      simp only [if_true, if_false, Bool.false_eq_true, e2, e3, e4, if_pos hc,
        if_neg h184, M2TS_ADAPTATION_AND_PAYLOAD, M2TS_ADAPTATION_NONE, ne_eq,
        not_true_eq_false, hp, false_or, decide_False, Nat.reduceMod,
        decide_eq_true_eq]
  · -- a PCR is written
    have e1 : sub32 (184 - h) 8 = 176 - h := by unfold sub32; omega
    by_cases hc : r ≥ 176 - h
    · have e2 : sub32 (176 - h) 0 = 176 - h := by unfold sub32; omega
      have e3 : u32 (stream.pck_offset + (176 - h)) = stream.pck_offset + (176 - h) := by
        unfold u32; omega
      have e4 : min r (184 - h - 8) = 176 - h := by omega
      have e5 : 184 - h - 8 - (176 - h) = 0 := by omega
      have hl : (List.take (176 - h) (List.drop stream.pck_offset stream.pck.data)).length
          = 176 - h := by
        simp only [List.length_take, List.length_drop]; omega
      have hp := pes_packet_assemble packet (if h ≠ 0 then 1 else 0) stream.pid 3
        stream.continuity_counter 0 pcr true true
        (decide (h ≠ 0 ∧ stream.pck.GF_ESI_DATA_AU_RAP = true)) (decide (h ≠ 0)) stream
        (List.take (176 - h) (List.drop stream.pck_offset stream.pck.data)) hpk hpcr64
        (by rw [hl]; simp only [if_true, decide_eq_true_eq]; split <;> omega)
      simp only [hl, hpusi, if_true, decide_eq_true_eq] at hp
      simp only [if_true, e1, e2, e3, e4, e5, if_pos hc, M2TS_ADAPTATION_AND_PAYLOAD,
        M2TS_ADAPTATION_NONE, ne_eq, OfNat.ofNat_ne_one, not_false_eq_true, hp, true_or,
        decide_True, Nat.reduceMod]
    · have e2 : sub32 (176 - h) r = 176 - h - r := by unfold sub32; omega
      have e2' : sub32 (176 - h) (176 - h - r) = r := by unfold sub32; omega
      have e3 : u32 (stream.pck_offset + r) = stream.pck_offset + r := by
        unfold u32; omega
      have e4 : min r (184 - h - 8) = r := by omega
      have e5 : 184 - h - 8 - r = 176 - h - r := by omega
      have hl : (List.take r (List.drop stream.pck_offset stream.pck.data)).length = r := by
        simp only [List.length_take, List.length_drop]; omega
      have hp := pes_packet_assemble packet (if h ≠ 0 then 1 else 0) stream.pid 3
        stream.continuity_counter (176 - h - r) pcr true true
        (decide (h ≠ 0 ∧ stream.pck.GF_ESI_DATA_AU_RAP = true)) (decide (h ≠ 0)) stream
        (List.take r (List.drop stream.pck_offset stream.pck.data)) hpk hpcr64
        (by rw [hl]; simp only [if_true, decide_eq_true_eq]; split <;> omega)
      simp only [hl, hpusi, if_true, decide_eq_true_eq] at hp
      simp only [if_true, e1, e2, e2', e3, e4, e5, if_neg hc, M2TS_ADAPTATION_AND_PAYLOAD,
        M2TS_ADAPTATION_NONE, ne_eq, OfNat.ofNat_ne_one, not_false_eq_true, hp, true_or,
        decide_True, Nat.reduceMod]

theorem pes_packet_spec_length (pcr : Nat) (needs_pcr : Bool) (stream : M2TS_Mux_Stream)
    (hdata : stream.pck.data.length = stream.pck.data_len) :
    (pes_packet_spec pcr needs_pcr stream).length = 188 := by
  have hhl := m2ts_stream_get_pes_header_length_eq stream
  have hh : m2ts_stream_get_pes_header_length stream ≤ 19 := by
    rcases hhl with h | h
    · omega
    · rw [h, pes_header_bytes_length]
      split <;> split <;> omega
  have hts : ∀ a b, (ts_header 0 a 0 stream.pid 0 b stream.continuity_counter).length = 4 :=
    fun _ _ => rfl
  unfold pes_packet_spec pes_payload_length
  simp only [List.length_append, hts, List.length_take, List.length_drop, hdata]
  generalize m2ts_stream_get_pes_header_length stream = h at hh hhl ⊢
  generalize stream.pck.data_len - stream.pck_offset = r
  have hph : (if h ≠ 0 then pes_header_bytes stream else []).length = h := by
    split
    · rcases hhl with h0 | h0
      · omega
      · exact h0.symm
    · simp only [List.length_nil]; omega
  rw [hph]
  cases needs_pcr
  · by_cases h184 : r < 184
    · simp only [h184, Bool.false_eq_true, false_or, decide_True, if_true, if_false,
        adaptation_field_length]
      omega
    · simp only [h184, Bool.false_eq_true, false_or, decide_False, if_false,
        List.length_nil]
      omega
  · simp only [true_or, decide_True, if_true, adaptation_field_length]
    omega

/-- C2: for a PES stream with `pck_offset ≤ pck.data_len`, `m2ts_mux_pes_get_next_packet`
returns, and the 188 bytes of the packet are, in this order and with nothing else: the
4-byte TS header (PUSI set exactly when the PES header length is not 0); an adaptation
field of 8 bytes with the PCR plus `0xFF` stuffing when a PCR is needed, else of 2 bytes
plus stuffing when fewer than 184 bytes of the access unit remain, else none; the PES
header, of exactly `hdr_len` bytes, when the packet starts an access unit; the bytes of
`pck.data` from `pck_offset` on. -/
theorem m2ts_mux_pes_get_next_packet_layout (mux : M2TS_Mux) (program : M2TS_Mux_Program)
    (stream : M2TS_Mux_Stream) (packet : List Nat) (now now2 : Nat)
    (hpid : stream.pid ≠ 0) (hbr : mux.bit_rate ≠ 0)
    (hoff : stream.pck_offset ≤ stream.pck.data_len)
    (hdata : stream.pck.data.length = stream.pck.data_len)
    (hlen : stream.pck.data_len < 4294967296) (hpk : packet.length = 188) :
    ∃ program' stream' pcr,
      m2ts_get_pcr mux program = some pcr ∧
      m2ts_mux_pes_get_next_packet mux program stream packet now now2
        = some (program', stream',
            pes_packet_spec pcr (pes_needs_pcr program stream now) stream) ∧
      (pes_packet_spec pcr (pes_needs_pcr program stream now) stream).length = 188 ∧
      (m2ts_stream_get_pes_header_length stream ≠ 0 →
        (pes_header_bytes stream).length = m2ts_stream_get_pes_header_length stream) := by
  obtain ⟨pcr, hpcr, hpcr64⟩ := m2ts_get_pcr_some mux program hbr
  refine ⟨_, _, pcr, hpcr, pes_get_next_packet_eval mux program stream packet now now2 pcr
    hpid hoff hdata hlen hpk hpcr hpcr64, pes_packet_spec_length _ _ _ hdata, ?_⟩
  intro h
  rcases m2ts_stream_get_pes_header_length_eq stream with h0 | h0
  · exact absurd h0 h
  · exact h0.symm

/-- Witness of C2: the first packet of an access unit of 1000 bytes on the PCR stream,
half a second after the last PCR. -/
theorem m2ts_mux_pes_get_next_packet_layout_witness :
    ∃ program' stream' pcr,
      m2ts_get_pcr { tot_pck_sent := 10, bit_rate := 1000000 } {} = some pcr ∧
      m2ts_mux_pes_get_next_packet { tot_pck_sent := 10, bit_rate := 1000000 } {}
          demo_pes_stream (List.replicate 188 0) 500 501
        = some (program', stream',
            pes_packet_spec pcr (pes_needs_pcr {} demo_pes_stream 500) demo_pes_stream) ∧
      (pes_packet_spec pcr (pes_needs_pcr {} demo_pes_stream 500) demo_pes_stream).length
        = 188 ∧
      (m2ts_stream_get_pes_header_length demo_pes_stream ≠ 0 →
        (pes_header_bytes demo_pes_stream).length
          = m2ts_stream_get_pes_header_length demo_pes_stream) :=
  m2ts_mux_pes_get_next_packet_layout { tot_pck_sent := 10, bit_rate := 1000000 } {}
    demo_pes_stream (List.replicate 188 0) 500 501 (by decide) (by decide) (by decide)
    (List.length_replicate 1000 9) (by decide) (List.length_replicate 188 0)

/-! ## Continuity counter -/

theorem ts_header_byte3 (a b c pid d afc cc : Nat) (rest : List Nat) :
    (ts_header a b c pid d afc cc ++ rest).get? 3 = some (64 * d + 16 * afc + cc % 16) := rfl

theorem table_packet_spec_byte3 (pid cc : Nat) (sec : M2TS_Mux_Section) (offset : Nat) :
    ∃ afc, (table_packet_spec pid cc sec offset).get? 3 = some (64 * 0 + 16 * afc + cc % 16) := by
  unfold table_packet_spec
  simp only [List.append_assoc]
  exact ⟨_, ts_header_byte3 _ _ _ _ _ _ _ _⟩

theorem pes_packet_spec_byte3 (pcr : Nat) (needs_pcr : Bool) (stream : M2TS_Mux_Stream) :
    ∃ afc, (pes_packet_spec pcr needs_pcr stream).get? 3
      = some (64 * 0 + 16 * afc + stream.continuity_counter % 16) := by
  unfold pes_packet_spec
  simp only [List.append_assoc]
  exact ⟨_, ts_header_byte3 _ _ _ _ _ _ _ _⟩

theorem table_cursor_next_cc (stream : M2TS_Mux_Stream) (table : M2TS_Mux_Table)
    (ti si : Nat) :
    (table_cursor_next stream table ti si).continuity_counter = stream.continuity_counter := by
  unfold table_cursor_next
  simp only []
  split <;> [skip; rfl]
  split <;> split <;> rfl

theorem cc_step (c : Nat) :
    (if c < 15 then c + 1 else 0) < 16 ∧
    (c < 16 → (if c < 15 then c + 1 else 0) = (c + 1) % 16) := by
  split <;> omega

/-- C11: every call of `m2ts_mux_table_get_next_packet` and of
`m2ts_mux_pes_get_next_packet` (with or without adaptation field) writes the continuity
counter of the stream in the low four bits of byte 3 of the packet and leaves a counter
below 16 which, for a counter in 0..15, is the old one plus 1 modulo 16. -/
theorem continuity_counter_step :
    (∀ (stream : M2TS_Mux_Stream) (packet : List Nat) (table : M2TS_Mux_Table)
        (sec : M2TS_Mux_Section) (ti si : Nat),
      stream.current_table = some ti → stream.tables.get? ti = some table →
      stream.current_section = some si → table.sections.get? si = some sec →
      packet.length = 188 → sec.data.length = sec.length → sec.length < 4294967296 →
      stream.current_section_offset < sec.length →
      ∃ stream' packet' b, m2ts_mux_table_get_next_packet stream packet = some (stream', packet')
        ∧ packet'.get? 3 = some b ∧ b % 16 = stream.continuity_counter % 16
        ∧ stream'.continuity_counter < 16
        ∧ (stream.continuity_counter < 16 →
            stream'.continuity_counter = (stream.continuity_counter + 1) % 16)) ∧
    (∀ (mux : M2TS_Mux) (program : M2TS_Mux_Program) (stream : M2TS_Mux_Stream)
        (packet : List Nat) (now now2 : Nat),
      stream.pid ≠ 0 → mux.bit_rate ≠ 0 → stream.pck_offset ≤ stream.pck.data_len →
      stream.pck.data.length = stream.pck.data_len → stream.pck.data_len < 4294967296 →
      packet.length = 188 →
      ∃ program' stream' packet' b,
        m2ts_mux_pes_get_next_packet mux program stream packet now now2
          = some (program', stream', packet')
        ∧ packet'.get? 3 = some b ∧ b % 16 = stream.continuity_counter % 16
        ∧ stream'.continuity_counter < 16
        ∧ (stream.continuity_counter < 16 →
            stream'.continuity_counter = (stream.continuity_counter + 1) % 16)) := by
  constructor
  · intro stream packet table sec ti si hti htab hsi hsec hpk hdata hlen hoff
    obtain ⟨afc, hb⟩ := table_packet_spec_byte3 stream.pid stream.continuity_counter sec
      stream.current_section_offset
    refine ⟨_, _, _, table_get_next_packet_eval stream packet table sec ti si hti htab hsi
      hsec hpk hdata hlen hoff, hb, by omega, ?_, ?_⟩
    · split
      · rw [table_cursor_next_cc]
        exact (cc_step _).1
      · exact (cc_step _).1
    · intro hcc
      split
      · rw [table_cursor_next_cc]
        exact (cc_step _).2 hcc
      · exact (cc_step _).2 hcc
  · intro mux program stream packet now now2 hpid hbr hoff hdata hlen hpk
    obtain ⟨pcr, hpcr, hpcr64⟩ := m2ts_get_pcr_some mux program hbr
    obtain ⟨afc, hb⟩ := pes_packet_spec_byte3 pcr (pes_needs_pcr program stream now) stream
    refine ⟨_, _, _, _, pes_get_next_packet_eval mux program stream packet now now2 pcr
      hpid hoff hdata hlen hpk hpcr hpcr64, hb, by omega, ?_, ?_⟩
    · exact (cc_step _).1
    · intro hcc
      exact (cc_step _).2 hcc

/-- Witness of C11: a section packet with counter 3 and a PES packet with counter 15. -/
theorem continuity_counter_step_witness :
    (∃ stream' packet' b,
      m2ts_mux_table_get_next_packet demo_stream (List.replicate 188 0)
        = some (stream', packet')
      ∧ packet'.get? 3 = some b ∧ b % 16 = demo_stream.continuity_counter % 16
      ∧ stream'.continuity_counter < 16
      ∧ (demo_stream.continuity_counter < 16 →
          stream'.continuity_counter = (demo_stream.continuity_counter + 1) % 16)) ∧
    (∃ program' stream' packet' b,
      m2ts_mux_pes_get_next_packet { tot_pck_sent := 10, bit_rate := 1000000 } {}
          demo_pes_stream (List.replicate 188 0) 500 501
        = some (program', stream', packet')
      ∧ packet'.get? 3 = some b ∧ b % 16 = demo_pes_stream.continuity_counter % 16
      ∧ stream'.continuity_counter < 16
      ∧ (demo_pes_stream.continuity_counter < 16 →
          stream'.continuity_counter = (demo_pes_stream.continuity_counter + 1) % 16)) :=
  ⟨continuity_counter_step.1 demo_stream (List.replicate 188 0) demo_table demo_section 0 0
      rfl rfl rfl rfl (List.length_replicate 188 0) (List.length_replicate 190 7) (by decide)
      (by decide),
   continuity_counter_step.2 { tot_pck_sent := 10, bit_rate := 1000000 } {} demo_pes_stream
      (List.replicate 188 0) 500 501 (by decide) (by decide) (by decide)
      (List.length_replicate 1000 9) (by decide) (List.length_replicate 188 0)⟩

/-! ## Sending a whole section or access unit -/

theorem table_cursor_next_offset (stream : M2TS_Mux_Stream) (table : M2TS_Mux_Table)
    (ti si : Nat) : (table_cursor_next stream table ti si).current_section_offset = 0 := by
  unfold table_cursor_next
  simp only []
  split <;> [skip; rfl]
  split <;> split <;> rfl

theorem ts_packet_pusi_header (pusi pid afc cc : Nat) (rest : List Nat) (h : pusi ≤ 1) :
    ts_packet_pusi (ts_header 0 pusi 0 pid 0 afc cc ++ rest) = pusi := by
  show (128 * 0 + 64 * pusi + 32 * 0 + pid / 256 % 32) / 64 % 2 = pusi
  omega

theorem ts_packet_af_size_none (pusi pid cc : Nat) (rest : List Nat) :
    ts_packet_af_size (ts_header 0 pusi 0 pid 0 1 cc ++ rest) = 0 := by
  show (if (64 * 0 + 16 * 1 + cc % 16) / 16 % 4 / 2 = 1 then _ else 0) = 0
  rw [if_neg (by omega)]

theorem ts_packet_af_size_some (pusi pid cc pcr padding : Nat) (has_pcr is_rap : Bool)
    (rest : List Nat) (hpad : padding ≤ 182) :
    ts_packet_af_size (ts_header 0 pusi 0 pid 0 3 cc
      ++ (adaptation_field has_pcr pcr is_rap padding ++ rest))
      = (adaptation_field has_pcr pcr is_rap padding).length := by
  rw [adaptation_field_length]
  show (if (64 * 0 + 16 * 3 + cc % 16) / 16 % 4 / 2 = 1 then
    (1 + (if has_pcr = true then 6 else 0) + padding) % 256 + 1 else 0) = _
  rw [if_pos (by omega)]
  split <;> omega

theorem ts_header_drop (pusi pid afc cc k : Nat) (rest : List Nat) :
    (ts_header 0 pusi 0 pid 0 afc cc ++ rest).drop (4 + k) = rest.drop k := by
  rw [← List.drop_drop]
  rfl

theorem ts_header_getD (pusi pid afc cc k : Nat) (rest : List Nat) :
    (ts_header 0 pusi 0 pid 0 afc cc ++ rest).getD (4 + k) 0 = rest.getD k 0 := by
  simp only [List.getD_eq_getElem?_getD]
  congr 1
  rw [Nat.add_comm]
  simp [ts_header]

/-- What a receiver reads back from a packet made of a header, an adaptation field, a
pointer field and a tail. -/
theorem section_packet_read (pusi pid afc cc : Nat) (af ptr tail : List Nat)
    (hp : pusi ≤ 1)
    (haf : ts_packet_af_size (ts_header 0 pusi 0 pid 0 afc cc ++ (af ++ (ptr ++ tail)))
      = af.length)
    (h1 : pusi = 1 → ptr = [0]) (h0 : pusi = 0 → ptr = []) :
    ts_packet_pusi (ts_header 0 pusi 0 pid 0 afc cc ++ (af ++ (ptr ++ tail))) = pusi ∧
    (pusi = 1 →
      ts_packet_pointer_field (ts_header 0 pusi 0 pid 0 afc cc ++ (af ++ (ptr ++ tail))) = 0) ∧
    ts_packet_section_payload (ts_header 0 pusi 0 pid 0 afc cc ++ (af ++ (ptr ++ tail)))
      = tail := by
  have hpu := ts_packet_pusi_header pusi pid afc cc (af ++ (ptr ++ tail)) hp
  have hptr : pusi = 1 →
      ts_packet_pointer_field (ts_header 0 pusi 0 pid 0 afc cc ++ (af ++ (ptr ++ tail))) = 0 := by
    intro h
    unfold ts_packet_pointer_field
    rw [haf, ts_header_getD, h1 h, ← Nat.add_zero af.length,
      List.getD_append_right _ _ _ _ (by omega)]
    simp
  refine ⟨hpu, hptr, ?_⟩
  unfold ts_packet_section_payload
  rw [hpu]
  by_cases h : pusi = 1
  · rw [if_pos h, hptr h, haf, Nat.add_assoc, ts_header_drop, h1 h, ← List.drop_drop,
      List.drop_left]
    rfl
  · rw [if_neg h, haf, Nat.add_zero, ts_header_drop, h0 (by omega), List.drop_left]
    rfl

/-- What a receiver reads back from a section packet. -/
theorem table_packet_spec_read (pid cc : Nat) (sec : M2TS_Mux_Section) (offset : Nat) :
    ts_packet_pusi (table_packet_spec pid cc sec offset) = (if offset = 0 then 1 else 0) ∧
    (offset = 0 → ts_packet_pointer_field (table_packet_spec pid cc sec offset) = 0) ∧
    ts_packet_section_payload (table_packet_spec pid cc sec offset)
      = (sec.data.drop offset).take (table_payload_length sec.length offset) := by
  unfold table_packet_spec
  simp only [List.append_assoc]
  generalize (sec.data.drop offset).take (table_payload_length sec.length offset) = tail
  generalize table_payload_length sec.length offset = n
  by_cases h0 : offset = 0
  · subst h0
    by_cases h1 : sec.length - 0 ≥ 183
    · simp only [h1, if_true]
      have := section_packet_read 1 pid 1 cc [] [0] tail (Nat.le_refl 1)
        (ts_packet_af_size_none _ _ _ _) (fun _ => rfl) (fun h => absurd h (by decide))
      exact ⟨this.1, fun _ => this.2.1 rfl, this.2.2⟩
    · simp only [h1, if_true, if_false]
      have := section_packet_read 1 pid 3 cc (adaptation_field false 0 false (181 - n)) [0]
        tail (Nat.le_refl 1) (ts_packet_af_size_some _ _ _ _ _ _ _ _ (by omega))
        (fun _ => rfl) (fun h => absurd h (by decide))
      exact ⟨this.1, fun _ => this.2.1 rfl, this.2.2⟩
  · by_cases h1 : sec.length - offset ≥ 184
    · simp only [h0, h1, if_true, if_false]
      have := section_packet_read 0 pid 1 cc [] [] tail (Nat.zero_le 1)
        (ts_packet_af_size_none _ _ _ _) (fun h => absurd h (by decide)) (fun _ => rfl)
      exact ⟨this.1, fun h => h.elim, this.2.2⟩
    · simp only [h0, h1, if_true, if_false]
      have := section_packet_read 0 pid 3 cc (adaptation_field false 0 false (182 - n)) []
        tail (Nat.zero_le 1) (ts_packet_af_size_some _ _ _ _ _ _ _ _ (by omega))
        (fun h => absurd h (by decide)) (fun _ => rfl)
      exact ⟨this.1, fun h => h.elim, this.2.2⟩

theorem take_drop_append_drop (l : List Nat) (a n : Nat) :
    (l.drop a).take n ++ l.drop (a + n) = l.drop a := by
  rw [← List.drop_drop, List.take_append_drop]

/-- Sending the rest of a section from any offset below its length. -/
theorem table_send_section_from (table : M2TS_Mux_Table) (sec : M2TS_Mux_Section)
    (ti si : Nat) (hsec : table.sections.get? si = some sec)
    (hdata : sec.data.length = sec.length) (hlen : sec.length < 4294967296) (k : Nat) :
    ∀ (stream : M2TS_Mux_Stream) (packet : List Nat) (fuel : Nat),
      stream.current_table = some ti → stream.tables.get? ti = some table →
      stream.current_section = some si → packet.length = 188 →
      stream.current_section_offset < sec.length →
      sec.length - stream.current_section_offset ≤ k → k ≤ fuel →
      ∃ p rest stream', table_send_section fuel stream packet = some (p :: rest, stream') ∧
        ((p :: rest).map ts_packet_section_payload).flatten
          = sec.data.drop stream.current_section_offset ∧
        (∀ q ∈ p :: rest, 1 ≤ (ts_packet_section_payload q).length) ∧
        (p :: rest).length ≤ k ∧
        ts_packet_pusi p = (if stream.current_section_offset = 0 then 1 else 0) ∧
        (stream.current_section_offset = 0 → ts_packet_pointer_field p = 0) ∧
        (∀ q ∈ rest, ts_packet_pusi q = 0) ∧
        stream'.current_section_offset = 0 := by
  induction k with
  | zero =>
    intro stream packet fuel _ _ _ _ hoff hk _
    omega
  | succ k ih =>
    intro stream packet fuel hti htab hsi hpk hoff hk hfuel
    obtain ⟨fuel, rfl⟩ : ∃ f, fuel = f + 1 := ⟨fuel - 1, by omega⟩
    have hev := table_get_next_packet_eval stream packet table sec ti si hti htab hsi hsec hpk
      hdata hlen hoff
    have hn := table_payload_length_le sec.length stream.current_section_offset hoff
    obtain ⟨hpusi, hptr, hpay⟩ := table_packet_spec_read stream.pid stream.continuity_counter
      sec stream.current_section_offset
    have hplen : (ts_packet_section_payload (table_packet_spec stream.pid
        stream.continuity_counter sec stream.current_section_offset)).length
        = table_payload_length sec.length stream.current_section_offset := by
      rw [hpay]
      simp only [List.length_take, List.length_drop]
      omega
    unfold table_send_section
    rw [hev]
    simp only []
    by_cases hend : stream.current_section_offset
        + table_payload_length sec.length stream.current_section_offset = sec.length
    · rw [if_pos hend, if_pos (table_cursor_next_offset _ _ _ _)]
      refine ⟨_, [], _, rfl, ?_, ?_, ?_, hpusi, hptr, ?_, table_cursor_next_offset _ _ _ _⟩
      · simp only [List.map_cons, List.map_nil, List.flatten_cons, List.flatten_nil,
          List.append_nil, hpay]
        apply List.take_of_length_le
        simp only [List.length_drop]
        omega
      · intro q hq
        simp only [List.mem_singleton] at hq
        rw [hq, hplen]
        exact hn.1
      · simp only [List.length_singleton]
        omega
      · intro q hq
        simp at hq
    · rw [if_neg hend]
      have hne : ¬ (stream.current_section_offset
          + table_payload_length sec.length stream.current_section_offset = 0) := by omega
      rw [if_neg hne]
      obtain ⟨p, rest, stream', hrun, hcat, hpos, hcount, hp0, _, hrest, hfin⟩ :=
        ih { stream with
              continuity_counter :=
                if stream.continuity_counter < 15 then stream.continuity_counter + 1 else 0,
              current_section_offset := stream.current_section_offset
                + table_payload_length sec.length stream.current_section_offset }
          (table_packet_spec stream.pid stream.continuity_counter sec
            stream.current_section_offset) fuel hti htab hsi
          (table_packet_spec_length _ _ _ _ hdata hoff)
          (by show _ + _ < _; omega) (by show _ - (_ + _) ≤ _; omega) (by omega)
      rw [hrun]
      refine ⟨_, p :: rest, stream', rfl, ?_, ?_, ?_, hpusi, hptr, ?_, hfin⟩
      · rw [List.map_cons, List.flatten_cons, hcat, hpay]
        exact take_drop_append_drop _ _ _
      · intro q hq
        rcases List.mem_cons.1 hq with h | h
        · rw [h, hplen]
          exact hn.1
        · exact hpos q h
      · simp only [List.length_cons] at hcount ⊢
        omega
      · intro q hq
        rcases List.mem_cons.1 hq with h | h
        · rw [h, hp0]
          exact if_neg hne
        · exact hrest q h

/-- C9: from offset 0 of a section of length `L ≥ 1`, calls of
`m2ts_mux_table_get_next_packet` repeated until the end of the section is reached all
return, are at most `L`, each carries at least one section byte, the payloads in the
order of emission make up `section.data`, the first packet has PUSI 1 and pointer field
0, and the later packets have PUSI 0. -/
theorem table_send_section_complete (stream : M2TS_Mux_Stream) (packet : List Nat)
    (table : M2TS_Mux_Table) (sec : M2TS_Mux_Section) (ti si : Nat)
    (hti : stream.current_table = some ti) (htab : stream.tables.get? ti = some table)
    (hsi : stream.current_section = some si) (hsec : table.sections.get? si = some sec)
    (hpk : packet.length = 188) (hdata : sec.data.length = sec.length)
    (hlen : sec.length < 4294967296) (hL : 1 ≤ sec.length)
    (h0 : stream.current_section_offset = 0) :
    ∃ p rest stream', table_send_section sec.length stream packet = some (p :: rest, stream') ∧
      ((p :: rest).map ts_packet_section_payload).flatten = sec.data ∧
      (∀ q ∈ p :: rest, 1 ≤ (ts_packet_section_payload q).length) ∧
      (p :: rest).length ≤ sec.length ∧
      ts_packet_pusi p = 1 ∧ ts_packet_pointer_field p = 0 ∧
      (∀ q ∈ rest, ts_packet_pusi q = 0) ∧
      stream'.current_section_offset = 0 := by
  obtain ⟨p, rest, stream', hrun, hcat, hpos, hcount, hp, hptr, hrest, hfin⟩ :=
    table_send_section_from table sec ti si hsec hdata hlen sec.length stream packet
      sec.length hti htab hsi hpk (by omega) (by omega) (Nat.le_refl _)
  rw [h0] at hcat hp hptr
  exact ⟨p, rest, stream', hrun, hcat, hpos, hcount, hp, hptr rfl, hrest, hfin⟩

/-- Witness of C9: a section of 190 bytes, sent in two packets. -/
theorem table_send_section_complete_witness :
    ∃ p rest stream',
      table_send_section demo_section.length
          { demo_stream with current_section_offset := 0 } (List.replicate 188 0)
        = some (p :: rest, stream') ∧
      ((p :: rest).map ts_packet_section_payload).flatten = demo_section.data ∧
      (∀ q ∈ p :: rest, 1 ≤ (ts_packet_section_payload q).length) ∧
      (p :: rest).length ≤ demo_section.length ∧
      ts_packet_pusi p = 1 ∧ ts_packet_pointer_field p = 0 ∧
      (∀ q ∈ rest, ts_packet_pusi q = 0) ∧
      stream'.current_section_offset = 0 :=
  table_send_section_complete { demo_stream with current_section_offset := 0 }
    (List.replicate 188 0) demo_table demo_section 0 0 rfl rfl rfl rfl
    (List.length_replicate 188 0) (List.length_replicate 190 7) (by decide) (by decide) rfl

/-! ## PES header -/

/-- C17 (as amended): on a packet that starts an access unit whose PES packet length
`data_len + 3 + 5*[PTS] + 5*[DTS]` fits in 16 bits, the 16-bit PES_packet_length field
(bytes 4 and 5 of the PES header) holds that value, PES_header_data_length (byte 8) is
`5*[PTS] + 5*[DTS]`, and the header has `9 + 5*[PTS] + 5*[DTS]` bytes, the value of
`m2ts_stream_get_pes_header_length`. -/
theorem m2ts_stream_add_pes_header_lengths (stream : M2TS_Mux_Stream)
    (hoff : stream.pck_offset = 0) (hstart : stream.pck.GF_ESI_DATA_AU_START = true)
    (hfit : stream.pck.data_len + 3 + 5 * stream.pck.GF_ESI_DATA_HAS_CTS.toNat
      + 5 * stream.pck.GF_ESI_DATA_HAS_DTS.toNat < 65536) :
    (pes_header_bytes stream).getD 4 0 * 256 + (pes_header_bytes stream).getD 5 0
      = stream.pck.data_len + 3 + 5 * stream.pck.GF_ESI_DATA_HAS_CTS.toNat
          + 5 * stream.pck.GF_ESI_DATA_HAS_DTS.toNat ∧
    (pes_header_bytes stream).getD 8 0
      = 5 * stream.pck.GF_ESI_DATA_HAS_CTS.toNat + 5 * stream.pck.GF_ESI_DATA_HAS_DTS.toNat ∧
    (pes_header_bytes stream).length
      = 9 + 5 * stream.pck.GF_ESI_DATA_HAS_CTS.toNat
          + 5 * stream.pck.GF_ESI_DATA_HAS_DTS.toNat ∧
    m2ts_stream_get_pes_header_length stream = (pes_header_bytes stream).length := by
  have hl := pes_header_bytes_length stream
  have hh : m2ts_stream_get_pes_header_length stream = (pes_header_bytes stream).length := by
    rcases m2ts_stream_get_pes_header_length_eq stream with h | h
    · exfalso
      unfold m2ts_stream_get_pes_header_length at h
      simp only [hoff, hstart, ne_eq, not_true_eq_false, or_self, if_false] at h
      revert h
      cases stream.pck.GF_ESI_DATA_HAS_CTS <;> cases stream.pck.GF_ESI_DATA_HAS_DTS <;>
        decide
    · exact h
  refine ⟨?_, ?_, ?_, hh⟩
  · rw [pes_header_bytes_eq]
    show (stream.pck.data_len + 3 + 5 * _ + 5 * _) / 256 % 256 * 256
      + (stream.pck.data_len + 3 + 5 * _ + 5 * _) % 256 = _
    omega
  · rw [pes_header_bytes_eq]
    rfl
  · rw [hl]
    cases stream.pck.GF_ESI_DATA_HAS_CTS <;> cases stream.pck.GF_ESI_DATA_HAS_DTS <;> rfl

/-- Witness of C17: the access unit of 1000 bytes with a PTS. -/
theorem m2ts_stream_add_pes_header_lengths_witness :
    (pes_header_bytes demo_pes_stream).getD 4 0 * 256
        + (pes_header_bytes demo_pes_stream).getD 5 0
      = demo_pes_stream.pck.data_len + 3
          + 5 * demo_pes_stream.pck.GF_ESI_DATA_HAS_CTS.toNat
          + 5 * demo_pes_stream.pck.GF_ESI_DATA_HAS_DTS.toNat ∧
    (pes_header_bytes demo_pes_stream).getD 8 0
      = 5 * demo_pes_stream.pck.GF_ESI_DATA_HAS_CTS.toNat
          + 5 * demo_pes_stream.pck.GF_ESI_DATA_HAS_DTS.toNat ∧
    (pes_header_bytes demo_pes_stream).length
      = 9 + 5 * demo_pes_stream.pck.GF_ESI_DATA_HAS_CTS.toNat
          + 5 * demo_pes_stream.pck.GF_ESI_DATA_HAS_DTS.toNat ∧
    m2ts_stream_get_pes_header_length demo_pes_stream
      = (pes_header_bytes demo_pes_stream).length :=
  m2ts_stream_add_pes_header_lengths demo_pes_stream rfl rfl (by decide)

/-- C17, counterexample: for an access unit of 70000 bytes without time stamps the
PES_packet_length field holds 4467, not 70003. -/
theorem m2ts_stream_add_pes_header_length_truncated :
    (pes_header_bytes demo_long_au).getD 4 0 * 256 + (pes_header_bytes demo_long_au).getD 5 0
      = 4467 ∧
    demo_long_au.pck.data_len + 3 + 5 * demo_long_au.pck.GF_ESI_DATA_HAS_CTS.toNat
      + 5 * demo_long_au.pck.GF_ESI_DATA_HAS_DTS.toNat = 70003 := by
  rw [pes_header_bytes_eq]
  decide


/-- Reading back a PTS or DTS field. -/
theorem timestamp_field_read (prefix4 ts : Nat) (hp : prefix4 < 16) :
    timestamp_lead (timestamp_field prefix4 ts) = prefix4 ∧
    timestamp_markers (timestamp_field prefix4 ts) = [1, 1, 1] ∧
    timestamp_decode (timestamp_field prefix4 ts) = ts % 8589934592 := by
  refine ⟨?_, ?_, ?_⟩
  · show (16 * (prefix4 % 16) + 2 * (ts / 1073741824 % 8) + 1) / 16 = prefix4
    omega
  · show [(16 * (prefix4 % 16) + 2 * (ts / 1073741824 % 8) + 1) % 2,
      (2 * (ts / 32768 % 128) + 1) % 2, (2 * (ts % 128) + 1) % 2] = [1, 1, 1]
    simp only [List.cons.injEq, and_true]
    omega
  · show (16 * (prefix4 % 16) + 2 * (ts / 1073741824 % 8) + 1) / 2 % 8 * 1073741824
      + ((ts / 4194304 % 256) * 256 + (2 * (ts / 32768 % 128) + 1)) / 2 * 32768
      + ((ts / 128 % 256) * 256 + (2 * (ts % 128) + 1)) / 2 = ts % 8589934592
    omega

/-- C18: in the PES header written by `m2ts_stream_add_pes_header`, the PTS field (the
five bytes after the nine fixed ones) has the prefix `0011` when a DTS follows and `0010`
otherwise, the DTS field (the next five bytes) has the prefix `0001`, the three marker
bits of each field are 1, and the 33 value bits of each field read back as the time stamp
(`cts`, respectively `dts`) modulo `2 ^ 33`. -/
theorem m2ts_stream_add_pes_header_timestamps (stream : M2TS_Mux_Stream) :
    (stream.pck.GF_ESI_DATA_HAS_CTS = true →
      timestamp_lead (((pes_header_bytes stream).drop 9).take 5)
        = (if stream.pck.GF_ESI_DATA_HAS_DTS then 3 else 2) ∧
      timestamp_markers (((pes_header_bytes stream).drop 9).take 5) = [1, 1, 1] ∧
      timestamp_decode (((pes_header_bytes stream).drop 9).take 5)
        = stream.pck.cts % 2 ^ 33) ∧
    (stream.pck.GF_ESI_DATA_HAS_DTS = true →
      timestamp_lead (((pes_header_bytes stream).drop
          (9 + 5 * stream.pck.GF_ESI_DATA_HAS_CTS.toNat)).take 5) = 1 ∧
      timestamp_markers (((pes_header_bytes stream).drop
          (9 + 5 * stream.pck.GF_ESI_DATA_HAS_CTS.toNat)).take 5) = [1, 1, 1] ∧
      timestamp_decode (((pes_header_bytes stream).drop
          (9 + 5 * stream.pck.GF_ESI_DATA_HAS_CTS.toNat)).take 5)
        = stream.pck.dts % 2 ^ 33) := by
  rw [pes_header_bytes_eq]
  unfold pes_header_spec
  constructor
  · intro hc
    have e : ∀ rest : List Nat, ((([0, 0, 1, stream.mpeg2_stream_id % 256,
        (stream.pck.data_len + 3 + 5 * stream.pck.GF_ESI_DATA_HAS_CTS.toNat
          + 5 * stream.pck.GF_ESI_DATA_HAS_DTS.toNat) / 256 % 256,
        (stream.pck.data_len + 3 + 5 * stream.pck.GF_ESI_DATA_HAS_CTS.toNat
          + 5 * stream.pck.GF_ESI_DATA_HAS_DTS.toNat) % 256, 0x84,
        128 * stream.pck.GF_ESI_DATA_HAS_CTS.toNat + 64 * stream.pck.GF_ESI_DATA_HAS_DTS.toNat,
        5 * stream.pck.GF_ESI_DATA_HAS_CTS.toNat + 5 * stream.pck.GF_ESI_DATA_HAS_DTS.toNat]
        ++ timestamp_field (if stream.pck.GF_ESI_DATA_HAS_DTS = true then 3 else 2)
            stream.pck.cts) ++ rest).drop 9).take 5
        = timestamp_field (if stream.pck.GF_ESI_DATA_HAS_DTS = true then 3 else 2)
            stream.pck.cts := fun rest => rfl
    simp only [hc, if_true, e]
    have h := timestamp_field_read (if stream.pck.GF_ESI_DATA_HAS_DTS = true then 3 else 2)
      stream.pck.cts (by split <;> decide)
    exact h
  · intro hd
    simp only [hd, if_true]
    have h := timestamp_field_read 1 stream.pck.dts (by decide)
    cases stream.pck.GF_ESI_DATA_HAS_CTS
    · exact h
    · exact h

/-- Witness of C18: an access unit with the PTS `2 ^ 33 + 5` and the DTS 12345. -/
theorem m2ts_stream_add_pes_header_timestamps_witness :
    (timestamp_lead (((pes_header_bytes demo_pts_dts).drop 9).take 5)
        = (if demo_pts_dts.pck.GF_ESI_DATA_HAS_DTS then 3 else 2) ∧
      timestamp_markers (((pes_header_bytes demo_pts_dts).drop 9).take 5) = [1, 1, 1] ∧
      timestamp_decode (((pes_header_bytes demo_pts_dts).drop 9).take 5)
        = demo_pts_dts.pck.cts % 2 ^ 33) ∧
    (timestamp_lead (((pes_header_bytes demo_pts_dts).drop
          (9 + 5 * demo_pts_dts.pck.GF_ESI_DATA_HAS_CTS.toNat)).take 5) = 1 ∧
      timestamp_markers (((pes_header_bytes demo_pts_dts).drop
          (9 + 5 * demo_pts_dts.pck.GF_ESI_DATA_HAS_CTS.toNat)).take 5) = [1, 1, 1] ∧
      timestamp_decode (((pes_header_bytes demo_pts_dts).drop
          (9 + 5 * demo_pts_dts.pck.GF_ESI_DATA_HAS_CTS.toNat)).take 5)
        = demo_pts_dts.pck.dts % 2 ^ 33) :=
  ⟨(m2ts_stream_add_pes_header_timestamps demo_pts_dts).1 rfl,
   (m2ts_stream_add_pes_header_timestamps demo_pts_dts).2 rfl⟩

/-- What a receiver reads back from a packet made of a header, an adaptation field, a PES
header and a tail. -/
theorem pes_packet_read (pusi pid afc cc : Nat) (af hdr tail : List Nat) (hp : pusi ≤ 1)
    (haf : ts_packet_af_size (ts_header 0 pusi 0 pid 0 afc cc ++ (af ++ (hdr ++ tail)))
      = af.length)
    (h1 : pusi = 1 → 9 + hdr.getD 8 0 = hdr.length ∧ 9 ≤ hdr.length)
    (h0 : pusi = 0 → hdr = []) :
    ts_packet_pusi (ts_header 0 pusi 0 pid 0 afc cc ++ (af ++ (hdr ++ tail))) = pusi ∧
    ts_packet_pes_payload (ts_header 0 pusi 0 pid 0 afc cc ++ (af ++ (hdr ++ tail)))
      = hdr ++ tail ∧
    ts_packet_au_payload (ts_header 0 pusi 0 pid 0 afc cc ++ (af ++ (hdr ++ tail)))
      = tail := by
  have hpu := ts_packet_pusi_header pusi pid afc cc (af ++ (hdr ++ tail)) hp
  have hpes : ts_packet_pes_payload (ts_header 0 pusi 0 pid 0 afc cc ++ (af ++ (hdr ++ tail)))
      = hdr ++ tail := by
    unfold ts_packet_pes_payload
    rw [haf, ts_header_drop, List.drop_left]
  refine ⟨hpu, hpes, ?_⟩
  unfold ts_packet_au_payload
  rw [hpu, hpes]
  by_cases h : pusi = 1
  · obtain ⟨e1, e2⟩ := h1 h
    rw [if_pos h, List.getD_append _ _ _ _ (by omega), e1, List.drop_left]
  · rw [if_neg h, h0 (by omega)]
    rfl

theorem pes_header_spec_byte8 (stream : M2TS_Mux_Stream) :
    9 + (pes_header_bytes stream).getD 8 0 = (pes_header_bytes stream).length
      ∧ 9 ≤ (pes_header_bytes stream).length := by
  rw [pes_header_bytes_length, pes_header_bytes_eq]
  unfold pes_header_spec
  cases stream.pck.GF_ESI_DATA_HAS_CTS <;> cases stream.pck.GF_ESI_DATA_HAS_DTS <;>
    exact ⟨rfl, by decide⟩

/-- What a receiver reads back from a PES packet. -/
theorem pes_packet_spec_read (pcr : Nat) (needs_pcr : Bool) (stream : M2TS_Mux_Stream) :
    ts_packet_pusi (pes_packet_spec pcr needs_pcr stream)
      = (if m2ts_stream_get_pes_header_length stream ≠ 0 then 1 else 0) ∧
    ts_packet_pes_payload (pes_packet_spec pcr needs_pcr stream)
      = (if m2ts_stream_get_pes_header_length stream ≠ 0 then pes_header_bytes stream else [])
        ++ (stream.pck.data.drop stream.pck_offset).take
            (pes_payload_length stream needs_pcr) ∧
    ts_packet_au_payload (pes_packet_spec pcr needs_pcr stream)
      = (stream.pck.data.drop stream.pck_offset).take
          (pes_payload_length stream needs_pcr) := by
  unfold pes_packet_spec
  simp only [List.append_assoc]
  generalize (stream.pck.data.drop stream.pck_offset).take
    (pes_payload_length stream needs_pcr) = tail
  generalize pes_payload_length stream needs_pcr = n
  generalize m2ts_stream_get_pes_header_length stream = h
  have hdr1 : (if h ≠ 0 then 1 else 0) = 1 →
      9 + (if h ≠ 0 then pes_header_bytes stream else []).getD 8 0
        = (if h ≠ 0 then pes_header_bytes stream else []).length
      ∧ 9 ≤ (if h ≠ 0 then pes_header_bytes stream else []).length := by
    intro hh
    split at hh
    · rw [if_pos ‹_›]
      exact pes_header_spec_byte8 stream
    · exact absurd hh (by decide)
  have hdr0 : (if h ≠ 0 then 1 else 0) = 0 →
      (if h ≠ 0 then pes_header_bytes stream else []) = [] := by
    intro hh
    split at hh
    · exact absurd hh (by decide)
    · rw [if_neg ‹_›]
  have hpu : (if h ≠ 0 then 1 else 0) ≤ 1 := by split <;> decide
  by_cases haf : (decide (needs_pcr = true ∨ stream.pck.data_len - stream.pck_offset < 184))
      = true
  · simp only [haf, if_true]
    exact pes_packet_read _ _ _ _ _ _ _ hpu
      (ts_packet_af_size_some _ _ _ _ _ _ _ _ (by split <;> omega)) hdr1 hdr0
  · simp only [haf, if_false, Bool.false_eq_true]
    exact pes_packet_read _ _ _ _ [] _ _ hpu (ts_packet_af_size_none _ _ _ _) hdr1 hdr0

theorem pes_payload_length_le (stream : M2TS_Mux_Stream) (needs_pcr : Bool)
    (hoff : stream.pck_offset < stream.pck.data_len) :
    1 ≤ pes_payload_length stream needs_pcr ∧
    stream.pck_offset + pes_payload_length stream needs_pcr ≤ stream.pck.data_len := by
  have hh : m2ts_stream_get_pes_header_length stream ≤ 19 := by
    rcases m2ts_stream_get_pes_header_length_eq stream with h | h
    · omega
    · rw [h, pes_header_bytes_length]
      split <;> split <;> omega
  unfold pes_payload_length
  simp only []
  split
  · omega
  · split <;> omega

/-- Sending the rest of an access unit from any offset below its length. -/
theorem pes_send_au_from (env : Nat → M2TS_Mux × Nat × Nat)
    (henv : ∀ i, (env i).1.bit_rate ≠ 0) (k : Nat) :
    ∀ (i : Nat) (program : M2TS_Mux_Program) (stream : M2TS_Mux_Stream) (packet : List Nat)
      (fuel : Nat),
      stream.pid ≠ 0 → stream.pck.data.length = stream.pck.data_len →
      stream.pck.data_len < 4294967296 → packet.length = 188 →
      stream.pck_offset < stream.pck.data_len →
      stream.pck.data_len - stream.pck_offset ≤ k → k ≤ fuel →
      ∃ p rest program' stream',
        pes_send_au env fuel i program stream packet = some (p :: rest, program', stream') ∧
        ((p :: rest).map ts_packet_au_payload).flatten
          = stream.pck.data.drop stream.pck_offset ∧
        (∀ q ∈ p :: rest, 1 ≤ (ts_packet_au_payload q).length) ∧
        (p :: rest).length ≤ k ∧
        ts_packet_pusi p = (if m2ts_stream_get_pes_header_length stream ≠ 0 then 1 else 0) ∧
        ts_packet_pes_payload p
          = (if m2ts_stream_get_pes_header_length stream ≠ 0 then pes_header_bytes stream
              else []) ++ ts_packet_au_payload p ∧
        (∀ q ∈ rest, ts_packet_pusi q = 0 ∧ ts_packet_pes_payload q = ts_packet_au_payload q) ∧
        stream'.pck_offset = stream'.pck.data_len ∧ stream'.pck = stream.pck := by
  induction k with
  | zero =>
    intro i program stream packet fuel _ _ _ _ hoff hk _
    omega
  | succ k ih =>
    intro i program stream packet fuel hpid hdata hlen hpk hoff hk hfuel
    obtain ⟨fuel, rfl⟩ : ∃ f, fuel = f + 1 := ⟨fuel - 1, by omega⟩
    obtain ⟨pcr, hpcr, hpcr64⟩ := m2ts_get_pcr_some (env i).1 program (henv i)
    have hev := pes_get_next_packet_eval (env i).1 program stream packet (env i).2.1
      (env i).2.2 pcr hpid (Nat.le_of_lt hoff) hdata hlen hpk hpcr hpcr64
    generalize pes_needs_pcr program stream (env i).2.1 = needs at hev
    have hn := pes_payload_length_le stream needs hoff
    obtain ⟨hpusi, hpes, hpay⟩ := pes_packet_spec_read pcr needs stream
    have hplen : (ts_packet_au_payload (pes_packet_spec pcr needs stream)).length
        = pes_payload_length stream needs := by
      rw [hpay]
      simp only [List.length_take, List.length_drop]
      omega
    rw [← hpay] at hpes
    unfold pes_send_au
    rw [hev]
    simp only []
    by_cases hend : stream.pck_offset + pes_payload_length stream needs = stream.pck.data_len
    · rw [if_pos hend]
      refine ⟨_, [], _, _, rfl, ?_, ?_, ?_, hpusi, hpes, ?_, hend, rfl⟩
      · simp only [List.map_cons, List.map_nil, List.flatten_cons, List.flatten_nil,
          List.append_nil, hpay]
        apply List.take_of_length_le
        simp only [List.length_drop]
        omega
      · intro q hq
        simp only [List.mem_singleton] at hq
        rw [hq, hplen]
        exact hn.1
      · simp only [List.length_singleton]
        omega
      · intro q hq
        simp at hq
    · rw [if_neg hend]
      have hne : stream.pck_offset + pes_payload_length stream needs ≠ 0 := by omega
      obtain ⟨p, rest, program', stream', hrun, hcat, hpos, hcount, hp0, hp1, hrest, hfin,
          hpck⟩ :=
        ih (i + 1)
          (if needs = true then
            { program with last_pcr := pcr, last_sys_clock := (env i).2.2 } else program)
          { stream with
              continuity_counter :=
                if stream.continuity_counter < 15 then stream.continuity_counter + 1 else 0,
              pck_offset := stream.pck_offset + pes_payload_length stream needs }
          (pes_packet_spec pcr needs stream) fuel hpid hdata hlen
          (pes_packet_spec_length _ _ _ hdata)
          (by show stream.pck_offset + _ < stream.pck.data_len; omega)
          (by show stream.pck.data_len - (stream.pck_offset + _) ≤ k; omega) (by omega)
      have h0 : m2ts_stream_get_pes_header_length
          { stream with
              continuity_counter :=
                if stream.continuity_counter < 15 then stream.continuity_counter + 1 else 0,
              pck_offset := stream.pck_offset + pes_payload_length stream needs } = 0 := by
        unfold m2ts_stream_get_pes_header_length
        rw [if_pos (Or.inl hne)]
      rw [h0] at hp0 hp1
      rw [hrun]
      refine ⟨_, p :: rest, program', stream', rfl, ?_, ?_, ?_, hpusi, hpes, ?_, hfin, hpck⟩
      · rw [List.map_cons, List.flatten_cons, hcat, hpay]
        exact take_drop_append_drop _ _ _
      · intro q hq
        rcases List.mem_cons.1 hq with h | h
        · rw [h, hplen]
          exact hn.1
        · exact hpos q h
      · simp only [List.length_cons] at hcount ⊢
        omega
      · intro q hq
        rcases List.mem_cons.1 hq with h | h
        · rw [h]
          exact ⟨hp0, hp1⟩
        · exact hrest q h

/-- C10: for an access unit of `n ≥ 1` bytes with `pck_offset = 0`, whatever the mux
state and the clock readings at each call, calls of `m2ts_mux_pes_get_next_packet`
repeated until `pck_offset = pck.data_len` all return, are at most `n`, each carries at
least one byte of the access unit, and the payloads in the order of emission make up
`pck.data`; no packet after the first has PUSI set or carries a PES header, and the first
one has PUSI 1 and carries the PES header when the access unit has its start flag. -/
theorem pes_send_au_complete (env : Nat → M2TS_Mux × Nat × Nat)
    (henv : ∀ i, (env i).1.bit_rate ≠ 0) (program : M2TS_Mux_Program)
    (stream : M2TS_Mux_Stream) (packet : List Nat)
    (hpid : stream.pid ≠ 0) (hdata : stream.pck.data.length = stream.pck.data_len)
    (hlen : stream.pck.data_len < 4294967296) (hpk : packet.length = 188)
    (hn : 1 ≤ stream.pck.data_len) (h0 : stream.pck_offset = 0) :
    ∃ p rest program' stream',
      pes_send_au env stream.pck.data_len 0 program stream packet
        = some (p :: rest, program', stream') ∧
      ((p :: rest).map ts_packet_au_payload).flatten = stream.pck.data ∧
      (∀ q ∈ p :: rest, 1 ≤ (ts_packet_au_payload q).length) ∧
      (p :: rest).length ≤ stream.pck.data_len ∧
      (∀ q ∈ rest, ts_packet_pusi q = 0 ∧ ts_packet_pes_payload q = ts_packet_au_payload q) ∧
      (stream.pck.GF_ESI_DATA_AU_START = true →
        ts_packet_pusi p = 1 ∧
        ts_packet_pes_payload p = pes_header_bytes stream ++ ts_packet_au_payload p) ∧
      (stream.pck.GF_ESI_DATA_AU_START = false →
        ts_packet_pusi p = 0 ∧ ts_packet_pes_payload p = ts_packet_au_payload p) ∧
      stream'.pck_offset = stream'.pck.data_len ∧ stream'.pck = stream.pck := by
  obtain ⟨p, rest, program', stream', hrun, hcat, hpos, hcount, hp0, hp1, hrest, hfin, hpck⟩ :=
    pes_send_au_from env henv stream.pck.data_len 0 program stream packet stream.pck.data_len
      hpid hdata hlen hpk (by omega) (by omega) (Nat.le_refl _)
  rw [h0] at hcat
  refine ⟨p, rest, program', stream', hrun, hcat, hpos, hcount, hrest, ?_, ?_, hfin, hpck⟩
  · intro hs
    have hh : m2ts_stream_get_pes_header_length stream ≠ 0 := by
      unfold m2ts_stream_get_pes_header_length
      simp only [h0, hs, ne_eq, not_true_eq_false, or_self, if_false]
      cases stream.pck.GF_ESI_DATA_HAS_CTS <;> cases stream.pck.GF_ESI_DATA_HAS_DTS <;> decide
    rw [if_pos hh] at hp0 hp1
    exact ⟨hp0, hp1⟩
  · intro hs
    have hh : ¬ (m2ts_stream_get_pes_header_length stream ≠ 0) := by
      unfold m2ts_stream_get_pes_header_length
      simp [hs]
    rw [if_neg hh] at hp0 hp1
    exact ⟨hp0, hp1⟩

/-- Witness of C10: the access unit of 1000 bytes of the PCR stream, at a constant mux
state and clock. -/
theorem pes_send_au_complete_witness :
    ∃ p rest program' stream',
      pes_send_au (fun _ => ({ tot_pck_sent := 10, bit_rate := 1000000 }, 500, 501))
          demo_pes_stream.pck.data_len 0 {} demo_pes_stream (List.replicate 188 0)
        = some (p :: rest, program', stream') ∧
      ((p :: rest).map ts_packet_au_payload).flatten = demo_pes_stream.pck.data ∧
      (∀ q ∈ p :: rest, 1 ≤ (ts_packet_au_payload q).length) ∧
      (p :: rest).length ≤ demo_pes_stream.pck.data_len ∧
      (∀ q ∈ rest, ts_packet_pusi q = 0 ∧ ts_packet_pes_payload q = ts_packet_au_payload q) ∧
      (demo_pes_stream.pck.GF_ESI_DATA_AU_START = true →
        ts_packet_pusi p = 1 ∧
        ts_packet_pes_payload p = pes_header_bytes demo_pes_stream ++ ts_packet_au_payload p) ∧
      (demo_pes_stream.pck.GF_ESI_DATA_AU_START = false →
        ts_packet_pusi p = 0 ∧ ts_packet_pes_payload p = ts_packet_au_payload p) ∧
      stream'.pck_offset = stream'.pck.data_len ∧ stream'.pck = demo_pes_stream.pck :=
  pes_send_au_complete (fun _ => ({ tot_pck_sent := 10, bit_rate := 1000000 }, 500, 501))
    (fun _ => (by decide : (1000000 : Nat) ≠ 0)) {} demo_pes_stream (List.replicate 188 0) (by decide)
    (List.length_replicate 1000 9) (by decide) (List.length_replicate 188 0) (by decide) rfl

/-! ## PCR insertion -/

theorem pes_packet_spec_pcr_flag (pcr : Nat) (needs_pcr : Bool) (stream : M2TS_Mux_Stream) :
    ts_packet_pcr_flag (pes_packet_spec pcr needs_pcr stream) = needs_pcr := by
  unfold pes_packet_spec
  simp only [List.append_assoc]
  generalize (stream.pck.data.drop stream.pck_offset).take
    (pes_payload_length stream needs_pcr) = tail
  generalize pes_payload_length stream needs_pcr = n
  generalize m2ts_stream_get_pes_header_length stream = h
  generalize (if h ≠ 0 then pes_header_bytes stream else []) = hdr
  by_cases haf : (decide (needs_pcr = true ∨ stream.pck.data_len - stream.pck_offset < 184))
      = true
  · simp only [haf, if_true]
    unfold ts_packet_pcr_flag
    rw [ts_packet_af_size_some _ _ _ _ _ _ _ _ (by split <;> omega), adaptation_field_length]
    have e : (ts_header 0 (if h ≠ 0 then 1 else 0) 0 stream.pid 0 3 stream.continuity_counter ++
        (adaptation_field needs_pcr pcr
          (decide (h ≠ 0 ∧ stream.pck.GF_ESI_DATA_AU_RAP = true))
          (184 - h - (if needs_pcr = true then 8 else 2) - n) ++ (hdr ++ tail))).getD 5 0
        = 64 * (decide (h ≠ 0 ∧ stream.pck.GF_ESI_DATA_AU_RAP = true)).toNat
          + 16 * needs_pcr.toNat := rfl
    rw [e]
    cases needs_pcr <;>
      cases (decide (h ≠ 0 ∧ stream.pck.GF_ESI_DATA_AU_RAP = true)) <;> simp <;> omega
  · have hn : needs_pcr = false := by
      cases needs_pcr
      · rfl
      · simp at haf
    simp only [haf, if_false, Bool.false_eq_true]
    unfold ts_packet_pcr_flag
    rw [ts_packet_af_size_none, hn]
    simp

/-- One call: the PCR flag of the packet and the program after the call. -/
theorem pes_call_pcr (program : M2TS_Mux_Program) (c : PES_Call) (hc : c.ok) :
    ∃ program' stream' packet',
      m2ts_mux_pes_get_next_packet c.mux program c.stream c.packet c.now c.now2
        = some (program', stream', packet') ∧
      ts_packet_pcr_flag packet' = pes_needs_pcr program c.stream c.now ∧
      (pes_needs_pcr program c.stream c.now = true → program'.last_sys_clock = c.now2) ∧
      (pes_needs_pcr program c.stream c.now = false → program' = program) := by
  obtain ⟨hpid, hbr, hoff, hdata, hlen, hpk⟩ := hc
  obtain ⟨pcr, hpcr, hpcr64⟩ := m2ts_get_pcr_some c.mux program hbr
  refine ⟨_, _, _, pes_get_next_packet_eval c.mux program c.stream c.packet c.now c.now2 pcr
    hpid hoff hdata hlen hpk hpcr hpcr64, pes_packet_spec_pcr_flag _ _ _, ?_, ?_⟩
  · intro h
    rw [if_pos h]
  · intro h
    rw [if_neg (by rw [h]; decide)]

theorem pes_needs_pcr_iff (program : M2TS_Mux_Program) (stream : M2TS_Mux_Stream) (now : Nat)
    (hw : program.last_sys_clock + 200 < 4294967296) :
    pes_needs_pcr program stream now = true ↔
      (m2ts_stream_get_pes_header_length stream ≠ 0 ∧ stream.is_pcr = true
        ∧ program.last_sys_clock + 200 < now) := by
  unfold pes_needs_pcr PCR_UPDATE_MS
  rw [u32_eq _ hw]
  simp

/-- The values of `last_sys_clock` recorded by a sequence of calls. -/
theorem pes_calls_chain (calls : List PES_Call) :
    ∀ program : M2TS_Mux_Program, program.last_sys_clock + 200 < 4294967296 →
      (∀ c ∈ calls, c.ok ∧ c.now ≤ c.now2 ∧ c.now2 + 200 < 4294967296) →
      ∃ program' recorded, pes_calls program calls = some (program', recorded) ∧
        List.Chain (fun a b => a + 200 < b) program.last_sys_clock recorded := by
  induction calls with
  | nil =>
    intro program _ _
    exact ⟨program, [], rfl, List.Chain.nil⟩
  | cons c rest ih =>
    intro program hw hcalls
    obtain ⟨hok, hle, hw2⟩ := hcalls c (List.mem_cons_self _ _)
    obtain ⟨program1, stream1, packet1, hcall, hflag, hyes, hno⟩ := pes_call_pcr program c hok
    have hrest : ∀ d ∈ rest, d.ok ∧ d.now ≤ d.now2 ∧ d.now2 + 200 < 4294967296 :=
      fun d hd => hcalls d (List.mem_cons_of_mem _ hd)
    unfold pes_calls
    rw [hcall]
    simp only [hflag]
    cases hneeds : pes_needs_pcr program c.stream c.now
    · rw [hno hneeds] at *
      obtain ⟨program', recorded, hrun, hchain⟩ := ih program hw hrest
      rw [hrun]
      exact ⟨program', recorded, rfl, hchain⟩
    · have h1 := hyes hneeds
      obtain ⟨program', recorded, hrun, hchain⟩ := ih program1 (by rw [h1]; exact hw2) hrest
      rw [hrun]
      refine ⟨program', _, rfl, ?_⟩
      simp only [if_true]
      rw [h1] at hchain ⊢
      have := (pes_needs_pcr_iff program c.stream c.now hw).1 hneeds
      exact List.Chain.cons (by omega) hchain

/-- C16 (as amended): as long as `last_sys_clock + 200` does not wrap around 32 bits,
`m2ts_mux_pes_get_next_packet` writes a PCR only in a packet that starts an access unit
of the PCR stream of the program and only when the clock reading is more than 200 ms past
`last_sys_clock`, and it then records the second clock reading in `last_sys_clock`; so,
over any sequence of calls whose readings do not go back (`now ≤ now2`), the values
recorded at successive insertions are more than 200 ms apart. -/
theorem pcr_insertion_cadence (program : M2TS_Mux_Program)
    (hw : program.last_sys_clock + 200 < 4294967296) :
    (∀ c : PES_Call, c.ok →
      ∃ program' stream' packet',
        m2ts_mux_pes_get_next_packet c.mux program c.stream c.packet c.now c.now2
          = some (program', stream', packet') ∧
        (ts_packet_pcr_flag packet' = true →
          m2ts_stream_get_pes_header_length c.stream ≠ 0 ∧ c.stream.is_pcr = true ∧
          program.last_sys_clock + 200 < c.now ∧ program'.last_sys_clock = c.now2) ∧
        (ts_packet_pcr_flag packet' = false → program' = program)) ∧
    (∀ calls : List PES_Call,
      (∀ c ∈ calls, c.ok ∧ c.now ≤ c.now2 ∧ c.now2 + 200 < 4294967296) →
      ∃ program' recorded, pes_calls program calls = some (program', recorded) ∧
        List.Chain (fun a b => a + 200 < b) program.last_sys_clock recorded) := by
  constructor
  · intro c hc
    obtain ⟨program', stream', packet', hcall, hflag, hyes, hno⟩ := pes_call_pcr program c hc
    refine ⟨program', stream', packet', hcall, ?_, ?_⟩
    · intro h
      rw [hflag] at h
      obtain ⟨h1, h2, h3⟩ := (pes_needs_pcr_iff program c.stream c.now hw).1 h
      exact ⟨h1, h2, h3, hyes h⟩
    · intro h
      rw [hflag] at h
      exact hno h
  · intro calls hcalls
    exact pes_calls_chain calls program hw hcalls

/-- Witness of C16: a program whose last PCR was written at the clock 0, and two calls at
the clock 500. -/
theorem pcr_insertion_cadence_witness :
    (∃ program' stream' packet',
        m2ts_mux_pes_get_next_packet demo_call.mux {} demo_call.stream demo_call.packet
            demo_call.now demo_call.now2
          = some (program', stream', packet') ∧
        (ts_packet_pcr_flag packet' = true →
          m2ts_stream_get_pes_header_length demo_call.stream ≠ 0 ∧
          demo_call.stream.is_pcr = true ∧
          ({} : M2TS_Mux_Program).last_sys_clock + 200 < demo_call.now ∧
          program'.last_sys_clock = demo_call.now2) ∧
        (ts_packet_pcr_flag packet' = false → program' = {})) ∧
    (∃ program' recorded, pes_calls {} [demo_call, demo_call] = some (program', recorded) ∧
        List.Chain (fun a b => a + 200 < b) ({} : M2TS_Mux_Program).last_sys_clock recorded) :=
  have hok : demo_call.ok :=
    ⟨by decide, by decide, by decide, List.length_replicate 1000 9, by decide,
      List.length_replicate 188 0⟩
  ⟨(pcr_insertion_cadence {} (by decide)).1 demo_call hok,
   (pcr_insertion_cadence {} (by decide)).2 [demo_call, demo_call]
     (fun c hc => by
        have h : c = demo_call := by
          rcases List.mem_cons.1 hc with h | h
          · exact h
          · exact List.mem_singleton.1 h
        rw [h]
        exact ⟨hok, by decide, by decide⟩)⟩

/-- C16, counterexample: with `last_sys_clock = 4294967196` the sum
`last_sys_clock + 200` wraps around to 100, and a call at the clock 4294967200, 4 ms
later, writes a PCR and records 4294967200. -/
theorem pcr_insertion_wraps :
    ∃ program' stream' packet',
      m2ts_mux_pes_get_next_packet demo_call_late.mux { last_sys_clock := 4294967196 }
          demo_call_late.stream demo_call_late.packet demo_call_late.now demo_call_late.now2
        = some (program', stream', packet') ∧
      ts_packet_pcr_flag packet' = true ∧
      ¬ (4294967196 + 200 < demo_call_late.now) ∧
      program'.last_sys_clock = 4294967196 + 4 := by
  have hok : demo_call_late.ok :=
    ⟨by decide, by decide, by decide, List.length_replicate 1000 9, by decide,
      List.length_replicate 188 0⟩
  obtain ⟨program', stream', packet', hcall, hflag, hyes, _⟩ :=
    pes_call_pcr { last_sys_clock := 4294967196 } demo_call_late hok
  have hneeds : pes_needs_pcr { last_sys_clock := 4294967196 } demo_call_late.stream
      demo_call_late.now = true := by decide
  exact ⟨program', stream', packet', hcall, by rw [hflag, hneeds], by decide, hyes hneeds⟩

/-! ## Table versions -/

/-- C8, the code at the failing input: a table with version 30 updated once has version
0, not 31, in `m2ts_mux_table_update` and in `m2ts_mux_table_update_mpeg4` alike, the
increment being taken modulo `0x1F`; a table id not yet in the list is appended at the
end with version 0. -/
theorem table_update_version_mod_31 :
    (m2ts_mux_table_update { tables := [{ table_id := 2, version_number := 30 }] } 2 1 [] 0
        true false false).map (fun s => s.tables.map (fun t => (t.table_id, t.version_number)))
      = some [(2, 0)] ∧
    (m2ts_mux_table_update_mpeg4 (fun _ => 0) (fun _ => [])
        { tables := [{ table_id := 4, version_number := 30 }] } 4 1 [] 0
        true false false).map (fun s => s.tables.map (fun t => (t.table_id, t.version_number)))
      = some [(4, 0)] ∧
    (30 + 1) % 32 = 31 ∧
    (m2ts_mux_table_update { tables := [{ table_id := 2, version_number := 7 }] } 0 1 [] 0
        true false false).map (fun s => s.tables.map (fun t => (t.table_id, t.version_number)))
      = some [(2, 7), (0, 0)] := by
  decide

/-! ## Building the sections of a table -/

/-- The loop that counts the sections stops at the first count that is large enough,
when there is one within the fuel. -/
theorem nb_sections_loop_first (cap n : Nat) :
    ∀ fuel nb m, nb ≤ m → m < nb + fuel → m < 4294967296 → ¬ (u32 (m * cap) < n) →
      ∃ r, nb_sections_loop fuel cap n nb = some r ∧ nb ≤ r ∧ r ≤ m ∧ ¬ (u32 (r * cap) < n) ∧
        ∀ j, nb ≤ j → j < r → u32 (j * cap) < n := by
  intro fuel
  induction fuel with
  | zero => intro nb m h1 h2; omega
  | succ fuel ih =>
    intro nb m h1 h2 h3 h4
    unfold nb_sections_loop
    by_cases hc : u32 (nb * cap) < n
    · rw [if_pos hc]
      have hne : nb ≠ m := by
        intro h; rw [h] at hc; exact h4 hc
      have hu : u32 (nb + 1) = nb + 1 := u32_eq _ (by omega)
      rw [hu]
      obtain ⟨r, hr, hle, hrm, hstop, hall⟩ := ih (nb + 1) m (by omega) (by omega) h3 h4
      refine ⟨r, hr, by omega, hrm, hstop, ?_⟩
      intro j hj1 hj2
      by_cases hj : j = nb
      · rw [hj]; exact hc
      · exact hall j (by omega) hj2
    · rw [if_neg hc]
      exact ⟨nb, rfl, Nat.le_refl _, h1, hc, fun j hj1 hj2 => by omega⟩

/-- The loop that counts the sections ends for every payload length the section engine
can be given, except the three largest when the sections carry the extended header. -/
theorem nb_sections_loop_ends (maxSectionLength n : Nat) (syn : Bool)
    (hmax : maxSectionLength = 1024 ∨ maxSectionLength = 4096)
    (hn : n < 4294967296) (hsyn : syn = true → n ≤ 4294967292) :
    ∃ r, nb_sections_loop 4294967296
      (maxSectionLength - (if syn then 3 + (5 + 4) else 3)) n 1 = some r := by
  have key : ∃ m, 1 ≤ m ∧ m < 4294967296 ∧
      ¬ (u32 (m * (maxSectionLength - (if syn then 3 + (5 + 4) else 3))) < n) := by
    cases syn
    · rcases hmax with h | h
      · refine ⟨437489323, by decide, by decide, ?_⟩
        rw [h]
        have : u32 (437489323 * (1024 - (if false = true then 3 + (5 + 4) else 3)))
            = 4294967295 := by decide
        rw [this]; omega
      · refine ⟨4136516267, by decide, by decide, ?_⟩
        rw [h]
        have : u32 (4136516267 * (4096 - (if false = true then 3 + (5 + 4) else 3)))
            = 4294967295 := by decide
        rw [this]; omega
    · have hn' := hsyn rfl
      rcases hmax with h | h
      · refine ⟨424403883, by decide, by decide, ?_⟩
        rw [h]
        have : u32 (424403883 * (1024 - (if true = true then 3 + (5 + 4) else 3)))
            = 4294967292 := by decide
        rw [this]; omega
      · refine ⟨437489323, by decide, by decide, ?_⟩
        rw [h]
        have : u32 (437489323 * (4096 - (if true = true then 3 + (5 + 4) else 3)))
            = 4294967292 := by decide
        rw [this]; omega
  obtain ⟨m, h1, h2, h3⟩ := key
  obtain ⟨r, hr, _⟩ := nb_sections_loop_first _ n 4294967296 1 m h1 (by omega) h2 h3
  exact ⟨r, hr⟩

/-- The count of the sections, when the last multiple of the capacity fits in 32 bits. -/
theorem nb_sections_loop_value (cap n : Nat) (hcap : 0 < cap) (hn : 1 ≤ n)
    (hfit : (n + cap - 1) / cap * cap < 4294967296) :
    nb_sections_loop 4294967296 cap n 1 = some ((n + cap - 1) / cap) := by
  have hc1 : n ≤ (n + cap - 1) / cap * cap := by
    have := Nat.div_add_mod (n + cap - 1) cap
    have := Nat.mod_lt (n + cap - 1) hcap
    rw [Nat.mul_comm]
    omega
  have hc2 : ((n + cap - 1) / cap - 1) * cap < n := by
    have := Nat.div_mul_le_self (n + cap - 1) cap
    rw [Nat.sub_mul]
    omega
  have hc0 : 1 ≤ (n + cap - 1) / cap := by
    rw [Nat.one_le_div_iff hcap]; omega
  have hlt : (n + cap - 1) / cap < 4294967296 := by
    have : (n + cap - 1) / cap ≤ (n + cap - 1) / cap * cap := Nat.le_mul_of_pos_right _ hcap
    omega
  obtain ⟨r, hr, h1, h2, hstop, hall⟩ := nb_sections_loop_first cap n 4294967296 1
    ((n + cap - 1) / cap) hc0 (by omega) hlt (by rw [u32_eq _ hfit]; omega)
  rw [hr]
  congr 1
  by_contra hne
  have hlt2 : r < (n + cap - 1) / cap := by omega
  have hrc : r * cap ≤ ((n + cap - 1) / cap - 1) * cap :=
    Nat.mul_le_mul_right _ (by omega)
  have hrlt : r * cap < 4294967296 := by
    have : ((n + cap - 1) / cap - 1) * cap ≤ (n + cap - 1) / cap * cap :=
      Nat.mul_le_mul_right _ (by omega)
    omega
  rw [u32_eq _ hrlt] at hstop
  omega

theorem write_section_number_unused (table_id ext ver : Nat) (priv : Bool)
    (sn sn' nb length : Nat) (slhdr slice : List Nat) :
    write_section table_id ext ver false priv sn nb length slhdr slice
      = write_section table_id ext ver false priv sn' nb length slhdr slice := rfl

/-- The section loop of `m2ts_mux_table_update` builds the sections of the
specification. -/
theorem build_sections_eq (table_id ext ver : Nat) (syn priv : Bool) (payload : List Nat)
    (n maxlen overhead nb : Nat) (hlen : payload.length = n) (hn : n < 4294967296)
    (hov : overhead < maxlen) (hmax : maxlen < 4294967296) :
    ∀ fuel offset sn sn', offset ≤ n → n - offset ≤ fuel → sn + (n - offset) < 4294967296 →
      (syn = true → sn' = sn) →
      build_sections table_id ext ver syn priv payload n maxlen overhead nb fuel offset sn
        = some (sections_spec table_id ext ver syn priv nb overhead (maxlen - overhead) fuel
            sn' (payload.drop offset)) := by
  intro fuel
  induction fuel with
  | zero =>
    intro offset sn sn' h1 h2 _ _
    have : offset = n := by omega
    unfold build_sections
    rw [if_neg (by omega)]
    rfl
  | succ fuel ih =>
    intro offset sn sn' h1 h2 h3 h4
    unfold build_sections
    by_cases hlt : offset < n
    · rw [if_pos hlt]
      simp only []
      have hrem : sub32 n offset = n - offset := sub32_eq _ _ hn h1
      have hcap : sub32 maxlen overhead = maxlen - overhead :=
        sub32_eq _ _ hmax (Nat.le_of_lt hov)
      have hrl : (payload.drop offset).length = n - offset := by
        rw [List.length_drop, hlen]
      have hne : payload.drop offset ≠ [] := by
        intro h; rw [h] at hrl; simp at hrl; omega
      rw [hrem, hcap]
      unfold sections_spec
      rw [if_neg hne]
      by_cases hbig : n - offset > maxlen - overhead
      · rw [if_pos hbig]
        have e1 : sub32 maxlen overhead = maxlen - overhead := hcap
        have e2 : u32 (offset + (maxlen - overhead)) = offset + (maxlen - overhead) :=
          u32_eq _ (by omega)
        have e3 : (List.take (maxlen - overhead) (payload.drop offset)).length + overhead
            = maxlen := by
          rw [List.length_take, hrl]; omega
        rw [e1, e2, e3]
        have hih := ih (offset + (maxlen - overhead))
          (if syn = true then u32 (sn + 1) else sn) (sn' + 1) (by omega) (by omega)
          (by split
              · rw [u32_eq _ (by omega)]; omega
              · omega)
          (by intro hs; rw [if_pos hs, u32_eq _ (by omega), h4 hs])
        rw [hih, List.drop_drop]
        cases syn
        · rfl
        · rw [h4 rfl]; rfl
      · rw [if_neg hbig]
        have e0 : u32 (n - offset + overhead) = n - offset + overhead := u32_eq _ (by omega)
        have e1 : sub32 (n - offset + overhead) overhead = n - offset := by
          unfold sub32; omega
        have e2 : u32 (offset + (n - offset)) = n := by unfold u32; omega
        have e4 : List.take (maxlen - overhead) (payload.drop offset) = payload.drop offset :=
          List.take_of_length_le (by rw [hrl]; omega)
        have e5 : List.take (n - offset) (payload.drop offset) = payload.drop offset :=
          List.take_of_length_le (by rw [hrl])
        rw [e0, e1, e2, e4, e5, hrl]
        have hih := ih n (if syn = true then u32 (sn + 1) else sn) (sn' + 1)
          (Nat.le_refl _) (by omega)
          (by split
              · rw [u32_eq _ (by omega)]; omega
              · omega)
          (by intro hs; rw [if_pos hs, u32_eq _ (by omega), h4 hs])
        have e6 : List.drop (maxlen - overhead) (payload.drop offset) = payload.drop n := by
          rw [List.drop_eq_nil_of_le (by rw [hrl]; omega),
            List.drop_eq_nil_of_le (by rw [hlen])]
        rw [hih, e6]
        cases syn
        · rfl
        · rw [h4 rfl]; rfl
    · have : offset = n := by omega
      rw [if_neg hlt]
      unfold sections_spec
      rw [if_pos (List.drop_eq_nil_of_le (by rw [hlen]; omega))]

theorem bytesOfBits_section_flags (s p len : Nat) (rest : List Bool) (hs : s ≤ 1)
    (hp : p ≤ 1) :
    bytesOfBits (bitsOf s 1 ++ (bitsOf p 1 ++ (bitsOf 3 2 ++ (bitsOf len 12 ++ rest))))
      = (128 * s + 64 * p + 48 + len / 256 % 16) :: len % 256 :: bytesOfBits rest := by
  rw [← List.append_assoc, bitsOf_merge, ← List.append_assoc, bitsOf_merge,
    ← List.append_assoc, bitsOf_merge, bytesOfBits_bitsOf16]
  simp only [List.cons.injEq, and_true]
  norm_num
  constructor <;> omega

theorem bytesOfBits_section_version (ver : Nat) (rest : List Bool) :
    bytesOfBits (bitsOf 3 2 ++ (bitsOf ver 5 ++ (bitsOf 1 1 ++ rest)))
      = (192 + 2 * (ver % 32) + 1) :: bytesOfBits rest := by
  rw [bytesOfBits_merge3 _ _ _ 2 5 1 _ rfl]
  simp only [List.cons.injEq, and_true]
  norm_num
  omega

theorem map_mod_bytes (l : List Nat) (h : ∀ b ∈ l, b < 256) : l.map (· % 256) = l := by
  induction l with
  | nil => rfl
  | cons b l ih =>
    simp only [List.map_cons]
    rw [ih (fun x hx => h x (List.mem_cons_of_mem _ hx)),
      Nat.mod_eq_of_lt (h b (List.mem_cons_self _ _))]

theorem bytesOfBits_data (l : List Nat) (rest : List Bool) (h : ∀ b ∈ l, b < 256) :
    bytesOfBits (bitsOfBytes l ++ rest) = l ++ bytesOfBits rest := by
  rw [bytesOfBits_bitsOfBytes, map_mod_bytes l h]

theorem list_set_append_four (body : List Nat) (a b c d w x y z : Nat) :
    ((((body ++ [a, b, c, d]).set (body.length + 4 - 4) w).set (body.length + 4 - 3) x).set
      (body.length + 4 - 2) y).set (body.length + 4 - 1) z = body ++ [w, x, y, z] := by
  have e4 : body.length + 4 - 4 = body.length + 0 := by omega
  have e3 : body.length + 4 - 3 = body.length + 1 := by omega
  have e2 : body.length + 4 - 2 = body.length + 2 := by omega
  have e1 : body.length + 4 - 1 = body.length + 3 := by omega
  rw [e4, e3, e2, e1]
  simp [List.set_append]

/-- The CRC written over the four zero bytes that close a section. -/
theorem section_set_crc_eq (body : List Nat) :
    section_set_crc (body ++ [0, 0, 0, 0]) = body ++ crc_bytes (gf_crc_32 body) := by
  unfold section_set_crc CRC_LENGTH
  simp only [List.length_append, List.length_cons, List.length_nil]
  have e : body.length + (0 + 1 + 1 + 1 + 1) = body.length + 4 := rfl
  rw [e]
  have ht : List.take (body.length + 4 - 4) (body ++ [0, 0, 0, 0]) = body := by
    rw [Nat.add_sub_cancel, List.take_left]
  rw [ht, list_set_append_four]
  have hm : ∀ x : Nat, x &&& 0xFF = x % 256 := fun x => Nat.and_pow_two_sub_one_eq_mod x 8
  simp only [crc_bytes, hm, Nat.shiftRight_eq_div_pow]

/-- The bytes of a section built by `write_section`. -/
theorem write_section_eq (table_id ext ver : Nat) (syn priv : Bool) (sn nb length : Nat)
    (slhdr slice : List Nat) (hb1 : ∀ b ∈ slhdr, b < 256) (hb2 : ∀ b ∈ slice, b < 256)
    (hl : 3 ≤ length) (hl2 : length < 4294967296) :
    write_section table_id ext ver syn priv sn nb length slhdr slice
      = { data := section_spec table_id ext ver syn priv sn (sub32 nb 1) length slhdr slice,
          length := (section_spec table_id ext ver syn priv sn (sub32 nb 1) length slhdr
            slice).length } := by
  have hs : sub32 length SECTION_HEADER_LENGTH = length - 3 := sub32_eq _ _ hl2 hl
  have hbytes : ∀ rest : List Bool,
      bytesOfBits (bitsOfBytes slhdr ++ (bitsOfBytes slice ++ rest))
        = slhdr ++ (slice ++ bytesOfBits rest) := by
    intro rest
    rw [bytesOfBits_data _ _ hb1, bytesOfBits_data _ _ hb2]
  have hb0 : bytesOfBits (bitsOfBytes slhdr ++ bitsOfBytes slice) = slhdr ++ slice := by
    have := hbytes []
    rw [List.append_nil] at this
    rw [this]
    show slhdr ++ (slice ++ []) = _
    rw [List.append_nil]
  have hz : bytesOfBits (bitsOf 0 32) = [0, 0, 0, 0] := by
    have := bytesOfBits_bitsOf32 0 []
    rw [List.append_nil] at this
    rw [this]
    rfl
  unfold write_section section_spec section_body gf_bs_get_content
  rw [hs]
  cases syn <;> cases priv <;>
    simp only [gf_bs_write_int, gf_bs_write_data, gf_bs_write_u32, if_true, if_false,
      Bool.false_eq_true, List.nil_append, List.append_assoc, Bool.toNat_false,
      Bool.toNat_true] <;>
    rw [bytesOfBits_bitsOf8, bytesOfBits_section_flags _ _ _ _ (by decide) (by decide)]
  · rw [hb0]
    rfl
  · rw [hb0]
    rfl
  · rw [bytesOfBits_bitsOf16, bytesOfBits_section_version, bytesOfBits_bitsOf8,
      bytesOfBits_bitsOf8, hbytes, hz]
    have := section_set_crc_eq ([table_id % 256, 128 * 1 + 64 * 0 + 48 + (length - 3) / 256 % 16,
      (length - 3) % 256] ++ ([ext / 256 % 256, ext % 256, 192 + 2 * (ver % 32) + 1, sn % 256,
      sub32 nb 1 % 256] ++ (slhdr ++ slice)))
    simp only [List.append_assoc, List.cons_append, List.nil_append] at this ⊢
    rw [this]
  · rw [bytesOfBits_bitsOf16, bytesOfBits_section_version, bytesOfBits_bitsOf8,
      bytesOfBits_bitsOf8, hbytes, hz]
    have := section_set_crc_eq ([table_id % 256, 128 * 1 + 64 * 1 + 48 + (length - 3) / 256 % 16,
      (length - 3) % 256] ++ ([ext / 256 % 256, ext % 256, 192 + 2 * (ver % 32) + 1, sn % 256,
      sub32 nb 1 % 256] ++ (slhdr ++ slice)))
    simp only [List.append_assoc, List.cons_append, List.nil_append] at this ⊢
    rw [this]

theorem find_table_some (l : List M2TS_Mux_Table) (id : Nat) :
    ∀ i, find_table l id = some i → ∃ t, l.get? i = some t ∧ t.table_id = id := by
  induction l with
  | nil => intro i h; simp [find_table] at h
  | cons t l ih =>
    intro i h
    unfold find_table at h
    by_cases ht : t.table_id = id
    · rw [if_pos ht] at h
      injection h with h
      subst h
      exact ⟨t, rfl, ht⟩
    · rw [if_neg ht] at h
      cases hf : find_table l id with
      | none => rw [hf] at h; simp at h
      | some j =>
        rw [hf] at h
        simp only [Option.map_some', Option.some.injEq] at h
        subst h
        obtain ⟨t', h1, h2⟩ := ih j hf
        exact ⟨t', h1, h2⟩

theorem find_table_append_new (l : List M2TS_Mux_Table) (id : Nat) (t : M2TS_Mux_Table)
    (ht : t.table_id = id) (h : find_table l id = none) :
    find_table (l ++ [t]) id = some l.length := by
  induction l with
  | nil => simp [find_table, ht]
  | cons a l ih =>
    unfold find_table at h
    by_cases ha : a.table_id = id
    · rw [if_pos ha] at h; simp at h
    · rw [if_neg ha] at h
      have hn : find_table l id = none := by
        cases hf : find_table l id with
        | none => rfl
        | some j => rw [hf] at h; simp at h
      have e := ih hn
      simp only [List.cons_append, find_table, if_neg ha, List.length_cons]
      show Option.map (fun x => x + 1) (find_table (l ++ [t]) id) = _
      rw [e]
      rfl

theorem find_table_set (l : List M2TS_Mux_Table) (id : Nat) :
    ∀ (i : Nat) (t : M2TS_Mux_Table), (∃ t0, l.get? i = some t0 ∧ t0.table_id = t.table_id) →
      find_table (l.set i t) id = find_table l id := by
  induction l with
  | nil => intro i t _; rfl
  | cons a l ih =>
    intro i t h
    cases i with
    | zero =>
      obtain ⟨t0, h1, h2⟩ := h
      simp only [List.get?_cons_zero, Option.some.injEq] at h1
      subst h1
      simp only [List.set_cons_zero, find_table, h2]
    | succ i =>
      obtain ⟨t0, h1, h2⟩ := h
      simp only [List.set_cons_succ, find_table]
      rw [ih i t ⟨t0, by simpa using h1, h2⟩]

/-- The table found or created by the head of a table update. -/
theorem table_lookup_spec (stream : M2TS_Mux_Stream) (table_id : Nat) :
    ∃ t, (table_lookup stream table_id).1.tables.get? (table_lookup stream table_id).2 = some t ∧
      t.table_id = table_id ∧ t.sections = [] ∧
      find_table (table_lookup stream table_id).1.tables table_id
        = some (table_lookup stream table_id).2 := by
  unfold table_lookup
  cases hf : find_table stream.tables table_id with
  | none =>
    simp only []
    refine ⟨{ table_id := table_id }, ?_, rfl, rfl, find_table_append_new _ _ _ rfl hf⟩
    simp
  | some i =>
    simp only []
    obtain ⟨t, h1, h2⟩ := find_table_some _ _ i hf
    unfold list_modify
    rw [h1]
    simp only []
    have hi : i < stream.tables.length := by
      rcases Nat.lt_or_ge i stream.tables.length with h | h
      · exact h
      · rw [List.get?_eq_none.2 h] at h1; simp at h1
    refine ⟨{ t with sections := [], version_number := (t.version_number + 1) % 0x1F }, ?_, h2,
      rfl, ?_⟩
    · simp [List.getElem?_set, hi]
    · rw [find_table_set _ table_id i
        { t with sections := [], version_number := (t.version_number + 1) % 0x1F }
        ⟨t, h1, rfl⟩, hf]

/-- The table with the given id after its sections have been stored. -/
theorem stream_table_sections (stream : M2TS_Mux_Stream) (table_id ti : Nat)
    (t : M2TS_Mux_Table) (secs : List M2TS_Mux_Section) (h1 : stream.tables.get? ti = some t)
    (h3 : find_table stream.tables table_id = some ti) :
    stream_table (table_cursor_reset
      { stream with tables := list_modify stream.tables ti fun table =>
          { table with sections := secs } }) table_id = some { t with sections := secs } := by
  have hi : ti < stream.tables.length := by
    rcases Nat.lt_or_ge ti stream.tables.length with h | h
    · exact h
    · rw [List.get?_eq_none.2 h] at h1; simp at h1
  unfold stream_table table_cursor_reset list_modify
  simp only [h1]
  rw [find_table_set _ table_id ti { t with sections := secs } ⟨t, h1, rfl⟩, h3]
  simp [List.getElem?_set, hi]

theorem maxSectionLength_of_some (table_id maxlen : Nat)
    (h : maxSectionLength_of table_id = some maxlen) : maxlen = 1024 ∨ maxlen = 4096 := by
  unfold maxSectionLength_of at h
  split at h
  · left; injection h with h; exact h.symm
  · split at h
    · right; injection h with h; exact h.symm
    · simp at h

/-- The result of `m2ts_mux_table_update` for a payload that is not empty: the table
with the id given holds the sections of the specification. -/
theorem table_update_eval (stream : M2TS_Mux_Stream) (table_id ext : Nat)
    (payload : List Nat) (n : Nat) (syn priv chk : Bool) (maxlen : Nat)
    (hmax : maxSectionLength_of table_id = some maxlen) (hn1 : 1 ≤ n) (hn : n < 4294967296)
    (hlen : payload.length = n) (hsyn : syn = true → n ≤ 4294967292) :
    ∃ stream' t nb,
      m2ts_mux_table_update stream table_id ext payload n syn priv chk = some stream' ∧
      stream_table stream' table_id = some t ∧
      nb_sections_loop 4294967296 (maxlen - (if syn then 3 + (5 + 4) else 3)) n 1 = some nb ∧
      t.table_id = table_id ∧
      t.sections = sections_spec table_id ext t.version_number syn priv nb
        (if syn then 3 + (5 + 4) else 3) (maxlen - (if syn then 3 + (5 + 4) else 3)) n 0
        payload := by
  have hm := maxSectionLength_of_some _ _ hmax
  obtain ⟨nb, hnb⟩ := nb_sections_loop_ends maxlen n syn hm hn hsyn
  obtain ⟨t, ht1, ht2, _, ht4⟩ := table_lookup_spec stream table_id
  have hov : (if syn = true then 3 + (5 + 4) else 3) < maxlen := by
    split <;> rcases hm with h | h <;> omega
  have hb := build_sections_eq table_id ext t.version_number syn priv payload n maxlen
    (if syn then 3 + (5 + 4) else 3) nb hlen hn hov (by rcases hm with h | h <;> omega)
    n 0 0 0 (Nat.zero_le _) (by omega) (by omega) (fun _ => rfl)
  rw [List.drop_zero] at hb
  have hupd : m2ts_mux_table_update stream table_id ext payload n syn priv chk
      = some (table_cursor_reset
          { (table_lookup stream table_id).1 with
            tables := list_modify (table_lookup stream table_id).1.tables
              (table_lookup stream table_id).2 fun table =>
                { table with sections :=
                    (sections_spec table_id ext t.version_number syn priv nb
                      (if syn then 3 + (5 + 4) else 3)
                      (maxlen - (if syn then 3 + (5 + 4) else 3)) n 0 payload) } }) := by
    unfold m2ts_mux_table_update
    simp only [SECTION_HEADER_LENGTH, SECTION_ADDITIONAL_HEADER_LENGTH, CRC_LENGTH]
    rw [if_neg (by omega), hmax]
    simp only [hnb, ht1, hb]
  exact ⟨_, _, nb, hupd,
    stream_table_sections (table_lookup stream table_id).1 table_id _ t _ ht1 ht4, hnb, ht2, rfl⟩

theorem section_body_length (tid ext ver : Nat) (syn priv : Bool) (sn last length : Nat)
    (slhdr slice : List Nat) :
    (section_body tid ext ver syn priv sn last length slhdr slice).length
      = 3 + (if syn then 5 else 0) + slhdr.length + slice.length := by
  unfold section_body
  cases syn <;> simp <;> omega

theorem section_spec_length (tid ext ver : Nat) (syn priv : Bool) (sn last length : Nat)
    (slhdr slice : List Nat) :
    (section_spec tid ext ver syn priv sn last length slhdr slice).length
      = (if syn then 3 + (5 + 4) else 3) + slhdr.length + slice.length := by
  unfold section_spec
  simp only []
  cases syn
  · simp only [if_false, Bool.false_eq_true, section_body_length]
  · simp only [if_true, List.length_append, section_body_length, crc_bytes, List.length_cons,
      List.length_nil]
    omega

/-- The 12-bit length field of a section holds the declared length less 3. -/
theorem section_spec_length_field (tid ext ver : Nat) (syn priv : Bool)
    (sn last length : Nat) (slhdr slice : List Nat) (h : length - 3 < 4096) :
    section_length_field (section_spec tid ext ver syn priv sn last length slhdr slice)
      = length - 3 := by
  have e : ∀ tail : List Nat, section_length_field ([tid % 256,
      128 * syn.toNat + 64 * priv.toNat + 48 + (length - 3) / 256 % 16, (length - 3) % 256]
        ++ tail) = length - 3 := by
    intro tail
    show (128 * syn.toNat + 64 * priv.toNat + 48 + (length - 3) / 256 % 16) % 16 * 256
      + (length - 3) % 256 = length - 3
    cases syn <;> cases priv <;> simp <;> omega
  unfold section_spec section_body
  simp only []
  split
  · simp only [List.append_assoc]
    exact e _
  · simp only [List.append_assoc]
    exact e _

/-- The last four bytes of a section with the syntax indicator are the CRC of the bytes
before them. -/
theorem section_spec_crc (tid ext ver : Nat) (priv : Bool) (sn last length : Nat)
    (slhdr slice : List Nat) :
    4 ≤ (section_spec tid ext ver true priv sn last length slhdr slice).length ∧
    (section_spec tid ext ver true priv sn last length slhdr slice).drop
        ((section_spec tid ext ver true priv sn last length slhdr slice).length - 4)
      = crc_bytes (gf_crc_32 ((section_spec tid ext ver true priv sn last length slhdr
          slice).take ((section_spec tid ext ver true priv sn last length slhdr
            slice).length - 4))) := by
  unfold section_spec
  simp only [if_true]
  generalize section_body tid ext ver true priv sn last length slhdr slice = body
  have hl : (body ++ crc_bytes (gf_crc_32 body)).length - 4 = body.length := by
    simp [crc_bytes]
  rw [hl, List.drop_left, List.take_left]
  exact ⟨by simp [crc_bytes], rfl⟩

/-- The section number and the last section number of a section with the syntax
indicator. -/
theorem section_spec_numbers (tid ext ver : Nat) (priv : Bool) (sn last length : Nat)
    (slhdr slice : List Nat) :
    (section_spec tid ext ver true priv sn last length slhdr slice).getD 6 0 = sn % 256 ∧
    (section_spec tid ext ver true priv sn last length slhdr slice).getD 7 0 = last % 256 :=
  ⟨rfl, rfl⟩

/-- The payload slice of a section of a plain table. -/
theorem section_spec_payload (tid ext ver : Nat) (syn priv : Bool) (sn last length : Nat)
    (slice : List Nat) :
    section_payload syn (section_spec tid ext ver syn priv sn last length [] slice)
      = slice := by
  unfold section_payload
  rw [section_spec_length]
  unfold section_spec section_body
  cases syn
  · rfl
  · simp only [if_true, List.append_nil, List.append_assoc, List.length_nil]
    show List.take _ (slice ++ crc_bytes _) = slice
    have : 3 + (5 + 4) + 0 + slice.length - 12 = slice.length := by omega
    rw [this, List.take_left]

theorem ceil_div_step (len cap : Nat) (hcap : 0 < cap) (hlen : 1 ≤ len) :
    (len - cap + cap - 1) / cap + 1 = (len + cap - 1) / cap := by
  by_cases h : len ≤ cap
  · have e1 : len - cap + cap - 1 = cap - 1 := by omega
    rw [e1, Nat.div_eq_of_lt (by omega)]
    have : (len + cap - 1) / cap = 1 := by
      apply Nat.div_eq_of_lt_le <;> omega
    omega
  · have e1 : len + cap - 1 = (len - cap + cap - 1) + cap := by omega
    rw [e1, Nat.add_div_right _ hcap]

/-- The sections of the specification, one by one. -/
theorem sections_spec_get (tid ext ver : Nat) (syn priv : Bool) (nb overhead cap : Nat)
    (hcap : 0 < cap) (hov : 3 ≤ overhead) (hmax : cap + overhead < 4294967296) :
    ∀ (fuel sn : Nat) (rest : List Nat), rest.length ≤ fuel → (∀ b ∈ rest, b < 256) →
      (sections_spec tid ext ver syn priv nb overhead cap fuel sn rest).length
        = (rest.length + cap - 1) / cap ∧
      ∀ k, k < (rest.length + cap - 1) / cap →
        (sections_spec tid ext ver syn priv nb overhead cap fuel sn rest).get? k
          = some
            { data := section_spec tid ext ver syn priv (sn + k) (sub32 nb 1)
                (((rest.drop (k * cap)).take cap).length + overhead) []
                ((rest.drop (k * cap)).take cap),
              length := (section_spec tid ext ver syn priv (sn + k) (sub32 nb 1)
                (((rest.drop (k * cap)).take cap).length + overhead) []
                ((rest.drop (k * cap)).take cap)).length } := by
  intro fuel
  induction fuel with
  | zero =>
    intro sn rest h _
    have h0 : rest.length = 0 := by omega
    have hz : (rest.length + cap - 1) / cap = 0 := by
      rw [h0]; exact Nat.div_eq_of_lt (by omega)
    rw [hz]
    exact ⟨rfl, fun k hk => by omega⟩
  | succ fuel ih =>
    intro sn rest h hb
    unfold sections_spec
    by_cases hr : rest = []
    · rw [if_pos hr]
      have hz : (rest.length + cap - 1) / cap = 0 := by
        rw [hr]; exact Nat.div_eq_of_lt (by simp; omega)
      rw [hz]
      exact ⟨rfl, fun k hk => by omega⟩
    · rw [if_neg hr]
      have hlen : 1 ≤ rest.length := by
        cases rest with
        | nil => exact absurd rfl hr
        | cons a l => simp
      have hb' : ∀ b ∈ rest.drop cap, b < 256 := fun b hb0 => hb b (List.mem_of_mem_drop hb0)
      have hbt : ∀ b ∈ rest.take cap, b < 256 := fun b hb0 => hb b (List.mem_of_mem_take hb0)
      have htl : (rest.take cap).length ≤ cap := by
        rw [List.length_take]; omega
      obtain ⟨ih1, ih2⟩ := ih (sn + 1) (rest.drop cap)
        (by rw [List.length_drop]; omega) hb'
      rw [List.length_drop] at ih1 ih2
      have hstep := ceil_div_step rest.length cap hcap hlen
      constructor
      · rw [List.length_cons, ih1]
        omega
      · intro k hk
        cases k with
        | zero =>
          rw [List.get?_cons_zero, write_section_eq _ _ _ _ _ _ _ _ _ _ (fun _ h => by simp at h)
            hbt (by omega) (by omega)]
          simp only [Nat.zero_mul, List.drop_zero, Nat.add_zero]
        | succ k =>
          rw [List.get?_cons_succ, ih2 k (by omega)]
          have e1 : sn + 1 + k = sn + (k + 1) := by omega
          have e2 : List.drop (k * cap) (List.drop cap rest) = List.drop ((k + 1) * cap) rest := by
            rw [List.drop_drop]
            congr 1
            rw [Nat.add_mul]; omega
          rw [e1, e2]

/-- The payload slices of the sections of the specification make up the payload. -/
theorem sections_spec_payload (tid ext ver : Nat) (syn priv : Bool) (nb overhead cap : Nat)
    (hcap : 0 < cap) (hov : 3 ≤ overhead) (hmax : cap + overhead < 4294967296) :
    ∀ (fuel sn : Nat) (rest : List Nat), rest.length ≤ fuel → (∀ b ∈ rest, b < 256) →
      ((sections_spec tid ext ver syn priv nb overhead cap fuel sn rest).map
        (fun sec => section_payload syn sec.data)).flatten = rest := by
  intro fuel
  induction fuel with
  | zero =>
    intro sn rest h _
    have h0 : rest = [] := List.length_eq_zero.1 (by omega)
    rw [h0]
    rfl
  | succ fuel ih =>
    intro sn rest h hb
    unfold sections_spec
    by_cases hr : rest = []
    · rw [if_pos hr, hr]
      rfl
    · rw [if_neg hr]
      have hlen : 1 ≤ rest.length := by
        cases rest with
        | nil => exact absurd rfl hr
        | cons a l => simp
      have hb' : ∀ b ∈ rest.drop cap, b < 256 := fun b hb0 => hb b (List.mem_of_mem_drop hb0)
      have hbt : ∀ b ∈ rest.take cap, b < 256 := fun b hb0 => hb b (List.mem_of_mem_take hb0)
      have htl : (rest.take cap).length ≤ cap := by
        rw [List.length_take]; omega
      rw [List.map_cons, List.flatten_cons,
        ih (sn + 1) (rest.drop cap) (by rw [List.length_drop]; omega) hb',
        write_section_eq _ _ _ _ _ _ _ _ _ _ (fun _ h => by simp at h) hbt (by omega) (by omega)]
      simp only [section_spec_payload]
      exact List.take_append_drop _ _



/-- The counting loop of a table update never ends for a payload of more than
`2 ^ 32 - 4` bytes when the capacity of a section is a multiple of 4. -/
theorem nb_sections_loop_hang (cap n : Nat) (hcap : cap = 1012 ∨ cap = 4084)
    (hn : 4294967292 < n) : ∀ fuel nb, nb_sections_loop fuel cap n nb = none := by
  intro fuel
  induction fuel with
  | zero => intro nb; rfl
  | succ fuel ih =>
    intro nb
    unfold nb_sections_loop
    have h : u32 (nb * cap) < n := by
      unfold u32
      rcases hcap with rfl | rfl <;> omega
    rw [if_pos h]
    exact ih _

/-- The sections `m2ts_mux_table_update` stores for a payload that is not empty, one by
one, and the payload they carry. -/
theorem table_update_sections (stream : M2TS_Mux_Stream) (table_id ext : Nat)
    (payload : List Nat) (n : Nat) (syn priv chk : Bool) (maxlen : Nat)
    (hmax : maxSectionLength_of table_id = some maxlen) (hn1 : 1 ≤ n) (hn : n < 4294967296)
    (hlen : payload.length = n) (hb : ∀ b ∈ payload, b < 256)
    (hsyn : syn = true → n ≤ 4294967292) :
    ∃ stream' t nb,
      m2ts_mux_table_update stream table_id ext payload n syn priv chk = some stream' ∧
      stream_table stream' table_id = some t ∧
      nb_sections_loop 4294967296 (maxlen - (if syn then 3 + (5 + 4) else 3)) n 1 = some nb ∧
      t.sections.length
        = (n + (maxlen - (if syn then 3 + (5 + 4) else 3)) - 1)
            / (maxlen - (if syn then 3 + (5 + 4) else 3)) ∧
      (∀ k, k < (n + (maxlen - (if syn then 3 + (5 + 4) else 3)) - 1)
            / (maxlen - (if syn then 3 + (5 + 4) else 3)) →
        t.sections.get? k = some
          { data := section_spec table_id ext t.version_number syn priv k (sub32 nb 1)
              (((payload.drop (k * (maxlen - (if syn then 3 + (5 + 4) else 3)))).take
                  (maxlen - (if syn then 3 + (5 + 4) else 3))).length
                + (if syn then 3 + (5 + 4) else 3)) []
              ((payload.drop (k * (maxlen - (if syn then 3 + (5 + 4) else 3)))).take
                  (maxlen - (if syn then 3 + (5 + 4) else 3))),
            length := (section_spec table_id ext t.version_number syn priv k (sub32 nb 1)
              (((payload.drop (k * (maxlen - (if syn then 3 + (5 + 4) else 3)))).take
                  (maxlen - (if syn then 3 + (5 + 4) else 3))).length
                + (if syn then 3 + (5 + 4) else 3)) []
              ((payload.drop (k * (maxlen - (if syn then 3 + (5 + 4) else 3)))).take
                  (maxlen - (if syn then 3 + (5 + 4) else 3)))).length }) ∧
      (t.sections.map (fun sec => section_payload syn sec.data)).flatten = payload := by
  obtain ⟨stream', t, nb, h1, h2, h3, _, h5⟩ :=
    table_update_eval stream table_id ext payload n syn priv chk maxlen hmax hn1 hn hlen hsyn
  have hcap : 0 < maxlen - (if syn then 3 + (5 + 4) else 3) := by
    rcases maxSectionLength_of_some _ _ hmax with rfl | rfl <;> cases syn <;> simp
  have hov : 3 ≤ (if syn then 3 + (5 + 4) else 3) := by cases syn <;> simp
  have hm : maxlen - (if syn then 3 + (5 + 4) else 3) + (if syn then 3 + (5 + 4) else 3)
      < 4294967296 := by
    rcases maxSectionLength_of_some _ _ hmax with rfl | rfl <;> cases syn <;> simp
  obtain ⟨g1, g2⟩ := sections_spec_get table_id ext t.version_number syn priv nb _ _ hcap hov hm
    n 0 payload (by omega) hb
  have g3 := sections_spec_payload table_id ext t.version_number syn priv nb _ _ hcap hov hm
    n 0 payload (by omega) hb
  rw [hlen] at g1 g2
  refine ⟨stream', t, nb, h1, h2, h3, ?_, ?_, ?_⟩
  · rw [h5]; exact g1
  · intro k hk
    have := g2 k hk
    rw [Nat.zero_add] at this
    rw [h5]; exact this
  · rw [h5]; exact g3

/-- The length of the `k`-th slice of a payload cut into slices of `cap` bytes. -/
theorem slice_length (payload : List Nat) (k cap : Nat) :
    ((payload.drop (k * cap)).take cap).length = min cap (payload.length - k * cap) := by
  rw [List.length_take, List.length_drop]

/-- The table with the given id after an update with an empty payload holds no
section. -/
theorem table_update_empty (stream : M2TS_Mux_Stream) (table_id ext : Nat)
    (payload : List Nat) (syn priv chk : Bool) :
    ∃ stream' t, m2ts_mux_table_update stream table_id ext payload 0 syn priv chk = some stream' ∧
      stream_table stream' table_id = some t ∧ t.sections = [] := by
  obtain ⟨t, h1, _, h3, h4⟩ := table_lookup_spec stream table_id
  refine ⟨(table_lookup stream table_id).1, t, ?_, ?_, h3⟩
  · unfold m2ts_mux_table_update
    simp only [if_true]
  · unfold stream_table
    rw [h4]
    exact h1

/-- With the syntax indicator set, `m2ts_mux_table_update` never returns for a payload
of more than `2 ^ 32 - 4` bytes: the capacity of a section, 1012 or 4084, is a multiple
of 4, and so is every 32-bit multiple of it. -/
theorem table_update_hang (stream : M2TS_Mux_Stream) (table_id ext : Nat)
    (payload : List Nat) (n : Nat) (priv chk : Bool) (max : Nat)
    (hmax : maxSectionLength_of table_id = some max) (hn : 4294967292 < n) :
    m2ts_mux_table_update stream table_id ext payload n true priv chk = none := by
  unfold m2ts_mux_table_update
  simp only [hmax, if_true, SECTION_HEADER_LENGTH, SECTION_ADDITIONAL_HEADER_LENGTH,
    CRC_LENGTH]
  rw [if_neg (by omega), nb_sections_loop_hang _ _ _ hn]
  rcases maxSectionLength_of_some _ _ hmax with rfl | rfl
  · left; rfl
  · right; rfl

/-- C3 (amended): for a supported table_id and a payload of `n` bytes that is not empty,
of at most `2 ^ 32 - 4` bytes when the syntax indicator is set, `m2ts_mux_table_update`
returns and the table holds exactly `ceil (n / (max - overhead))` sections, `max` being
1024 or 4096 after the table_id and `overhead` 3 without the syntax indicator and 12 with
it; every section but the last is `max` bytes long, none is longer, and the stored
length is the length of the data. -/
theorem m2ts_mux_table_update_section_count (stream : M2TS_Mux_Stream) (table_id ext : Nat)
    (payload : List Nat) (n : Nat) (syn priv chk : Bool) (max : Nat)
    (hmax : maxSectionLength_of table_id = some max) (hn1 : 1 ≤ n) (hn : n < 4294967296)
    (hlen : payload.length = n) (hb : ∀ b ∈ payload, b < 256)
    (hsyn : syn = true → n ≤ 4294967292) :
    ∃ stream' t,
      m2ts_mux_table_update stream table_id ext payload n syn priv chk = some stream' ∧
      stream_table stream' table_id = some t ∧
      t.sections.length
        = (n + (max - (if syn then 12 else 3)) - 1) / (max - (if syn then 12 else 3)) ∧
      ∀ k sec, t.sections.get? k = some sec →
        sec.length = sec.data.length ∧ sec.length ≤ max ∧
        (k + 1 < t.sections.length → sec.length = max) := by
  obtain ⟨stream', t, nb, h1, h2, _, h4, h5, _⟩ :=
    table_update_sections stream table_id ext payload n syn priv chk max hmax hn1 hn hlen hb hsyn
  refine ⟨stream', t, h1, h2, h4, ?_⟩
  intro k sec hk
  have hk1 : k < t.sections.length := by
    rcases Nat.lt_or_ge k t.sections.length with h | h
    · exact h
    · rw [List.get?_eq_none.2 h] at hk; simp at hk
  have hk2 := hk1
  rw [h4] at hk2
  rw [h5 k hk2] at hk
  injection hk with hk
  subst hk
  simp only [section_spec_length, slice_length, List.length_nil, hlen]
  rw [h4]
  rcases maxSectionLength_of_some _ _ hmax with rfl | rfl <;> cases syn <;>
    simp only [if_true, if_false, Bool.false_eq_true] at hk2 ⊢ <;>
    refine ⟨trivial, ?_, ?_⟩ <;> omega


/-- Witness of C3: a PAT payload of 2000 bytes with the syntax indicator. -/
theorem m2ts_mux_table_update_section_count_witness :
    ∃ stream' t,
      m2ts_mux_table_update demo_stream GF_M2TS_TABLE_ID_PAT 1 (List.replicate 2000 1) 2000
        true false false = some stream' ∧
      stream_table stream' GF_M2TS_TABLE_ID_PAT = some t ∧
      t.sections.length = (2000 + (1024 - (if true = true then 12 else 3)) - 1)
        / (1024 - (if true = true then 12 else 3)) ∧
      ∀ k sec, t.sections.get? k = some sec →
        sec.length = sec.data.length ∧ sec.length ≤ 1024 ∧
        (k + 1 < t.sections.length → sec.length = 1024) :=
  m2ts_mux_table_update_section_count demo_stream GF_M2TS_TABLE_ID_PAT 1
    (List.replicate 2000 1) 2000 true false false 1024 (by decide) (by decide) (by decide)
    (List.length_replicate 2000 1)
    (fun b h => by rw [List.eq_of_mem_replicate h]; decide) (fun _ => by decide)

/-- C3, counterexample: with the syntax indicator set, a PAT payload of `2 ^ 32 - 1`
bytes makes the loop that counts the sections run for ever (32-bit multiples of 1012 are
all below `2 ^ 32 - 1`), so no section is built. -/
theorem m2ts_mux_table_update_never_returns :
    m2ts_mux_table_update demo_stream GF_M2TS_TABLE_ID_PAT 1 (List.replicate 4294967295 1)
      4294967295 true false false = none :=
  table_update_hang demo_stream GF_M2TS_TABLE_ID_PAT 1 (List.replicate 4294967295 1)
    4294967295 false false 1024 (by decide) (by decide)

/-- C4 (amended): for a supported table_id and a payload of at most `2 ^ 32 - 4` bytes
when the syntax indicator is set (any payload without it), `m2ts_mux_table_update`
returns and the payload slices of the sections of the table, the bytes between the
header of a section and its CRC, put together in section order are the input payload. -/
theorem m2ts_mux_table_update_payload (stream : M2TS_Mux_Stream) (table_id ext : Nat)
    (payload : List Nat) (n : Nat) (syn priv chk : Bool) (max : Nat)
    (hmax : maxSectionLength_of table_id = some max) (hn : n < 4294967296)
    (hlen : payload.length = n) (hb : ∀ b ∈ payload, b < 256)
    (hsyn : syn = true → n ≤ 4294967292) :
    ∃ stream' t,
      m2ts_mux_table_update stream table_id ext payload n syn priv chk = some stream' ∧
      stream_table stream' table_id = some t ∧
      (t.sections.map (fun sec => section_payload syn sec.data)).flatten = payload := by
  rcases Nat.eq_zero_or_pos n with h0 | h1
  · subst h0
    obtain ⟨stream', t, h1, h2, h3⟩ := table_update_empty stream table_id ext payload syn priv chk
    refine ⟨stream', t, h1, h2, ?_⟩
    rw [h3, List.length_eq_zero.1 hlen]
    rfl
  · obtain ⟨stream', t, _, h1, h2, _, _, _, h6⟩ :=
      table_update_sections stream table_id ext payload n syn priv chk max hmax h1 hn hlen hb
        hsyn
    exact ⟨stream', t, h1, h2, h6⟩

/-- Witness of C4: a PMT payload of 3000 bytes with the syntax indicator. -/
theorem m2ts_mux_table_update_payload_witness :
    ∃ stream' t,
      m2ts_mux_table_update demo_stream GF_M2TS_TABLE_ID_PMT 1 (List.replicate 3000 2) 3000
        true false false = some stream' ∧
      stream_table stream' GF_M2TS_TABLE_ID_PMT = some t ∧
      (t.sections.map (fun sec => section_payload true sec.data)).flatten
        = List.replicate 3000 2 :=
  m2ts_mux_table_update_payload demo_stream GF_M2TS_TABLE_ID_PMT 1
    (List.replicate 3000 2) 3000 true false false 1024 (by decide) (by decide)
    (List.length_replicate 3000 2)
    (fun b h => by rw [List.eq_of_mem_replicate h]; decide) (fun _ => by decide)

/-- C4, counterexample: with the syntax indicator set, for a BIFS payload of
`2 ^ 32 - 3` bytes the update never returns (32-bit multiples of 4084 are all below
`2 ^ 32 - 3`): no section carries any byte of the payload. -/
theorem m2ts_mux_table_update_payload_lost :
    m2ts_mux_table_update demo_stream GF_M2TS_TABLE_ID_MPEG4_BIFS 1
      (List.replicate 4294967293 1) 4294967293 true false false = none :=
  table_update_hang demo_stream GF_M2TS_TABLE_ID_MPEG4_BIFS 1 (List.replicate 4294967293 1)
    4294967293 false false 4096 (by decide) (by decide)

/-- C5: in every section `m2ts_mux_table_update` builds (for a supported table_id and a
payload that is not empty, on which the update returns, with at least one section), the
section has more than three bytes and at most the maximum section length, the 12-bit
section_length field, the low 4 bits of byte 1 followed by byte 2, plus 3 is the number
of bytes of the section, and the stored `length` is the number of bytes written to
`data`, which for the section of index `k` is the overhead plus the length of the slice
number `k` of the payload. -/
theorem m2ts_mux_table_update_section_length (stream : M2TS_Mux_Stream)
    (table_id ext : Nat) (payload : List Nat) (n : Nat) (syn priv chk : Bool) (max : Nat)
    (hmax : maxSectionLength_of table_id = some max) (hn1 : 1 ≤ n) (hn : n < 4294967296)
    (hlen : payload.length = n) (hb : ∀ b ∈ payload, b < 256)
    (hsyn : syn = true → n ≤ 4294967292) :
    ∃ stream' t,
      m2ts_mux_table_update stream table_id ext payload n syn priv chk = some stream' ∧
      stream_table stream' table_id = some t ∧ t.sections ≠ [] ∧
      ∀ sec ∈ t.sections,
        3 < sec.data.length ∧ sec.data.length ≤ max ∧
        section_length_field sec.data + 3 = sec.data.length ∧
        sec.length = sec.data.length ∧
        ∃ k, t.sections.get? k = some sec ∧
          sec.data.length
            = min (max - (if syn then 3 + (5 + 4) else 3))
                (n - k * (max - (if syn then 3 + (5 + 4) else 3)))
              + (if syn then 3 + (5 + 4) else 3) := by
  obtain ⟨stream', t, nb, h1, h2, _, h4, h5, _⟩ :=
    table_update_sections stream table_id ext payload n syn priv chk max hmax hn1 hn hlen hb hsyn
  have hpos : 0 < t.sections.length := by
    rw [h4]
    rcases maxSectionLength_of_some _ _ hmax with rfl | rfl <;> cases syn <;>
      simp only [if_true, if_false, Bool.false_eq_true] <;> omega
  refine ⟨stream', t, h1, h2, List.ne_nil_of_length_pos hpos, ?_⟩
  intro sec hsec
  obtain ⟨k, hk⟩ := List.get?_of_mem hsec
  have hk1 : k < t.sections.length := by
    rcases Nat.lt_or_ge k t.sections.length with h | h
    · exact h
    · rw [List.get?_eq_none.2 h] at hk; simp at hk
  have hk2 := hk1
  rw [h4] at hk2
  have hget := h5 k hk2
  rw [h5 k hk2] at hk
  injection hk with hk
  subst hk
  generalize hcap : max - (if syn then 3 + (5 + 4) else 3) = cap at hk2
  have hcap0 : 0 < cap ∧ cap + (if syn then 3 + (5 + 4) else 3) = max := by
    rcases maxSectionLength_of_some _ _ hmax with rfl | rfl <;> cases syn <;>
      simp only [if_true, if_false, Bool.false_eq_true] at hcap ⊢ <;> omega
  have hkc : k * cap < n := by
    have := (Nat.le_div_iff_mul_le hcap0.1).1 (Nat.succ_le_of_lt hk2)
    rw [Nat.succ_mul] at this
    omega
  have hsl := slice_length payload k cap
  rw [hlen] at hsl
  have hmx : max = 1024 ∨ max = 4096 := maxSectionLength_of_some _ _ hmax
  have hfield : section_length_field (section_spec table_id ext t.version_number syn priv k
      (sub32 nb 1)
      (((payload.drop (k * cap)).take cap).length + (if syn then 3 + (5 + 4) else 3)) []
      ((payload.drop (k * cap)).take cap))
      = ((payload.drop (k * cap)).take cap).length + (if syn then 3 + (5 + 4) else 3) - 3 := by
    apply section_spec_length_field
    rw [hsl]
    cases syn <;> simp only [if_true, if_false, Bool.false_eq_true] at hcap0 ⊢ <;> omega
  rw [hcap] at hget
  refine ⟨?_, ?_, ?_, rfl, k, hget, ?_⟩
  · show 3 < (section_spec _ _ _ _ _ _ _ _ _ _).length
    rw [section_spec_length, hsl]
    cases syn <;> simp only [if_true, if_false, Bool.false_eq_true, List.length_nil] <;> omega
  · show (section_spec _ _ _ _ _ _ _ _ _ _).length ≤ max
    rw [section_spec_length, hsl]
    cases syn <;> simp only [if_true, if_false, Bool.false_eq_true, List.length_nil] at hcap0 ⊢ <;>
      omega
  · show section_length_field (section_spec _ _ _ _ _ _ _ _ _ _) + 3
      = (section_spec _ _ _ _ _ _ _ _ _ _).length
    rw [hfield, section_spec_length, hsl]
    cases syn <;> simp only [if_true, if_false, Bool.false_eq_true, List.length_nil] <;> omega
  · show (section_spec _ _ _ _ _ _ _ _ _ _).length = _
    rw [section_spec_length, hsl]
    cases syn <;> simp only [if_true, if_false, Bool.false_eq_true, List.length_nil] <;> omega

/-- Witness of C5: an SDT payload of 1500 bytes without the syntax indicator. -/
theorem m2ts_mux_table_update_section_length_witness :
    ∃ stream' t,
      m2ts_mux_table_update demo_stream GF_M2TS_TABLE_ID_SDT_ACTUAL 1 (List.replicate 1500 3)
        1500 false false false = some stream' ∧
      stream_table stream' GF_M2TS_TABLE_ID_SDT_ACTUAL = some t ∧ t.sections ≠ [] ∧
      ∀ sec ∈ t.sections,
        3 < sec.data.length ∧ sec.data.length ≤ 1024 ∧
        section_length_field sec.data + 3 = sec.data.length ∧
        sec.length = sec.data.length ∧
        ∃ k, t.sections.get? k = some sec ∧
          sec.data.length = min (1024 - 3) (1500 - k * (1024 - 3)) + 3 :=
  m2ts_mux_table_update_section_length demo_stream GF_M2TS_TABLE_ID_SDT_ACTUAL 1
    (List.replicate 1500 3) 1500 false false false 1024 (by decide) (by decide) (by decide)
    (List.length_replicate 1500 3)
    (fun b h => by rw [List.eq_of_mem_replicate h]; decide) (fun h => by cases h)

/-- The section_number and last_section_number bytes of the sections
`m2ts_mux_table_update` builds with the syntax indicator set. -/
theorem table_update_numbers (stream : M2TS_Mux_Stream) (table_id ext : Nat)
    (payload : List Nat) (n : Nat) (priv chk : Bool) (max : Nat)
    (hmax : maxSectionLength_of table_id = some max) (hn1 : 1 ≤ n) (hn : n ≤ 4294967292)
    (hlen : payload.length = n) (hb : ∀ b ∈ payload, b < 256) :
    ∃ stream' t nb,
      m2ts_mux_table_update stream table_id ext payload n true priv chk = some stream' ∧
      stream_table stream' table_id = some t ∧
      nb_sections_loop 4294967296 (max - 12) n 1 = some nb ∧
      t.sections.length = (n + (max - 12) - 1) / (max - 12) ∧
      ∀ k, k < (n + (max - 12) - 1) / (max - 12) → ∃ sec, t.sections.get? k = some sec ∧
        sec.data.getD 6 0 = k % 256 ∧ sec.data.getD 7 0 = sub32 nb 1 % 256 := by
  obtain ⟨stream', t, nb, h1, h2, h3, h4, h5, _⟩ :=
    table_update_sections stream table_id ext payload n true priv chk max hmax hn1 (by omega)
      hlen hb (fun _ => hn)
  simp only [if_true] at h3 h4 h5
  have e12 : 3 + (5 + 4) = 12 := rfl
  rw [e12] at h3 h4 h5
  refine ⟨stream', t, nb, h1, h2, h3, h4, ?_⟩
  intro k hk
  exact ⟨_, h5 k hk, (section_spec_numbers _ _ _ _ _ _ _ _ _).1,
    (section_spec_numbers _ _ _ _ _ _ _ _ _).2⟩

/-- C7 (amended): for a table `m2ts_mux_table_update` builds with the syntax indicator
set from a payload that needs at most 256 sections, the `k`-th section (from 0) carries
section_number `k` (byte 6) and every section carries last_section_number (byte 7) equal
to the number of sections less 1. -/
theorem m2ts_mux_table_update_section_numbers (stream : M2TS_Mux_Stream)
    (table_id ext : Nat) (payload : List Nat) (n : Nat) (priv chk : Bool) (max : Nat)
    (hmax : maxSectionLength_of table_id = some max)
    (hlen : payload.length = n) (hb : ∀ b ∈ payload, b < 256)
    (hcount : (n + (max - 12) - 1) / (max - 12) ≤ 256) :
    ∃ stream' t,
      m2ts_mux_table_update stream table_id ext payload n true priv chk = some stream' ∧
      stream_table stream' table_id = some t ∧
      t.sections.length = (n + (max - 12) - 1) / (max - 12) ∧
      ∀ k, k < t.sections.length → ∃ sec, t.sections.get? k = some sec ∧
        sec.data.getD 6 0 = k ∧ sec.data.getD 7 0 = t.sections.length - 1 := by
  rcases Nat.eq_zero_or_pos n with h0 | hn1
  · subst h0
    obtain ⟨stream', t, h1, h2, h3⟩ :=
      table_update_empty stream table_id ext payload true priv chk
    refine ⟨stream', t, h1, h2, ?_, ?_⟩
    · rw [h3]
      rcases maxSectionLength_of_some _ _ hmax with rfl | rfl <;> rfl
    · intro k hk
      rw [h3] at hk
      exact absurd hk (Nat.not_lt_zero k)
  · have hnb : n ≤ 1045504 ∧ 0 < max - 12 ∧ (n + (max - 12) - 1) / (max - 12) * (max - 12)
        < 4294967296 ∧ 1 ≤ (n + (max - 12) - 1) / (max - 12) := by
      rcases maxSectionLength_of_some _ _ hmax with rfl | rfl <;>
        simp only [Nat.reduceSub] at hcount ⊢ <;> omega
    obtain ⟨hn, hcap, hfit, hone⟩ := hnb
    have hv := nb_sections_loop_value (max - 12) n hcap hn1 hfit
    obtain ⟨stream', t, nb, h1, h2, h3, h4, h5⟩ :=
      table_update_numbers stream table_id ext payload n priv chk max hmax hn1 (by omega)
        hlen hb
    rw [hv] at h3
    injection h3 with h3
    subst h3
    refine ⟨stream', t, h1, h2, h4, ?_⟩
    intro k hk
    rw [h4] at hk
    obtain ⟨sec, g1, g2, g3⟩ := h5 k hk
    refine ⟨sec, g1, ?_, ?_⟩
    · rw [g2]; omega
    · rw [g3, h4, sub32_eq _ _ (by omega) hone]
      omega

/-- Witness of C7: a BAT payload of 2500 bytes, in three sections. -/
theorem m2ts_mux_table_update_section_numbers_witness :
    ∃ stream' t,
      m2ts_mux_table_update demo_stream GF_M2TS_TABLE_ID_BAT 1 (List.replicate 2500 4) 2500
        true false false = some stream' ∧
      stream_table stream' GF_M2TS_TABLE_ID_BAT = some t ∧
      t.sections.length = (2500 + (1024 - 12) - 1) / (1024 - 12) ∧
      ∀ k, k < t.sections.length → ∃ sec, t.sections.get? k = some sec ∧
        sec.data.getD 6 0 = k ∧ sec.data.getD 7 0 = t.sections.length - 1 :=
  m2ts_mux_table_update_section_numbers demo_stream GF_M2TS_TABLE_ID_BAT 1
    (List.replicate 2500 4) 2500 false false 1024 (by decide)
    (List.length_replicate 2500 4)
    (fun b h => by rw [List.eq_of_mem_replicate h]; decide) (by decide)

/-- C7, counterexample: a PAT payload of 259073 bytes makes 257 sections, and the section
of index 256 carries section_number 0: the field has 8 bits. -/
theorem m2ts_mux_table_update_section_number_wraps :
    ∃ stream' t sec,
      m2ts_mux_table_update demo_stream GF_M2TS_TABLE_ID_PAT 1 (List.replicate 259073 1)
        259073 true false false = some stream' ∧
      stream_table stream' GF_M2TS_TABLE_ID_PAT = some t ∧
      t.sections.length = 257 ∧ t.sections.get? 256 = some sec ∧
      sec.data.getD 6 0 = 0 := by
  obtain ⟨stream', t, nb, h1, h2, _, h4, h5⟩ :=
    table_update_numbers demo_stream GF_M2TS_TABLE_ID_PAT 1 (List.replicate 259073 1)
      259073 false false 1024 (by decide) (by decide) (by decide)
      (List.length_replicate 259073 1)
      (fun b h => by rw [List.eq_of_mem_replicate h]; decide)
  obtain ⟨sec, g1, g2, _⟩ := h5 256 (by decide)
  exact ⟨stream', t, sec, h1, h2, h4, g1, g2⟩

/-! ## Unsupported table ids, PIDs, the rate option and the RTP time stamp -/

/-- C32, the code at the failing input: for two programs, the first with 10 streams, `main`
gives PID 110 both to the tenth stream of the first program and to the PMT of the
second. -/
theorem main_assign_pids_collision :
    main_assign_pids 100 [10, 1]
      = [(100, [101, 102, 103, 104, 105, 106, 107, 108, 109, 110]), (110, [111])] := by
  decide

/-- C34, the code at the failing input: for `-rate=1` the bit rate handed to
`m2ts_mux_new` is 8192 bit/s, neither 1000 nor 1024. -/
theorem main_mux_rate_kilobytes :
    main_mux_rate 1 = 8192 ∧ (m2ts_mux_new (main_mux_rate 1) false).bit_rate = 8192 ∧
    main_mux_rate 1 ≠ 1 * 1000 ∧ main_mux_rate 1 ≠ 1 * 1024 := by
  decide

/-- C35, the code at the failing input: 32 packets after the PCR was initialised, at
1000000 bit/s, the first access unit with DTS 10000 gets `initial_ts` 9964, not
`10000 - 90000 * 1504 * 32 / 1000000 = 5669`: the product `90000*nb_bits` is a 32-bit
product. -/
theorem process_stream_initial_ts_wraps :
    (process_stream_initial_ts { tot_pck_sent := 32, bit_rate := 1000000 } {}
      { pck := { dts := 10000 } }).map (fun s => s.initial_ts) = some 9964 ∧
    10000 - 90000 * 1504 * (32 - 0) / 1000000 = 5669 := by
  decide

/-- C39, the code at the failing input: at mux time 0 s 500000000 ns the RTP time stamp is
2050, not the 45000 ticks of the mux time, because `nanosec*9` is a 32-bit product; it
is below the time stamp 42300 of the earlier mux time 0 s 470000000 ns, and the marker
bit is set. -/
theorem main_rtp_timestamp_wraps :
    main_rtp_timestamp { sec := 0, nanosec := 500000000 } = 2050 ∧
    (0 * 1000000000 + 500000000) * 90000 / 1000000000 % 4294967296 = 45000 ∧
    main_rtp_timestamp { sec := 0, nanosec := 470000000 } = 42300 ∧
    main_rtp_marker (main_rtp_timestamp { sec := 0, nanosec := 500000000 })
      (main_rtp_timestamp { sec := 0, nanosec := 470000000 }) = 1 := by
  decide

theorem bitsOfBytes_length (l : List Nat) : (bitsOfBytes l).length = 8 * l.length := by
  induction l with
  | nil => rfl
  | cons b rest ih =>
    show (bitsOf b 8 ++ bitsOfBytes rest).length = 8 * (rest.length + 1)
    rw [List.length_append, bitsOf_length, ih]
    omega

theorem section_set_crc_length (data : List Nat) : (section_set_crc data).length = data.length := by
  unfold section_set_crc
  simp only [List.length_set]

/-- The number of bytes of a section: the header, the SL header and the slice, and with
the syntax indicator the second header and the four bytes of the CRC. -/
theorem write_section_length (table_id ext ver : Nat) (syn priv : Bool)
    (sn nb length : Nat) (slhdr slice : List Nat) :
    (write_section table_id ext ver syn priv sn nb length slhdr slice).data.length
      = (if syn then 3 + 5 + 4 else 3) + slhdr.length + slice.length := by
  unfold write_section
  cases syn
  · simp only [Bool.false_eq_true, if_false, gf_bs_get_content, gf_bs_write_data,
      gf_bs_write_int, bytesOfBits_length, List.length_append, bitsOf_length,
      bitsOfBytes_length, List.length_nil]
    omega
  · simp only [if_true, gf_bs_get_content, gf_bs_write_data, gf_bs_write_u32,
      gf_bs_write_int, section_set_crc_length, bytesOfBits_length, List.length_append,
      bitsOf_length, bitsOfBytes_length, List.length_nil]
    omega

/-! ## PAT and PMT -/

theorem pid_field_bytes (pid : Nat) :
    (7 * 2 ^ 13 + pid % 2 ^ 13) / 256 % 256 = 224 + pid / 256 % 32 ∧
    (7 * 2 ^ 13 + pid % 2 ^ 13) % 256 = pid % 256 := by
  constructor <;> omega

theorem length_field_bytes (len : Nat) :
    (15 * 2 ^ 12 + len % 2 ^ 12) / 256 % 256 = 240 + len / 256 % 16 ∧
    (15 * 2 ^ 12 + len % 2 ^ 12) % 256 = len % 256 := by
  constructor <;> omega

/-- The loop of the PAT only appends to the bits written so far. -/
theorem pat_write_programs_append (programs : List M2TS_Mux_Program) :
    ∀ bs, pat_write_programs bs programs = bs ++ pat_write_programs [] programs := by
  induction programs with
  | nil => intro bs; simp [pat_write_programs]
  | cons p rest ih =>
    intro bs
    simp only [pat_write_programs, gf_bs_write_u16, gf_bs_write_int, List.nil_append]
    rw [ih, ih (bitsOf p.number 16 ++ bitsOf 7 3 ++ bitsOf p.pmt.pid 13)]
    simp only [List.append_assoc]

/-- The PAT payload is made of one record per program. -/
theorem pat_payload_eq (muxer : M2TS_Mux) : pat_payload muxer = pat_records muxer.programs := by
  unfold pat_payload pat_records gf_bs_get_content
  induction muxer.programs with
  | nil => rfl
  | cons p rest ih =>
    rw [List.flatMap_cons, ← ih]
    simp only [pat_write_programs, gf_bs_write_u16, gf_bs_write_int, List.nil_append]
    rw [pat_write_programs_append, List.append_assoc, List.append_assoc, bytesOfBits_bitsOf16,
      bytesOfBits_merge2_16 _ _ _ _ _ (by rfl), (pid_field_bytes _).1, (pid_field_bytes _).2]
    rfl

theorem pat_records_length (programs : List M2TS_Mux_Program) :
    (pat_records programs).length = 4 * programs.length := by
  unfold pat_records
  induction programs with
  | nil => rfl
  | cons p rest ih =>
    rw [List.flatMap_cons, List.length_append, ih]
    simp only [pat_record, List.length_cons, List.length_nil]
    omega

/-- C19: when the PAT needs an update, `m2ts_stream_process_pat` builds a payload of
`4 * k` bytes for the `k` programs of the mux (fewer than `2 ^ 30`, so that the size fits
the 32-bit length), whose records are, in list order, the 16-bit program_number, `111`
and the 13-bit PID of the PMT of each program; it hands it to `m2ts_mux_table_update`
with table_id 0x00, extension `ts_id` and the syntax indicator set, the update returns,
and the function returns true with `table_needs_update` cleared. -/
theorem m2ts_stream_process_pat_payload (muxer : M2TS_Mux) (stream : M2TS_Mux_Stream)
    (hupd : stream.table_needs_update = true) (hk : muxer.programs.length < 1073741824) :
    pat_payload muxer = muxer.programs.flatMap pat_record ∧
    (pat_payload muxer).length = 4 * muxer.programs.length ∧
    GF_M2TS_TABLE_ID_PAT = 0x00 ∧
    ∃ stream',
      m2ts_mux_table_update stream GF_M2TS_TABLE_ID_PAT muxer.ts_id (pat_payload muxer)
        (4 * muxer.programs.length) true false false = some stream' ∧
      m2ts_stream_process_pat muxer stream
        = some ({ stream' with table_needs_update := false }, true) := by
  have hlen : (pat_payload muxer).length = 4 * muxer.programs.length := by
    rw [pat_payload_eq, pat_records_length]
  refine ⟨pat_payload_eq muxer, hlen, rfl, ?_⟩
  have hex : ∃ stream',
      m2ts_mux_table_update stream GF_M2TS_TABLE_ID_PAT muxer.ts_id (pat_payload muxer)
        (4 * muxer.programs.length) true false false = some stream' := by
    rcases Nat.eq_zero_or_pos muxer.programs.length with h0 | h1
    · rw [h0]
      obtain ⟨s, t, h, _⟩ := table_update_empty stream GF_M2TS_TABLE_ID_PAT muxer.ts_id
        (pat_payload muxer) true false false
      exact ⟨s, h⟩
    · obtain ⟨s, t, nb, h, _⟩ := table_update_eval stream GF_M2TS_TABLE_ID_PAT muxer.ts_id
        (pat_payload muxer) (4 * muxer.programs.length) true false false 1024 (by decide)
        (by omega) (by omega) hlen (fun _ => by omega)
      exact ⟨s, h⟩
  obtain ⟨stream', h⟩ := hex
  refine ⟨stream', h, ?_⟩
  unfold m2ts_stream_process_pat
  rw [if_pos hupd]
  simp only []
  rw [hlen, u32_eq _ (by omega), h]

/-- Witness of C19: a mux with two programs. -/
theorem m2ts_stream_process_pat_payload_witness :
    pat_payload { ts_id := 1, programs := [{ number := 1, pmt := { pid := 100 } },
        { number := 2, pmt := { pid := 110 } }] }
      = [0, 1, 224, 100, 0, 2, 224, 110] :=
  (m2ts_stream_process_pat_payload
    { ts_id := 1, programs := [{ number := 1, pmt := { pid := 100 } },
        { number := 2, pmt := { pid := 110 } }] }
    { table_needs_update := true } rfl (by decide)).1

/-- The loop of the PMT only appends to the bits written so far. -/
theorem pmt_write_streams_append (has_iod : Bool) (streams : List M2TS_Mux_Stream) :
    ∀ bs, pmt_write_streams has_iod bs streams = bs ++ pmt_write_streams has_iod [] streams := by
  induction streams with
  | nil => intro bs; simp [pmt_write_streams]
  | cons es rest ih =>
    intro bs
    simp only [pmt_write_streams, gf_bs_write_int, List.nil_append]
    rw [ih]
    conv_rhs => rw [ih]
    cases has_iod <;> simp only [if_true, if_false, Bool.false_eq_true, List.append_assoc]

/-- The entries the loop of the PMT writes, as bytes. -/
theorem pmt_write_streams_bytes (has_iod : Bool) (streams : List M2TS_Mux_Stream) :
    bytesOfBits (pmt_write_streams has_iod [] streams)
      = streams.flatMap (pmt_es_record has_iod) := by
  induction streams with
  | nil => rfl
  | cons es rest ih =>
    rw [List.flatMap_cons, ← ih]
    simp only [pmt_write_streams, gf_bs_write_int, List.nil_append]
    rw [pmt_write_streams_append]
    cases has_iod
    · simp only [if_false, Bool.false_eq_true, List.append_assoc]
      rw [bytesOfBits_bitsOf8, bytesOfBits_merge2_16 _ _ _ _ _ (by rfl),
        bytesOfBits_merge2_16 _ _ _ _ _ (by rfl), (pid_field_bytes _).1,
        (pid_field_bytes _).2]
      rfl
    · simp only [if_true, List.append_assoc]
      rw [bytesOfBits_bitsOf8, bytesOfBits_merge2_16 _ _ _ _ _ (by rfl),
        bytesOfBits_merge2_16 _ _ _ _ _ (by rfl), bytesOfBits_bitsOf8, bytesOfBits_bitsOf8,
        bytesOfBits_bitsOf16, (pid_field_bytes _).1, (pid_field_bytes _).2]
      rfl

/-- The PMT payload: the program information, then one entry per elementary stream. -/
theorem pmt_payload_eq (program : M2TS_Mux_Program)
    (hb : ∀ iod_data, program.iod = some iod_data → ∀ b ∈ iod_data, b < 256) :
    pmt_payload program
      = pmt_program_info program
        ++ program.streams.flatMap (pmt_es_record program.iod.isSome) := by
  unfold pmt_payload pmt_program_info gf_bs_get_content
  simp only []
  rw [pmt_write_streams_append, ← pmt_write_streams_bytes]
  cases hi : program.iod with
  | none =>
    simp only [gf_bs_write_int, List.nil_append, List.append_assoc]
    rw [bytesOfBits_merge2_16 _ _ _ _ _ (by rfl), bytesOfBits_merge2_16 _ _ _ _ _ (by rfl),
      (pid_field_bytes _).1, (pid_field_bytes _).2]
    rfl
  | some iod_data =>
    simp only [gf_bs_write_int, gf_bs_write_data, List.nil_append, List.append_assoc]
    rw [bytesOfBits_merge2_16 _ _ _ _ _ (by rfl), bytesOfBits_merge2_16 _ _ _ _ _ (by rfl),
      bytesOfBits_bitsOf8, bytesOfBits_bitsOf8, bytesOfBits_bitsOf8, bytesOfBits_bitsOf8,
      bytesOfBits_data _ _ (hb iod_data hi),
      (pid_field_bytes _).1, (pid_field_bytes _).2, (length_field_bytes _).1,
      (length_field_bytes _).2]
    rfl

/-- C20 (amended): for a program with an IOD whose serialized form has `L ≤ 253` bytes,
the PMT payload `m2ts_stream_process_pmt` builds begins with `111` and the 13-bit PCR
PID, `1111` and the 12-bit program_info_length `L + 4`, then the IOD descriptor: tag
0x1D, descriptor_length `L + 2`, scope 0x02, label 0x02 and the `L` bytes of the IOD,
after which the entries of the streams follow; for the same program without IOD
program_info_length is 0 and the entries follow at once. -/
theorem pmt_payload_program_info (program : M2TS_Mux_Program) (iod_data : List Nat)
    (hi : program.iod = some iod_data) (hL : iod_data.length ≤ 253)
    (hb : ∀ b ∈ iod_data, b < 256) :
    (pmt_payload program).getD 0 0 / 32 = 7 ∧
    pmt_pcr_pid (pmt_payload program) = program.pcr_pid % 8192 ∧
    (pmt_payload program).getD 2 0 / 16 = 15 ∧
    pmt_program_info_length (pmt_payload program) = iod_data.length + 4 ∧
    (pmt_payload program).getD 4 0 = 0x1D ∧
    (pmt_payload program).getD 5 0 = iod_data.length + 2 ∧
    (pmt_payload program).getD 6 0 = 0x02 ∧
    (pmt_payload program).getD 7 0 = 0x02 ∧
    ((pmt_payload program).drop 8).take iod_data.length = iod_data ∧
    (pmt_payload program).drop (8 + iod_data.length)
      = program.streams.flatMap (pmt_es_record true) ∧
    pmt_program_info_length (pmt_payload { program with iod := none }) = 0 ∧
    (pmt_payload { program with iod := none }).drop 4
      = program.streams.flatMap (pmt_es_record false) := by
  have h1 := pmt_payload_eq program (fun d hd => by rw [hi] at hd; cases hd; exact hb)
  have h2 := pmt_payload_eq { program with iod := none } (fun d hd => by cases hd)
  have e4 : u32 (u32 iod_data.length + 4) = iod_data.length + 4 := by unfold u32; omega
  have e2 : u32 (u32 iod_data.length + 2) = iod_data.length + 2 := by unfold u32; omega
  have h3 : pmt_program_info { program with iod := none }
      = [224 + program.pcr_pid / 256 % 32, program.pcr_pid % 256, 240, 0] := rfl
  rw [h1, h2, h3]
  unfold pmt_program_info pmt_pcr_pid pmt_program_info_length
  simp only [hi]
  simp only [e4, e2, Option.isSome_some, Option.isSome_none, List.cons_append,
    List.nil_append, List.getD_cons_zero, List.getD_cons_succ, List.drop_succ_cons,
    List.drop_zero, GF_M2TS_MPEG4_IOD_DESCRIPTOR]
  refine ⟨by omega, by omega, by omega, by omega, trivial, by omega, trivial, trivial, ?_,
    ?_, trivial, trivial⟩
  · exact List.take_left _ _
  · rw [Nat.add_comm]
    simp only [← List.drop_drop, List.drop_succ_cons, List.drop_zero, List.drop_left]

/-- Witness of C20: a program with an IOD of three bytes and one stream. -/
theorem pmt_payload_program_info_witness :
    pmt_payload demo_iod_program
      = [224, 101, 240, 7, 0x1D, 5, 2, 2, 1, 2, 3, 0x12, 224, 101, 240, 4, 0x1F, 2, 0, 5] ∧
    pmt_program_info_length (pmt_payload demo_iod_program) = 3 + 4 :=
  ⟨by decide,
    (pmt_payload_program_info demo_iod_program [1, 2, 3] rfl (by decide)
      (by decide)).2.2.2.1⟩

/-- C20, counterexample: for an IOD of 254 bytes the 8-bit descriptor_length holds 0, not
`254 + 2`. -/
theorem pmt_payload_descriptor_length_wraps :
    demo_long_iod.iod = some (List.replicate 254 1) ∧
    (pmt_payload demo_long_iod).getD 5 0 = 0 ∧
    (pmt_payload demo_long_iod).getD 5 0 ≠ 254 + 2 := by
  have h := pmt_payload_eq demo_long_iod (fun d hd b hb => by
    have : d = List.replicate 254 1 := by
      have h2 : demo_long_iod.iod = some (List.replicate 254 1) := rfl
      rw [h2] at hd
      exact (Option.some.inj hd).symm
    rw [this] at hb
    rw [List.eq_of_mem_replicate hb]
    decide)
  have e : pmt_program_info demo_long_iod
      = [224 + 101 / 256 % 32, 101 % 256]
        ++ ([240 + u32 (u32 (List.replicate 254 1).length + 4) / 256 % 16,
              u32 (u32 (List.replicate 254 1).length + 4) % 256, GF_M2TS_MPEG4_IOD_DESCRIPTOR,
              u32 (u32 (List.replicate 254 1).length + 2) % 256, 2, 2]
            ++ List.replicate 254 1) := rfl
  have h5 : (pmt_payload demo_long_iod).getD 5 0 = 0 := by
    rw [h, e, List.length_replicate]
    rfl
  refine ⟨rfl, h5, ?_⟩
  rw [h5]
  decide

/-- C21 (amended): the PMT payload holds, after the program information, one entry per
elementary stream in program order: the 8-bit stream_type, `111` and the 13-bit PID,
`1111` and the 12-bit ES_info_length. Whenever the program has an IOD, every entry has
ES_info_length 4 and carries the SL descriptor bytes 0x1F, 0x02 and the 16-bit ES_ID;
otherwise ES_info_length is 0 and no descriptor follows. `main` gives a new program the
IOD of its source only when MPEG-4 signaling is enabled on the muxer. -/
theorem pmt_payload_es_entries (program : M2TS_Mux_Program)
    (hb : ∀ iod_data, program.iod = some iod_data → ∀ b ∈ iod_data, b < 256) :
    pmt_payload program
      = pmt_program_info program
        ++ program.streams.flatMap (pmt_es_record program.iod.isSome) ∧
    (∀ es : M2TS_Mux_Stream,
      pmt_es_record true es
        = [es.mpeg2_stream_type % 256, 224 + es.pid / 256 % 32, es.pid % 256, 240, 4,
            0x1F, 0x02, es.ifce_stream_id / 256 % 256, es.ifce_stream_id % 256] ∧
      pmt_es_info_length (pmt_es_record true es) = 4 ∧
      pmt_es_record false es
        = [es.mpeg2_stream_type % 256, 224 + es.pid / 256 % 32, es.pid % 256, 240, 0] ∧
      pmt_es_info_length (pmt_es_record false es) = 0) ∧
    (∀ (muxer : M2TS_Mux) (progs_iod : Option (List Nat)),
      (main_program_iod muxer { program with iod := none } progs_iod).iod
        = if muxer.mpeg4_signaling then progs_iod else none) := by
  refine ⟨pmt_payload_eq program hb, fun es => ⟨rfl, ?_, rfl, ?_⟩, ?_⟩
  · simp [pmt_es_info_length, pmt_es_record]
  · simp [pmt_es_info_length, pmt_es_record]
  intro muxer progs_iod
  unfold main_program_iod
  cases muxer.mpeg4_signaling <;> rfl

/-- Witness of C21: a program without IOD and with two streams. -/
theorem pmt_payload_es_entries_witness :
    pmt_payload demo_plain_program
      = [224, 101, 240, 0, 0x1B, 224, 101, 240, 0, 0x03, 224, 102, 240, 0] :=
  (pmt_payload_es_entries demo_plain_program (fun d hd => by cases hd)).1

/-- C21, counterexample: with MPEG-4 signaling enabled on the muxer and a source without
IOD, the entry of the stream has ES_info_length 0 and no SL descriptor. -/
theorem pmt_payload_signaling_without_iod :
    demo_mpeg4_program.iod = none ∧
    pmt_payload demo_mpeg4_program = [224, 101, 240, 0, 0x12, 224, 101, 240, 0] ∧
    pmt_es_info_length ((pmt_payload demo_mpeg4_program).drop 4) = 0 := by
  decide

/-! ## Elementary streams -/

/-- C27, the code at the failing input: on a stream in pull mode that is not the PCR
stream, while `pcr_init_time` is 0, the first call pulls an access unit of 100 bytes and
returns false, and the next call returns true at the test `pck_offset < pck.data_len`,
with `pcr_init_time` still 0. -/
theorem m2ts_stream_process_stream_before_pcr_init :
    ∃ r1 r2,
      demo_video_stream.is_pcr = false ∧
      m2ts_stream_process_stream (demo_env 9000 1000) { bit_rate := 1000000 } {}
        demo_video_stream = some r1 ∧
      r1.res = false ∧ r1.program.pcr_init_time = 0 ∧ r1.stream.pck.data_len = 100 ∧
      m2ts_stream_process_stream (demo_env 9000 1000) { bit_rate := 1000000 } r1.program
        r1.stream = some r2 ∧
      r2.res = true ∧ r2.program.pcr_init_time = 0 :=
  ⟨_, _, rfl, rfl, rfl, rfl, rfl, rfl, rfl, rfl⟩

/-- C28, the code at the failing input: the first access unit, with DTS 0, leaves
`initial_ts` at 0, and the next access unit, with DTS 3600 and processed after 10
packets at 1000000 bit/s, changes `initial_ts` to 2247. -/
theorem m2ts_stream_process_stream_initial_ts_twice :
    ∃ r1 r2,
      m2ts_stream_process_stream (demo_env 0 1000) { bit_rate := 1000000 } {}
        demo_pcr_stream = some r1 ∧
      r1.res = true ∧ r1.stream.initial_ts = 0 ∧
      m2ts_stream_process_stream (demo_env 3600 1000)
        { bit_rate := 1000000, tot_pck_sent := 10 } r1.program
        { r1.stream with pck_offset := r1.stream.pck.data_len } = some r2 ∧
      r2.res = true ∧ r2.stream.initial_ts = 2247 :=
  ⟨_, _, rfl, rfl, rfl, rfl, rfl, rfl⟩

/-- C29, the code at the failing input: the first access unit of an AAC stream with a
decoder configuration, wrapped when the clock reads 300 ms, has `useSameStreamMux` 1
(the top bit of byte 3) and no configuration: the frame has 8 bytes, and
`last_aac_time` stays 0. When the clock reads 501 ms the same access unit gets the
configuration. -/
theorem process_stream_latm_first_without_config :
    (process_stream_latm (demo_env 0 300) demo_aac_stream).map
        (fun s => (s.pck.data, s.last_aac_time))
      = some ([0x56, 0xE0, 6, 0x81, 0x80, 0x81, 0x01, 0x80], 0) ∧
    (process_stream_latm (demo_env 0 501) demo_aac_stream).map
        (fun s => (s.pck.data.getD 3 0 / 128, s.pck.data.length, s.last_aac_time))
      = some (0, 13, 501) := by
  decide

theorem latm_length_bytes_step (n : Nat) (h : 255 ≤ n) :
    latm_length_bytes n = 255 :: latm_length_bytes (n - 255) := by
  unfold latm_length_bytes
  have e1 : n / 255 = (n - 255) / 255 + 1 := by omega
  have e2 : (n - 255) % 255 = n % 255 := by omega
  rw [e1, e2, List.replicate_succ, List.cons_append]

/-- The loop of the PayloadLengthInfo ends and writes `n / 255` bytes 0xFF and the byte
`n % 255`. -/
theorem latm_payload_length_info_eq :
    ∀ (fuel : Nat) (bs : List Bool) (n : Nat), n / 255 < fuel →
      latm_payload_length_info fuel bs n = some (bs ++ bitsOfBytes (latm_length_bytes n)) := by
  intro fuel
  induction fuel with
  | zero => intro bs n h; omega
  | succ fuel ih =>
    intro bs n h
    unfold latm_payload_length_info
    by_cases hn : n ≥ 255
    · rw [if_pos hn, ih _ _ (by omega), latm_length_bytes_step n hn]
      simp only [gf_bs_write_int, bitsOfBytes, List.append_assoc]
    · rw [if_neg hn]
      have e1 : n / 255 = 0 := by omega
      have e2 : n % 255 = n := by omega
      unfold latm_length_bytes
      rw [e1, e2]
      simp only [gf_bs_write_int, bitsOfBytes, List.replicate_zero, List.nil_append,
        List.append_nil]

theorem gf_bs_align_length (bs : List Bool) : (gf_bs_align bs).length % 8 = 0 := by
  unfold gf_bs_align
  rw [List.length_append, List.length_replicate]
  omega

theorem gf_bs_align_append (a b : List Bool) (h : a.length % 8 = 0) :
    gf_bs_align (a ++ b) = a ++ gf_bs_align b := by
  unfold gf_bs_align
  rw [List.length_append, List.append_assoc]
  have e : (8 - (a.length + b.length) % 8) % 8 = (8 - b.length % 8) % 8 := by omega
  rw [e]

theorem latm_header_bytes (rest : List Bool) :
    bytesOfBits (bitsOf 0x2B7 11 ++ (bitsOf 0 13 ++ rest)) = 0x56 :: 0xE0 :: 0 :: bytesOfBits rest := by
  rw [← List.append_assoc, bitsOf_merge, bytesOfBits_bitsOf24]
  rfl

theorem or_e0 (x : Nat) : 0xE0 ||| ((x >>> 8) &&& 0x1F) = 224 + x / 256 % 32 := by
  have h1 : (x >>> 8) &&& 0x1F = x / 256 % 32 := by
    rw [Nat.shiftRight_eq_div_pow]
    exact Nat.and_pow_two_sub_one_eq_mod _ 5
  rw [h1]
  have h2 : x / 256 % 32 < 32 := Nat.mod_lt _ (by decide)
  generalize x / 256 % 32 = y at h2
  interval_cases y <;> rfl

/-- The bytes of a LATM frame once the length has been stored in its header. -/
theorem latm_finish (bs : List Bool) (r : Option (List Bool)) (data : List Nat)
    (h : bs = bitsOf 0x2B7 11 ++ (bitsOf 0 13 ++ latm_mux_bits r)
      ++ bitsOfBytes (latm_length_bytes data.length))
    (hT : (latm_frame r data).length < 4294967296) :
    ((gf_bs_get_content (gf_bs_align (gf_bs_write_data bs data))).set 1
        ((gf_bs_get_content (gf_bs_align (gf_bs_write_data bs data))).getD 1 0
          ||| ((sub32 (u32 (gf_bs_get_content (gf_bs_align (gf_bs_write_data bs data))).length) 2
            >>> 8) &&& 0x1F))).set 2
      (sub32 (u32 (gf_bs_get_content (gf_bs_align (gf_bs_write_data bs data))).length) 2 &&& 0xFF)
      = latm_frame r data ∧
    u32 (gf_bs_get_content (gf_bs_align (gf_bs_write_data bs data))).length
      = (latm_frame r data).length := by
  have hframe : gf_bs_get_content (gf_bs_align (gf_bs_write_data bs data))
      = 0x56 :: 0xE0 :: 0 :: bytesOfBits (latm_body_bits r data) := by
    unfold gf_bs_get_content gf_bs_write_data
    have e : bs ++ bitsOfBytes data
        = (bitsOf 0x2B7 11 ++ bitsOf 0 13) ++ (latm_mux_bits r
          ++ (bitsOfBytes (latm_length_bytes data.length) ++ bitsOfBytes data)) := by
      rw [h]
      simp only [List.append_assoc]
    rw [e, gf_bs_align_append _ _ (by rfl), List.append_assoc, latm_header_bytes]
    rfl
  have hL : (latm_frame r data).length = (bytesOfBits (latm_body_bits r data)).length + 3 := by
    unfold latm_frame
    simp only [List.length_append, List.length_cons, List.length_nil]
    omega
  rw [hframe]
  rw [hL] at hT ⊢
  have hfr : latm_frame r data
      = [0x56, 224 + ((bytesOfBits (latm_body_bits r data)).length + 1) / 256 % 32,
          ((bytesOfBits (latm_body_bits r data)).length + 1) % 256]
        ++ bytesOfBits (latm_body_bits r data) := rfl
  rw [hfr]
  generalize bytesOfBits (latm_body_bits r data) = body at hT ⊢
  have e1 : u32 (0x56 :: 0xE0 :: 0 :: body).length = body.length + 3 := by
    unfold u32
    simp only [List.length_cons]
    omega
  rw [e1]
  have e2 : sub32 (body.length + 3) 2 = body.length + 1 := by
    unfold sub32; omega
  rw [e2]
  simp only [List.getD_cons_succ, List.getD_cons_zero, List.set_cons_succ, List.set_cons_zero]
  rw [or_e0, Nat.and_pow_two_sub_one_eq_mod _ 8]
  exact ⟨rfl, trivial⟩

/-- The LATM branch returns the frame of the specification. -/
theorem process_stream_latm_eq (env : ES_Environment) (stream : M2TS_Mux_Stream)
    (hlen : stream.pck.data.length = stream.pck.data_len)
    (hT : (latm_frame (latm_refresh env stream) stream.pck.data).length < 4294967296) :
    process_stream_latm env stream
      = some { stream with
          last_aac_time :=
            (match latm_refresh env stream with
             | some _ => env.gf_sys_clock
             | none => stream.last_aac_time),
          pck := { stream.pck with
            data := latm_frame (latm_refresh env stream) stream.pck.data,
            data_len := (latm_frame (latm_refresh env stream) stream.pck.data).length } } := by
  unfold process_stream_latm
  simp only []
  rw [← hlen, List.take_length]
  cases hc : stream.ifce_decoder_config with
  | none =>
    have hr : latm_refresh env stream = none := by unfold latm_refresh; rw [hc]
    rw [hr] at hT ⊢
    simp only []
    rw [latm_payload_length_info_eq _ _ _ (by omega)]
    simp only []
    have hf := latm_finish (gf_bs_write_int (gf_bs_write_int (gf_bs_write_int [] 0x2B7 11) 0 13)
      1 1 ++ bitsOfBytes (latm_length_bytes stream.pck.data.length)) none stream.pck.data
      (by simp only [gf_bs_write_int, latm_mux_bits, List.nil_append, List.append_assoc]) hT
    rw [hf.1, hf.2]
  | some cfg =>
    by_cases hcond : u32 (stream.last_aac_time + stream.ifce_repeat_rate) < env.gf_sys_clock
    · have hr : latm_refresh env stream = some cfg := by
        unfold latm_refresh; rw [hc]; simp only [if_pos hcond]
      rw [hr] at hT ⊢
      simp only [if_pos hcond]
      rw [latm_payload_length_info_eq _ _ _ (by omega)]
      simp only []
      have hf := latm_finish (gf_bs_write_int (gf_bs_write_int (gf_bs_write_int (gf_bs_write_int
            (gf_bs_write_int (gf_bs_write_int (gf_bs_write_int (gf_bs_write_int
              (gf_bs_write_int (gf_bs_write_int (gf_bs_write_int (gf_bs_write_int [] 0x2B7 11)
                0 13) 0 1) 0 1) 1 1) 0 6) 0 4) 0 3 ++ cfg) 0 3) 0 8) 0 1) 0 1
          ++ bitsOfBytes (latm_length_bytes stream.pck.data.length)) (some cfg) stream.pck.data
        (by simp only [gf_bs_write_int, latm_mux_bits, List.nil_append, List.append_assoc]) hT
      rw [hf.1, hf.2]
    · have hr : latm_refresh env stream = none := by
        unfold latm_refresh; rw [hc]; simp only [if_neg hcond]
      rw [hr] at hT ⊢
      simp only [if_neg hcond]
      rw [latm_payload_length_info_eq _ _ _ (by omega)]
      simp only []
      have hf := latm_finish (gf_bs_write_int (gf_bs_write_int (gf_bs_write_int [] 0x2B7 11) 0 13)
        1 1 ++ bitsOfBytes (latm_length_bytes stream.pck.data.length)) none stream.pck.data
        (by simp only [gf_bs_write_int, latm_mux_bits, List.nil_append, List.append_assoc]) hT
      rw [hf.1, hf.2]

/-- The size of a LATM frame. -/
theorem latm_frame_length (r : Option (List Bool)) (data : List Nat) :
    (latm_frame r data).length
      = 3 + ((latm_mux_bits r).length + 8 * (data.length / 255 + 1) + 8 * data.length + 7) / 8 := by
  unfold latm_frame latm_body_bits gf_bs_align latm_length_bytes
  simp only [List.length_append, List.length_cons, List.length_nil, bytesOfBits_length,
    bitsOfBytes_length, List.length_replicate]
  omega

/-- The header of a LATM frame: the sync word and the length field. -/
theorem latm_frame_header (r : Option (List Bool)) (data : List Nat) :
    latm_sync_word (latm_frame r data) = 0x2B7 ∧
    (latm_frame r data).getD 1 0 / 32 = 7 ∧
    latm_length_field (latm_frame r data) = ((latm_frame r data).length - 2) % 8192 := by
  have hL : (latm_frame r data).length = (bytesOfBits (latm_body_bits r data)).length + 3 := by
    unfold latm_frame
    simp only [List.length_append, List.length_cons, List.length_nil]
    omega
  rw [hL]
  unfold latm_sync_word latm_length_field latm_frame
  simp only [List.cons_append, List.nil_append, List.getD_cons_succ, List.getD_cons_zero]
  refine ⟨by omega, by omega, by omega⟩

/-- C37: for an AAC access unit of `n` bytes the LATM branch of
`m2ts_stream_process_stream` returns (the loop of the length bytes ends) the frame whose
PayloadLengthInfo is `n / 255` bytes 0xFF followed by the byte `n % 255`, which is less
than 255, so that the length bytes sum to `n`; the `n` bytes of the payload follow at
once and the frame is completed with zero bits to a byte boundary. -/
theorem process_stream_latm_payload_length_info (env : ES_Environment)
    (stream : M2TS_Mux_Stream) (hlen : stream.pck.data.length = stream.pck.data_len)
    (hT : (latm_frame (latm_refresh env stream) stream.pck.data).length < 4294967296) :
    (∀ bs, latm_payload_length_info (stream.pck.data_len / 255 + 1) bs stream.pck.data_len
      = some (bs ++ bitsOfBytes
          (List.replicate (stream.pck.data_len / 255) 255 ++ [stream.pck.data_len % 255]))) ∧
    stream.pck.data_len % 255 < 255 ∧
    (List.replicate (stream.pck.data_len / 255) 255 ++ [stream.pck.data_len % 255]).sum
      = stream.pck.data_len ∧
    ∃ stream', process_stream_latm env stream = some stream' ∧
      stream'.pck.data
        = [0x56, 224 + (stream'.pck.data.length - 2) / 256 % 32,
            (stream'.pck.data.length - 2) % 256]
          ++ bytesOfBits (gf_bs_align (latm_mux_bits (latm_refresh env stream)
            ++ (bitsOfBytes (List.replicate (stream.pck.data_len / 255) 255
                  ++ [stream.pck.data_len % 255])
              ++ bitsOfBytes stream.pck.data))) ∧
      (gf_bs_align (latm_mux_bits (latm_refresh env stream)
            ++ (bitsOfBytes (List.replicate (stream.pck.data_len / 255) 255
                  ++ [stream.pck.data_len % 255])
              ++ bitsOfBytes stream.pck.data))).length % 8 = 0 := by
  refine ⟨fun bs => latm_payload_length_info_eq _ bs _ (by omega), Nat.mod_lt _ (by decide),
    ?_, _, process_stream_latm_eq env stream hlen hT, ?_, gf_bs_align_length _⟩
  · rw [List.sum_append, List.sum_replicate]
    simp only [smul_eq_mul, List.sum_cons, List.sum_nil, Nat.add_zero]
    exact Nat.div_add_mod' _ _
  · show latm_frame (latm_refresh env stream) stream.pck.data = _
    have hL : (latm_frame (latm_refresh env stream) stream.pck.data).length
        = (bytesOfBits (latm_body_bits (latm_refresh env stream) stream.pck.data)).length + 3 := by
      unfold latm_frame
      simp only [List.length_append, List.length_cons, List.length_nil]
      omega
    rw [hL, ← hlen]
    rfl

/-- Witness of C37: the access unit of three bytes of `demo_aac_stream`, wrapped with its
configuration. -/
theorem process_stream_latm_payload_length_info_witness :
    (List.replicate (demo_aac_stream.pck.data_len / 255) 255
      ++ [demo_aac_stream.pck.data_len % 255]).sum = demo_aac_stream.pck.data_len :=
  (process_stream_latm_payload_length_info (demo_env 0 501) demo_aac_stream rfl
    (by decide)).2.2.1

/-- C38 (amended): a LATM frame `m2ts_stream_process_stream` produces, of total size
`T ≤ 8193` bytes, starts with the 11-bit sync word 0x2B7, the 13-bit length field that
follows (the low 5 bits of byte 1, then byte 2) holds `T - 2`, and the 3 sync bits at the
top of byte 1 are left as they were (`111`). -/
theorem process_stream_latm_header (env : ES_Environment) (stream : M2TS_Mux_Stream)
    (hlen : stream.pck.data.length = stream.pck.data_len)
    (hT : (latm_frame (latm_refresh env stream) stream.pck.data).length ≤ 8193) :
    ∃ stream', process_stream_latm env stream = some stream' ∧
      stream'.pck.data_len = stream'.pck.data.length ∧
      latm_sync_word stream'.pck.data = 0x2B7 ∧
      stream'.pck.data.getD 1 0 / 32 = 7 ∧
      latm_length_field stream'.pck.data = stream'.pck.data.length - 2 := by
  refine ⟨_, process_stream_latm_eq env stream hlen (by omega), rfl, ?_, ?_, ?_⟩
  · exact (latm_frame_header _ _).1
  · exact (latm_frame_header _ _).2.1
  · show latm_length_field (latm_frame _ _) = (latm_frame _ _).length - 2
    rw [(latm_frame_header _ _).2.2]
    omega

/-- Witness of C38: the frame of 13 bytes of `demo_aac_stream`. -/
theorem process_stream_latm_header_witness :
    ∃ stream', process_stream_latm (demo_env 0 501) demo_aac_stream = some stream' ∧
      stream'.pck.data_len = stream'.pck.data.length ∧
      latm_sync_word stream'.pck.data = 0x2B7 ∧
      stream'.pck.data.getD 1 0 / 32 = 7 ∧
      latm_length_field stream'.pck.data = stream'.pck.data.length - 2 :=
  process_stream_latm_header (demo_env 0 501) demo_aac_stream rfl (by decide)

/-- C38, counterexample: the frame of an access unit of 8190 bytes has 8227 bytes and its
13-bit length field holds 33, not 8225. -/
theorem process_stream_latm_length_wraps :
    ∃ stream', process_stream_latm (demo_env 0 0) demo_aac_long = some stream' ∧
      stream'.pck.data.length = 8227 ∧ latm_length_field stream'.pck.data = 33 := by
  have hr : latm_refresh (demo_env 0 0) demo_aac_long = none := rfl
  have hd : demo_aac_long.pck.data = List.replicate 8190 1 := rfl
  have hL : (latm_frame (latm_refresh (demo_env 0 0) demo_aac_long) demo_aac_long.pck.data).length
      = 8227 := by
    rw [latm_frame_length, hr, hd, List.length_replicate]
    rfl
  refine ⟨_, process_stream_latm_eq (demo_env 0 0) demo_aac_long ?_ (by rw [hL]; decide), hL, ?_⟩
  · rw [hd, List.length_replicate]
    rfl
  · show latm_length_field (latm_frame _ _) = 33
    rw [(latm_frame_header _ _).2.2, hL]

/-- The loop that counts the packets of an access unit ends with the count of the
specification, as long as no 32-bit value wraps. -/
theorem nb_pck_loop_value (data_len : Nat) :
    ∀ (fuel bytes nb_pck : Nat), (data_len - bytes + 183) / 184 < fuel →
      bytes + 184 * ((data_len - bytes + 183) / 184) < 4294967296 →
      nb_pck + (data_len - bytes + 183) / 184 < 4294967296 →
      nb_pck_loop fuel bytes data_len nb_pck = some (nb_pck + (data_len - bytes + 183) / 184) := by
  intro fuel
  induction fuel with
  | zero => intro bytes nb h; omega
  | succ fuel ih =>
    intro bytes nb h1 h2 h3
    unfold nb_pck_loop
    by_cases hlt : bytes < data_len
    · rw [if_pos hlt]
      have e1 : u32 (bytes + 184) = bytes + 184 := by unfold u32; omega
      have e2 : u32 (nb + 1) = nb + 1 := by unfold u32; omega
      have e3 : (data_len - bytes + 183) / 184 = (data_len - (bytes + 184) + 183) / 184 + 1 := by
        omega
      rw [e1, e2, ih _ _ (by omega) (by omega) (by omega), e3]
      congr 1
      omega
    · rw [if_neg hlt]
      have e : (data_len - bytes + 183) / 184 = 0 := by omega
      rw [e]
      rfl

theorem pes_header_length_le (stream : M2TS_Mux_Stream) :
    m2ts_stream_get_pes_header_length stream ≤ 19 := by
  unfold m2ts_stream_get_pes_header_length
  split
  · omega
  · simp only []
    split <;> split <;> omega

/-- C36 (amended): once `m2ts_stream_process_stream` has accepted an access unit of
`au_len` bytes with a PES header of `pes_hdr` bytes, `stream.time` is
`ts_time_at_pcr_init` advanced (`m2ts_time_inc`) by `next_time / 90000` seconds, where
`next_time = (dts - initial_ts) - 90000 * 1504 * nb_pck / mux.bit_rate`, clamped at 0, and
`nb_pck = 1 + ceil (max 0 (au_len + pes_hdr - 176) / 184)` counts a first packet that
keeps 8 bytes for an adaptation field with a PCR; this for an access unit of at most 31
packets, a DTS not before `initial_ts` and less than `2 ^ 32` ticks after it, and a bit
rate that is not zero. -/
theorem process_stream_schedule_time (muxer : M2TS_Mux) (program : M2TS_Mux_Program)
    (stream : M2TS_Mux_Stream) (hbr : muxer.bit_rate ≠ 0)
    (hts : stream.initial_ts ≤ stream.pck.dts)
    (hd : stream.pck.dts - stream.initial_ts < 4294967296)
    (hsz : nb_pck_spec stream.pck.data_len (m2ts_stream_get_pes_header_length stream) ≤ 31) :
    ∃ stream', process_stream_schedule muxer program stream = some stream' ∧
      stream'.time = m2ts_time_inc program.ts_time_at_pcr_init
        (stream.pck.dts - stream.initial_ts
          - 90000 * 1504
            * nb_pck_spec stream.pck.data_len (m2ts_stream_get_pes_header_length stream)
            / muxer.bit_rate) 90000 := by
  have hh := pes_header_length_le stream
  have hnt : process_stream_next_time muxer stream
      = some (stream.pck.dts - stream.initial_ts
          - 90000 * 1504
            * nb_pck_spec stream.pck.data_len (m2ts_stream_get_pes_header_length stream)
            / muxer.bit_rate) := by
    unfold process_stream_next_time nb_pck_spec at *
    simp only [ADAPTATION_LENGTH_LENGTH, ADAPTATION_FLAGS_LENGTH, PCR_LENGTH]
    generalize m2ts_stream_get_pes_header_length stream = hdr at hh hsz ⊢
    have e0 : sub32 stream.pck.dts stream.initial_ts = stream.pck.dts - stream.initial_ts := by
      unfold sub32; omega
    rw [e0]
    by_cases hz : stream.pck.dts - stream.initial_ts ≠ 0
    · rw [if_pos hz]
      have e1 : sub32 (184 - 1 - 1 - 6) hdr = 176 - hdr := by unfold sub32; omega
      have e2 : stream.pck.data_len - (176 - hdr) = stream.pck.data_len + hdr - 176 := by omega
      rw [e1, nb_pck_loop_value _ _ _ _ (by omega) (by omega) (by omega), e2]
      simp only []
      rw [if_neg hbr]
      generalize (stream.pck.data_len + hdr - 176 + 183) / 184 = c at hsz ⊢
      have e3 : u32 ((1 + c) * 1504) = (1 + c) * 1504 := by unfold u32; omega
      have e4 : u32 (90000 * ((1 + c) * 1504)) = 90000 * 1504 * (1 + c) := by unfold u32; omega
      rw [e3, e4]
      generalize 90000 * 1504 * (1 + c) / muxer.bit_rate = t
      split
      · rfl
      · congr 1; omega
    · rw [if_neg hz]
      generalize 90000 * 1504 * (1 + (stream.pck.data_len + hdr - 176 + 183) / 184)
        / muxer.bit_rate = t
      congr 1
      omega
  unfold process_stream_schedule
  rw [hnt]
  exact ⟨_, rfl, rfl⟩

/-- Witness of C36: an access unit of 3 bytes that starts a PES packet with PTS and DTS. -/
theorem process_stream_schedule_time_witness :
    ∃ stream', process_stream_schedule { bit_rate := 1000000 } {} demo_pts_dts = some stream' ∧
      stream'.time = m2ts_time_inc {} (12345 - 0 - 90000 * 1504 * nb_pck_spec 3 19 / 1000000)
        90000 :=
  process_stream_schedule_time { bit_rate := 1000000 } {} demo_pts_dts (by decide) (by decide)
    (by decide) (by decide)

/-- C36, counterexample: for an access unit of 180 bytes without PES header, due 10000
ticks after the first one at 1000000 bit/s, the code counts 2 packets and sets the time
of the stream 9730 ticks (108111111 ns) after the PCR origin; with
`ceil ((180 + 0) / 184) = 1` packet the claim gives 9865 ticks (109611111 ns). -/
theorem process_stream_schedule_counts_two_packets :
    (process_stream_schedule { bit_rate := 1000000 } {} demo_schedule_stream).map
        (fun s => s.time) = some { sec := 0, nanosec := 108111111 } ∧
    m2ts_time_inc {} (15000 - 5000 - 90000 * 1504 * ((180 + 0 + 183) / 184) / 1000000) 90000
      = { sec := 0, nanosec := 109611111 } := by
  decide

/-! ## Scheduling -/

theorem m2ts_time_less_iff (a b : M2TS_Time) :
    m2ts_time_less a b = true ↔ a.sec < b.sec ∨ (a.sec = b.sec ∧ a.nanosec < b.nanosec) := by
  unfold m2ts_time_less
  by_cases h1 : a.sec > b.sec
  · rw [if_pos h1]; simp only [Bool.false_eq_true, false_iff]; omega
  · rw [if_neg h1]
    by_cases h2 : a.sec = b.sec
    · rw [if_pos h2]
      by_cases h3 : a.nanosec < b.nanosec
      · rw [if_pos h3]; simp only [true_iff]; omega
      · rw [if_neg h3]; simp only [Bool.false_eq_true, false_iff]; omega
    · rw [if_neg h2]; simp only [true_iff]; omega

theorem m2ts_time_less_false_iff (a b : M2TS_Time) :
    m2ts_time_less a b = false ↔ b.sec < a.sec ∨ (a.sec = b.sec ∧ b.nanosec ≤ a.nanosec) := by
  rw [← Bool.not_eq_true, m2ts_time_less_iff]
  omega

theorem m2ts_time_less_or_equal_iff (a b : M2TS_Time) :
    m2ts_time_less_or_equal a b = true
      ↔ a.sec < b.sec ∨ (a.sec = b.sec ∧ a.nanosec ≤ b.nanosec) := by
  unfold m2ts_time_less_or_equal
  by_cases h1 : a.sec > b.sec
  · rw [if_pos h1]; simp only [Bool.false_eq_true, false_iff]; omega
  · rw [if_neg h1]
    by_cases h2 : a.sec = b.sec
    · rw [if_pos h2]
      by_cases h3 : a.nanosec > b.nanosec
      · rw [if_pos h3]; simp only [Bool.false_eq_true, false_iff]; omega
      · rw [if_neg h3]; simp only [true_iff]; omega
    · rw [if_neg h2]; simp only [true_iff]; omega

theorem time_not_less_trans (a b c : M2TS_Time) (h1 : m2ts_time_less a b = false)
    (h2 : m2ts_time_less b c = false) : m2ts_time_less a c = false := by
  rw [m2ts_time_less_false_iff] at *
  omega

theorem time_less_of_not_less (v s2 s : M2TS_Time) (h1 : m2ts_time_less v s2 = true)
    (h2 : m2ts_time_less s s2 = false) : m2ts_time_less v s = true := by
  rw [m2ts_time_less_false_iff] at h2
  rw [m2ts_time_less_iff] at *
  omega

theorem time_not_less_self (a : M2TS_Time) : m2ts_time_less a a = false := by
  rw [m2ts_time_less_false_iff]; omega

theorem search_ok_cons (sel sel2 sel' : Selection) (v : Visit) (vs : List Visit)
    (h3 : v.res = true → m2ts_time_less v.time sel2.time = false)
    (h4 : m2ts_time_less sel.time sel2.time = false)
    (h5 : (sel2.stream_to_process = sel.stream_to_process ∧ sel2.time = sel.time) ∨
      (v.res = true ∧ sel2.stream_to_process = some v.ref ∧ sel2.time = v.time ∧
        m2ts_time_less v.time sel.time = true))
    (ih : Search_Ok sel2 sel' vs) : Search_Ok sel sel' (v :: vs) := by
  obtain ⟨i1, i2, i3⟩ := ih
  refine ⟨?_, time_not_less_trans _ _ _ h4 i2, ?_⟩
  · intro w hw hres
    rcases List.mem_cons.1 hw with rfl | hw
    · exact time_not_less_trans _ _ _ (h3 hres) i2
    · exact i1 w hw hres
  · rcases i3 with ⟨a, b⟩ | ⟨w, hw, hr, hs, ht, hl⟩
    · rcases h5 with ⟨c, d⟩ | ⟨c, d, e, f⟩
      · left; exact ⟨a.trans c, b.trans d⟩
      · right; exact ⟨v, List.mem_cons_self _ _, c, a.trans d, b.trans e, f⟩
    · right
      exact ⟨w, List.mem_cons_of_mem _ hw, hr, hs, ht, time_less_of_not_less _ _ _ hl h4⟩

theorem search_ok_append (sel sel2 sel' : Selection) (vs vs2 : List Visit)
    (h : Search_Ok sel sel2 vs) (ih : Search_Ok sel2 sel' vs2) :
    Search_Ok sel sel' (vs ++ vs2) := by
  obtain ⟨a1, a2, a3⟩ := h
  obtain ⟨i1, i2, i3⟩ := ih
  refine ⟨?_, time_not_less_trans _ _ _ a2 i2, ?_⟩
  · intro w hw hres
    rcases List.mem_append.1 hw with hw | hw
    · exact time_not_less_trans _ _ _ (a1 w hw hres) i2
    · exact i1 w hw hres
  · rcases i3 with ⟨a, b⟩ | ⟨w, hw, hr, hs, ht, hl⟩
    · rcases a3 with ⟨c, d⟩ | ⟨w, hw, hr, hs, ht, hl⟩
      · left; exact ⟨a.trans c, b.trans d⟩
      · right
        exact ⟨w, List.mem_append_left _ hw, hr, a.trans hs, b.trans ht, hl⟩
    · right
      exact ⟨w, List.mem_append_right _ hw, hr, hs, ht, time_less_of_not_less _ _ _ hl a2⟩

theorem search_ok_refl (sel : Selection) : Search_Ok sel sel [] :=
  ⟨fun _ h => absurd h (List.not_mem_nil _), time_not_less_self _, Or.inl ⟨rfl, rfl⟩⟩

/-- The inner loop of the search: its result is the earliest of the streams that
returned true, if earlier than the selection it started from, and the two counters count
the streams and those that are over. -/
theorem process_streams_spec
    (process : M2TS_Mux → M2TS_Mux_Program → M2TS_Mux_Stream → Option Process_Result)
    (pi : Nat) :
    ∀ (streams : List M2TS_Mux_Stream) (muxer : M2TS_Mux) (program : M2TS_Mux_Program)
      (si : Nat) (sel : Selection) (m' : M2TS_Mux) (p' : M2TS_Mux_Program)
      (ss' : List M2TS_Mux_Stream) (sel' : Selection) (vs : List Visit),
      process_streams process pi muxer program streams si sel = some (m', p', ss', sel', vs) →
      sel.nb_streams + streams.length < 4294967296 →
      sel.nb_streams_done ≤ sel.nb_streams →
      Search_Ok sel sel' vs ∧
      vs.length = streams.length ∧
      sel'.nb_streams = sel.nb_streams + vs.length ∧
      sel'.nb_streams_done = sel.nb_streams_done + (visits_done vs).length ∧
      (∀ v ∈ vs, ∃ k, v.ref = Stream_Ref.es pi k) ∧
      m' = { muxer with needs_reconfig := m'.needs_reconfig } := by
  intro streams
  induction streams with
  | nil =>
    intro muxer program si sel m' p' ss' sel' vs h _ _
    unfold process_streams at h
    injection h with h
    injection h with h1 h
    injection h with h2 h
    injection h with h3 h
    injection h with h4 h5
    subst h1 h4 h5
    exact ⟨search_ok_refl _, rfl, rfl, rfl, fun _ hv => absurd hv (List.not_mem_nil _), rfl⟩
  | cons stream rest ih =>
    intro muxer program si sel m' p' ss' sel' vs h hn hd
    unfold process_streams at h
    simp only [] at h
    cases hp : process muxer program stream with
    | none => rw [hp] at h; simp at h
    | some r =>
      rw [hp] at h
      simp only [] at h
      have hu1 : u32 (sel.nb_streams + 1) = sel.nb_streams + 1 := by
        unfold u32; simp only [List.length_cons] at hn; omega
      have hu2 : u32 (sel.nb_streams_done + 1) = sel.nb_streams_done + 1 := by
        unfold u32; simp only [List.length_cons] at hn; omega
      rw [hu1, hu2] at h
      generalize hs2 :
        (if r.res = true then
          if m2ts_time_less r.stream.time sel.time = true then
            ({ time := r.stream.time, stream_to_process := some (Stream_Ref.es pi si),
               nb_streams := sel.nb_streams + 1,
               nb_streams_done := sel.nb_streams_done } : Selection)
          else { sel with nb_streams := sel.nb_streams + 1 }
        else if r.stream.GF_ESI_STREAM_IS_OVER = true then
          { time := sel.time, stream_to_process := sel.stream_to_process,
            nb_streams := sel.nb_streams + 1,
            nb_streams_done := sel.nb_streams_done + 1 }
        else { sel with nb_streams := sel.nb_streams + 1 }) = sel2 at h
      have hfacts : sel2.nb_streams = sel.nb_streams + 1 ∧
          sel2.nb_streams_done
            = sel.nb_streams_done + (if (!r.res && r.stream.GF_ESI_STREAM_IS_OVER) = true
                then 1 else 0) ∧
          (r.res = true → m2ts_time_less r.stream.time sel2.time = false) ∧
          m2ts_time_less sel.time sel2.time = false ∧
          ((sel2.stream_to_process = sel.stream_to_process ∧ sel2.time = sel.time) ∨
            (r.res = true ∧ sel2.stream_to_process = some (Stream_Ref.es pi si) ∧
              sel2.time = r.stream.time ∧ m2ts_time_less r.stream.time sel.time = true)) := by
        rw [← hs2]
        by_cases hr : r.res = true
        · by_cases hl : m2ts_time_less r.stream.time sel.time = true
          · rw [if_pos hr, if_pos hl]
            refine ⟨rfl, by simp [hr], fun _ => time_not_less_self _, ?_,
              Or.inr ⟨hr, rfl, rfl, hl⟩⟩
            show m2ts_time_less sel.time r.stream.time = false
            rw [m2ts_time_less_false_iff]
            rw [m2ts_time_less_iff] at hl
            omega
          · rw [if_pos hr, if_neg hl]
            refine ⟨rfl, by simp [hr], fun _ => by simpa using hl, time_not_less_self _,
              Or.inl ⟨rfl, rfl⟩⟩
        · rw [if_neg hr]
          have hr' : r.res = false := by simpa using hr
          by_cases ho : r.stream.GF_ESI_STREAM_IS_OVER = true
          · rw [if_pos ho]
            exact ⟨rfl, by simp [hr', ho], fun h0 => absurd h0 hr, time_not_less_self _,
              Or.inl ⟨rfl, rfl⟩⟩
          · rw [if_neg ho]
            have ho' : r.stream.GF_ESI_STREAM_IS_OVER = false := by simpa using ho
            exact ⟨rfl, by simp [hr', ho'], fun h0 => absurd h0 hr, time_not_less_self _,
              Or.inl ⟨rfl, rfl⟩⟩
      obtain ⟨f1, f2, f3, f4, f5⟩ := hfacts
      cases hrec : process_streams process pi
          { muxer with needs_reconfig := muxer.needs_reconfig || r.needs_reconfig }
          r.program rest (si + 1) sel2 with
      | none => rw [hrec] at h; simp at h
      | some x =>
        obtain ⟨m2, p2, ss2, sel3, vs2⟩ := x
        rw [hrec] at h
        simp only [Option.some.injEq, Prod.mk.injEq] at h
        obtain ⟨e1, e2, e3, e4, e5⟩ := h
        subst e1 e2 e3 e4 e5
        simp only [List.length_cons] at hn
        have hle : (if (!r.res && r.stream.GF_ESI_STREAM_IS_OVER) = true then 1 else 0) ≤ 1 := by
          split <;> omega
        obtain ⟨j1, j2, j3, j4, j5, j6⟩ := ih _ _ _ _ _ _ _ _ _ hrec (by omega) (by omega)
        refine ⟨search_ok_cons _ _ _ _ _ f3 f4 f5 j1, by simp [j2], ?_, ?_, ?_, ?_⟩
        · rw [j3, f1, List.length_cons]; omega
        · rw [j4, f2]
          unfold visits_done
          rw [List.filter_cons]
          by_cases hc : (!r.res && r.stream.GF_ESI_STREAM_IS_OVER) = true
          · rw [if_pos hc, if_pos hc, List.length_cons]; omega
          · rw [if_neg hc, if_neg hc]; omega
        · intro v hv
          rcases List.mem_cons.1 hv with rfl | hv
          · exact ⟨si, rfl⟩
          · exact j5 v hv
        · rw [j6]

theorem visits_es_of_es (pi : Nat) (vs : List Visit)
    (h : ∀ v ∈ vs, ∃ k, v.ref = Stream_Ref.es pi k) : visits_es vs = vs := by
  unfold visits_es
  rw [List.filter_eq_self]
  intro v hv
  obtain ⟨k, hk⟩ := h v hv
  rw [hk]

/-- The outer loop of the search: its result is the earliest of the streams that returned
true, if earlier than the selection it started from; when it selects a PMT this was the
last call made; otherwise every elementary stream has been called and counted. -/
theorem process_programs_spec
    (process : M2TS_Mux → M2TS_Mux_Program → M2TS_Mux_Stream → Option Process_Result) :
    ∀ (programs : List M2TS_Mux_Program) (muxer : M2TS_Mux) (pi : Nat) (sel : Selection)
      (m' : M2TS_Mux) (ps' : List M2TS_Mux_Program) (sel' : Selection) (vs : List Visit),
      process_programs process muxer programs pi sel = some (m', ps', sel', vs) →
      sel.nb_streams + nb_es programs < 4294967296 →
      sel.nb_streams_done ≤ sel.nb_streams →
      (∀ k, sel.stream_to_process ≠ some (Stream_Ref.pmt k)) →
      Search_Ok sel sel' vs ∧
      (∀ k, sel'.stream_to_process = some (Stream_Ref.pmt k) →
        ∃ vs0 v, vs = vs0 ++ [v] ∧ v.ref = Stream_Ref.pmt k ∧ v.res = true ∧
          v.time = sel'.time) ∧
      ((∀ k, sel'.stream_to_process ≠ some (Stream_Ref.pmt k)) →
        (visits_es vs).length = nb_es programs ∧
        sel'.nb_streams = sel.nb_streams + nb_es programs ∧
        sel'.nb_streams_done = sel.nb_streams_done + (visits_done vs).length) ∧
      m' = { muxer with needs_reconfig := m'.needs_reconfig } := by
  intro programs
  induction programs with
  | nil =>
    intro muxer pi sel m' ps' sel' vs h _ _ hs
    unfold process_programs at h
    simp only [Option.some.injEq, Prod.mk.injEq] at h
    obtain ⟨e1, e2, e3, e4⟩ := h
    subst e1 e2 e3 e4
    exact ⟨search_ok_refl _, fun k hk => absurd hk (hs k), fun _ => ⟨rfl, rfl, rfl⟩, rfl⟩
  | cons program rest ih =>
    intro muxer pi sel m' ps' sel' vs h hn hd hs
    unfold process_programs at h
    cases hp : m2ts_stream_process_pmt program program.pmt with
    | none => rw [hp] at h; simp at h
    | some x =>
      obtain ⟨pmt, res⟩ := x
      rw [hp] at h
      simp only [] at h
      have hne : nb_es (program :: rest) = program.streams.length + nb_es rest := by
        unfold nb_es
        rw [List.map_cons, List.sum_cons]
      rw [hne] at hn ⊢
      by_cases hc : (res && m2ts_time_less pmt.time sel.time) = true
      · rw [if_pos hc] at h
        simp only [Option.some.injEq, Prod.mk.injEq] at h
        obtain ⟨e1, e2, e3, e4⟩ := h
        subst e1 e2 e3 e4
        rw [Bool.and_eq_true] at hc
        obtain ⟨hr, hl⟩ := hc
        refine ⟨⟨?_, ?_, Or.inr ⟨_, List.mem_singleton_self _, hr, rfl, rfl, hl⟩⟩, ?_, ?_, rfl⟩
        · intro v hv _
          rw [List.mem_singleton] at hv
          subst hv
          exact time_not_less_self _
        · show m2ts_time_less sel.time pmt.time = false
          rw [m2ts_time_less_false_iff]
          rw [m2ts_time_less_iff] at hl
          omega
        · intro k hk
          refine ⟨[], _, rfl, ?_, hr, rfl⟩
          injection hk with hk
        · intro hno
          exact absurd rfl (hno pi)
      · rw [if_neg hc] at h
        cases hst : process_streams process pi muxer { program with pmt := pmt }
            program.streams 0 sel with
        | none =>
          have h0 := h
          simp only [hst] at h0
          cases h0
        | some y =>
          obtain ⟨m2, p2, ss2, sel2, vs1⟩ := y
          have h0 := h
          simp only [hst] at h0
          cases hrec : process_programs process m2 rest (pi + 1) sel2 with
          | none => rw [hrec] at h0; simp at h0
          | some z =>
            obtain ⟨m3, ps3, sel3, vs2⟩ := z
            rw [hrec] at h0
            simp only [Option.some.injEq, Prod.mk.injEq] at h0
            obtain ⟨e1, e2, e3, e4⟩ := h0
            subst e1 e2 e3 e4
            obtain ⟨a1, a2, a3, a4, a5, a6⟩ :=
              process_streams_spec process pi _ _ _ _ _ _ _ _ _ _ hst (by omega) hd
            have hs2 : ∀ k, sel2.stream_to_process ≠ some (Stream_Ref.pmt k) := by
              intro k hk
              rcases a1.2.2 with ⟨b1, _⟩ | ⟨v, hv, _, b2, _⟩
              · rw [b1] at hk; exact hs k hk
              · obtain ⟨j, hj⟩ := a5 v hv
                rw [b2, hj] at hk
                injection hk with hk
                injection hk
            have hfl : (visits_done vs1).length ≤ vs1.length := List.length_filter_le _ _
            obtain ⟨i1, i2, i3, i4⟩ := ih _ _ _ _ _ _ _ hrec (by omega) (by omega) hs2
            have hpv : res = true → m2ts_time_less pmt.time sel.time = false := by
              intro hr
              rw [hr, Bool.true_and] at hc
              simpa using hc
            refine ⟨?_, ?_, ?_, ?_⟩
            · exact search_ok_cons sel sel sel3
                { ref := Stream_Ref.pmt pi, time := pmt.time, res := res } _ hpv
                (time_not_less_self _) (Or.inl ⟨rfl, rfl⟩) (search_ok_append _ _ _ _ _ a1 i1)
            · intro k hk
              obtain ⟨vs0, v, g1, g2⟩ := i2 k hk
              refine ⟨{ ref := Stream_Ref.pmt pi, time := pmt.time, res := res } :: (vs1 ++ vs0),
                v, ?_, g2⟩
              rw [g1]
              simp only [List.cons_append, List.append_assoc]
            · intro hno
              obtain ⟨k1, k2, k3⟩ := i3 hno
              refine ⟨?_, ?_, ?_⟩
              · unfold visits_es at k1 ⊢
                rw [List.filter_cons]
                simp only [Bool.false_eq_true, if_false, List.filter_append, List.length_append]
                have := visits_es_of_es pi vs1 a5
                unfold visits_es at this
                rw [this, k1, a2]
              · rw [k2, a3, a2]; omega
              · rw [k3, a4]
                unfold visits_done
                rw [List.filter_cons]
                simp only [Bool.and_false, Bool.false_eq_true, if_false, List.filter_append,
                  List.length_append]
                omega
            · rw [i4, a6]

/-- The real-time pacing leaves the mux as it was but for the two clock origins. -/
theorem m2ts_mux_pacing_spec (muxer m0 : M2TS_Mux) (now : Nat)
    (h : m2ts_mux_pacing muxer now = some m0) :
    m0 = { muxer with init_sys_time := m0.init_sys_time, init_ts_time := m0.init_ts_time } := by
  unfold m2ts_mux_pacing at h
  split at h
  · split at h
    · injection h with h; rw [← h]
    · simp only [] at h
      split at h
      · cases h
      · injection h with h; rw [← h]
  · injection h with h; rw [← h]

theorem process_streams_muxer
    (process : M2TS_Mux → M2TS_Mux_Program → M2TS_Mux_Stream → Option Process_Result)
    (pi : Nat) :
    ∀ (streams : List M2TS_Mux_Stream) (muxer : M2TS_Mux) (program : M2TS_Mux_Program)
      (si : Nat) (sel : Selection) (m' : M2TS_Mux) (p' : M2TS_Mux_Program)
      (ss' : List M2TS_Mux_Stream) (sel' : Selection) (vs : List Visit),
      process_streams process pi muxer program streams si sel = some (m', p', ss', sel', vs) →
      m' = { muxer with needs_reconfig := m'.needs_reconfig } := by
  intro streams
  induction streams with
  | nil =>
    intro muxer program si sel m' p' ss' sel' vs h
    unfold process_streams at h
    simp only [Option.some.injEq, Prod.mk.injEq] at h
    rw [← h.1]
  | cons stream rest ih =>
    intro muxer program si sel m' p' ss' sel' vs h
    unfold process_streams at h
    simp only [] at h
    split at h
    · cases h
    · split at h
      · cases h
      · rename_i hrec
        simp only [Option.some.injEq, Prod.mk.injEq] at h
        have := ih _ _ _ _ _ _ _ _ _ hrec
        rw [← h.1, this]

theorem process_programs_muxer
    (process : M2TS_Mux → M2TS_Mux_Program → M2TS_Mux_Stream → Option Process_Result) :
    ∀ (programs : List M2TS_Mux_Program) (muxer : M2TS_Mux) (pi : Nat) (sel : Selection)
      (m' : M2TS_Mux) (ps' : List M2TS_Mux_Program) (sel' : Selection) (vs : List Visit),
      process_programs process muxer programs pi sel = some (m', ps', sel', vs) →
      m' = { muxer with needs_reconfig := m'.needs_reconfig } := by
  intro programs
  induction programs with
  | nil =>
    intro muxer pi sel m' ps' sel' vs h
    unfold process_programs at h
    simp only [Option.some.injEq, Prod.mk.injEq] at h
    rw [← h.1]
  | cons program rest ih =>
    intro muxer pi sel m' ps' sel' vs h
    unfold process_programs at h
    split at h
    · cases h
    · simp only [] at h
      split at h
      · simp only [Option.some.injEq, Prod.mk.injEq] at h
        rw [← h.1]
      · split at h
        · cases h
        · rename_i hst
          split at h
          · cases h
          · rename_i hrec
            simp only [Option.some.injEq, Prod.mk.injEq] at h
            have e1 := process_streams_muxer process pi _ _ _ _ _ _ _ _ _ _ hst
            have e2 := ih _ _ _ _ _ _ _ hrec
            rw [← h.1, e2, e1]

theorem m2ts_mux_update_config_kept (m m1 : M2TS_Mux)
    (h : m2ts_mux_update_config m false = some m1) : Mux_Kept m m1 := by
  unfold m2ts_mux_update_config at h
  simp only [] at h
  split at h
  · cases h
  · rename_i mux hpat
    have hk : Mux_Kept m mux := by
      split at hpat
      · split at hpat
        · cases hpat
        · injection hpat with hpat
          rw [← hpat]
          exact ⟨rfl, rfl, rfl, rfl, rfl, rfl, rfl, rfl, rfl⟩
      · injection hpat with hpat
        rw [← hpat]
        exact ⟨rfl, rfl, rfl, rfl, rfl, rfl, rfl, rfl, rfl⟩
    split at h
    · cases h
    · simp only [Bool.false_eq_true, if_false, Option.some.injEq] at h
      rw [← h]
      exact hk

theorem m2ts_mux_reconfig_kept (m m1 : M2TS_Mux) (h : m2ts_mux_reconfig m = some m1) :
    Mux_Kept m m1 := by
  unfold m2ts_mux_reconfig at h
  split at h
  · split at h
    · cases h
    · rename_i m2 h2
      injection h with h
      rw [← h]
      exact m2ts_mux_update_config_kept m m2 h2
  · injection h with h
    rw [← h]
    exact ⟨rfl, rfl, rfl, rfl, rfl, rfl, rfl, rfl, rfl⟩

/-- The search leaves the time, the counters and the packet buffers of the mux as they
were. -/
theorem m2ts_mux_select_kept
    (process : M2TS_Mux → M2TS_Mux_Program → M2TS_Mux_Stream → Option Process_Result)
    (m m1 : M2TS_Mux) (sel : Selection) (vs : List Visit)
    (h : m2ts_mux_select process m = some (m1, sel, vs)) : Mux_Kept m m1 := by
  unfold m2ts_mux_select at h
  simp only [] at h
  split at h
  · cases h
  · rename_i mc hc
    have hk := m2ts_mux_reconfig_kept m mc hc
    split at h
    · cases h
    · rename_i pat res hp
      split at h
      · simp only [Option.some.injEq, Prod.mk.injEq] at h
        rw [← h.1]
        exact hk
      · split at h
        · cases h
        · rename_i m2 ps sel2 vs2 hpr
          simp only [Option.some.injEq, Prod.mk.injEq] at h
          have e := process_programs_muxer process _ _ _ _ _ _ _ _ hpr
          rw [← h.1, e]
          exact hk

theorem update_config_streams_fixed (l : List M2TS_Mux_Stream) (br : Nat) :
    update_config_streams true false l br = (l, br) := by
  induction l with
  | nil => rfl
  | cons s rest ih =>
    unfold update_config_streams
    simp only [not_true_eq_false, Bool.false_eq_true, if_false, ih]

theorem update_config_programs_fixed (ps : List M2TS_Mux_Program) (br : Nat) :
    update_config_programs true false ps br = some (ps, br) := by
  induction ps with
  | nil => rfl
  | cons p rest ih =>
    unfold update_config_programs
    simp only [update_config_streams_fixed, not_true_eq_false, if_false, ih]

/-- In fixed-rate mode the reconfiguration leaves the mux as it was, but for the flag. -/
theorem m2ts_mux_reconfig_fixed (m m1 : M2TS_Mux) (hf : m.fixed_rate = true)
    (h : m2ts_mux_reconfig m = some m1) : m1 = { m with needs_reconfig := false } := by
  unfold m2ts_mux_reconfig at h
  split at h
  · rename_i hn
    have hu : m2ts_mux_update_config m false = some m := by
      unfold m2ts_mux_update_config
      simp only [hf, update_config_programs_fixed, not_true_eq_false, Bool.false_eq_true,
        if_false]
      rw [← hf]
    rw [hu] at h
    injection h with h
    exact h.symm
  · rename_i hn
    injection h with h
    rw [← h]
    have : m.needs_reconfig = false := by simpa using hn
    rw [← this]

/-- In fixed-rate mode the search leaves the bit rate of the mux as it was. -/
theorem m2ts_mux_select_bit_rate
    (process : M2TS_Mux → M2TS_Mux_Program → M2TS_Mux_Stream → Option Process_Result)
    (m m1 : M2TS_Mux) (sel : Selection) (vs : List Visit) (hf : m.fixed_rate = true)
    (h : m2ts_mux_select process m = some (m1, sel, vs)) : m1.bit_rate = m.bit_rate := by
  unfold m2ts_mux_select at h
  simp only [] at h
  split at h
  · cases h
  · rename_i mc hc
    have hk := m2ts_mux_reconfig_fixed m mc hf hc
    split at h
    · cases h
    · rename_i pat res hp
      split at h
      · simp only [Option.some.injEq, Prod.mk.injEq] at h
        rw [← h.1, hk]
      · split at h
        · cases h
        · rename_i m2 ps sel2 vs2 hpr
          simp only [Option.some.injEq, Prod.mk.injEq] at h
          have e := process_programs_muxer process _ _ _ _ _ _ _ _ hpr
          rw [← h.1, e, hk]

/-- C26: in real-time mode, on a call made once `init_sys_time` has been recorded, if
`init_ts_time` advanced by `now - init_sys_time` milliseconds is strictly earlier than
the mux time, `m2ts_mux_process` returns no packet with status IDLE and the mux is as it
was. -/
theorem m2ts_mux_process_idle
    (process : M2TS_Mux → M2TS_Mux_Program → M2TS_Mux_Stream → Option Process_Result)
    (muxer : M2TS_Mux) (now now_pes now_pes2 : Nat) (hrt : muxer.real_time = true)
    (hinit : muxer.init_sys_time ≠ 0)
    (hless : m2ts_time_less
      (m2ts_time_inc muxer.init_ts_time (sub32 now muxer.init_sys_time) 1000) muxer.time
        = true) :
    m2ts_mux_process process muxer now now_pes now_pes2
      = some (muxer, none, M2TS_State.GF_M2TS_STATE_IDLE) := by
  unfold m2ts_mux_process m2ts_mux_pacing
  rw [if_pos hrt, if_neg hinit]
  simp only [hless, if_true]

/-- Witness of C26: 2000 ms after the clock origin, with the mux time at 5 s. -/
theorem m2ts_mux_process_idle_witness :
    m2ts_mux_process demo_process demo_mux_real_time 3000 0 0
      = some (demo_mux_real_time, none, M2TS_State.GF_M2TS_STATE_IDLE) :=
  m2ts_mux_process_idle demo_process demo_mux_real_time 3000 0 0 rfl (by decide) (by decide)

/-- The NULL packet `m2ts_mux_new` formats. -/
theorem m2ts_mux_new_null_pck (mux_rate : Nat) (real_time : Bool) :
    (m2ts_mux_new mux_rate real_time).null_pck
      = [0x47, 0x1F, 0xFF, 0x10] ++ List.replicate 184 0 := by
  have h : (m2ts_mux_new mux_rate real_time).null_pck
      = bs_store (List.replicate 188 0) (bitsOf 0x47 8 ++ (bitsOf 0 1 ++ (bitsOf 0 1
          ++ (bitsOf 0 1 ++ (bitsOf 0x1FFF 13 ++ (bitsOf 0 2 ++ (bitsOf 1 2
            ++ (bitsOf 0 4 ++ []))))))))  := by
    unfold m2ts_mux_new
    simp only [gf_bs_write_int, List.nil_append, List.append_assoc, List.append_nil]
  have hb : bytesOfBits (bitsOf 0x47 8 ++ (bitsOf 0 1 ++ (bitsOf 0 1
      ++ (bitsOf 0 1 ++ (bitsOf 0x1FFF 13 ++ (bitsOf 0 2 ++ (bitsOf 1 2
        ++ (bitsOf 0 4 ++ [])))))))) = [0x47, 0x1F, 0xFF, 0x10] := by decide
  rw [h]
  unfold bs_store
  rw [hb, List.length_replicate, List.drop_replicate]
  have e : List.replicate (188 - [0x47, 0x1F, 0xFF, 0x10].length) 0 = List.replicate 184 0 := rfl
  rw [e]
  have hl : ([0x47, 0x1F, 0xFF, 0x10] ++ List.replicate 184 0).length = 188 := by
    rw [List.length_append, List.length_replicate]; rfl
  rw [← hl, List.take_length]

/-- C24: when no stream is selected, in fixed-rate mode `m2ts_mux_process` returns the
NULL packet of the mux, which `m2ts_mux_new` formats with the header 0x47 0x1F 0xFF 0x10
(PID 0x1FFF, payload only, continuity counter 0) followed by zero bytes, adds one to
`tot_pad_sent` and to `tot_pck_sent` (64-bit counters) and advances the mux time by
`1504 / bit_rate` seconds (`m2ts_time_inc`); in VBR mode it returns no packet, leaves the
two counters as they were and only advances the mux time, by `1504` over the bit rate in
force after the search. -/
theorem m2ts_mux_process_padding
    (process : M2TS_Mux → M2TS_Mux_Program → M2TS_Mux_Stream → Option Process_Result)
    (muxer m0 m1 : M2TS_Mux) (now now_pes now_pes2 : Nat) (sel : Selection)
    (vs : List Visit)
    (hpace : m2ts_mux_pacing muxer now = some m0)
    (hsel : m2ts_mux_select process m0 = some (m1, sel, vs))
    (hnone : sel.stream_to_process = none) :
    (muxer.fixed_rate = true →
      ∃ mux' status, m2ts_mux_process process muxer now now_pes now_pes2
          = some (mux', some muxer.null_pck, status) ∧
        mux'.tot_pad_sent = (muxer.tot_pad_sent + 1) % 18446744073709551616 ∧
        mux'.tot_pck_sent = (muxer.tot_pck_sent + 1) % 18446744073709551616 ∧
        mux'.time = m2ts_time_inc muxer.time 1504 muxer.bit_rate) ∧
    (muxer.fixed_rate = false →
      ∃ status, m2ts_mux_process process muxer now now_pes now_pes2
          = some ({ m1 with time := m2ts_time_inc muxer.time 1504 m1.bit_rate }, none, status) ∧
        m1.tot_pad_sent = muxer.tot_pad_sent ∧ m1.tot_pck_sent = muxer.tot_pck_sent) ∧
    (∀ (mux_rate : Nat) (real_time : Bool),
      (m2ts_mux_new mux_rate real_time).null_pck
        = [0x47, 0x1F, 0xFF, 0x10] ++ List.replicate 184 0 ∧
      (m2ts_mux_new mux_rate real_time).fixed_rate = decide (mux_rate ≠ 0)) := by
  have hp := m2ts_mux_pacing_spec muxer m0 now hpace
  obtain ⟨k1, k2, k3, k4, k5, k6, k7, k8, k9⟩ := m2ts_mux_select_kept process m0 m1 sel vs hsel
  have e1 : m0.time = muxer.time := by rw [hp]
  have e2 : m0.null_pck = muxer.null_pck := by rw [hp]
  have e4 : m0.tot_pck_sent = muxer.tot_pck_sent := by rw [hp]
  have e5 : m0.tot_pad_sent = muxer.tot_pad_sent := by rw [hp]
  have e6 : m0.fixed_rate = muxer.fixed_rate := by rw [hp]
  have e7 : m0.bit_rate = muxer.bit_rate := by rw [hp]
  refine ⟨?_, ?_, fun r t => ⟨m2ts_mux_new_null_pck r t, rfl⟩⟩
  · intro hf
    have hbr := m2ts_mux_select_bit_rate process m0 m1 sel vs (by rw [e6, hf]) hsel
    have hf1 : m1.fixed_rate = true := by rw [k6, e6, hf]
    unfold m2ts_mux_process
    simp only [hpace, hsel]
    unfold m2ts_mux_send_pck
    simp only [hnone, hf1, if_true]
    rw [← e2, ← k2, ← e5, ← k5, ← e4, ← k4, ← e1, ← k1, ← e7, ← hbr]
    split <;> (try split) <;> exact ⟨_, _, rfl, rfl, rfl, rfl⟩
  · intro hf
    have hf1 : m1.fixed_rate = false := by rw [k6, e6, hf]
    unfold m2ts_mux_process
    simp only [hpace, hsel]
    unfold m2ts_mux_send_pck
    simp only [hnone, hf1, Bool.false_eq_true, if_false]
    rw [← e1, ← k1]
    exact ⟨_, rfl, k5.trans e5, k4.trans e4⟩

/-- Witness of C24: a mux made by `m2ts_mux_new` at 1000000 bit/s on which nothing is
due. -/
theorem m2ts_mux_process_padding_witness :
    ∃ mux' status, m2ts_mux_process demo_process_idle (demo_mux_idle 1000000 false) 0 0 0
        = some (mux', some (demo_mux_idle 1000000 false).null_pck, status) ∧
      mux'.tot_pad_sent
        = ((demo_mux_idle 1000000 false).tot_pad_sent + 1) % 18446744073709551616 ∧
      mux'.tot_pck_sent
        = ((demo_mux_idle 1000000 false).tot_pck_sent + 1) % 18446744073709551616 ∧
      mux'.time = m2ts_time_inc (demo_mux_idle 1000000 false).time 1504
        (demo_mux_idle 1000000 false).bit_rate :=
  (m2ts_mux_process_padding demo_process_idle (demo_mux_idle 1000000 false) _ _ 0 0 0 _ _
    rfl rfl rfl).1 rfl

theorem filter_length_eq_iff {α : Type} (p q : α → Bool) (l : List α)
    (h : ∀ x ∈ l, p x = true → q x = true) :
    (l.filter p).length = (l.filter q).length ↔ ∀ x ∈ l.filter q, p x = true := by
  induction l with
  | nil => simp
  | cons a rest ih =>
    have ih := ih (fun x hx => h x (List.mem_cons_of_mem _ hx))
    have ha := h a (List.mem_cons_self _ _)
    have hle : (rest.filter p).length ≤ (rest.filter q).length := by
      have : rest.filter p = (rest.filter q).filter p := by
        rw [List.filter_filter]
        apply List.filter_congr
        intro x hx
        have := h x (List.mem_cons_of_mem _ hx)
        cases hp : p x <;> cases hq : q x <;> simp_all
      rw [this]
      exact List.length_filter_le _ _
    rw [List.filter_cons, List.filter_cons]
    cases hp : p a
    · cases hq : q a
      · simp only [Bool.false_eq_true, if_false]
        exact ih
      · simp only [Bool.false_eq_true, if_false, if_true, List.length_cons, List.mem_cons,
          forall_eq_or_imp, hp, false_and, iff_false]
        omega
    · have hq := ha hp
      simp only [hq, if_true, List.length_cons, List.mem_cons, forall_eq_or_imp, hp, true_and,
        Nat.add_right_cancel_iff]
      exact ih

/-- The program loop of the search, once the PAT has not been selected. -/
theorem m2ts_mux_select_programs
    (process : M2TS_Mux → M2TS_Mux_Program → M2TS_Mux_Stream → Option Process_Result)
    (m0 mc m1 : M2TS_Mux) (sel : Selection) (vs : List Visit)
    (hcfg : m2ts_mux_reconfig m0 = some mc)
    (hsel : m2ts_mux_select process m0 = some (m1, sel, vs))
    (hnp : sel.stream_to_process ≠ some Stream_Ref.pat) :
    ∃ pat1 m2 ps, process_programs process { mc with pat := pat1 } mc.programs 0
        { time := m0.time } = some (m2, ps, sel, vs) := by
  unfold m2ts_mux_select at hsel
  simp only [hcfg] at hsel
  split at hsel
  · cases hsel
  · rename_i pat res hp
    split at hsel
    · simp only [Option.some.injEq, Prod.mk.injEq] at hsel
      exact absurd (by rw [← hsel.2.1]) hnp
    · split at hsel
      · cases hsel
      · rename_i m2 ps sel2 vs2 hpr
        simp only [Option.some.injEq, Prod.mk.injEq] at hsel
        obtain ⟨_, h2, h3⟩ := hsel
        subst h2 h3
        exact ⟨pat, m2, ps, hpr⟩

/-- A call on a PMT is not counted as a stream that is over. -/
theorem process_programs_over
    (process : M2TS_Mux → M2TS_Mux_Program → M2TS_Mux_Stream → Option Process_Result) :
    ∀ (programs : List M2TS_Mux_Program) (muxer : M2TS_Mux) (pi : Nat) (sel : Selection)
      (m' : M2TS_Mux) (ps' : List M2TS_Mux_Program) (sel' : Selection) (vs : List Visit),
      process_programs process muxer programs pi sel = some (m', ps', sel', vs) →
      sel.nb_streams + nb_es programs < 4294967296 →
      sel.nb_streams_done ≤ sel.nb_streams →
      ∀ v ∈ vs, v.over = true → ∃ k j, v.ref = Stream_Ref.es k j := by
  intro programs
  induction programs with
  | nil =>
    intro muxer pi sel m' ps' sel' vs h _ _
    unfold process_programs at h
    simp only [Option.some.injEq, Prod.mk.injEq] at h
    intro v hv
    rw [← h.2.2.2] at hv
    exact absurd hv (List.not_mem_nil _)
  | cons program rest ih =>
    intro muxer pi sel m' ps' sel' vs h hn hd
    have hne : nb_es (program :: rest) = program.streams.length + nb_es rest := by
      unfold nb_es
      rw [List.map_cons, List.sum_cons]
    rw [hne] at hn
    unfold process_programs at h
    split at h
    · cases h
    · split at h
      · simp only [Option.some.injEq, Prod.mk.injEq] at h
        intro v hv ho
        rw [← h.2.2.2, List.mem_singleton] at hv
        rw [hv] at ho
        cases ho
      · simp only [] at h
        split at h
        · cases h
        · rename_i m2 p2 ss2 sel2 vs1 hst
          split at h
          · cases h
          · rename_i m3 ps3 sel3 vs2 hrec
            simp only [Option.some.injEq, Prod.mk.injEq] at h
            obtain ⟨a1, a2, a3, a4, a5, a6⟩ :=
              process_streams_spec process pi _ _ _ _ _ _ _ _ _ _ hst (by omega) hd
            have hfl : (visits_done vs1).length ≤ vs1.length := List.length_filter_le _ _
            have i1 := ih _ _ _ _ _ _ _ hrec (by omega) (by omega)
            intro v hv ho
            rw [← h.2.2.2] at hv
            rcases List.mem_cons.1 hv with rfl | hv
            · cases ho
            · rcases List.mem_append.1 hv with hv | hv
              · obtain ⟨k, hk⟩ := a5 v hv
                exact ⟨pi, k, hk⟩
              · exact i1 v hv ho

/-- C25: when no stream is selected, every elementary stream of the mux has been called
and the status is EOS exactly when there is at least one elementary stream and the
callback of every one of them returned false with `GF_ESI_STREAM_IS_OVER` set, and
PADDING otherwise; when a stream is selected and its packetizer returns, the call
returns the packet with status DATA. -/
theorem m2ts_mux_process_status
    (process : M2TS_Mux → M2TS_Mux_Program → M2TS_Mux_Stream → Option Process_Result)
    (muxer m0 mc m1 : M2TS_Mux) (now now_pes now_pes2 : Nat) (sel : Selection)
    (vs : List Visit)
    (hpace : m2ts_mux_pacing muxer now = some m0)
    (hcfg : m2ts_mux_reconfig m0 = some mc)
    (hcount : nb_es mc.programs < 4294967296)
    (hsel : m2ts_mux_select process m0 = some (m1, sel, vs)) :
    (sel.stream_to_process = none →
      (visits_es vs).length = nb_es mc.programs ∧
      ∃ mux' ret, m2ts_mux_process process muxer now now_pes now_pes2
        = some (mux', ret,
            if visits_es vs ≠ [] ∧ ∀ v ∈ visits_es vs, v.res = false ∧ v.over = true then
              M2TS_State.GF_M2TS_STATE_EOS
            else M2TS_State.GF_M2TS_STATE_PADDING)) ∧
    (∀ ref, sel.stream_to_process = some ref →
      ∀ mx, send_stream m1 ref now_pes now_pes2 = some mx →
        ∃ mux', m2ts_mux_process process muxer now now_pes now_pes2
          = some (mux', some mx.dst_pck, M2TS_State.GF_M2TS_STATE_DATA)) := by
  constructor
  · intro hnone
    obtain ⟨pat1, m2, ps, hpr⟩ := m2ts_mux_select_programs process m0 mc m1 sel vs hcfg hsel
      (by rw [hnone]; exact fun h => by cases h)
    have h0 : (0 : Nat) + nb_es mc.programs < 4294967296 := by omega
    obtain ⟨_, _, c, _⟩ := process_programs_spec process _ _ _ _ _ _ _ _ hpr h0 (Nat.le_refl _)
      (fun k hk => by cases hk)
    obtain ⟨c1, c2, c3⟩ := c (by rw [hnone]; exact fun k hk => by cases hk)
    have hover := process_programs_over process _ _ _ _ _ _ _ _ hpr h0 (Nat.le_refl _)
    have c2' : sel.nb_streams = (visits_es vs).length := by
      rw [c2, c1]; exact Nat.zero_add _
    have c3' : sel.nb_streams_done = (visits_done vs).length := by
      rw [c3]; exact Nat.zero_add _
    have hiff : (visits_done vs).length = (visits_es vs).length
        ↔ ∀ v ∈ visits_es vs, (!v.res && v.over) = true := by
      unfold visits_done visits_es
      apply filter_length_eq_iff
      intro v hv hp
      rw [Bool.and_eq_true] at hp
      obtain ⟨k, j, hk⟩ := hover v hv hp.2
      rw [hk]
    have hcond : (sel.nb_streams ≠ 0 ∧ sel.nb_streams = sel.nb_streams_done)
        ↔ (visits_es vs ≠ [] ∧ ∀ v ∈ visits_es vs, v.res = false ∧ v.over = true) := by
      rw [c2', c3']
      constructor
      · intro ⟨g1, g2⟩
        refine ⟨fun hnil => g1 (by rw [hnil]; rfl), ?_⟩
        intro v hv
        have := hiff.1 g2.symm v hv
        simpa using this
      · intro ⟨g1, g2⟩
        refine ⟨fun hz => g1 (List.length_eq_zero.1 hz), ?_⟩
        refine (hiff.2 ?_).symm
        intro v hv
        have := g2 v hv
        simp [this.1, this.2]
    refine ⟨c1, ?_⟩
    unfold m2ts_mux_process
    simp only [hpace, hsel]
    unfold m2ts_mux_send_pck
    simp only [hnone, if_congr hcond rfl rfl]
    cases hf : m1.fixed_rate
    · simp only [Bool.false_eq_true, if_false]
      exact ⟨_, _, rfl⟩
    · simp only [if_true]
      split <;> (try split) <;> exact ⟨_, _, rfl⟩
  · intro ref href mx hs
    unfold m2ts_mux_process
    simp only [hpace, hsel]
    unfold m2ts_mux_send_pck
    simp only [href, hs]
    split <;> (try split) <;> exact ⟨_, rfl⟩

/-- Witness of C25: a mux whose only elementary stream returns false and is over. -/
theorem m2ts_mux_process_status_witness :
    ∃ mux' ret, m2ts_mux_process demo_process_idle (demo_mux_idle 1000000 true) 0 0 0
      = some (mux', ret, M2TS_State.GF_M2TS_STATE_EOS) :=
  ((m2ts_mux_process_status demo_process_idle (demo_mux_idle 1000000 true) _ _ _ 0 0 0 _ _
    rfl rfl (by decide) rfl).1 rfl).2

theorem au_merge_singleton (f : GF_ESIPacket) :
    au_merge [f] =
      { data := f.data.take f.data_len, data_len := u32 (0 + f.data_len),
        GF_ESI_DATA_AU_START := f.GF_ESI_DATA_AU_START,
        GF_ESI_DATA_AU_RAP := f.GF_ESI_DATA_AU_RAP,
        GF_ESI_DATA_HAS_CTS := f.GF_ESI_DATA_HAS_CTS,
        GF_ESI_DATA_HAS_DTS := f.GF_ESI_DATA_HAS_DTS,
        GF_ESI_DATA_AU_END := f.GF_ESI_DATA_AU_END,
        cts := f.cts, dts := f.dts } := by
  simp [au_merge]

theorem au_merge_snoc (g : List GF_ESIPacket) (f : GF_ESIPacket) (hg : g ≠ []) :
    au_merge (g ++ [f]) =
      { au_merge g with
        data := (au_merge g).data ++ f.data.take f.data_len,
        data_len := u32 ((au_merge g).data_len + f.data_len),
        GF_ESI_DATA_AU_START := (au_merge g).GF_ESI_DATA_AU_START || f.GF_ESI_DATA_AU_START,
        GF_ESI_DATA_AU_RAP := (au_merge g).GF_ESI_DATA_AU_RAP || f.GF_ESI_DATA_AU_RAP,
        GF_ESI_DATA_HAS_CTS := (au_merge g).GF_ESI_DATA_HAS_CTS || f.GF_ESI_DATA_HAS_CTS,
        GF_ESI_DATA_HAS_DTS := (au_merge g).GF_ESI_DATA_HAS_DTS || f.GF_ESI_DATA_HAS_DTS,
        GF_ESI_DATA_AU_END := (au_merge g).GF_ESI_DATA_AU_END || f.GF_ESI_DATA_AU_END } := by
  cases g with
  | nil => exact absurd rfl hg
  | cons a g => simp [au_merge, List.foldl_append, Bool.or_assoc]

/-- One call of `m2ts_output_ctrl` on a stream without an access unit in progress. -/
theorem m2ts_output_ctrl_fresh (stream : M2TS_Mux_Stream) (f : GF_ESIPacket)
    (hc : stream.cur_pck = none) :
    m2ts_output_ctrl stream f
      = { stream with force_new := f.GF_ESI_DATA_AU_END, cur_pck := some (au_merge [f]) } := by
  rw [au_merge_singleton]
  unfold m2ts_output_ctrl
  simp [hc]

/-- One call of `m2ts_output_ctrl` that closes the access unit in progress. -/
theorem m2ts_output_ctrl_new (stream : M2TS_Mux_Stream) (f : GF_ESIPacket) (c : M2TS_Packet)
    (hc : stream.cur_pck = some c)
    (hb : (stream.force_new || f.GF_ESI_DATA_AU_START) = true) :
    m2ts_output_ctrl stream f
      = { stream with pck_first := stream.pck_first ++ [c],
                      force_new := f.GF_ESI_DATA_AU_END, cur_pck := some (au_merge [f]) } := by
  rw [au_merge_singleton]
  rw [Bool.or_eq_true] at hb
  unfold m2ts_output_ctrl
  simp [hc, hb]

/-- One call of `m2ts_output_ctrl` that extends the access unit in progress. -/
theorem m2ts_output_ctrl_join (stream : M2TS_Mux_Stream) (f : GF_ESIPacket)
    (g : List GF_ESIPacket) (hg : g ≠ [])
    (hc : stream.cur_pck = some (au_merge g))
    (hb : (stream.force_new || f.GF_ESI_DATA_AU_START) = false) :
    m2ts_output_ctrl stream f
      = { stream with force_new := f.GF_ESI_DATA_AU_END,
                      cur_pck := some (au_merge (g ++ [f])) } := by
  rw [au_merge_snoc g f hg]
  rw [Bool.or_eq_false_iff] at hb
  unfold m2ts_output_ctrl
  simp [hc, hb.1, hb.2]

theorem output_ctrl_groups_from : ∀ (fs : List GF_ESIPacket) (stream : M2TS_Mux_Stream)
    (cur : List GF_ESIPacket),
    (match cur.getLast? with
      | none => stream.cur_pck = none
      | some prev => stream.cur_pck = some (au_merge cur) ∧
          stream.force_new = prev.GF_ESI_DATA_AU_END) →
    stream_access_units (fs.foldl m2ts_output_ctrl stream)
      = stream.pck_first ++ (au_groups_from cur fs).map au_merge := by
  intro fs
  induction fs with
  | nil =>
    intro stream cur h
    unfold stream_access_units
    cases cur with
    | nil =>
      simp only [List.getLast?_nil] at h
      simp [au_groups_from, h]
    | cons a g =>
      have hl : (a :: g).getLast? = some ((a :: g).getLast (List.cons_ne_nil a g)) :=
        List.getLast?_eq_getLast _ _
      rw [hl] at h
      simp [au_groups_from, h.1]
  | cons f rest ih =>
    intro stream cur h
    rw [List.foldl_cons]
    cases hl : cur.getLast? with
    | none =>
      rw [hl] at h
      simp only [] at h
      rw [m2ts_output_ctrl_fresh stream f h, ih _ [f] (by simp)]
      simp only [au_groups_from, hl]
    | some prev =>
      rw [hl] at h
      simp only [] at h
      obtain ⟨hc, hf⟩ := h
      have hne : cur ≠ [] := by
        intro h0
        rw [h0] at hl
        cases hl
      cases hb : (stream.force_new || f.GF_ESI_DATA_AU_START) with
      | true =>
        rw [m2ts_output_ctrl_new stream f _ hc hb, ih _ [f] (by simp)]
        rw [hf] at hb
        simp only [au_groups_from, hl, hb, if_true, List.map_cons, List.append_assoc,
          List.singleton_append]
      | false =>
        rw [m2ts_output_ctrl_join stream f cur hne hc hb,
          ih _ (cur ++ [f]) (by simp [List.getLast?_append])]
        rw [hf] at hb
        simp only [au_groups_from, hl, hb, Bool.false_eq_true, if_false]

theorem au_groups_from_flatten : ∀ (fs cur : List GF_ESIPacket),
    (au_groups_from cur fs).flatten = cur ++ fs ∧ ∀ g ∈ au_groups_from cur fs, g ≠ [] := by
  intro fs
  induction fs with
  | nil =>
    intro cur
    cases cur with
    | nil => simp [au_groups_from]
    | cons a g => simp [au_groups_from]
  | cons f rest ih =>
    intro cur
    cases hl : cur.getLast? with
    | none =>
      have h0 : cur = [] := List.getLast?_eq_none_iff.1 hl
      subst h0
      have := ih [f]
      simp only [au_groups_from, List.getLast?_nil]
      simpa using this
    | some prev =>
      have hne : cur ≠ [] := by
        intro h0
        rw [h0] at hl
        cases hl
      cases hb : (prev.GF_ESI_DATA_AU_END || f.GF_ESI_DATA_AU_START) with
      | true =>
        have := ih [f]
        simp only [au_groups_from, hl, hb, if_true]
        refine ⟨by simp [this.1], ?_⟩
        intro g hg
        rcases List.mem_cons.1 hg with h1 | h1
        · rw [h1]; exact hne
        · exact this.2 g h1
      | false =>
        have := ih (cur ++ [f])
        simp only [au_groups_from, hl, hb, Bool.false_eq_true, if_false]
        simpa using this

theorem foldl_data_len : ∀ (g : List GF_ESIPacket) (n : Nat),
    n + (g.map fun f => f.data_len).sum < 4294967296 →
    g.foldl (fun n f => u32 (n + f.data_len)) n = n + (g.map fun f => f.data_len).sum := by
  intro g
  induction g with
  | nil => intro n _; rfl
  | cons a g ih =>
    intro n h
    simp only [List.map_cons, List.sum_cons] at h
    have h1 : u32 (n + a.data_len) = n + a.data_len := by
      unfold u32
      exact Nat.mod_eq_of_lt (by omega)
    rw [List.foldl_cons, h1, ih _ (by omega)]
    simp only [List.map_cons, List.sum_cons]
    omega

/-- C33: after any sequence of DISPATCH calls on a stream without an access unit in
progress, the access units the stream holds (the queue, then `cur_pck`) are the access
units it held followed by one access unit per group of fragments, in arrival order: the
groups partition the sequence of fragments, a new group starting exactly at a fragment
flagged AU_START or following a fragment flagged AU_END, and the access unit of a group
has the concatenation of the data of its fragments, the union of their flags, and the
`cts` and `dts` of its first fragment. The lengths of the fragments of an access unit
are taken to add up to less than `2 ^ 32`, the range of `data_len`, which is then their
sum. -/
theorem m2ts_output_ctrl_access_units (stream : M2TS_Mux_Stream)
    (fragments : List GF_ESIPacket) (hcur : stream.cur_pck = none)
    (hfit : ∀ g ∈ au_groups fragments, (g.map fun f => f.data_len).sum < 4294967296) :
    stream_access_units (fragments.foldl m2ts_output_ctrl stream)
      = stream.pck_first ++ (au_groups fragments).map au_merge ∧
    (au_groups fragments).flatten = fragments ∧
    (∀ g ∈ au_groups fragments, g ≠ []) ∧
    ∀ g ∈ au_groups fragments, (au_merge g).data_len = (g.map fun f => f.data_len).sum := by
  refine ⟨output_ctrl_groups_from fragments stream [] (by simpa using hcur), ?_⟩
  have := au_groups_from_flatten fragments []
  refine ⟨by simpa [au_groups] using this.1, this.2, ?_⟩
  intro g hg
  have h := foldl_data_len g 0 (by have := hfit g hg; omega)
  rw [Nat.zero_add] at h
  exact h

/-- Witness of C33: three fragments dispatched to a new stream make two access units. -/
theorem m2ts_output_ctrl_access_units_witness :
    stream_access_units (demo_fragments.foldl m2ts_output_ctrl (m2ts_stream_new 101))
      = [{ data := [1, 2, 3], data_len := 3, GF_ESI_DATA_AU_START := true,
           GF_ESI_DATA_AU_END := true, cts := 10, dts := 5 },
         { data := [4, 5, 6], data_len := 3, GF_ESI_DATA_AU_RAP := true, cts := 20,
           dts := 15 }] :=
  (m2ts_output_ctrl_access_units (m2ts_stream_new 101) demo_fragments rfl
    (by decide)).1.trans (by decide)

theorem sl_header_start_idem (hdr : GF_SLHeader) (hs : hdr.accessUnitStartFlag = false) :
    { hdr with accessUnitStartFlag := false } = hdr := by
  cases hdr
  simp only [] at hs
  subst hs
  rfl

/-- The counting loop of `m2ts_mux_table_update_mpeg4` once the start flag is cleared:
every round takes `c1` bytes. -/
theorem nb_sections_loop_mpeg4_tail (size : GF_SLHeader → Nat) (n cap c1 : Nat)
    (hdr : GF_SLHeader) (hs : hdr.accessUnitStartFlag = false)
    (hcap : cap < 4294967296) (hsz : size hdr < cap) (hc1 : c1 = cap - size hdr)
    (hn : n + cap < 4294967296) :
    ∀ fuel offset nb, n - offset ≤ fuel → offset < n + cap → nb + (n - offset) < 4294967296 →
      nb_sections_loop_mpeg4 size n cap fuel hdr offset nb
        = some (nb + (n - offset + c1 - 1) / c1) := by
  have hc : 0 < c1 := by omega
  intro fuel
  induction fuel with
  | zero =>
    intro offset nb h1 _ _
    unfold nb_sections_loop_mpeg4
    rw [if_neg (by omega)]
    have : n - offset = 0 := by omega
    rw [this, Nat.zero_add, Nat.div_eq_of_lt (by omega)]
    rfl
  | succ fuel ih =>
    intro offset nb h1 h2 h3
    unfold nb_sections_loop_mpeg4
    by_cases hlt : offset < n
    · rw [if_pos hlt]
      simp only []
      rw [sl_header_start_idem hdr hs, u32_eq (size hdr) (by omega),
        sub32_eq cap (size hdr) hcap (Nat.le_of_lt hsz), ← hc1,
        u32_eq (offset + c1) (by omega), u32_eq (nb + 1) (by omega),
        ih (offset + c1) (nb + 1) (by omega) (by omega) (by omega)]
      have hstep := ceil_div_step (n - offset) c1 hc (by omega)
      have e : n - (offset + c1) = n - offset - c1 := by omega
      rw [e]
      congr 1
      omega
    · rw [if_neg hlt]
      have : n - offset = 0 := by omega
      rw [this, Nat.zero_add, Nat.div_eq_of_lt (by omega)]
      rfl

/-- One round of the section loop of `m2ts_mux_table_update_mpeg4`, with the syntax
indicator set: the section holds the SL header for `hdr` with the end flag of this round,
then as many bytes of the payload as fit. -/
theorem build_sections_mpeg4_step (packetize : GF_SLHeader → List Nat) (e : Bool)
    (tid ext ver : Nat) (priv : Bool) (payload : List Nat) (n k : Nat)
    (hlen : payload.length = n) (hn : n + 4096 < 4294967296)
    (hb : ∀ b ∈ payload, b < 256) (fuel : Nat) (hdr : GF_SLHeader) (offset sn : Nat)
    (slhdr slice : List Nat)
    (hslhdr : slhdr = packetize
      { hdr with accessUnitEndFlag := if sn + 1 = k then e else false })
    (hx : slhdr.length < 4084) (hpb : ∀ x ∈ slhdr, x < 256)
    (hslice : slice = (payload.drop offset).take (4084 - slhdr.length))
    (hlt : offset < n) (hsn : sn + 1 < 4294967296) :
    build_sections_mpeg4 packetize e tid ext ver true priv payload n 4096 12 k (fuel + 1)
        hdr offset sn
      = (build_sections_mpeg4 packetize e tid ext ver true priv payload n 4096 12 k fuel
          { hdr with accessUnitEndFlag := if sn + 1 = k then e else false,
                     accessUnitStartFlag := false }
          (offset + slice.length) (sn + 1)).map
        (fun l =>
          { data := section_spec tid ext ver true priv sn (sub32 k 1)
              (slice.length + 12 + slhdr.length) slhdr slice,
            length := (section_spec tid ext ver true priv sn (sub32 k 1)
              (slice.length + 12 + slhdr.length) slhdr slice).length } :: l) := by
  have hrl : (payload.drop offset).length = n - offset := by
    rw [List.length_drop, hlen]
  have hsl : slice.length = min (4084 - slhdr.length) (n - offset) := by
    rw [hslice, List.length_take, hrl]
  have hbs : ∀ b ∈ slice, b < 256 := by
    intro b hb0
    rw [hslice] at hb0
    exact hb b (List.mem_of_mem_drop (List.mem_of_mem_take hb0))
  have e1 : sub32 (sub32 4096 12) (u32 slhdr.length) = 4084 - slhdr.length := by
    unfold sub32 u32; omega
  have e2 : sub32 n offset = n - offset := sub32_eq _ _ (by omega) (by omega)
  conv_lhs => unfold build_sections_mpeg4
  rw [if_pos hlt]
  simp only [if_true]
  rw [u32_eq (sn + 1) hsn, ← hslhdr, e1, e2]
  by_cases hbig : n - offset > 4084 - slhdr.length
  · rw [if_pos hbig]
    have e3 : sub32 (sub32 4096 12) (u32 slhdr.length) = 4084 - slhdr.length := e1
    have e4 : slice.length = 4084 - slhdr.length := by omega
    have e5 : slice.length + 12 + slhdr.length = 4096 := by omega
    rw [e3, ← hslice, e5, ← e4, u32_eq (offset + slice.length) (by omega),
      write_section_eq _ _ _ _ _ _ _ _ _ _ hpb hbs (by omega) (by omega)]
  · rw [if_neg hbig]
    have e4 : slice.length = n - offset := by omega
    have e6 : u32 (n - offset + 12 + u32 slhdr.length) = n - offset + 12 + slhdr.length := by
      unfold u32; omega
    have e7 : sub32 (sub32 (n - offset + 12 + slhdr.length) 12) (u32 slhdr.length)
        = n - offset := by
      unfold sub32 u32; omega
    have e8 : List.take (n - offset) (payload.drop offset) = slice := by
      rw [hslice, List.take_of_length_le (by rw [hrl]),
        List.take_of_length_le (by rw [hrl]; omega)]
    rw [e6, e7, e8, ← e4, u32_eq (offset + slice.length) (by omega),
      write_section_eq _ _ _ _ _ _ _ _ _ _ hpb hbs (by omega) (by omega)]

theorem sl_header_end_congr (hdr base : GF_SLHeader)
    (h : { hdr with accessUnitEndFlag := false } = { base with accessUnitEndFlag := false })
    (b : Bool) :
    { hdr with accessUnitEndFlag := b } = { base with accessUnitEndFlag := b } := by
  cases hdr
  cases base
  simp only [GF_SLHeader.mk.injEq] at h ⊢
  simp only [h, and_self]

theorem sl_header_next (hdr base : GF_SLHeader) (hbs : base.accessUnitStartFlag = false)
    (h : { hdr with accessUnitEndFlag := false } = { base with accessUnitEndFlag := false })
    (b : Bool) :
    { ({ hdr with accessUnitEndFlag := b, accessUnitStartFlag := false } : GF_SLHeader) with
        accessUnitEndFlag := false }
      = { base with accessUnitEndFlag := false } := by
  cases hdr
  cases base
  simp only [] at hbs
  simp only [GF_SLHeader.mk.injEq] at h ⊢
  simp only [h, hbs, and_self]

theorem take_append_drop_length (c : Nat) (L : List Nat) :
    L.take c ++ L.drop (L.take c).length = L := by
  by_cases h : c ≤ L.length
  · rw [List.length_take, Nat.min_eq_left h]
    exact List.take_append_drop c L
  · rw [List.take_of_length_le (by omega), List.drop_length, List.append_nil]

theorem mpeg4_section_header_next (sl_header : GF_SLHeader) (k sn : Nat) (h : sn ≠ 0) :
    mpeg4_section_header sl_header k sn
      = { ({ sl_header with accessUnitStartFlag := false } : GF_SLHeader) with
          accessUnitEndFlag := if sn + 1 = k then sl_header.accessUnitEndFlag else false } := by
  unfold mpeg4_section_header
  rw [if_neg h]

/-- The section loop of `m2ts_mux_table_update_mpeg4` once the start flag is cleared: the
rest of the payload goes in slices of at most `c1` bytes, one section each. -/
theorem build_sections_mpeg4_tail (packetize : GF_SLHeader → List Nat)
    (sl_header : GF_SLHeader)
    (tid ext ver : Nat) (priv : Bool) (payload : List Nat) (n k h1 c1 : Nat)
    (hlen : payload.length = n) (hn : n + 4096 < 4294967296)
    (hb : ∀ b ∈ payload, b < 256)
    (hsz : ∀ b, (packetize { ({ sl_header with accessUnitStartFlag := false } : GF_SLHeader)
      with accessUnitEndFlag := b }).length = h1)
    (hpb : ∀ hdr, ∀ x ∈ packetize hdr, x < 256)
    (hh1 : h1 < 4084) (hc1 : c1 = 4084 - h1) (hk : k < 4294967296) :
    ∀ fuel hdr offset sn,
      { hdr with accessUnitEndFlag := false }
        = { ({ sl_header with accessUnitStartFlag := false } : GF_SLHeader) with
            accessUnitEndFlag := false } →
      offset ≤ n → n - offset ≤ fuel → sn ≠ 0 → sn + (n - offset + c1 - 1) / c1 = k →
      ∃ S, build_sections_mpeg4 packetize sl_header.accessUnitEndFlag tid ext ver true priv
            payload n 4096 12 k fuel hdr offset sn
          = some (mpeg4_sections_of packetize tid ext ver priv k sl_header sn S) ∧
        S.flatten = payload.drop offset ∧ S.length = (n - offset + c1 - 1) / c1 ∧
        ∀ slice ∈ S, slice.length ≤ c1 := by
  have hc : 0 < c1 := by omega
  have hdone : ∀ fuel hdr offset sn, n ≤ offset → offset ≤ n →
      ∃ S, build_sections_mpeg4 packetize sl_header.accessUnitEndFlag tid ext ver true priv
            payload n 4096 12 k fuel hdr offset sn
          = some (mpeg4_sections_of packetize tid ext ver priv k sl_header sn S) ∧
        S.flatten = payload.drop offset ∧ S.length = (n - offset + c1 - 1) / c1 ∧
        ∀ slice ∈ S, slice.length ≤ c1 := by
    intro fuel hdr offset sn g1 g2
    refine ⟨[], ?_, ?_, ?_, ?_⟩
    · unfold build_sections_mpeg4
      rw [if_neg (by omega)]
      rfl
    · rw [List.drop_eq_nil_of_le (by omega)]
      rfl
    · have : n - offset = 0 := by omega
      rw [this, Nat.zero_add, Nat.div_eq_of_lt (by omega)]
      rfl
    · intro slice hs
      cases hs
  intro fuel
  induction fuel with
  | zero =>
    intro hdr offset sn _ h1 h2 _ _
    exact hdone 0 hdr offset sn (by omega) h1
  | succ fuel ih =>
    intro hdr offset sn hE g1 g2 gsn g3
    by_cases hlt : offset < n
    · have hhdr := sl_header_end_congr hdr _ hE
        (if sn + 1 = k then sl_header.accessUnitEndFlag else false)
      have hm := ceil_div_step (n - offset) c1 hc (by omega)
      have hsn1 : sn + 1 ≤ k := by
        have := Nat.le_add_left 1 ((n - offset - c1 + c1 - 1) / c1)
        rw [hm] at this
        rw [← g3]
        exact Nat.add_le_add_left this sn
      have hrl : (payload.drop offset).length = n - offset := by
        rw [List.length_drop, hlen]
      have hslen := hsz (if sn + 1 = k then sl_header.accessUnitEndFlag else false)
      rw [← mpeg4_section_header_next sl_header k sn gsn] at hhdr hslen
      have hsl : ((payload.drop offset).take (4084 - h1)).length
          = min (4084 - h1) (n - offset) := by
        rw [List.length_take, hrl]
      rw [build_sections_mpeg4_step packetize sl_header.accessUnitEndFlag tid ext ver priv
        payload n k hlen hn hb fuel
        hdr offset sn (packetize (mpeg4_section_header sl_header k sn))
        ((payload.drop offset).take (4084 - h1)) (by rw [hhdr]) (by rw [hslen]; exact hh1)
        (hpb _) (by rw [hslen]) hlt (by omega)]
      obtain ⟨S, i1, i2, i3, i4⟩ := ih
        { hdr with accessUnitEndFlag := if sn + 1 = k then sl_header.accessUnitEndFlag else false,
                   accessUnitStartFlag := false }
        (offset + ((payload.drop offset).take (4084 - h1)).length) (sn + 1)
        (sl_header_next hdr _ rfl hE _) (by rw [hsl]; omega) (by rw [hsl]; omega)
        (Nat.succ_ne_zero sn)
        (by
          have e0 : n - (offset + ((payload.drop offset).take (4084 - h1)).length)
              = n - offset - c1 := by rw [hsl]; omega
          rw [e0, ← g3, ← hm]
          omega)
      refine ⟨((payload.drop offset).take (4084 - h1)) :: S, ?_, ?_, ?_, ?_⟩
      · rw [i1]
        rfl
      · rw [List.flatten_cons, i2, ← List.drop_drop]
        exact take_append_drop_length _ _
      · rw [List.length_cons, i3]
        have e0 : n - (offset + ((payload.drop offset).take (4084 - h1)).length)
            = n - offset - c1 := by rw [hsl]; omega
        rw [e0, ← hm]
      · intro slice hs
        rcases List.mem_cons.1 hs with h0 | h0
        · rw [h0, hsl]; omega
        · exact i4 slice h0
    · exact hdone (fuel + 1) hdr offset sn (by omega) g1

/-- The sections `m2ts_mux_table_update_mpeg4` builds, with the syntax indicator set, for
an access unit that does not fit in one section: the first section takes the head of the
payload after the SL header of the stream without its end flag, the later ones the rest
in slices. The SL library is taken to write headers of the size it announces, which does
not depend on the end flag and leaves room for payload in a section. -/
theorem table_update_mpeg4_eval (size : GF_SLHeader → Nat) (packetize : GF_SLHeader → List Nat)
    (stream : M2TS_Mux_Stream) (table_id ext : Nat) (payload : List Nat) (n : Nat)
    (priv chk : Bool)
    (hlen : payload.length = n) (hb : ∀ b ∈ payload, b < 256)
    (hn : n + 4096 < 4294967296)
    (hsz : ∀ hdr, (packetize hdr).length = size hdr)
    (hend : ∀ hdr b, size { hdr with accessUnitEndFlag := b } = size hdr)
    (hh : ∀ hdr, size hdr < 4084)
    (hpb : ∀ hdr, ∀ x ∈ packetize hdr, x < 256)
    (hbig : size stream.sl_header + n > 4084) :
    ∃ stream' t S,
      m2ts_mux_table_update_mpeg4 size packetize stream table_id ext payload n true priv chk
        = some stream' ∧
      stream_table stream' table_id = some t ∧
      t.sections = mpeg4_sections_of packetize table_id ext t.version_number priv
        (mpeg4_nb_sections size stream.sl_header n) stream.sl_header 0 S ∧
      S.flatten = payload ∧
      S.length = mpeg4_nb_sections size stream.sl_header n ∧
      2 ≤ S.length := by
  obtain ⟨t, ht1, ht2, _, ht4⟩ := table_lookup_spec stream table_id
  have h0 := hh stream.sl_header
  have h1 := hh { stream.sl_header with accessUnitStartFlag := false }
  generalize hc1 : 4084 - size { stream.sl_header with accessUnitStartFlag := false } = c1
    at h1
  have hc1pos : 0 < c1 := by omega
  have hk : mpeg4_nb_sections size stream.sl_header n
      = 1 + (n - (4084 - size stream.sl_header) + c1 - 1) / c1 := by
    rw [← hc1]
    rfl
  have hq : 1 ≤ (n - (4084 - size stream.sl_header) + c1 - 1) / c1 := by
    apply (Nat.le_div_iff_mul_le hc1pos).2
    omega
  have hqle : (n - (4084 - size stream.sl_header) + c1 - 1) / c1 ≤ n + 4084 :=
    Nat.le_trans (Nat.div_le_self _ _) (by omega)
  generalize hQ : (n - (4084 - size stream.sl_header) + c1 - 1) / c1 = Q at hk hq hqle
  -- the counting loop
  have hcount : nb_sections_loop_mpeg4 size n (4096 - 12) 4294967297
      { stream.sl_header with accessUnitEndFlag := false } 0 0
      = some (mpeg4_nb_sections size stream.sl_header n) := by
    have hfirst : ∀ fuel, nb_sections_loop_mpeg4 size n (4096 - 12) (fuel + 1)
        { stream.sl_header with accessUnitEndFlag := false } 0 0
        = nb_sections_loop_mpeg4 size n (4096 - 12) fuel
          { stream.sl_header with accessUnitStartFlag := false, accessUnitEndFlag := false }
          (4084 - size stream.sl_header) 1 := by
      intro fuel
      conv_lhs => unfold nb_sections_loop_mpeg4
      rw [if_pos (by omega)]
      simp only []
      rw [hend, u32_eq (size stream.sl_header) (by omega)]
      have e1 : u32 (0 + sub32 (4096 - 12) (size stream.sl_header))
          = 4084 - size stream.sl_header := by
        unfold u32 sub32; omega
      rw [e1]
      rfl
    have hsize1 :
        size { stream.sl_header with accessUnitStartFlag := false, accessUnitEndFlag := false }
          = size { stream.sl_header with accessUnitStartFlag := false } :=
      hend { stream.sl_header with accessUnitStartFlag := false } false
    rw [show (4294967297 : Nat) = 4294967296 + 1 from rfl, hfirst,
      nb_sections_loop_mpeg4_tail size n (4096 - 12) c1
        { stream.sl_header with accessUnitStartFlag := false, accessUnitEndFlag := false }
        rfl (by omega) (by rw [hsize1]; omega) (by rw [hsize1]; omega)
        (by omega) 4294967296 (4084 - size stream.sl_header) 1 (by omega) (by omega)
        (by omega), hk, hQ]
  -- the section loop
  have hne1 : ¬ (0 + 1 = mpeg4_nb_sections size stream.sl_header n) := by
    rw [hk]; omega
  have hhdr0 : mpeg4_section_header stream.sl_header
      (mpeg4_nb_sections size stream.sl_header n) 0
      = { stream.sl_header with accessUnitEndFlag := false } := by
    unfold mpeg4_section_header
    rw [if_neg hne1, if_pos rfl]
  have hs0 : (packetize (mpeg4_section_header stream.sl_header
      (mpeg4_nb_sections size stream.sl_header n) 0)).length = size stream.sl_header := by
    rw [hhdr0, hsz, hend]
  have hsl0 : (payload.take (4084 - size stream.sl_header)).length
      = 4084 - size stream.sl_header := by
    rw [List.length_take, hlen]; omega
  obtain ⟨S, i1, i2, i3, _⟩ := build_sections_mpeg4_tail packetize stream.sl_header
    table_id ext t.version_number priv payload n
    (mpeg4_nb_sections size stream.sl_header n)
    (size { stream.sl_header with accessUnitStartFlag := false }) c1 hlen hn hb
    (fun b => by rw [hsz, hend]) hpb (by omega) hc1.symm (by rw [hk]; omega)
    (n + 2)
    { stream.sl_header with accessUnitEndFlag := false, accessUnitStartFlag := false }
    (4084 - size stream.sl_header) 1 rfl (by omega) (by omega) (by decide)
    (by rw [hk, hQ])
  obtain ⟨L, hL⟩ : ∃ L, L = mpeg4_sections_of packetize table_id ext t.version_number priv
      (mpeg4_nb_sections size stream.sl_header n) stream.sl_header 0
      (payload.take (4084 - size stream.sl_header) :: S) := ⟨_, rfl⟩
  have hbuild : build_sections_mpeg4 packetize stream.sl_header.accessUnitEndFlag table_id
      ext t.version_number true priv payload n 4096 12
      (mpeg4_nb_sections size stream.sl_header n) (n + 3) stream.sl_header 0 0
      = some L := by
    have e0 : 0 + (payload.take (4084 - size stream.sl_header)).length
        = 4084 - size stream.sl_header := by
      rw [hsl0, Nat.zero_add]
    rw [show n + 3 = (n + 2) + 1 from rfl,
      build_sections_mpeg4_step packetize stream.sl_header.accessUnitEndFlag table_id ext
        t.version_number priv payload n (mpeg4_nb_sections size stream.sl_header n) hlen hn hb
        (n + 2) stream.sl_header 0 0
        (packetize (mpeg4_section_header stream.sl_header
          (mpeg4_nb_sections size stream.sl_header n) 0))
        (payload.take (4084 - size stream.sl_header))
        (by rw [hhdr0, if_neg hne1]) (by rw [hs0]; exact h0) (hpb _)
        (by rw [hs0, List.drop_zero]) (by omega) (by omega)]
    rw [if_neg hne1, e0, i1, hL]
    rfl
  have hupd : m2ts_mux_table_update_mpeg4 size packetize stream table_id ext payload n true
      priv chk
      = some (table_cursor_reset
          { (table_lookup stream table_id).1 with
            tables := list_modify (table_lookup stream table_id).1.tables
              (table_lookup stream table_id).2 fun table => { table with sections := L } }) := by
    have hgt : u32 (u32 (size stream.sl_header) + n) > 4096 - 12 := by
      unfold u32; omega
    unfold m2ts_mux_table_update_mpeg4
    simp only [SECTION_HEADER_LENGTH, SECTION_ADDITIONAL_HEADER_LENGTH, CRC_LENGTH, if_true]
    rw [if_neg (by omega), if_pos hgt, hcount]
    simp only [ht1, hbuild]
  refine ⟨_, _, payload.take (4084 - size stream.sl_header) :: S, hupd,
    stream_table_sections (table_lookup stream table_id).1 table_id _ t _ ht1 ht4, hL,
    ?_, ?_, ?_⟩
  · rw [List.flatten_cons, i2]
    exact List.take_append_drop _ _
  · rw [List.length_cons, i3, hk, hQ]; omega
  · rw [List.length_cons, i3, hQ]; omega

theorem mpeg4_sections_of_get (packetize : GF_SLHeader → List Nat) (tid ext ver : Nat)
    (priv : Bool) (k : Nat) (sl_header : GF_SLHeader) :
    ∀ (S : List (List Nat)) (j i : Nat) (slice : List Nat), S.get? i = some slice →
      (mpeg4_sections_of packetize tid ext ver priv k sl_header j S).get? i
        = some (mpeg4_section packetize tid ext ver priv k sl_header (j + i) slice) := by
  intro S
  induction S with
  | nil => intro j i slice h; cases h
  | cons a S ih =>
    intro j i slice h
    cases i with
    | zero =>
      rw [List.get?_cons_zero] at h
      injection h with h
      rw [h]
      rfl
    | succ i =>
      rw [List.get?_cons_succ] at h
      have := ih (j + 1) i slice h
      have e : j + 1 + i = j + (i + 1) := by omega
      rw [e] at this
      exact this

theorem mpeg4_sections_of_length (packetize : GF_SLHeader → List Nat) (tid ext ver : Nat)
    (priv : Bool) (k : Nat) (sl_header : GF_SLHeader) :
    ∀ (S : List (List Nat)) (j : Nat),
      (mpeg4_sections_of packetize tid ext ver priv k sl_header j S).length = S.length := by
  intro S
  induction S with
  | nil => intro j; rfl
  | cons a S ih =>
    intro j
    show (_ :: mpeg4_sections_of packetize tid ext ver priv k sl_header (j + 1) S).length = _
    rw [List.length_cons, ih, List.length_cons]

/-- The bytes between the header of eight bytes and the CRC of a section with the syntax
indicator: the SL header, then the slice. -/
theorem section_spec_sl_payload (tid ext ver : Nat) (priv : Bool) (sn last length : Nat)
    (slhdr slice : List Nat) :
    ((section_spec tid ext ver true priv sn last length slhdr slice).drop 8).take
        ((section_spec tid ext ver true priv sn last length slhdr slice).length - 12)
      = slhdr ++ slice := by
  rw [section_spec_length]
  unfold section_spec section_body
  simp only [if_true, List.append_assoc]
  show List.take _ (slhdr ++ (slice ++ crc_bytes _)) = slhdr ++ slice
  have e : 3 + (5 + 4) + slhdr.length + slice.length - 12 = (slhdr ++ slice).length := by
    rw [List.length_append]; omega
  rw [e, ← List.append_assoc, List.take_left]

/-- The fields of a section of the specification: section number, last section number,
and the bytes between the header and the CRC. -/
theorem mpeg4_section_fields (packetize : GF_SLHeader → List Nat) (tid ext ver : Nat)
    (priv : Bool) (k : Nat) (sl_header : GF_SLHeader) (j : Nat) (slice : List Nat) :
    (mpeg4_section packetize tid ext ver priv k sl_header j slice).data.getD 6 0 = j % 256 ∧
    (mpeg4_section packetize tid ext ver priv k sl_header j slice).data.getD 7 0
      = sub32 k 1 % 256 ∧
    ((mpeg4_section packetize tid ext ver priv k sl_header j slice).data.drop 8).take
        ((mpeg4_section packetize tid ext ver priv k sl_header j slice).data.length - 12)
      = packetize (mpeg4_section_header sl_header k j) ++ slice := by
  unfold mpeg4_section
  simp only []
  exact ⟨(section_spec_numbers _ _ _ _ _ _ _ _ _).1, (section_spec_numbers _ _ _ _ _ _ _ _ _).2,
    section_spec_sl_payload _ _ _ _ _ _ _ _ _⟩

/-- The sections `m2ts_mux_table_update_mpeg4` builds for an access unit that does not
fit in one section, field by field: the section numbers are written on 8 bits. -/
theorem table_update_mpeg4_numbers (size : GF_SLHeader → Nat)
    (packetize : GF_SLHeader → List Nat)
    (stream : M2TS_Mux_Stream) (table_id ext : Nat) (payload : List Nat) (n : Nat)
    (priv chk : Bool)
    (hlen : payload.length = n) (hb : ∀ b ∈ payload, b < 256)
    (hn : n + 4096 < 4294967296)
    (hsz : ∀ hdr, (packetize hdr).length = size hdr)
    (hend : ∀ hdr b, size { hdr with accessUnitEndFlag := b } = size hdr)
    (hh : ∀ hdr, size hdr < 4084)
    (hpb : ∀ hdr, ∀ x ∈ packetize hdr, x < 256)
    (hbig : size stream.sl_header + n > 4084) :
    ∃ (stream' : M2TS_Mux_Stream) (t : M2TS_Mux_Table) (slices : List (List Nat)),
      m2ts_mux_table_update_mpeg4 size packetize stream table_id ext payload n true priv chk
        = some stream' ∧
      stream_table stream' table_id = some t ∧
      2 ≤ t.sections.length ∧
      t.sections.length = mpeg4_nb_sections size stream.sl_header n ∧
      slices.length = t.sections.length ∧ slices.flatten = payload ∧
      ∀ j, j < t.sections.length → ∃ sec slice,
        t.sections.get? j = some sec ∧ slices.get? j = some slice ∧
        sec.data.getD 6 0 = j % 256 ∧
        sec.data.getD 7 0 = (t.sections.length - 1) % 256 ∧
        (sec.data.drop 8).take (sec.data.length - 12)
          = packetize (mpeg4_section_header stream.sl_header t.sections.length j) ++ slice := by
  obtain ⟨stream', t, S, h1, h2, h3, h4, h5, h6⟩ :=
    table_update_mpeg4_eval size packetize stream table_id ext payload n priv chk hlen hb hn
      hsz hend hh hpb hbig
  have hl : t.sections.length = S.length := by
    rw [h3, mpeg4_sections_of_length]
  have hk1 : mpeg4_nb_sections size stream.sl_header n < 4294967296 := by
    unfold mpeg4_nb_sections
    exact Nat.lt_of_le_of_lt (Nat.add_le_add_left (Nat.div_le_self _ _) 1) (by omega)
  refine ⟨stream', t, S, h1, h2, by rw [hl]; exact h6, by rw [hl, h5], hl.symm, h4, ?_⟩
  intro j hj
  rw [hl] at hj
  obtain ⟨slice, hs⟩ : ∃ slice, S.get? j = some slice :=
    ⟨S.get ⟨j, hj⟩, List.get?_eq_get hj⟩
  have hg := mpeg4_sections_of_get packetize table_id ext t.version_number priv
    (mpeg4_nb_sections size stream.sl_header n) stream.sl_header S 0 j slice hs
  rw [Nat.zero_add, ← h3] at hg
  obtain ⟨f1, f2, f3⟩ := mpeg4_section_fields packetize table_id ext t.version_number priv
    (mpeg4_nb_sections size stream.sl_header n) stream.sl_header j slice
  rw [sub32_eq _ _ hk1 (by rw [← h5]; omega)] at f2
  refine ⟨_, slice, hg, hs, f1, ?_, ?_⟩
  · rw [hl, h5]
    exact f2
  · rw [hl, h5]
    exact f3

theorem demo_sl_packetize_bytes (hdr : GF_SLHeader) : ∀ x ∈ demo_sl_packetize hdr, x < 256 := by
  intro x hx
  unfold demo_sl_packetize at hx
  rw [List.mem_singleton] at hx
  rw [hx]
  cases hdr.accessUnitStartFlag <;> cases hdr.accessUnitEndFlag <;> decide

/-- C30 (amended): when the SL header size plus the length of the access unit exceeds
4096 less the section overhead of 12 bytes, `m2ts_mux_table_update_mpeg4` spreads the
access unit over `k >= 2` sections, each holding its own SL header after the section
header: the first header keeps the start flag of the stream and has the end flag
cleared, the last one has the start flag cleared and the end flag of the stream, the
others clear both; the slices after the SL headers make up the access unit, in order.
For an access unit of at most 256 sections, section_number runs from 0 to `k - 1` and
last_section_number is `k - 1` in every section. An access unit of 5000 bytes makes two
sections when the two SL headers take at most 3168 bytes together. The SL library is
taken to write headers of the size it announces, which does not depend on the end flag
and is less than the 4084 bytes a section has for the header and the payload. -/
theorem m2ts_mux_table_update_mpeg4_fragments (size : GF_SLHeader → Nat)
    (packetize : GF_SLHeader → List Nat)
    (stream : M2TS_Mux_Stream) (table_id ext : Nat) (payload : List Nat) (n : Nat)
    (priv chk : Bool)
    (hlen : payload.length = n) (hb : ∀ b ∈ payload, b < 256)
    (hsz : ∀ hdr, (packetize hdr).length = size hdr)
    (hend : ∀ hdr b, size { hdr with accessUnitEndFlag := b } = size hdr)
    (hh : ∀ hdr, size hdr < 4084)
    (hpb : ∀ hdr, ∀ x ∈ packetize hdr, x < 256)
    (hbig : size stream.sl_header + n > 4084)
    (hcount : mpeg4_nb_sections size stream.sl_header n ≤ 256) :
    ∃ (stream' : M2TS_Mux_Stream) (t : M2TS_Mux_Table) (slices : List (List Nat)),
      m2ts_mux_table_update_mpeg4 size packetize stream table_id ext payload n true priv chk
        = some stream' ∧
      stream_table stream' table_id = some t ∧
      2 ≤ t.sections.length ∧
      t.sections.length = mpeg4_nb_sections size stream.sl_header n ∧
      slices.length = t.sections.length ∧ slices.flatten = payload ∧
      (∀ j, j < t.sections.length → ∃ sec slice,
        t.sections.get? j = some sec ∧ slices.get? j = some slice ∧
        sec.data.getD 6 0 = j ∧
        sec.data.getD 7 0 = t.sections.length - 1 ∧
        (sec.data.drop 8).take (sec.data.length - 12)
          = packetize (mpeg4_section_header stream.sl_header t.sections.length j) ++ slice) ∧
      (n = 5000 →
        size stream.sl_header + size { stream.sl_header with accessUnitStartFlag := false }
          ≤ 3168 →
        t.sections.length = 2) := by
  have h0 := hh stream.sl_header
  have h1 := hh { stream.sl_header with accessUnitStartFlag := false }
  have hk : mpeg4_nb_sections size stream.sl_header n
      = 1 + (n - (4084 - size stream.sl_header)
          + (4084 - size { stream.sl_header with accessUnitStartFlag := false }) - 1)
        / (4084 - size { stream.sl_header with accessUnitStartFlag := false }) := rfl
  generalize size { stream.sl_header with accessUnitStartFlag := false } = s1 at h1 hk
  have hlt : (n - (4084 - size stream.sl_header) + (4084 - s1) - 1) / (4084 - s1) < 256 := by
    rw [hk] at hcount
    omega
  have hx := (Nat.div_lt_iff_lt_mul (by omega)).1 hlt
  have hn : n + 4096 < 4294967296 := by omega
  obtain ⟨stream', t, slices, g1, g2, g3, g4, g5, g6, g7⟩ :=
    table_update_mpeg4_numbers size packetize stream table_id ext payload n priv chk hlen hb
      hn hsz hend hh hpb hbig
  refine ⟨stream', t, slices, g1, g2, g3, g4, g5, g6, ?_, ?_⟩
  · intro j hj
    obtain ⟨sec, slice, f1, f2, f3, f4, f5⟩ := g7 j hj
    refine ⟨sec, slice, f1, f2, ?_, ?_, f5⟩
    · rw [f3]
      exact Nat.mod_eq_of_lt (by omega)
    · rw [f4]
      exact Nat.mod_eq_of_lt (by omega)
  · intro h5000 hsmall
    rw [g4, hk]
    subst h5000
    have : (5000 - (4084 - size stream.sl_header) + (4084 - s1) - 1) / (4084 - s1) = 1 := by
      apply Nat.div_eq_of_lt_le <;> omega
    rw [this]

/-- Witness of C30: an access unit of 5000 bytes with one-byte SL headers makes two
sections. -/
theorem m2ts_mux_table_update_mpeg4_fragments_witness :
    ∃ (stream' : M2TS_Mux_Stream) (t : M2TS_Mux_Table) (slices : List (List Nat)),
      m2ts_mux_table_update_mpeg4 demo_sl_size demo_sl_packetize demo_sl_stream
        GF_M2TS_TABLE_ID_MPEG4_BIFS 1 (List.replicate 5000 7) 5000 true false false
        = some stream' ∧
      stream_table stream' GF_M2TS_TABLE_ID_MPEG4_BIFS = some t ∧
      t.sections.length = 2 ∧ slices.flatten = List.replicate 5000 7 ∧
      ∀ j, j < t.sections.length → ∃ sec slice,
        t.sections.get? j = some sec ∧ slices.get? j = some slice ∧
        sec.data.getD 6 0 = j ∧
        sec.data.getD 7 0 = t.sections.length - 1 ∧
        (sec.data.drop 8).take (sec.data.length - 12)
          = demo_sl_packetize
              (mpeg4_section_header demo_sl_stream.sl_header t.sections.length j) ++ slice :=
  let ⟨stream', t, slices, g1, g2, _, _, _, g6, g7, g8⟩ :=
    m2ts_mux_table_update_mpeg4_fragments demo_sl_size demo_sl_packetize demo_sl_stream
      GF_M2TS_TABLE_ID_MPEG4_BIFS 1 (List.replicate 5000 7) 5000 false false
      (List.length_replicate 5000 7)
      (fun b h => by rw [List.eq_of_mem_replicate h]; decide)
      (fun _ => rfl) (fun _ _ => rfl) (fun _ => (by decide : (1 : Nat) < 4084)) demo_sl_packetize_bytes
      (by decide) (by decide)
  ⟨stream', t, slices, g1, g2, g8 rfl (by decide), g6, g7⟩

/-- C30, counterexample: an access unit of 1045249 bytes with one-byte SL headers makes
257 sections, and the section of index 256 carries section_number 0: the field has 8
bits. -/
theorem m2ts_mux_table_update_mpeg4_section_number_wraps :
    ∃ (stream' : M2TS_Mux_Stream) (t : M2TS_Mux_Table) (sec : M2TS_Mux_Section),
      m2ts_mux_table_update_mpeg4 demo_sl_size demo_sl_packetize demo_sl_stream
        GF_M2TS_TABLE_ID_MPEG4_BIFS 1 (List.replicate 1045249 0) 1045249 true false false
        = some stream' ∧
      stream_table stream' GF_M2TS_TABLE_ID_MPEG4_BIFS = some t ∧
      t.sections.length = 257 ∧ t.sections.get? 256 = some sec ∧
      sec.data.getD 6 0 = 0 := by
  obtain ⟨stream', t, slices, g1, g2, _, g4, _, _, g7⟩ :=
    table_update_mpeg4_numbers demo_sl_size demo_sl_packetize demo_sl_stream
      GF_M2TS_TABLE_ID_MPEG4_BIFS 1 (List.replicate 1045249 0) 1045249 false false
      (List.length_replicate 1045249 0)
      (fun b h => by rw [List.eq_of_mem_replicate h]; decide)
      (by decide) (fun _ => rfl) (fun _ _ => rfl)
      (fun _ => (by decide : (1 : Nat) < 4084))
      demo_sl_packetize_bytes (by decide)
  have hk : mpeg4_nb_sections demo_sl_size demo_sl_stream.sl_header 1045249 = 257 := by
    decide
  rw [hk] at g4
  obtain ⟨sec, _, f1, _, f3, _⟩ := g7 256 (by rw [g4]; decide)
  exact ⟨stream', t, sec, g1, g2, g4, f1, f3⟩

/-- The CRC written over the last four bytes of a section, whatever they were. -/
theorem section_set_crc_any (body : List Nat) (a b c d : Nat) :
    section_set_crc (body ++ [a, b, c, d]) = body ++ crc_bytes (gf_crc_32 body) := by
  unfold section_set_crc CRC_LENGTH
  simp only [List.length_append, List.length_cons, List.length_nil]
  have e : body.length + (0 + 1 + 1 + 1 + 1) = body.length + 4 := rfl
  rw [e]
  have ht : List.take (body.length + 4 - 4) (body ++ [a, b, c, d]) = body := by
    rw [Nat.add_sub_cancel, List.take_left]
  rw [ht, list_set_append_four]
  have hm : ∀ x : Nat, x &&& 0xFF = x % 256 := fun x => Nat.and_pow_two_sub_one_eq_mod x 8
  simp only [crc_bytes, hm, Nat.shiftRight_eq_div_pow]

theorem section_set_crc_ok (data : List Nat) (h : 4 ≤ data.length) :
    section_crc_ok (section_set_crc data) := by
  have hsplit : data = data.take (data.length - 4) ++ data.drop (data.length - 4) :=
    (List.take_append_drop _ _).symm
  have hdl : (data.drop (data.length - 4)).length = 4 := by
    rw [List.length_drop]; omega
  obtain ⟨a, b, c, d, habcd⟩ : ∃ a b c d, data.drop (data.length - 4) = [a, b, c, d] := by
    match hd : data.drop (data.length - 4), hdl with
    | [a, b, c, d], _ => exact ⟨a, b, c, d, rfl⟩
  rw [habcd] at hsplit
  generalize data.take (data.length - 4) = body at hsplit
  rw [hsplit, section_set_crc_any]
  unfold section_crc_ok
  have hl : (body ++ crc_bytes (gf_crc_32 body)).length - 4 = body.length := by
    simp [crc_bytes]
  rw [hl, List.drop_left, List.take_left]
  exact ⟨by simp [crc_bytes], rfl⟩

/-- Every section `write_section` builds with the syntax indicator ends with the CRC of
the bytes before it. -/
theorem write_section_crc (tid ext ver : Nat) (priv : Bool) (sn nb length : Nat)
    (slhdr slice : List Nat) :
    section_crc_ok (write_section tid ext ver true priv sn nb length slhdr slice).data := by
  unfold write_section
  simp only [if_true]
  apply section_set_crc_ok
  unfold gf_bs_get_content gf_bs_write_u32
  rw [bytesOfBits_length]
  simp only [gf_bs_write_int, List.length_append, bitsOf_length]
  omega

theorem build_sections_crc (tid ext ver : Nat) (priv : Bool) (payload : List Nat)
    (n maxlen overhead nb : Nat) :
    ∀ fuel offset sn L,
      build_sections tid ext ver true priv payload n maxlen overhead nb fuel offset sn = some L →
      ∀ sec ∈ L, section_crc_ok sec.data := by
  intro fuel
  induction fuel with
  | zero =>
    intro offset sn L h
    unfold build_sections at h
    split at h
    · cases h
    · injection h with h
      rw [← h]
      intro sec hs
      cases hs
  | succ fuel ih =>
    intro offset sn L h
    unfold build_sections at h
    split at h
    · simp only [] at h
      obtain ⟨L', h1, h2⟩ := Option.map_eq_some'.1 h
      rw [← h2]
      intro sec hs
      rcases List.mem_cons.1 hs with h0 | h0
      · rw [h0]
        exact write_section_crc _ _ _ _ _ _ _ _ _
      · exact ih _ _ _ h1 sec h0
    · injection h with h
      rw [← h]
      intro sec hs
      cases hs

theorem build_sections_mpeg4_crc (packetize : GF_SLHeader → List Nat) (e : Bool)
    (tid ext ver : Nat) (priv : Bool) (payload : List Nat) (n maxlen overhead nb : Nat) :
    ∀ fuel hdr offset sn L,
      build_sections_mpeg4 packetize e tid ext ver true priv payload n maxlen overhead nb fuel
        hdr offset sn = some L →
      ∀ sec ∈ L, section_crc_ok sec.data := by
  intro fuel
  induction fuel with
  | zero =>
    intro hdr offset sn L h
    unfold build_sections_mpeg4 at h
    split at h
    · cases h
    · injection h with h
      rw [← h]
      intro sec hs
      cases hs
  | succ fuel ih =>
    intro hdr offset sn L h
    unfold build_sections_mpeg4 at h
    split at h
    · simp only [] at h
      obtain ⟨L', h1, h2⟩ := Option.map_eq_some'.1 h
      rw [← h2]
      intro sec hs
      rcases List.mem_cons.1 hs with h0 | h0
      · rw [h0]
        exact write_section_crc _ _ _ _ _ _ _ _ _
      · exact ih _ _ _ _ h1 sec h0
    · injection h with h
      rw [← h]
      intro sec hs
      cases hs

/-- The table that the head of both table updates finds or creates holds no section. -/
theorem stream_table_lookup (stream : M2TS_Mux_Stream) (table_id : Nat) (t : M2TS_Mux_Table)
    (h : stream_table (table_lookup stream table_id).1 table_id = some t) : t.sections = [] := by
  obtain ⟨t0, h1, _, h3, h4⟩ := table_lookup_spec stream table_id
  unfold stream_table at h
  rw [h4] at h
  simp only [h1] at h
  injection h with h
  rw [← h]
  exact h3

theorem stream_table_built (stream : M2TS_Mux_Stream) (table_id : Nat) (t : M2TS_Mux_Table)
    (L : List M2TS_Mux_Section)
    (h : stream_table (table_cursor_reset
      { (table_lookup stream table_id).1 with
        tables := list_modify (table_lookup stream table_id).1.tables
          (table_lookup stream table_id).2 fun table => { table with sections := L } })
      table_id = some t) : t.sections = L := by
  obtain ⟨t0, h1, _, _, h4⟩ := table_lookup_spec stream table_id
  rw [stream_table_sections (table_lookup stream table_id).1 table_id _ t0 L h1 h4] at h
  injection h with h
  rw [← h]

/-- C6: in every section of the table that `m2ts_mux_table_update` or
`m2ts_mux_table_update_mpeg4` builds with the syntax indicator set, the last four bytes
are the MPEG-2 CRC32 of the bytes before them, most significant byte first. -/
theorem table_update_sections_crc (size : GF_SLHeader → Nat)
    (packetize : GF_SLHeader → List Nat) (stream stream' : M2TS_Mux_Stream)
    (table_id ext : Nat) (payload : List Nat) (n : Nat) (priv chk : Bool)
    (t : M2TS_Mux_Table)
    (hupd : m2ts_mux_table_update stream table_id ext payload n true priv chk = some stream' ∨
      m2ts_mux_table_update_mpeg4 size packetize stream table_id ext payload n true priv chk
        = some stream')
    (ht : stream_table stream' table_id = some t) :
    ∀ sec ∈ t.sections, section_crc_ok sec.data := by
  have hnil : t.sections = [] → ∀ sec ∈ t.sections, section_crc_ok sec.data := by
    intro h sec hs
    rw [h] at hs
    cases hs
  rcases hupd with h | h
  · unfold m2ts_mux_table_update at h
    simp only [] at h
    split at h
    · injection h with h
      rw [← h] at ht
      exact hnil (stream_table_lookup stream table_id t ht)
    · split at h
      · injection h with h
        rw [← h] at ht
        exact hnil (stream_table_lookup stream table_id t ht)
      · split at h
        · cases h
        · split at h
          · cases h
          · rename_i L hL
            injection h with h
            rw [← h] at ht
            rw [stream_table_built stream table_id t L ht]
            simp only [if_true] at hL
            exact build_sections_crc _ _ _ _ _ _ _ _ _ _ _ _ L hL
  · unfold m2ts_mux_table_update_mpeg4 at h
    simp only [] at h
    split at h
    · injection h with h
      rw [← h] at ht
      exact hnil (stream_table_lookup stream table_id t ht)
    · split at h
      · cases h
      · split at h
        · cases h
        · rename_i L hL
          injection h with h
          rw [← h] at ht
          rw [stream_table_built stream table_id t L ht]
          simp only [if_true] at hL
          exact build_sections_mpeg4_crc _ _ _ _ _ _ _ _ _ _ _ _ _ _ _ L hL

/-- Witness of C6: the section of a PAT with one program. -/
theorem table_update_sections_crc_witness :
    ∃ stream' t,
      m2ts_mux_table_update (m2ts_stream_new 0) GF_M2TS_TABLE_ID_PAT 1 [0, 1, 224, 100] 4
        true false false = some stream' ∧
      stream_table stream' GF_M2TS_TABLE_ID_PAT = some t ∧ t.sections.length = 1 ∧
      ∀ sec ∈ t.sections, section_crc_ok sec.data :=
  ⟨_, _, rfl, rfl, rfl,
    table_update_sections_crc (fun _ => 0) (fun _ => []) (m2ts_stream_new 0) _
      GF_M2TS_TABLE_ID_PAT 1 [0, 1, 224, 100] 4 false false _ (Or.inl rfl) rfl⟩

theorem build_sections_members (tid ext ver : Nat) (syn priv : Bool) (payload : List Nat)
    (n maxlen overhead nb : Nat) :
    ∀ fuel offset sn L,
      build_sections tid ext ver syn priv payload n maxlen overhead nb fuel offset sn = some L →
      ∀ sec ∈ L, ∃ sn' length slice,
        sec = write_section tid ext ver syn priv sn' nb length [] slice ∧
        ∃ offset' len, slice = (payload.drop offset').take len := by
  intro fuel
  induction fuel with
  | zero =>
    intro offset sn L h
    unfold build_sections at h
    split at h
    · cases h
    · injection h with h
      rw [← h]
      intro sec hs
      cases hs
  | succ fuel ih =>
    intro offset sn L h
    unfold build_sections at h
    split at h
    · simp only [] at h
      obtain ⟨L', h1, h2⟩ := Option.map_eq_some'.1 h
      rw [← h2]
      intro sec hs
      rcases List.mem_cons.1 hs with h0 | h0
      · exact ⟨_, _, _, h0, _, _, rfl⟩
      · exact ih _ _ _ h1 sec h0
    · injection h with h
      rw [← h]
      intro sec hs
      cases hs

theorem build_sections_mpeg4_members (packetize : GF_SLHeader → List Nat) (e : Bool)
    (tid ext ver : Nat) (syn priv : Bool) (payload : List Nat) (n maxlen overhead nb : Nat) :
    ∀ fuel hdr offset sn L,
      build_sections_mpeg4 packetize e tid ext ver syn priv payload n maxlen overhead nb fuel
        hdr offset sn = some L →
      ∀ sec ∈ L, ∃ sn' length hdr' slice,
        sec = write_section tid ext ver syn priv sn' nb length (packetize hdr') slice ∧
        ∃ offset' len, slice = (payload.drop offset').take len := by
  intro fuel
  induction fuel with
  | zero =>
    intro hdr offset sn L h
    unfold build_sections_mpeg4 at h
    split at h
    · cases h
    · injection h with h
      rw [← h]
      intro sec hs
      cases hs
  | succ fuel ih =>
    intro hdr offset sn L h
    unfold build_sections_mpeg4 at h
    split at h
    · simp only [] at h
      obtain ⟨L', h1, h2⟩ := Option.map_eq_some'.1 h
      rw [← h2]
      intro sec hs
      rcases List.mem_cons.1 hs with h0 | h0
      · exact ⟨_, _, _, _, h0, _, _, rfl⟩
      · exact ih _ _ _ _ h1 sec h0
    · injection h with h
      rw [← h]
      intro sec hs
      cases hs

/-- Every section of the table that `m2ts_mux_table_update` or
`m2ts_mux_table_update_mpeg4` has built is written by `write_section` from a slice of
the payload, after the SL header in the second case. -/
theorem table_update_members (size : GF_SLHeader → Nat)
    (packetize : GF_SLHeader → List Nat) (stream stream' : M2TS_Mux_Stream)
    (table_id ext : Nat) (payload : List Nat) (n : Nat) (syn priv chk : Bool)
    (t : M2TS_Mux_Table)
    (hupd : m2ts_mux_table_update stream table_id ext payload n syn priv chk = some stream' ∨
      m2ts_mux_table_update_mpeg4 size packetize stream table_id ext payload n syn priv chk
        = some stream')
    (ht : stream_table stream' table_id = some t) :
    ∀ sec ∈ t.sections, ∃ ver sn nb length slhdr slice,
      sec = write_section table_id ext ver syn priv sn nb length slhdr slice ∧
      (∃ offset len, slice = (payload.drop offset).take len) ∧
      (slhdr = [] ∨ ∃ hdr, slhdr = packetize hdr) := by
  have hnil : t.sections = [] → ∀ sec ∈ t.sections, ∃ ver sn nb length slhdr slice,
      sec = write_section table_id ext ver syn priv sn nb length slhdr slice ∧
      (∃ offset len, slice = (payload.drop offset).take len) ∧
      (slhdr = [] ∨ ∃ hdr, slhdr = packetize hdr) := by
    intro h sec hs
    rw [h] at hs
    cases hs
  rcases hupd with h | h
  · unfold m2ts_mux_table_update at h
    simp only [] at h
    split at h
    · injection h with h
      rw [← h] at ht
      exact hnil (stream_table_lookup stream table_id t ht)
    · split at h
      · injection h with h
        rw [← h] at ht
        exact hnil (stream_table_lookup stream table_id t ht)
      · split at h
        · cases h
        · split at h
          · cases h
          · rename_i L hL
            injection h with h
            rw [← h] at ht
            rw [stream_table_built stream table_id t L ht]
            intro sec hs
            obtain ⟨sn, length, slice, g1, g2⟩ :=
              build_sections_members _ _ _ _ _ _ _ _ _ _ _ _ _ L hL sec hs
            exact ⟨_, sn, _, length, [], slice, g1, g2, Or.inl rfl⟩
  · unfold m2ts_mux_table_update_mpeg4 at h
    simp only [] at h
    split at h
    · injection h with h
      rw [← h] at ht
      exact hnil (stream_table_lookup stream table_id t ht)
    · split at h
      · cases h
      · split at h
        · cases h
        · rename_i L hL
          injection h with h
          rw [← h] at ht
          rw [stream_table_built stream table_id t L ht]
          intro sec hs
          obtain ⟨sn, length, hdr, slice, g1, g2⟩ :=
            build_sections_mpeg4_members _ _ _ _ _ _ _ _ _ _ _ _ _ _ _ _ L hL sec hs
          exact ⟨_, sn, _, length, packetize hdr, slice, g1, g2, Or.inr ⟨hdr, rfl⟩⟩

/-- Without the syntax indicator `write_section` writes the three bytes of the first
header, the SL header and the slice, and nothing after them. -/
theorem write_section_plain (tid ext ver : Nat) (priv : Bool) (sn nb length : Nat)
    (slhdr slice : List Nat) :
    (write_section tid ext ver false priv sn nb length slhdr slice).data.drop 3
      = (slhdr ++ slice).map (· % 256) ∧
    (write_section tid ext ver false priv sn nb length slhdr slice).data.length
      = 3 + slhdr.length + slice.length := by
  have hd : (write_section tid ext ver false priv sn nb length slhdr slice).data
      = [tid % 256, 128 * 0 + 64 * priv.toNat + 48 + sub32 length 3 / 256 % 16,
          sub32 length 3 % 256] ++ (slhdr ++ slice).map (· % 256) := by
    unfold write_section gf_bs_get_content SECTION_HEADER_LENGTH
    simp only [gf_bs_write_int, gf_bs_write_data, Bool.false_eq_true, if_false,
      List.nil_append, List.append_assoc, Bool.toNat_false]
    rw [bytesOfBits_bitsOf8,
      bytesOfBits_section_flags _ _ _ _ (by decide) (by cases priv <;> decide),
      bytesOfBits_bitsOfBytes]
    have h2 := bytesOfBits_bitsOfBytes slice []
    rw [List.append_nil] at h2
    rw [h2]
    simp [bytesOfBits]
  rw [hd]
  constructor
  · rfl
  · simp only [List.length_append, List.length_cons, List.length_nil, List.length_map]
    omega

/-- C40: the two table updates do not read `use_checksum`: two calls that differ only in
that argument give the same stream (tables, section bytes and cursor). What decides the
CRC is `use_syntax_indicator`: with it, the last four bytes of every section built are
the MPEG-2 CRC32 of the bytes before them; without it, every section built is its header
of three bytes followed by the SL header (for `m2ts_mux_table_update_mpeg4`) and a slice
of the payload, with no byte after them. -/
theorem table_update_ignores_use_checksum (stream : M2TS_Mux_Stream) (table_id ext : Nat)
    (payload : List Nat) (n : Nat) (syn priv chk1 chk2 : Bool)
    (sl_get_header_size : GF_SLHeader → Nat) (sl_packetize : GF_SLHeader → List Nat) :
    m2ts_mux_table_update stream table_id ext payload n syn priv chk1
      = m2ts_mux_table_update stream table_id ext payload n syn priv chk2 ∧
    m2ts_mux_table_update_mpeg4 sl_get_header_size sl_packetize stream table_id ext payload n
        syn priv chk1
      = m2ts_mux_table_update_mpeg4 sl_get_header_size sl_packetize stream table_id ext
          payload n syn priv chk2 ∧
    ∀ stream' t,
      (m2ts_mux_table_update stream table_id ext payload n syn priv chk1 = some stream' ∨
        m2ts_mux_table_update_mpeg4 sl_get_header_size sl_packetize stream table_id ext
          payload n syn priv chk1 = some stream') →
      stream_table stream' table_id = some t →
      ∀ sec ∈ t.sections,
        (syn = true → section_crc_ok sec.data) ∧
        (syn = false → ∃ slhdr slice,
          sec.data.drop 3 = (slhdr ++ slice).map (· % 256) ∧
          sec.data.length = 3 + slhdr.length + slice.length ∧
          (∃ offset len, slice = (payload.drop offset).take len) ∧
          (slhdr = [] ∨ ∃ hdr, slhdr = sl_packetize hdr)) := by
  refine ⟨rfl, rfl, ?_⟩
  intro stream' t hupd ht sec hs
  obtain ⟨ver, sn, nb, length, slhdr, slice, g1, g2, g3⟩ :=
    table_update_members sl_get_header_size sl_packetize stream stream' table_id ext payload n
      syn priv chk1 t hupd ht sec hs
  constructor
  · intro h
    subst h
    rw [g1]
    exact write_section_crc _ _ _ _ _ _ _ _ _
  · intro h
    subst h
    rw [g1]
    exact ⟨slhdr, slice, (write_section_plain _ _ _ _ _ _ _ _ _).1,
      (write_section_plain _ _ _ _ _ _ _ _ _).2, g2, g3⟩

/-- Witness of C40: an SDT payload of four bytes without the syntax indicator makes one
section of seven bytes, and one of sixteen bytes with it, whatever `use_checksum` is. -/
theorem table_update_ignores_use_checksum_witness :
    (∃ stream' t,
      m2ts_mux_table_update (m2ts_stream_new 17) GF_M2TS_TABLE_ID_SDT_ACTUAL 1 [1, 2, 3, 4] 4
        false false true = some stream' ∧
      stream_table stream' GF_M2TS_TABLE_ID_SDT_ACTUAL = some t ∧
      (t.sections.map fun sec => sec.data.drop 3) = [[1, 2, 3, 4]] ∧
      ∀ sec ∈ t.sections, ∃ slhdr slice,
        sec.data.drop 3 = (slhdr ++ slice).map (· % 256) ∧
        sec.data.length = 3 + slhdr.length + slice.length ∧
        (∃ offset len, slice = (List.drop offset [1, 2, 3, 4]).take len) ∧
        (slhdr = [] ∨ ∃ hdr, slhdr = demo_sl_packetize hdr)) ∧
    (∃ stream' t,
      m2ts_mux_table_update (m2ts_stream_new 17) GF_M2TS_TABLE_ID_SDT_ACTUAL 1 [1, 2, 3, 4] 4
        true false false = some stream' ∧
      stream_table stream' GF_M2TS_TABLE_ID_SDT_ACTUAL = some t ∧
      (t.sections.map fun sec => sec.data.length) = [16] ∧
      ∀ sec ∈ t.sections, section_crc_ok sec.data) :=
  ⟨⟨_, _, rfl, rfl, rfl, fun sec hs =>
      ((table_update_ignores_use_checksum (m2ts_stream_new 17)
        GF_M2TS_TABLE_ID_SDT_ACTUAL 1 [1, 2, 3, 4] 4 false false true false demo_sl_size
        demo_sl_packetize).2.2 _ _ (Or.inl rfl) rfl sec hs).2 rfl⟩,
   ⟨_, _, rfl, rfl, rfl, fun sec hs =>
      ((table_update_ignores_use_checksum (m2ts_stream_new 17)
        GF_M2TS_TABLE_ID_SDT_ACTUAL 1 [1, 2, 3, 4] 4 true false false true demo_sl_size
        demo_sl_packetize).2.2 _ _ (Or.inl rfl) rfl sec hs).1 rfl⟩⟩

end Mp42ts
